import Mathlib

/-! EbsdLib: symmetry tables, misorientation and fundamental-zone reduction

A shallow embedding of the Laue-class operator tables and of the pointwise
algorithms of `Source/EbsdLib/LaueOps`.  Numbers are elements of an arbitrary
linearly ordered field `α`: the tables are decimal literals, so they live in
`ℚ` already, and the statements that speak of exact real arithmetic are made at
`α = ℝ`.  The C math library (`acos`, `sin`, `sqrt`) and the constants of
`EbsdLibMath.h`, which the repository includes but which are not part of the
sources at hand, enter every definition as explicit arguments.

The first half of the file holds the definitions, the second half the theorems.
-/

namespace EbsdLib

/-! Quaternions (`QuatD`), stored as `(x, y, z, w)` -/

/-- A quaternion with the vector part first and the scalar part last, the
argument order of `QuatD(x, y, z, w)`. -/
structure Quat (α : Type) where
  x : α
  y : α
  z : α
  w : α
deriving DecidableEq, Repr

namespace Quat

variable {α : Type}

/-- Source: `QuatD::identity()`, pinned down by `TestQuaternion`: `(0, 0, 0, 1)`. -/
def identity [Zero α] [One α] : Quat α := ⟨0, 0, 0, 1⟩

/-- Modelled from the spec: `Quaternion.hpp` (`conjugate()`) is not among the
sources; the vector part is negated and the scalar part kept, as the conjugate
test of `QuaternionTest.cpp` requires (`(1,2,3,1) ↦ (-1,-2,-3,1)`). -/
def conjugate [Neg α] (q : Quat α) : Quat α := ⟨-q.x, -q.y, -q.z, q.w⟩

/-- Source: `elementWiseAbs()`: every component is replaced by its absolute value. -/
def elementWiseAbs [Lattice α] [AddGroup α] (q : Quat α) : Quat α :=
  ⟨|q.x|, |q.y|, |q.z|, |q.w|⟩

/-- Source: `negate()`. -/
def negate [Neg α] (q : Quat α) : Quat α := ⟨-q.x, -q.y, -q.z, -q.w⟩

/-- Modelled from the spec: `Quaternion.hpp` (`operator*`) is not among the
sources; this is the Hamilton product `p * q` in `(x, y, z, w)` storage, the
one the multiplication test of `QuaternionTest.cpp` fixes
(`(1,0,0,1) * (0,1,0,2) = (2,1,1,2)` and `(0,1,0,2) * (1,0,0,1) = (2,1,-1,2)`). -/
def mul [Ring α] (p q : Quat α) : Quat α :=
  { x := q.x * p.w + q.w * p.x + q.z * p.y - q.y * p.z
    y := q.y * p.w + q.w * p.y + q.x * p.z - q.z * p.x
    z := q.z * p.w + q.w * p.z + q.y * p.x - q.x * p.y
    w := q.w * p.w - q.x * p.x - q.y * p.y - q.z * p.z }

instance [Ring α] : Mul (Quat α) := ⟨mul⟩

/-- Squared length `x² + y² + z² + w²`; a unit quaternion has `normSq = 1`. -/
def normSq [Ring α] (q : Quat α) : α := q.x * q.x + q.y * q.y + q.z * q.z + q.w * q.w

end Quat

/-- An `OrientationD` holding an axis-angle pair `<n1, n2, n3> w`. -/
structure AxisAngle (α : Type) where
  n1 : α
  n2 : α
  n3 : α
  w : α
deriving DecidableEq, Repr

/-- An `OrientationD` holding a Rodrigues vector. -/
structure Rodrigues (α : Type) where
  r1 : α
  r2 : α
  r3 : α
deriving DecidableEq, Repr

/-! Symmetry operator tables -/

namespace CubicHigh

variable {α : Type} [Field α]

/-- Source: `CubicHigh::k_SymOpsCount`. -/
def k_SymOpsCount : Nat := 24

/-- Source: `CubicHigh::QuatSym`; `c` stands for `EbsdLib::Constants::k_1OverRoot2D`. -/
def QuatSym (c : α) : List (Quat α) :=
  [ ⟨0, 0, 0, 1⟩,
    ⟨1, 0, 0, 0⟩,
    ⟨0, 1, 0, 0⟩,
    ⟨0, 0, 1, 0⟩,
    ⟨c, 0, 0, c⟩,
    ⟨0, c, 0, c⟩,
    ⟨0, 0, c, c⟩,
    ⟨-c, 0, 0, c⟩,
    ⟨0, -c, 0, c⟩,
    ⟨0, 0, -c, c⟩,
    ⟨c, c, 0, 0⟩,
    ⟨-c, c, 0, 0⟩,
    ⟨0, c, c, 0⟩,
    ⟨0, -c, c, 0⟩,
    ⟨c, 0, c, 0⟩,
    ⟨-c, 0, c, 0⟩,
    ⟨0.5, 0.5, 0.5, 0.5⟩,
    ⟨-0.5, -0.5, -0.5, 0.5⟩,
    ⟨0.5, -0.5, 0.5, 0.5⟩,
    ⟨-0.5, 0.5, -0.5, 0.5⟩,
    ⟨-0.5, 0.5, 0.5, 0.5⟩,
    ⟨0.5, -0.5, -0.5, 0.5⟩,
    ⟨-0.5, -0.5, 0.5, 0.5⟩,
    ⟨0.5, 0.5, -0.5, 0.5⟩ ]

/-- Source: `CubicHigh::RodSym`. -/
def RodSym : List (Rodrigues α) :=
  [ ⟨0, 0, 0⟩,
    ⟨10000000000, 0, 0⟩,
    ⟨0, 10000000000, 0⟩,
    ⟨0, 0, 10000000000⟩,
    ⟨1, 0, 0⟩,
    ⟨0, 1, 0⟩,
    ⟨0, 0, 1⟩,
    ⟨-1, 0, 0⟩,
    ⟨0, -1, 0⟩,
    ⟨0, 0, -1⟩,
    ⟨10000000000, 10000000000, 0⟩,
    ⟨-10000000000, 10000000000, 0⟩,
    ⟨0, 10000000000, 10000000000⟩,
    ⟨0, -10000000000, 10000000000⟩,
    ⟨10000000000, 0, 10000000000⟩,
    ⟨-10000000000, 0, 10000000000⟩,
    ⟨1, 1, 1⟩,
    ⟨-1, -1, -1⟩,
    ⟨1, -1, 1⟩,
    ⟨-1, 1, -1⟩,
    ⟨-1, 1, 1⟩,
    ⟨1, -1, -1⟩,
    ⟨-1, -1, 1⟩,
    ⟨1, 1, -1⟩ ]

/-- Source: `CubicHigh::MatSym`. -/
def MatSym : List (Matrix (Fin 3) (Fin 3) α) :=
  [ !![1, 0, 0; 0, 1, 0; 0, 0, 1],
    !![1, 0, 0; 0, 0, -1; 0, 1, 0],
    !![1, 0, 0; 0, -1, 0; 0, 0, -1],
    !![1, 0, 0; 0, 0, 1; 0, -1, 0],
    !![0, 0, -1; 0, 1, 0; 1, 0, 0],
    !![0, 0, 1; 0, 1, 0; -1, 0, 0],
    !![-1, 0, 0; 0, 1, 0; 0, 0, -1],
    !![-1, 0, 0; 0, -1, 0; 0, 0, 1],
    !![0, 1, 0; -1, 0, 0; 0, 0, 1],
    !![0, -1, 0; 1, 0, 0; 0, 0, 1],
    !![0, -1, 0; 0, 0, 1; -1, 0, 0],
    !![0, 0, 1; -1, 0, 0; 0, -1, 0],
    !![0, -1, 0; 0, 0, -1; 1, 0, 0],
    !![0, 0, -1; 1, 0, 0; 0, -1, 0],
    !![0, 1, 0; 0, 0, -1; -1, 0, 0],
    !![0, 0, -1; -1, 0, 0; 0, 1, 0],
    !![0, 1, 0; 0, 0, 1; 1, 0, 0],
    !![0, 0, 1; 1, 0, 0; 0, 1, 0],
    !![0, 1, 0; 1, 0, 0; 0, 0, -1],
    !![-1, 0, 0; 0, 0, 1; 0, 1, 0],
    !![0, 0, 1; 0, -1, 0; 1, 0, 0],
    !![-1, 0, 0; 0, 0, -1; 0, -1, 0],
    !![0, 0, -1; 0, -1, 0; -1, 0, 0],
    !![0, -1, 0; -1, 0, 0; 0, 0, -1] ]

end CubicHigh

namespace HexagonalHigh

variable {α : Type} [Field α]

/-- Source: `HexagonalHigh::k_SymOpsCount`. -/
def k_SymOpsCount : Nat := 12

/-- Source: `HexagonalHigh::QuatSym`. -/
def QuatSym : List (Quat α) :=
  [ ⟨0, 0, 0, 1⟩,
    ⟨0, 0, 0.5, 0.8660254⟩,
    ⟨0, 0, 0.8660254, 0.5⟩,
    ⟨0, 0, 1, 0⟩,
    ⟨0, 0, 0.8660254, -0.5⟩,
    ⟨0, 0, 0.5, -0.8660254⟩,
    ⟨1, 0, 0, 0⟩,
    ⟨0.8660254, 0.5, 0, 0⟩,
    ⟨0.5, 0.8660254, 0, 0⟩,
    ⟨0, 1, 0, 0⟩,
    ⟨-0.5, 0.8660254, 0, 0⟩,
    ⟨-0.8660254, 0.5, 0, 0⟩ ]

/-- Source: `HexagonalHigh::RodSym`. -/
def RodSym : List (Rodrigues α) :=
  [ ⟨0, 0, 0⟩,
    ⟨0, 0, 0.57735⟩,
    ⟨0, 0, 1.73205⟩,
    ⟨0, 0, 1000000000000⟩,
    ⟨0, 0, -1.73205⟩,
    ⟨0, 0, -0.57735⟩,
    ⟨1000000000000, 0, 0⟩,
    ⟨8660254000000, 5000000000000, 0⟩,
    ⟨5000000000000, 8660254000000, 0⟩,
    ⟨0, 1000000000000, 0⟩,
    ⟨-5000000000000, 8660254000000, 0⟩,
    ⟨-8660254000000, 5000000000000, 0⟩ ]

/-- Source: `HexagonalHigh::MatSym`; `r` stands for `EbsdLib::Constants::k_Root3Over2D`. -/
def MatSym (r : α) : List (Matrix (Fin 3) (Fin 3) α) :=
  [ !![1, 0, 0; 0, 1, 0; 0, 0, 1],
    !![-0.5, r, 0; -r, -0.5, 0; 0, 0, 1],
    !![-0.5, -r, 0; r, -0.5, 0; 0, 0, 1],
    !![0.5, r, 0; -r, 0.5, 0; 0, 0, 1],
    !![-1, 0, 0; 0, -1, 0; 0, 0, 1],
    !![0.5, -r, 0; r, 0.5, 0; 0, 0, 1],
    !![-0.5, -r, 0; -r, 0.5, 0; 0, 0, -1],
    !![1, 0, 0; 0, -1, 0; 0, 0, -1],
    !![-0.5, r, 0; r, 0.5, 0; 0, 0, -1],
    !![0.5, r, 0; r, -0.5, 0; 0, 0, -1],
    !![-1, 0, 0; 0, 1, 0; 0, 0, -1],
    !![0.5, -r, 0; -r, -0.5, 0; 0, 0, -1] ]

end HexagonalHigh

namespace TrigonalHigh

variable {α : Type} [Field α]

/-- Source: `TrigonalHigh::k_SymOpsCount`. -/
def k_SymOpsCount : Nat := 6

/-- Source: `TrigonalHigh::QuatSym`. -/
def QuatSym : List (Quat α) :=
  [ ⟨0, 0, 0, 1⟩,
    ⟨0, 0, 0.8660254, 0.5⟩,
    ⟨0, 0, 0.8660254, -0.5⟩,
    ⟨1, 0, 0, 0⟩,
    ⟨-0.5, 0.8660254, 0, 0⟩,
    ⟨-0.5, -0.8660254, 0, 0⟩ ]

/-- Source: `TrigonalHigh::RodSym`. -/
def RodSym : List (Rodrigues α) :=
  [ ⟨0, 0, 0⟩,
    ⟨0, 0, 1.73205⟩,
    ⟨0, 0, -1.73205⟩,
    ⟨8660254000000, 5000000000000, 0⟩,
    ⟨0, 1000000000000, 0⟩,
    ⟨-8660254000000, 5000000000000, 0⟩ ]

/-- Source: `TrigonalHigh::MatSym`; `r` stands for `EbsdLib::Constants::k_Root3Over2D`. -/
def MatSym (r : α) : List (Matrix (Fin 3) (Fin 3) α) :=
  [ !![1, 0, 0; 0, 1, 0; 0, 0, 1],
    !![-0.5, r, 0; -r, -0.5, 0; 0, 0, 1],
    !![-0.5, -r, 0; r, -0.5, 0; 0, 0, 1],
    !![0.5, r, 0; r, -0.5, 0; 0, 0, -1],
    !![-1, 0, 0; 0, 1, 0; 0, 0, -1],
    !![0.5, -r, 0; -r, -0.5, 0; 0, 0, -1] ]

end TrigonalHigh

namespace Monoclinic

variable {α : Type} [Field α]

/-- Source: `Monoclinic::k_SymOpsCount`. -/
def k_SymOpsCount : Nat := 2

/-- Source: `Monoclinic::QuatSym`. -/
def QuatSym : List (Quat α) :=
  [ ⟨0, 0, 0, 1⟩,
    ⟨0, 1, 0, 0⟩ ]

/-- Source: `Monoclinic::RodSym`. -/
def RodSym : List (Rodrigues α) :=
  [ ⟨0, 0, 0⟩,
    ⟨0, 10000000000, 0⟩ ]

/-- Source: `Monoclinic::MatSym`. -/
def MatSym : List (Matrix (Fin 3) (Fin 3) α) :=
  [ !![1, 0, 0; 0, 1, 0; 0, 0, 1],
    !![-1, 0, 0; 0, -1, 0; 0, 0, 1] ]

end Monoclinic

/-! The four Laue classes of the development, as a closed variant -/

/-- The classes whose operator files are `CubicOps.cpp`, `HexagonalOps.cpp`,
`TrigonalOps.cpp` and `MonoclinicOps.cpp`. -/
inductive LaueClass where
  | Cubic
  | Hexagonal
  | Trigonal
  | Monoclinic
deriving DecidableEq, Repr

namespace LaueOps

variable {α : Type} [Field α]

/-- Source: `getNumSymOps()`: each class returns its `k_SymOpsCount`. -/
def getNumSymOps : LaueClass → Nat
  | .Cubic => CubicHigh.k_SymOpsCount
  | .Hexagonal => HexagonalHigh.k_SymOpsCount
  | .Trigonal => TrigonalHigh.k_SymOpsCount
  | .Monoclinic => Monoclinic.k_SymOpsCount

/-- The quaternion table of a class; `c` is `k_1OverRoot2D`. -/
def QuatSym (c : α) : LaueClass → List (Quat α)
  | .Cubic => CubicHigh.QuatSym c
  | .Hexagonal => HexagonalHigh.QuatSym
  | .Trigonal => TrigonalHigh.QuatSym
  | .Monoclinic => Monoclinic.QuatSym

/-- The Rodrigues table of a class. -/
def RodSym : LaueClass → List (Rodrigues α)
  | .Cubic => CubicHigh.RodSym
  | .Hexagonal => HexagonalHigh.RodSym
  | .Trigonal => TrigonalHigh.RodSym
  | .Monoclinic => Monoclinic.RodSym

/-- The matrix table of a class; `r` is `k_Root3Over2D`. -/
def MatSym (r : α) : LaueClass → List (Matrix (Fin 3) (Fin 3) α)
  | .Cubic => CubicHigh.MatSym
  | .Hexagonal => HexagonalHigh.MatSym r
  | .Trigonal => TrigonalHigh.MatSym r
  | .Monoclinic => Monoclinic.MatSym

/-- Source: `getQuatSymOp(i)`: `QuatSym[i]`, defined for `i < getNumSymOps()` only. -/
def getQuatSymOp (c : α) (cls : LaueClass) (i : Nat) : Option (Quat α) := (QuatSym c cls)[i]?

/-- Source: `getRodSymOp(i, r)`: `RodSym[i]`, defined for `i < getNumSymOps()` only. -/
def getRodSymOp (cls : LaueClass) (i : Nat) : Option (Rodrigues α) := (RodSym cls)[i]?

/-- Source: `getMatSymOpD(i)`: `MatSym[i]`, defined for `i < getNumSymOps()` only. -/
def getMatSymOpD (r : α) (cls : LaueClass) (i : Nat) : Option (Matrix (Fin 3) (Fin 3) α) :=
  (MatSym r cls)[i]?

/-- Source: `getOdfNumBins()`: the `OdfNumBins` array of each class. -/
def getOdfNumBins : LaueClass → Nat × Nat × Nat
  | .Cubic => (18, 18, 18)
  | .Hexagonal => (36, 36, 12)
  | .Trigonal => (36, 36, 24)
  | .Monoclinic => (72, 36, 72)

/-- Source: `getODFSize()`: the constant `k_OdfSize` of each class. -/
def getODFSize : LaueClass → Nat
  | .Cubic => 5832
  | .Hexagonal => 15552
  | .Trigonal => 31104
  | .Monoclinic => 186624

end LaueOps

/-! Comparing table entries -/

section Comparison

variable {α : Type} [LinearOrderedField α]

/-- Two quaternions agree in every component to within `tol`. -/
def Quat.closeTo (tol : α) (p q : Quat α) : Prop :=
  |p.x - q.x| ≤ tol ∧ |p.y - q.y| ≤ tol ∧ |p.z - q.z| ≤ tol ∧ |p.w - q.w| ≤ tol

instance (tol : α) (p q : Quat α) : Decidable (Quat.closeTo tol p q) := by
  unfold Quat.closeTo
  infer_instance

/-- A table is closed under the quaternion product up to sign and `tol`. -/
def ClosedUpTo (tol : α) (tbl : List (Quat α)) : Prop :=
  ∀ p ∈ tbl, ∀ q ∈ tbl, ∃ r ∈ tbl, (p * q).closeTo tol r ∨ (p * q).closeTo tol r.negate

instance (tol : α) (tbl : List (Quat α)) : Decidable (ClosedUpTo tol tbl) := by
  unfold ClosedUpTo
  infer_instance

/-- Two 3x3 matrices agree in every entry to within `tol`. -/
def matClose (tol : α) (A B : Matrix (Fin 3) (Fin 3) α) : Prop :=
  ∀ i j, |A i j - B i j| ≤ tol

instance (tol : α) (A B : Matrix (Fin 3) (Fin 3) α) : Decidable (matClose tol A B) := by
  unfold matClose
  infer_instance

/-- Modelled from the spec: `OrientationTransformation::qu2om` is not among the
sources.  This is the rotation matrix of a unit quaternion in the passive
convention, the one `QuaternionTest.cpp` fixes for `multiplyByVector`
(`(0.5, 0.5, 0.5, 0.5)` sends `(1, 0, 0)` to `(0, 0, 1)`); the matrix of the
active convention is its transpose. -/
def qu2om (q : Quat α) : Matrix (Fin 3) (Fin 3) α :=
  let qq := q.w * q.w - (q.x * q.x + q.y * q.y + q.z * q.z)
  !![qq + 2 * q.x * q.x, 2 * (q.x * q.y + q.w * q.z), 2 * (q.x * q.z - q.w * q.y);
     2 * (q.y * q.x - q.w * q.z), qq + 2 * q.y * q.y, 2 * (q.y * q.z + q.w * q.x);
     2 * (q.z * q.x + q.w * q.y), 2 * (q.z * q.y - q.w * q.x), qq + 2 * q.z * q.z]

/-- The Rodrigues vector `ro` is the one of the quaternion `q`: within `tol` of
`(x/w, y/w, z/w)` when `w ≠ 0`, and for `w = 0` a vector along the axis
`(x, y, z)`, in the same direction, whose projection on it is at least `big`. -/
def rodAgrees (tol big : α) (q : Quat α) (ro : Rodrigues α) : Prop :=
  if q.w = 0 then
    ro.r1 * q.y - ro.r2 * q.x = 0 ∧ ro.r2 * q.z - ro.r3 * q.y = 0 ∧
      ro.r3 * q.x - ro.r1 * q.z = 0 ∧ big ≤ ro.r1 * q.x + ro.r2 * q.y + ro.r3 * q.z
  else
    |ro.r1 - q.x / q.w| ≤ tol ∧ |ro.r2 - q.y / q.w| ≤ tol ∧ |ro.r3 - q.z / q.w| ≤ tol

instance (tol big : α) (q : Quat α) (ro : Rodrigues α) : Decidable (rodAgrees tol big q ro) := by
  unfold rodAgrees
  infer_instance

/-- States that `RodSym[i]` is the Rodrigues vector of `QuatSym[i]`, to within `1e-5`, with
`1e10` as the least length that counts as "very large". -/
def rodAgreesAt (c : α) (cls : LaueClass) (i : Nat) : Prop :=
  match LaueOps.getQuatSymOp c cls i, LaueOps.getRodSymOp cls i with
  | some q, some ro => rodAgrees (1e-5) (1e10) q ro
  | _, _ => False

instance (c : α) (cls : LaueClass) (i : Nat) : Decidable (rodAgreesAt c cls i) := by
  unfold rodAgreesAt
  split <;> infer_instance

/-- States that `MatSym[i]` is, to within `1e-6`, the rotation matrix of `QuatSym[k]`, in
the passive or in the active convention. -/
def matAgreesAt (c r : α) (cls : LaueClass) (i k : Nat) : Prop :=
  match LaueOps.getMatSymOpD r cls i, LaueOps.getQuatSymOp c cls k with
  | some M, some q => matClose (1e-6) M (qu2om q) ∨ matClose (1e-6) M (qu2om q).transpose
  | _, _ => False

instance (c r : α) (cls : LaueClass) (i k : Nat) : Decidable (matAgreesAt c r cls i k) := by
  unfold matAgreesAt
  split <;> infer_instance

/-- The reading of "the three tables agree element by element" at index `i`:
`RodSym[i]` is the Rodrigues vector of `QuatSym[i]` and `MatSym[i]` is the
rotation matrix of `QuatSym[i]`. -/
def tablesAgreeAt (c r : α) (cls : LaueClass) (i : Nat) : Prop :=
  rodAgreesAt c cls i ∧ matAgreesAt c r cls i i

instance (c r : α) (cls : LaueClass) (i : Nat) : Decidable (tablesAgreeAt c r cls i) := by
  unfold tablesAgreeAt
  infer_instance

/-- The index of the `QuatSym` entry whose rotation matrix is `MatSym[i]`, for
the cubic tables (found by comparing the two tables). -/
def CubicHigh.matOrder : List Nat :=
  [0, 7, 1, 4, 5, 8, 2, 3, 6, 9, 21, 18, 19, 23, 22, 20, 16, 17, 10, 12, 14, 13, 15, 11]

/-- The index of the `QuatSym` entry whose rotation matrix is `MatSym[i]`, for
the hexagonal tables. -/
def HexagonalHigh.matOrder : List Nat := [0, 2, 4, 1, 3, 5, 10, 6, 8, 7, 9, 11]

end Comparison

/-! Reduction of a Rodrigues vector to the fundamental zone -/

namespace LaueOps

variable {α : Type} [LinearOrderedField α]

/-- Squared distance of a Rodrigues vector from the origin, `tan²(angle / 2)`. -/
def rodNormSq (r : Rodrigues α) : α := r.r1 * r.r1 + r.r2 * r.r2 + r.r3 * r.r3

/-- Modelled from the spec: the body of `LaueOps::_calcRodNearestOrigin`
(`LaueOps.cpp`) is not among the sources.  This is the "symmetry action on a
Rodrigues vector" of §4.3, the composition of the two rotations in Rodrigues
form, `(rod + s - rod × s) / (1 - rod · s)`.  When `1 - rod · s = 0` the
composite is a half turn, whose Rodrigues vector lies at infinity: `none`. -/
def rodSymAction (s rod : Rodrigues α) : Option (Rodrigues α) :=
  let denom := 1 - (rod.r1 * s.r1 + rod.r2 * s.r2 + rod.r3 * s.r3)
  if denom = 0 then none
  else some
    ⟨(rod.r1 + s.r1 - (rod.r2 * s.r3 - rod.r3 * s.r2)) / denom,
     (rod.r2 + s.r2 - (rod.r3 * s.r1 - rod.r1 * s.r3)) / denom,
     (rod.r3 + s.r3 - (rod.r1 * s.r2 - rod.r2 * s.r1)) / denom⟩

/-- The symmetry images of `rod` that are finite, in table order. -/
def rodImages (rodsym : List (Rodrigues α)) (rod : Rodrigues α) : List (Rodrigues α) :=
  rodsym.filterMap fun s => rodSymAction s rod

/-- One step of the search for the nearest image: a strictly nearer candidate
replaces the best one so far. -/
def nearer (best r : Rodrigues α) : Rodrigues α :=
  if rodNormSq r < rodNormSq best then r else best

/-- Modelled from the spec: the body of `LaueOps::_calcRodNearestOrigin`
(`LaueOps.cpp`) is not among the sources.  §4.3: "among `{sym_i ⊗ rod}` select
the one nearest the origin (smallest rotation angle)".  The first of the
nearest images in table order is returned; a vector without a finite image is
returned unchanged. -/
def _calcRodNearestOrigin (rodsym : List (Rodrigues α)) (rod : Rodrigues α) : Rodrigues α :=
  match rodImages rodsym rod with
  | [] => rod
  | r0 :: rs => rs.foldl nearer r0

/-- Source: `getODFFZRod(rod)`: every class calls `_calcRodNearestOrigin` with its own
`RodSym` table. -/
def getODFFZRod (cls : LaueClass) (rod : Rodrigues α) : Rodrigues α :=
  _calcRodNearestOrigin (RodSym cls) rod

end LaueOps

/-! Unimplemented members and the ODF grid -/

/-- The exception `EbsdLib::method_not_implemented`, with its message. -/
inductive EbsdError where
  | method_not_implemented (what : String)
deriving DecidableEq, Repr

/-- Modelled from the spec: the macro `EBSD_METHOD_NOT_IMPLEMENTED()` is defined
in `EbsdMacros.h`, which is not among the sources.  §7 (a): an unimplemented
member raises a distinguishable "unimplemented" condition. -/
def EBSD_METHOD_NOT_IMPLEMENTED : Except EbsdError Unit :=
  throw (EbsdError.method_not_implemented "method not implemented")

/-- The routines the class files call whose bodies are not among the sources:
the conversions of `OrientationTransformation.hpp` and two protected helpers
of `LaueOps.cpp`.  They are arguments of everything that calls them. -/
structure External (α : Type) where
  ro2ax : Rodrigues α → AxisAngle α
  ax2ro : AxisAngle α → Rodrigues α
  ho2ro : α × α × α → Rodrigues α
  ro2ho : Rodrigues α → α × α × α
  _calcDetermineHomochoricValues :
    (random : α × α × α) → (init : α × α × α) → (step : α × α × α) → (phi : Nat × Nat × Nat) →
      α × α × α
  _calcODFBin :
    (dim : α × α × α) → (bins : α × α × α) → (step : α × α × α) → (ho : α × α × α) → Int

/-- A stand-in for the external routines, every one of them constant; it serves
to evaluate definitions whose outcome does not depend on them. -/
def External.constant : External ℚ :=
  { ro2ax := fun _ => ⟨0, 0, 1, 0⟩
    ax2ro := fun _ => ⟨0, 0, 0⟩
    ho2ro := fun _ => ⟨0, 0, 0⟩
    ro2ho := fun _ => (0, 0, 0)
    _calcDetermineHomochoricValues := fun _ _ _ _ => (0, 0, 0)
    _calcODFBin := fun _ _ _ _ => 0 }

namespace LaueOps

variable {α : Type} [LinearOrderedField α]

/-- Source: `OdfDimStepValue`: `OdfDimInitValue[i] / static_cast<double>(OdfNumBins[i] / 2)`,
the division of the bin count by two being the one of unsigned integers. -/
def OdfDimStepValue (cls : LaueClass) (OdfDimInitValue : α × α × α) : α × α × α :=
  (OdfDimInitValue.1 / (((getOdfNumBins cls).1 / 2 : Nat) : α),
   OdfDimInitValue.2.1 / (((getOdfNumBins cls).2.1 / 2 : Nat) : α),
   OdfDimInitValue.2.2 / (((getOdfNumBins cls).2.2 / 2 : Nat) : α))

/-- The bin coordinates `phi[0..2]` that `determineEulerAngles` and
`determineRodriguesVector` derive from the flat index `choose`. -/
def binCoordinates (cls : LaueClass) (choose : Nat) : Nat × Nat × Nat :=
  (choose % (getOdfNumBins cls).1,
   (choose / (getOdfNumBins cls).1) % (getOdfNumBins cls).2.1,
   choose / ((getOdfNumBins cls).1 * (getOdfNumBins cls).2.1))

/-- The flattened index `x + y * nx + z * nx * ny` of §4.4. -/
def flattenBin (cls : LaueClass) (phi : Nat × Nat × Nat) : Nat :=
  phi.1 + phi.2.1 * (getOdfNumBins cls).1 +
    phi.2.2 * (getOdfNumBins cls).1 * (getOdfNumBins cls).2.1

end LaueOps

namespace MonoclinicOps

variable {α : Type} [LinearOrderedField α]

/-- Source: `MonoclinicOps::getMDFFZRod`: the `throw` comes first; the statements after
it are kept as they stand in the source. -/
def getMDFFZRod (ext : External α) (inRod : Rodrigues α) : Except EbsdError (Rodrigues α) := do
  throw (EbsdError.method_not_implemented "MonoclinicOps::getMDFFZRod not implemented")
  let FZw : α := 0
  let FZn1 : α := 0
  let FZn2 : α := 0
  let FZn3 : α := 0
  let rod := LaueOps._calcRodNearestOrigin Monoclinic.RodSym inRod
  let ax := ext.ro2ax rod
  let _n1 := ax.n1
  let _n2 := ax.n2
  let _n3 := ax.n3
  let _w := ax.w
  return ext.ax2ro ⟨FZn1, FZn2, FZn3, FZw⟩

/-- Source: `MonoclinicOps::determineRodriguesVector(random, choose)`; the array
`Monoclinic::OdfDimInitValue`, computed with `std::pow` at start-up, is an
argument. -/
def determineRodriguesVector (ext : External α) (OdfDimInitValue : α × α × α)
    (random : α × α × α) (choose : Nat) : Except EbsdError (Rodrigues α) := do
  let init := OdfDimInitValue
  let step := LaueOps.OdfDimStepValue LaueClass.Monoclinic OdfDimInitValue
  let phi := LaueOps.binCoordinates LaueClass.Monoclinic choose
  let h := ext._calcDetermineHomochoricValues random init step phi
  let ro := ext.ho2ro h
  let ro ← getMDFFZRod ext ro
  return ro

/-- Source: `MonoclinicOps::getOdfBin(rod)`. -/
def getOdfBin (ext : External α) (OdfDimInitValue : α × α × α) (rod : Rodrigues α) : Int :=
  let ho := ext.ro2ho rod
  let dim := OdfDimInitValue
  let step := LaueOps.OdfDimStepValue LaueClass.Monoclinic OdfDimInitValue
  let bins : α × α × α :=
    (((LaueOps.getOdfNumBins LaueClass.Monoclinic).1 : α),
     ((LaueOps.getOdfNumBins LaueClass.Monoclinic).2.1 : α),
     ((LaueOps.getOdfNumBins LaueClass.Monoclinic).2.2 : α))
  ext._calcODFBin dim bins step ho

/-- Source: `MonoclinicOps::getmPrime`: `return 0.0;`. -/
def getmPrime (_q1 _q2 : Quat α) (_LD : α × α × α) : Except EbsdError α := pure 0

/-- Source: `MonoclinicOps::getF1`: `return 0.0;`. -/
def getF1 (_q1 _q2 : Quat α) (_LD : α × α × α) (_maxS : Bool) : Except EbsdError α := pure 0

/-- Source: `MonoclinicOps::getF1spt`: `return 0.0;`. -/
def getF1spt (_q1 _q2 : Quat α) (_LD : α × α × α) (_maxS : Bool) : Except EbsdError α := pure 0

/-- Source: `MonoclinicOps::getF7`: `return 0.0;`. -/
def getF7 (_q1 _q2 : Quat α) (_LD : α × α × α) (_maxS : Bool) : Except EbsdError α := pure 0

end MonoclinicOps

namespace TrigonalOps

variable {α : Type} [LinearOrderedField α]

/-- Source: `TrigonalOps::getmPrime`: `return 0.0;`. -/
def getmPrime (_q1 _q2 : Quat α) (_LD : α × α × α) : Except EbsdError α := pure 0

/-- Source: `TrigonalOps::getF1`: `return 0.0;`. -/
def getF1 (_q1 _q2 : Quat α) (_LD : α × α × α) (_maxS : Bool) : Except EbsdError α := pure 0

/-- Source: `TrigonalOps::getF1spt`: `return 0.0;`. -/
def getF1spt (_q1 _q2 : Quat α) (_LD : α × α × α) (_maxS : Bool) : Except EbsdError α := pure 0

/-- Source: `TrigonalOps::getF7`: `return 0.0;`. -/
def getF7 (_q1 _q2 : Quat α) (_LD : α × α × α) (_maxS : Bool) : Except EbsdError α := pure 0

end TrigonalOps

namespace HexagonalOps

variable {α : Type} [LinearOrderedField α]

/-- Source: `HexagonalOps::getmPrime`: the macro, the body disabled by `#if 0`, then
`return 0.0;`. -/
def getmPrime (_q1 _q2 : Quat α) (_LD : α × α × α) : Except EbsdError α := do
  EBSD_METHOD_NOT_IMPLEMENTED
  return 0

/-- Source: `HexagonalOps::getF1`: the macro, then `return 0.0;`. -/
def getF1 (_q1 _q2 : Quat α) (_LD : α × α × α) (_maxS : Bool) : Except EbsdError α := do
  EBSD_METHOD_NOT_IMPLEMENTED
  return 0

/-- Source: `HexagonalOps::getF1spt`: the macro, then `return 0.0;`. -/
def getF1spt (_q1 _q2 : Quat α) (_LD : α × α × α) (_maxS : Bool) : Except EbsdError α := do
  EBSD_METHOD_NOT_IMPLEMENTED
  return 0

/-- Source: `HexagonalOps::getF7`: the macro, then `return 0.0;`. -/
def getF7 (_q1 _q2 : Quat α) (_LD : α × α × α) (_maxS : Bool) : Except EbsdError α := do
  EBSD_METHOD_NOT_IMPLEMENTED
  return 0

end HexagonalOps

/-! The cubic misorientation fast path -/

namespace CubicOps

variable {α : Type} [LinearOrderedField α]

/-- The three-way ordering that each of the four outer branches of the sort in
`calculateMisorientationInternal` repeats on the components left over; it is
used to reason about `sortedQuadruplet`, which spells the branches out. -/
def sort3 (a b c : α) : α × α × α :=
  if a ≤ b ∧ a ≤ c then (if b ≤ c then (a, b, c) else (a, c, b))
  else if b ≤ a ∧ b ≤ c then (if a ≤ c then (b, a, c) else (b, c, a))
  else (if a ≤ b then (c, a, b) else (c, b, a))

/-- Lines 280-455 of `CubicOps::calculateMisorientationInternal`: the components
of `qc` (already non-negative) are written into `qco` in ascending order. -/
def sortedQuadruplet (qc : Quat α) : Quat α :=
  if qc.x ≤ qc.y ∧ qc.x ≤ qc.z ∧ qc.x ≤ qc.w then
    if qc.y ≤ qc.z ∧ qc.y ≤ qc.w then
      if qc.z ≤ qc.w then ⟨qc.x, qc.y, qc.z, qc.w⟩ else ⟨qc.x, qc.y, qc.w, qc.z⟩
    else if qc.z ≤ qc.y ∧ qc.z ≤ qc.w then
      if qc.y ≤ qc.w then ⟨qc.x, qc.z, qc.y, qc.w⟩ else ⟨qc.x, qc.z, qc.w, qc.y⟩
    else
      if qc.y ≤ qc.z then ⟨qc.x, qc.w, qc.y, qc.z⟩ else ⟨qc.x, qc.w, qc.z, qc.y⟩
  else if qc.y ≤ qc.x ∧ qc.y ≤ qc.z ∧ qc.y ≤ qc.w then
    if qc.x ≤ qc.z ∧ qc.x ≤ qc.w then
      if qc.z ≤ qc.w then ⟨qc.y, qc.x, qc.z, qc.w⟩ else ⟨qc.y, qc.x, qc.w, qc.z⟩
    else if qc.z ≤ qc.x ∧ qc.z ≤ qc.w then
      if qc.x ≤ qc.w then ⟨qc.y, qc.z, qc.x, qc.w⟩ else ⟨qc.y, qc.z, qc.w, qc.x⟩
    else
      if qc.x ≤ qc.z then ⟨qc.y, qc.w, qc.x, qc.z⟩ else ⟨qc.y, qc.w, qc.z, qc.x⟩
  else if qc.z ≤ qc.x ∧ qc.z ≤ qc.y ∧ qc.z ≤ qc.w then
    if qc.x ≤ qc.y ∧ qc.x ≤ qc.w then
      if qc.y ≤ qc.w then ⟨qc.z, qc.x, qc.y, qc.w⟩ else ⟨qc.z, qc.x, qc.w, qc.y⟩
    else if qc.y ≤ qc.x ∧ qc.y ≤ qc.w then
      if qc.x ≤ qc.w then ⟨qc.z, qc.y, qc.x, qc.w⟩ else ⟨qc.z, qc.y, qc.w, qc.x⟩
    else
      if qc.x ≤ qc.y then ⟨qc.z, qc.w, qc.x, qc.y⟩ else ⟨qc.z, qc.w, qc.y, qc.x⟩
  else
    if qc.x ≤ qc.y ∧ qc.x ≤ qc.z then
      if qc.y ≤ qc.z then ⟨qc.w, qc.x, qc.y, qc.z⟩ else ⟨qc.w, qc.x, qc.z, qc.y⟩
    else if qc.y ≤ qc.x ∧ qc.y ≤ qc.z then
      if qc.x ≤ qc.z then ⟨qc.w, qc.y, qc.x, qc.z⟩ else ⟨qc.w, qc.y, qc.z, qc.x⟩
    else
      if qc.x ≤ qc.y then ⟨qc.w, qc.z, qc.x, qc.y⟩ else ⟨qc.w, qc.z, qc.y, qc.x⟩

/-- Lines 456-466: the largest of the three candidate values `d`,
`(c + d) / √2` and `(a + b + c + d) / 2` of the ordered quadruplet, together
with the label (`type` 1, 2 or 3) of the candidate that was taken. -/
def selectCandidate (k_Sqrt2D : α) (qco : Quat α) : α × Nat :=
  let s1 : α × Nat := (qco.w, 1)
  let s2 : α × Nat :=
    if (qco.z + qco.w) / k_Sqrt2D > s1.1 then ((qco.z + qco.w) / k_Sqrt2D, 2) else s1
  if (qco.x + qco.y + qco.z + qco.w) / 2 > s2.1 then
    ((qco.x + qco.y + qco.z + qco.w) / 2, 3)
  else s2

/-- Source: `CubicOps::calculateMisorientationInternal`.  The table argument `quatsym`
is accepted and never read, as in the source.  `k_ACosNeg1D` and `k_ACos1D` of
`EbsdLibMath.h` are `acos (-1)` and `acos 1`. -/
def calculateMisorientationInternal (k_Sqrt2D : α) (acos sin sqrt : α → α)
    (_quatsym : List (Quat α)) (q1 q2 : Quat α) : AxisAngle α :=
  let qc := (q1 * q2.conjugate).elementWiseAbs
  let qco := sortedQuadruplet qc
  let sel := selectCandidate k_Sqrt2D qco
  let type := sel.2
  let wmin : α :=
    if sel.1 < -1 then acos (-1) else if sel.1 > 1 then acos 1 else acos sel.1
  let sin_wmin_over_2 := sin wmin
  let n : α × α × α :=
    if type = 1 then
      (qco.x / sin_wmin_over_2, qco.y / sin_wmin_over_2, qco.z / sin_wmin_over_2)
    else if type = 2 then
      ( ((qco.x - qco.y) / k_Sqrt2D) / sin_wmin_over_2,
        ((qco.x + qco.y) / k_Sqrt2D) / sin_wmin_over_2,
        ((qco.z - qco.w) / k_Sqrt2D) / sin_wmin_over_2 )
    else if type = 3 then
      ( ((qco.x - qco.y + qco.z - qco.w) / 2) / sin_wmin_over_2,
        ((qco.x + qco.y - qco.z - qco.w) / 2) / sin_wmin_over_2,
        ((-qco.x + qco.y + qco.z - qco.w) / 2) / sin_wmin_over_2 )
    else (0, 0, 0)
  let denom := sqrt (n.1 * n.1 + n.2.1 * n.2.1 + n.2.2 * n.2.2)
  let m : α × α × α := (n.1 / denom, n.2.1 / denom, n.2.2 / denom)
  let m1 : α × α × α := if denom = 0 then (0, 0, 1) else m
  let m2 : α × α × α := if wmin = 0 then (0, 0, 1) else m1
  ⟨m2.1, m2.2.1, m2.2.2, 2 * wmin⟩

/-- Source: `CubicOps::calculateMisorientation(q1, q2)`; `c` is `k_1OverRoot2D`. -/
def calculateMisorientation (k_Sqrt2D c : α) (acos sin sqrt : α → α)
    (q1 q2 : Quat α) : AxisAngle α :=
  calculateMisorientationInternal k_Sqrt2D acos sin sqrt (CubicHigh.QuatSym c) q1 q2

end CubicOps

/-! A symbolic copy of the cubic table

Every entry of `CubicHigh::QuatSym` is `a / 2 + b * c` for integers `a`, `b`,
with `c = k_1OverRoot2D`.  Products of entries are polynomials of degree two in
`c`, on which closure can be checked by integer arithmetic alone. -/

namespace CubicHigh

/-- The value `a / 2 + b * c` that the pair `(a, b)` of integers stands for. -/
def symEval (c : ℚ) (s : ℤ × ℤ) : ℚ := s.1 / 2 + s.2 * c

/-- The value `A / 4 + B / 2 * c + C * c²` that a triple of integers stands for. -/
def symEval3 (c : ℚ) (t : ℤ × ℤ × ℤ) : ℚ := t.1 / 4 + t.2.1 / 2 * c + t.2.2 * (c * c)

/-- Product of two symbolic entries, as a polynomial of degree two in `c`. -/
def symMul (s t : ℤ × ℤ) : ℤ × ℤ × ℤ := (s.1 * t.1, s.1 * t.2 + s.2 * t.1, s.2 * t.2)

/-- The Hamilton product of `Quat.mul` on symbolic entries. -/
def symQuatMul (p q : Quat (ℤ × ℤ)) : Quat (ℤ × ℤ × ℤ) :=
  { x := symMul q.x p.w + symMul q.w p.x + symMul q.z p.y - symMul q.y p.z
    y := symMul q.y p.w + symMul q.w p.y + symMul q.x p.z - symMul q.z p.x
    z := symMul q.z p.w + symMul q.w p.z + symMul q.y p.x - symMul q.x p.y
    w := symMul q.w p.w - symMul q.x p.x - symMul q.y p.y - symMul q.z p.z }

/-- The polynomial `t` and the entry `s` differ by `C * (c² - 1/2)` with `|C| ≤ 2`. -/
def symNear (t : ℤ × ℤ × ℤ) (s : ℤ × ℤ) : Bool :=
  t.1 + 2 * t.2.2 == 2 * s.1 && t.2.1 == 2 * s.2 && decide (-2 ≤ t.2.2) && decide (t.2.2 ≤ 2)

def symQuatNear (t : Quat (ℤ × ℤ × ℤ)) (s : Quat (ℤ × ℤ)) : Bool :=
  symNear t.x s.x && symNear t.y s.y && symNear t.z s.z && symNear t.w s.w

def symClosed (tbl : List (Quat (ℤ × ℤ))) : Bool :=
  tbl.all fun p => tbl.all fun q => tbl.any fun r =>
    symQuatNear (symQuatMul p q) r || symQuatNear (symQuatMul p q) r.negate

/-- Source: `QuatSym` with every entry written as `a / 2 + b * c`. -/
def symQuatSym : List (Quat (ℤ × ℤ)) :=
  [ ⟨(0, 0), (0, 0), (0, 0), (2, 0)⟩,
    ⟨(2, 0), (0, 0), (0, 0), (0, 0)⟩,
    ⟨(0, 0), (2, 0), (0, 0), (0, 0)⟩,
    ⟨(0, 0), (0, 0), (2, 0), (0, 0)⟩,
    ⟨(0, 1), (0, 0), (0, 0), (0, 1)⟩,
    ⟨(0, 0), (0, 1), (0, 0), (0, 1)⟩,
    ⟨(0, 0), (0, 0), (0, 1), (0, 1)⟩,
    ⟨(0, -1), (0, 0), (0, 0), (0, 1)⟩,
    ⟨(0, 0), (0, -1), (0, 0), (0, 1)⟩,
    ⟨(0, 0), (0, 0), (0, -1), (0, 1)⟩,
    ⟨(0, 1), (0, 1), (0, 0), (0, 0)⟩,
    ⟨(0, -1), (0, 1), (0, 0), (0, 0)⟩,
    ⟨(0, 0), (0, 1), (0, 1), (0, 0)⟩,
    ⟨(0, 0), (0, -1), (0, 1), (0, 0)⟩,
    ⟨(0, 1), (0, 0), (0, 1), (0, 0)⟩,
    ⟨(0, -1), (0, 0), (0, 1), (0, 0)⟩,
    ⟨(1, 0), (1, 0), (1, 0), (1, 0)⟩,
    ⟨(-1, 0), (-1, 0), (-1, 0), (1, 0)⟩,
    ⟨(1, 0), (-1, 0), (1, 0), (1, 0)⟩,
    ⟨(-1, 0), (1, 0), (-1, 0), (1, 0)⟩,
    ⟨(-1, 0), (1, 0), (1, 0), (1, 0)⟩,
    ⟨(1, 0), (-1, 0), (-1, 0), (1, 0)⟩,
    ⟨(-1, 0), (-1, 0), (1, 0), (1, 0)⟩,
    ⟨(1, 0), (1, 0), (-1, 0), (1, 0)⟩ ]

/-- The quaternion a symbolic entry stands for. -/
def symQuatEval (c : ℚ) (s : Quat (ℤ × ℤ)) : Quat ℚ :=
  ⟨symEval c s.x, symEval c s.y, symEval c s.z, symEval c s.w⟩

/-- The passive rotation matrix `qu2om` on symbolic entries. -/
def symQu2om (q : Quat (ℤ × ℤ)) : Matrix (Fin 3) (Fin 3) (ℤ × ℤ × ℤ) :=
  let qq := symMul q.w q.w - (symMul q.x q.x + symMul q.y q.y + symMul q.z q.z)
  !![qq + (symMul q.x q.x + symMul q.x q.x),
       (symMul q.x q.y + symMul q.w q.z) + (symMul q.x q.y + symMul q.w q.z),
       (symMul q.x q.z - symMul q.w q.y) + (symMul q.x q.z - symMul q.w q.y);
     (symMul q.y q.x - symMul q.w q.z) + (symMul q.y q.x - symMul q.w q.z),
       qq + (symMul q.y q.y + symMul q.y q.y),
       (symMul q.y q.z + symMul q.w q.x) + (symMul q.y q.z + symMul q.w q.x);
     (symMul q.z q.x + symMul q.w q.y) + (symMul q.z q.x + symMul q.w q.y),
       (symMul q.z q.y - symMul q.w q.x) + (symMul q.z q.y - symMul q.w q.x),
       qq + (symMul q.z q.z + symMul q.z q.z)]

/-- The polynomial `t` differs from the number `m` by `C * (c² - 1/2)`, `|C| ≤ 2`. -/
def symNearRat (t : ℤ × ℤ × ℤ) (m : ℚ) : Prop :=
  t.2.1 = 0 ∧ ((t.1 + 2 * t.2.2 : ℤ) : ℚ) / 4 = m ∧ -2 ≤ t.2.2 ∧ t.2.2 ≤ 2

instance (t : ℤ × ℤ × ℤ) (m : ℚ) : Decidable (symNearRat t m) := by
  unfold symNearRat
  infer_instance

/-- Every `MatSym[i]` is matched by the symbolic rotation matrix of
`QuatSym[matOrder[i]]`. -/
def symMatCheck : Prop :=
  ∀ i < 24, ∀ a b : Fin 3,
    symNearRat (symQu2om (symQuatSym.getD (matOrder.getD i 0) ⟨0, 0, 0, 0⟩) a b)
      ((MatSym (α := ℚ)).getD i 0 a b)

instance : Decidable symMatCheck := by
  unfold symMatCheck
  infer_instance

end CubicHigh

/-! Reduction to the fundamental zone of misorientations -/

namespace CubicOps

variable {α : Type} [LinearOrderedField α]

/-- Lines 594-638 of `CubicOps::getMDFFZRod`: the axis-angle pair that is handed
to `ax2ro`, computed from the pair `ax` that `ro2ax` returned. -/
def getMDFFZAxisAngle (ax : AxisAngle α) : AxisAngle α :=
  let w := ax.w
  let FZw := w
  let n1 := |ax.n1|
  let n2 := |ax.n2|
  let n3 := |ax.n3|
  let FZn : α × α × α :=
    if n1 > n2 then
      if n1 > n3 then
        if n2 > n3 then (n1, n2, n3) else (n1, n3, n2)
      else (n3, n1, n2)
    else
      if n2 > n3 then
        if n1 > n3 then (n2, n1, n3) else (n2, n3, n1)
      else (n3, n2, n1)
  ⟨FZn.1, FZn.2.1, FZn.2.2, FZw⟩

/-- Source: `CubicOps::getMDFFZRod(inRod)`. -/
def getMDFFZRod (ext : External α) (inRod : Rodrigues α) : Rodrigues α :=
  let rod := LaueOps._calcRodNearestOrigin CubicHigh.RodSym inRod
  let ax := ext.ro2ax rod
  ext.ax2ro (getMDFFZAxisAngle ax)

end CubicOps

namespace LaueOps

/-- Source: `getMDFSize()`: the constant `k_MdfSize` of each class. -/
def getMDFSize : LaueClass → Nat
  | .Cubic => 5832
  | .Hexagonal => 15552
  | .Trigonal => 31104
  | .Monoclinic => 186624

end LaueOps

/-- The conversion of a floating-point number to `int` (`int(x)`,
`static_cast<int32_t>(x)`): the fractional part is discarded, towards zero. -/
def truncToInt {α : Type} [LinearOrderedField α] [FloorRing α] (x : α) : Int :=
  if 0 ≤ x then ⌊x⌋ else ⌈x⌉

namespace HexagonalOps

variable {α : Type} [LinearOrderedField α] [FloorRing α]

/-- Lines 292-318 of `HexagonalOps::getMDFFZRod`: the in-plane components
`(FZn1, FZn2)` computed from the components `n1`, `n2` of the normalised axis.
The rounding of `angle` to `float` is left out: the arithmetic is exact.
`k_1OverPiD` and `k_PiOver180D` are constants of `EbsdLibMath.h`. -/
def foldInPlane (atan2 : α → α → α) (cos sin sqrt : α → α)
    (k_1OverPiD k_PiOver180D : α) (n1 n2 : α) : α × α :=
  let angle := 180 * atan2 n2 n1 * k_1OverPiD
  let angle := if angle < 0 then angle + 360 else angle
  if angle > 30 then
    let n1n2mag := sqrt (n1 * n1 + n2 * n2)
    if Int.tmod (truncToInt (angle / 30)) 2 = 0 then
      let FZw := angle - 30 * (truncToInt (angle / 30) : α)
      let FZw := FZw * k_PiOver180D
      (n1n2mag * cos FZw, n1n2mag * sin FZw)
    else
      let FZw := angle - 30 * (truncToInt (angle / 30) : α)
      let FZw := 30 - FZw
      let FZw := FZw * k_PiOver180D
      (n1n2mag * cos FZw, n1n2mag * sin FZw)
  else (n1, n2)

/-- Lines 280-318 of `HexagonalOps::getMDFFZRod`: the axis-angle pair that is
handed to `ax2ro`, computed from the pair `ax` that `ro2ax` returned.  The
rounding of `denom` to `float` is left out. -/
def getMDFFZAxisAngle (atan2 : α → α → α) (cos sin sqrt : α → α)
    (k_1OverPiD k_PiOver180D : α) (ax : AxisAngle α) : AxisAngle α :=
  let w := ax.w
  let denom := sqrt (ax.n1 * ax.n1 + ax.n2 * ax.n2 + ax.n3 * ax.n3)
  let n1 := ax.n1 / denom
  let n2 := ax.n2 / denom
  let n3 := ax.n3 / denom
  let n : α × α × α := if n3 < 0 then (-n1, -n2, -n3) else (n1, n2, n3)
  let FZn3 := n.2.2
  let FZn := foldInPlane atan2 cos sin sqrt k_1OverPiD k_PiOver180D n.1 n.2.1
  ⟨FZn.1, FZn.2, FZn3, w⟩

/-- Source: `HexagonalOps::getMDFFZRod(inRod)`. -/
def getMDFFZRod (ext : External α) (atan2 : α → α → α) (cos sin sqrt : α → α)
    (k_1OverPiD k_PiOver180D : α) (inRod : Rodrigues α) : Rodrigues α :=
  let rod := LaueOps._calcRodNearestOrigin HexagonalHigh.RodSym inRod
  let ax := ext.ro2ax rod
  ext.ax2ro (getMDFFZAxisAngle atan2 cos sin sqrt k_1OverPiD k_PiOver180D ax)

end HexagonalOps

namespace TrigonalOps

variable {α : Type} [LinearOrderedField α] [FloorRing α]

/-- Lines 262-288 of `TrigonalOps::getMDFFZRod`: the in-plane components
`(FZn1, FZn2)` and the local `FZw`, which starts at `0.0` and is overwritten
only when the in-plane angle exceeds 60 degrees.  The rounding of `angle` to
`float` is left out. -/
def foldInPlane (atan2 : α → α → α) (cos sin sqrt : α → α)
    (k_1OverPiD k_PiOver180D : α) (n1 n2 : α) : α × α × α :=
  let angle := 180 * atan2 n2 n1 * k_1OverPiD
  let angle := if angle < 0 then angle + 360 else angle
  if angle > 60 then
    let n1n2mag := sqrt (n1 * n1 + n2 * n2)
    if Int.tmod (truncToInt (angle / 60)) 2 = 0 then
      let FZw := angle - 60 * (truncToInt (angle / 60) : α)
      let FZw := FZw * k_PiOver180D
      (n1n2mag * cos FZw, n1n2mag * sin FZw, FZw)
    else
      let FZw := angle - 60 * (truncToInt (angle / 60) : α)
      let FZw := 60 - FZw
      let FZw := FZw * k_PiOver180D
      (n1n2mag * cos FZw, n1n2mag * sin FZw, FZw)
  else (n1, n2, 0)

/-- Lines 251-290 of `TrigonalOps::getMDFFZRod`: the axis-angle pair that is
handed to `ax2ro`.  Its last component is the local `FZw`; the angle `w` read
from `ax` is not used again.  The rounding of `denom` to `float` is left out. -/
def getMDFFZAxisAngle (atan2 : α → α → α) (cos sin sqrt : α → α)
    (k_1OverPiD k_PiOver180D : α) (ax : AxisAngle α) : AxisAngle α :=
  let _w := ax.w
  let denom := sqrt (ax.n1 * ax.n1 + ax.n2 * ax.n2 + ax.n3 * ax.n3)
  let n1 := ax.n1 / denom
  let n2 := ax.n2 / denom
  let n3 := ax.n3 / denom
  let n : α × α × α := if n3 < 0 then (-n1, -n2, -n3) else (n1, n2, n3)
  let FZn3 := n.2.2
  let FZ := foldInPlane atan2 cos sin sqrt k_1OverPiD k_PiOver180D n.1 n.2.1
  ⟨FZ.1, FZ.2.1, FZn3, FZ.2.2⟩

/-- Source: `TrigonalOps::getMDFFZRod(inRod)`. -/
def getMDFFZRod (ext : External α) (atan2 : α → α → α) (cos sin sqrt : α → α)
    (k_1OverPiD k_PiOver180D : α) (inRod : Rodrigues α) : Rodrigues α :=
  let rod := LaueOps._calcRodNearestOrigin TrigonalHigh.RodSym inRod
  let ax := ext.ro2ax rod
  ext.ax2ro (getMDFFZAxisAngle atan2 cos sin sqrt k_1OverPiD k_PiOver180D ax)

end TrigonalOps

/-! Colours -/

namespace RgbColor

/-- Source: `RgbColor::dRgb(r, g, b, a)`: the four bytes packed as `#AARRGGBB` in an
unsigned 32-bit value; `x & 0xff` of an `int` is `x mod 256`. -/
def dRgb (r g b a : Int) : Nat :=
  ((a % 256).toNat <<< 24) ||| ((r % 256).toNat <<< 16) ||| ((g % 256).toNat <<< 8) |||
    (b % 256).toNat

/-- Source: `RgbColor::dRed(rgb)`. -/
def dRed (rgb : Nat) : Nat := (rgb >>> 16) &&& 0xff

/-- Source: `RgbColor::dGreen(rgb)`. -/
def dGreen (rgb : Nat) : Nat := (rgb >>> 8) &&& 0xff

/-- Source: `RgbColor::dBlue(rgb)`. -/
def dBlue (rgb : Nat) : Nat := rgb &&& 0xff

/-- Source: `RgbColor::dAlpha(rgb)`. -/
def dAlpha (rgb : Nat) : Nat := rgb >>> 24

end RgbColor

section OdfDimInitValue

variable {α : Type} [Field α]

/-- Source: `CubicHigh::OdfDimInitValue`; `pow` and `sin` are the routines of the C math
library, `k_PiOver4D` a constant of `EbsdLibMath.h`. -/
def CubicHigh.OdfDimInitValue (pow : α → α → α) (sin : α → α) (k_PiOver4D : α) : α × α × α :=
  (pow (0.75 * (k_PiOver4D - sin k_PiOver4D)) (1 / 3),
   pow (0.75 * (k_PiOver4D - sin k_PiOver4D)) (1 / 3),
   pow (0.75 * (k_PiOver4D - sin k_PiOver4D)) (1 / 3))

/-- Source: `HexagonalHigh::OdfDimInitValue`. -/
def HexagonalHigh.OdfDimInitValue (pow : α → α → α) (sin : α → α) (k_PiOver2D k_PiD : α) :
    α × α × α :=
  (pow (0.75 * (k_PiOver2D - sin k_PiOver2D)) (1 / 3),
   pow (0.75 * (k_PiOver2D - sin k_PiOver2D)) (1 / 3),
   pow (0.75 * (k_PiD / 6 - sin (k_PiD / 6))) (1 / 3))

/-- Source: `TrigonalHigh::OdfDimInitValue`. -/
def TrigonalHigh.OdfDimInitValue (pow : α → α → α) (sin : α → α) (k_PiOver2D k_PiOver3D : α) :
    α × α × α :=
  (pow (0.75 * (k_PiOver2D - sin k_PiOver2D)) (1 / 3),
   pow (0.75 * (k_PiOver2D - sin k_PiOver2D)) (1 / 3),
   pow (0.75 * (k_PiOver3D - sin k_PiOver3D)) (1 / 3))

/-- Source: `Monoclinic::OdfDimInitValue`.  The first factor of the first entry is the
`float` literal `0.7f`, whose value is `11744051 / 2 ^ 24`. -/
def Monoclinic.OdfDimInitValue (pow : α → α → α) (sin : α → α) (k_PiOver2D k_PiD : α) :
    α × α × α :=
  (pow (11744051 / 16777216 * (k_PiD - sin k_PiD)) (1 / 3),
   pow (0.75 * (k_PiOver2D - sin k_PiOver2D)) (1 / 3),
   pow (0.75 * (k_PiD - sin k_PiD)) (1 / 3))

end OdfDimInitValue

section RodriguesColor

variable {α : Type} [LinearOrderedField α] [FloorRing α]

/-- Source: `CubicOps::generateRodriguesColor(r1, r2, r3)`; `OdfDimInitValue` is the array
`CubicHigh::OdfDimInitValue`. -/
def CubicOps.generateRodriguesColor (OdfDimInitValue : α × α × α) (r1 r2 r3 : α) : Nat :=
  let range1 := 2 * OdfDimInitValue.1
  let range2 := 2 * OdfDimInitValue.2.1
  let range3 := 2 * OdfDimInitValue.2.2
  let max1 := range1 / 2
  let max2 := range2 / 2
  let max3 := range3 / 2
  let red := (r1 + max1) / range1
  let green := (r2 + max2) / range2
  let blue := (r3 + max3) / range3
  RgbColor.dRgb (truncToInt (red * 255)) (truncToInt (green * 255)) (truncToInt (blue * 255)) 255

/-- Source: `TrigonalOps::generateRodriguesColor(r1, r2, r3)`. -/
def TrigonalOps.generateRodriguesColor (OdfDimInitValue : α × α × α) (r1 r2 r3 : α) : Nat :=
  let range1 := 2 * OdfDimInitValue.1
  let range2 := 2 * OdfDimInitValue.2.1
  let range3 := 2 * OdfDimInitValue.2.2
  let max1 := range1 / 2
  let max2 := range2 / 2
  let max3 := range3 / 2
  let red := (r1 + max1) / range1
  let green := (r2 + max2) / range2
  let blue := (r3 + max3) / range3
  RgbColor.dRgb (truncToInt (red * 255)) (truncToInt (green * 255)) (truncToInt (blue * 255)) 255

/-- Source: `HexagonalOps::generateRodriguesColor(r1, r2, r3)`, with the three divisions
that follow the comment `// Scale values from 0 to 1.0`. -/
def HexagonalOps.generateRodriguesColor (OdfDimInitValue : α × α × α) (r1 r2 r3 : α) : Nat :=
  let range1 := 2 * OdfDimInitValue.1
  let range2 := 2 * OdfDimInitValue.2.1
  let range3 := 2 * OdfDimInitValue.2.2
  let max1 := range1 / 2
  let max2 := range2 / 2
  let max3 := range3 / 2
  let red := (r1 + max1) / range1
  let green := (r2 + max2) / range2
  let blue := (r3 + max3) / range3
  let red := red / max1
  let green := green / max1
  let blue := blue / max2
  RgbColor.dRgb (truncToInt (red * 255)) (truncToInt (green * 255)) (truncToInt (blue * 255)) 255

/-- Source: `MonoclinicOps::generateRodriguesColor(r1, r2, r3)`, with the three divisions
that follow the comment `// Scale values from 0 to 1.0`. -/
def MonoclinicOps.generateRodriguesColor (OdfDimInitValue : α × α × α) (r1 r2 r3 : α) : Nat :=
  let range1 := 2 * OdfDimInitValue.1
  let range2 := 2 * OdfDimInitValue.2.1
  let range3 := 2 * OdfDimInitValue.2.2
  let max1 := range1 / 2
  let max2 := range2 / 2
  let max3 := range3 / 2
  let red := (r1 + max1) / range1
  let green := (r2 + max2) / range2
  let blue := (r3 + max3) / range3
  let red := red / max1
  let green := green / max1
  let blue := blue / max2
  RgbColor.dRgb (truncToInt (red * 255)) (truncToInt (green * 255)) (truncToInt (blue * 255)) 255

end RodriguesColor

/-! The modified Lambert projection -/

/-- Source: `ModifiedLambertProjection::Square`. -/
inductive Square where
  | NorthSquare
  | SouthSquare
deriving DecidableEq, Repr

/-- The data members of `ModifiedLambertProjection`; the two `DoubleArrayType`
squares are lists of their values, bin `index` at position `index`. -/
structure ModifiedLambertProjection (α : Type) where
  m_Dimension : Int
  m_StepSize : α
  m_SphereRadius : α
  m_HalfDimension : α
  m_HalfDimensionTimesStepSize : α
  m_MaxCoord : α
  m_MinCoord : α
  m_NorthSquare : List α
  m_SouthSquare : List α

namespace ModifiedLambertProjection

variable {α : Type} [LinearOrderedField α] [FloorRing α]

/-- The read `array->getValue(index)` of a `DoubleArrayType`.  An index outside the
array is undefined behaviour in the source; here it reads `0`. -/
def arrayGetValue (a : List α) (index : Int) : α :=
  if 0 ≤ index then a.getD index.toNat 0 else 0

/-- The write `array->setValue(index, value)` of a `DoubleArrayType`.  An index
outside the array is undefined behaviour in the source; here nothing is written. -/
def arraySetValue (a : List α) (index : Int) (value : α) : List α :=
  if 0 ≤ index then a.set index.toNat value else a

/-- Source: `ModifiedLambertProjection::initializeSquares(dims, sphereRadius)` on a fresh
object; `k_PiF` is a constant of `EbsdLibMath.h`.  The two squares have
`dims * dims` tuples, all zero. -/
def initializeSquares (sqrt : α → α) (k_PiF : α) (dims : Int) (sphereRadius : α) :
    ModifiedLambertProjection α :=
  let m_Dimension := dims
  let m_SphereRadius := sphereRadius
  let halfSphereArea := 4 * k_PiF * sphereRadius * sphereRadius / 2
  let squareEdge := sqrt halfSphereArea
  let m_StepSize := squareEdge / (m_Dimension : α)
  let m_MaxCoord := squareEdge / 2
  let m_MinCoord := -squareEdge / 2
  let m_HalfDimension := (m_Dimension : α) / 2
  let m_HalfDimensionTimesStepSize := m_HalfDimension * m_StepSize
  { m_Dimension := m_Dimension
    m_StepSize := m_StepSize
    m_SphereRadius := m_SphereRadius
    m_HalfDimension := m_HalfDimension
    m_HalfDimensionTimesStepSize := m_HalfDimensionTimesStepSize
    m_MaxCoord := m_MaxCoord
    m_MinCoord := m_MinCoord
    m_NorthSquare := List.replicate (m_Dimension.toNat * m_Dimension.toNat) 0
    m_SouthSquare := List.replicate (m_Dimension.toNat * m_Dimension.toNat) 0 }

/-- The four writes at the end of `addInterpolatedValues`: the four sums are
formed from the values read before any of them is stored, then stored in the
order 1, 2, 3, 4. -/
def splat (a : List α) (index1 index2 index3 index4 : Int) (value modX modY : α) : List α :=
  let v1 := arrayGetValue a index1 + value * (1 - modX) * (1 - modY)
  let v2 := arrayGetValue a index2 + value * modX * (1 - modY)
  let v3 := arrayGetValue a index3 + value * (1 - modX) * modY
  let v4 := arrayGetValue a index4 + value * modX * modY
  let a := arraySetValue a index1 v1
  let a := arraySetValue a index2 v2
  let a := arraySetValue a index3 v3
  arraySetValue a index4 v4

/-- Source: `ModifiedLambertProjection::addInterpolatedValues(square, sqCoord, value)`.
The roundings to `float` are left out. -/
def addInterpolatedValues (P : ModifiedLambertProjection α) (square : Square)
    (sqCoord : α × α) (value : α) : ModifiedLambertProjection α :=
  let modX := (sqCoord.1 + P.m_HalfDimensionTimesStepSize) / P.m_StepSize
  let modY := (sqCoord.2 + P.m_HalfDimensionTimesStepSize) / P.m_StepSize
  let abin := truncToInt modX
  let bbin := truncToInt modY
  let modX := modX - (abin : α)
  let modY := modY - (bbin : α)
  let modX := modX - 0.5
  let modY := modY - 0.5
  let abinSign : Int := if modX = 0 then 1 else truncToInt (modX / |modX|)
  let bbinSign : Int := if modY = 0 then 1 else truncToInt (modY / |modY|)
  let abin1 := abin
  let bbin1 := bbin
  let abin2 := abin + abinSign
  let bbin2 := bbin
  let bin2 : Int × Int :=
    if abin2 < 0 ∨ abin2 > P.m_Dimension - 1 then
      (abin2 - abinSign * P.m_Dimension, P.m_Dimension - bbin2 - 1)
    else (abin2, bbin2)
  let abin3 := abin
  let bbin3 := bbin + bbinSign
  let bin3 : Int × Int :=
    if bbin3 < 0 ∨ bbin3 > P.m_Dimension - 1 then
      (P.m_Dimension - abin3 - 1, bbin3 - bbinSign * P.m_Dimension)
    else (abin3, bbin3)
  let abin4 := abin + abinSign
  let bbin4 := bbin + bbinSign
  let bin4 : Int × Int :=
    if (abin4 < 0 ∨ abin4 > P.m_Dimension - 1) ∧ (bbin4 ≥ 0 ∧ bbin4 ≤ P.m_Dimension - 1) then
      (abin4 - abinSign * P.m_Dimension, P.m_Dimension - bbin4 - 1)
    else if (abin4 ≥ 0 ∧ abin4 ≤ P.m_Dimension - 1) ∧
        (bbin4 < 0 ∨ bbin4 > P.m_Dimension - 1) then
      (P.m_Dimension - abin4 - 1, bbin4 - bbinSign * P.m_Dimension)
    else if (abin4 < 0 ∨ abin4 > P.m_Dimension - 1) ∧
        (bbin4 < 0 ∨ bbin4 > P.m_Dimension - 1) then
      (abin4 - abinSign * P.m_Dimension, bbin4 - bbinSign * P.m_Dimension)
    else (abin4, bbin4)
  let modX := |modX|
  let modY := |modY|
  let index1 := bbin1 * P.m_Dimension + abin1
  let index2 := bin2.2 * P.m_Dimension + bin2.1
  let index3 := bin3.2 * P.m_Dimension + bin3.1
  let index4 := bin4.2 * P.m_Dimension + bin4.1
  match square with
  | Square.NorthSquare =>
    { P with m_NorthSquare := splat P.m_NorthSquare index1 index2 index3 index4 value modX modY }
  | Square.SouthSquare =>
    { P with m_SouthSquare := splat P.m_SouthSquare index1 index2 index3 index4 value modX modY }

/-- Source: `ModifiedLambertProjection::getSquareCoord(xyz, sqCoord)`: the returned flag
and the coordinate written to `sqCoord`.  `k_HalfOfSqrtPiD` and `k_2OverSqrtPiD`
are constants of `EbsdLibMath.h`; `13743895 / 2 ^ 37` is the value of the `float`
literal `0.0001f`.  The roundings to `float` are left out. -/
def getSquareCoord (sqrt atan : α → α) (k_HalfOfSqrtPiD k_2OverSqrtPiD : α)
    (P : ModifiedLambertProjection α) (xyz : α × α × α) : Bool × (α × α) :=
  let nhCheck : Bool := decide (xyz.2.2 ≥ 0)
  let adjust : α := if xyz.2.2 ≥ 0 then -1 else 1
  if xyz.1 = 0 ∧ xyz.2.1 = 0 then (nhCheck, (0, 0))
  else
    let sqCoord : α × α :=
      if |xyz.1| ≥ |xyz.2.1| then
        ((xyz.1 / |xyz.1|) *
            sqrt (2 * P.m_SphereRadius * (P.m_SphereRadius + (xyz.2.2 * adjust))) *
            k_HalfOfSqrtPiD,
          (xyz.1 / |xyz.1|) *
            sqrt (2 * P.m_SphereRadius * (P.m_SphereRadius + (xyz.2.2 * adjust))) *
            (k_2OverSqrtPiD * atan (xyz.2.1 / xyz.1)))
      else
        ((xyz.2.1 / |xyz.2.1|) *
            sqrt (2 * P.m_SphereRadius * (P.m_SphereRadius + (xyz.2.2 * adjust))) *
            (k_2OverSqrtPiD * atan (xyz.1 / xyz.2.1)),
          (xyz.2.1 / |xyz.2.1|) *
            sqrt (2 * P.m_SphereRadius * (P.m_SphereRadius + (xyz.2.2 * adjust))) *
            k_HalfOfSqrtPiD)
    let sqCoord0 :=
      if sqCoord.1 ≥ P.m_MaxCoord then P.m_MaxCoord - 13743895 / 137438953472 else sqCoord.1
    let sqCoord1 :=
      if sqCoord.2 ≥ P.m_MaxCoord then P.m_MaxCoord - 13743895 / 137438953472 else sqCoord.2
    (nhCheck, (sqCoord0, sqCoord1))

/-- The value of an `int` expression whose exact value is `n`: two's-complement
wrap-around to 32 bits. -/
def wrapInt32 (n : Int) : Int := (n + 2147483648) % 4294967296 - 2147483648

/-- Source: `ModifiedLambertProjection::normalizeSquares()`.  Both loops run over the
`npoints` tuples of the north square. -/
def normalizeSquares (P : ModifiedLambertProjection α) : ModifiedLambertProjection α :=
  let npoints := P.m_NorthSquare.length
  let north := P.m_NorthSquare
  let south := P.m_SouthSquare
  let nTotal := (north.take npoints).foldl (fun t v => t + v) 0
  let sTotal := (south.take npoints).foldl (fun t v => t + v) 0
  let oneOverNTotal := 1 / nTotal
  let oneOverSTotal := 1 / sTotal
  { P with
    m_NorthSquare := (north.take npoints).map (fun v => v * oneOverNTotal) ++ north.drop npoints
    m_SouthSquare := (south.take npoints).map (fun v => v * oneOverSTotal) ++ south.drop npoints }

/-- Source: `ModifiedLambertProjection::normalizeSquaresToMRD()`. -/
def normalizeSquaresToMRD (P : ModifiedLambertProjection α) : ModifiedLambertProjection α :=
  let P := normalizeSquares P
  let npoints := P.m_NorthSquare.length
  let north := P.m_NorthSquare
  let south := P.m_SouthSquare
  let dimSqrd : Int := wrapInt32 (P.m_Dimension * P.m_Dimension)
  { P with
    m_NorthSquare := (north.take npoints).map (fun v => v * (dimSqrd : α)) ++ north.drop npoints
    m_SouthSquare := (south.take npoints).map (fun v => v * (dimSqrd : α)) ++ south.drop npoints }

end ModifiedLambertProjection

/-! Sphere coordinates of the pole-figure families -/

namespace LaueOps

/-- Source: `getNumSymmetry()`: the constants `symSize0`, `symSize1`, `symSize2` of each
class. -/
def getNumSymmetry : LaueClass → Nat × Nat × Nat
  | .Cubic => (6, 12, 8)
  | .Hexagonal => (2, 6, 6)
  | .Trigonal => (2, 2, 2)
  | .Monoclinic => (2, 2, 2)

end LaueOps

/-- One family of directions of a `GenerateSphereCoordsImpl::generate`: the factor
`stride` of `i` in `getPointer(i * stride + offset)` and, in the order of the
source, the offset and the vector `direction` of each
`(gTranspose * direction).copyInto<float>(...)`. -/
structure SphereFamily (α : Type) where
  stride : Nat
  directions : List (Nat × (Fin 3 → α))

namespace SphereCoords

variable {α : Type} [Field α]

/-- The write `v.copyInto<float>(ptr)` of a `Matrix3X1D` at position `p` of a
`FloatArrayType`, whose contents are a function of the position (the arrays are
resized beforehand, so every position written exists).  The rounding to `float`
is left out. -/
def copyInto (a : Nat → α) (p : Nat) (v : Fin 3 → α) : Nat → α :=
  Function.update (Function.update (Function.update a p (v 0)) (p + 1) (v 1)) (p + 2) (v 2)

/-- The call `std::transform(first, first + 3, dest, [](float value) { return value *= -1.0F; })`:
three values are read, negated and stored at `dest`, one after the other. -/
def negateInto (a : Nat → α) (first dest : Nat) : Nat → α :=
  let a := Function.update a dest (a first * -1)
  let a := Function.update a (dest + 1) (a (first + 1) * -1)
  Function.update a (dest + 2) (a (first + 2) * -1)

/-- One direction of a family: the rotated direction is written at `p` and its
negative in "the next triplet in memory". -/
def writeDirection (a : Nat → α) (p : Nat) (gTranspose : Matrix (Fin 3) (Fin 3) α)
    (direction : Fin 3 → α) : Nat → α :=
  negateInto (copyInto a p (gTranspose.mulVec direction)) p (p + 3)

/-- The writes of one family for one orientation, in the order of the source. -/
def writeFamily (a : Nat → α) (base : Nat) (gTranspose : Matrix (Fin 3) (Fin 3) α)
    (directions : List (Nat × (Fin 3 → α))) : Nat → α :=
  directions.foldl (fun a e => writeDirection a (base + e.1) gTranspose e.2) a

/-- The body of the loop of `GenerateSphereCoordsImpl::generate` for the
orientation `i`; `eu2om` is the conversion of `OrientationTransformation.hpp`. -/
def generateStep (eu2om : α × α × α → Matrix (Fin 3) (Fin 3) α)
    (families : SphereFamily α × SphereFamily α × SphereFamily α) (m_Eulers : Nat → α)
    (xyz : (Nat → α) × (Nat → α) × (Nat → α)) (i : Nat) :
    (Nat → α) × (Nat → α) × (Nat → α) :=
  let eu := (m_Eulers (i * 3), m_Eulers (i * 3 + 1), m_Eulers (i * 3 + 2))
  let g := eu2om eu
  let gTranspose := g.transpose
  (writeFamily xyz.1 (i * families.1.stride) gTranspose families.1.directions,
   writeFamily xyz.2.1 (i * families.2.1.stride) gTranspose families.2.1.directions,
   writeFamily xyz.2.2 (i * families.2.2.stride) gTranspose families.2.2.directions)

/-- Source: `GenerateSphereCoordsImpl::generate(start, end)`: the three arrays
`m_xyz001`, `m_xyz011`, `m_xyz111` after the loop. -/
def generate (eu2om : α × α × α → Matrix (Fin 3) (Fin 3) α)
    (families : SphereFamily α × SphereFamily α × SphereFamily α) (m_Eulers : Nat → α)
    (xyz : (Nat → α) × (Nat → α) × (Nat → α)) (start stop : Nat) :
    (Nat → α) × (Nat → α) × (Nat → α) :=
  (List.range' start (stop - start)).foldl (generateStep eu2om families m_Eulers) xyz

/-- The three families of `CubicHigh::GenerateSphereCoordsImpl::generate`; `c` is
`k_1OverRoot2D`, `t` is `k_1OverRoot3D`. -/
def cubicFamilies (c t : α) : SphereFamily α × SphereFamily α × SphereFamily α :=
  (⟨18, [(0, ![1, 0, 0]), (6, ![0, 1, 0]), (12, ![0, 0, 1])]⟩,
   ⟨36, [(0, ![c, c, 0]), (6, ![c, 0, c]), (12, ![0, c, c]), (18, ![-c, c, 0]),
      (24, ![-c, 0, c]), (30, ![0, -c, c])]⟩,
   ⟨24, [(0, ![t, t, t]), (6, ![-t, t, t]), (12, ![t, -t, t]), (18, ![t, t, -t])]⟩)

/-- The three families of `HexagonalHigh::GenerateSphereCoordsImpl::generate`; `r`
is `k_Root3Over2D`. -/
def hexagonalFamilies (r : α) : SphereFamily α × SphereFamily α × SphereFamily α :=
  (⟨6, [(0, ![0, 0, 1])]⟩,
   ⟨18, [(0, ![r, 0.5, 0]), (6, ![0, 1, 0]), (12, ![-r, 0.5, 0])]⟩,
   ⟨18, [(0, ![1, 0, 0]), (6, ![0.5, r, 0]), (12, ![-0.5, r, 0])]⟩)

/-- The three families of `TrigonalHigh::GenerateSphereCoordsImpl::generate`. -/
def trigonalFamilies (r : α) : SphereFamily α × SphereFamily α × SphereFamily α :=
  (⟨6, [(0, ![0, 0, 1])]⟩, ⟨6, [(0, ![0, -1, 0])]⟩, ⟨6, [(0, ![r, -0.5, 0])]⟩)

/-- The three families of `Monoclinic::GenerateSphereCoordsImpl::generate`. -/
def monoclinicFamilies : SphereFamily α × SphereFamily α × SphereFamily α :=
  (⟨6, [(0, ![0, 0, 1])]⟩, ⟨6, [(0, ![1, 0, 0])]⟩, ⟨6, [(0, ![0, 1, 0])]⟩)

/-- The families of a class. -/
def families (c t r : α) : LaueClass → SphereFamily α × SphereFamily α × SphereFamily α
  | .Cubic => cubicFamilies c t
  | .Hexagonal => hexagonalFamilies r
  | .Trigonal => trigonalFamilies r
  | .Monoclinic => monoclinicFamilies

end SphereCoords

namespace LaueOps

variable {α : Type} [Field α]

/-- Source: `generateSphereCoordsFromEulers(eulers, xyz001, xyz011, xyz111)` of a class, on
the serial path: `generate(0, nOrientations)`. -/
def generateSphereCoordsFromEulers (eu2om : α × α × α → Matrix (Fin 3) (Fin 3) α) (c t r : α)
    (cls : LaueClass) (nOrientations : Nat) (eulers : Nat → α)
    (xyz : (Nat → α) × (Nat → α) × (Nat → α)) : (Nat → α) × (Nat → α) × (Nat → α) :=
  SphereCoords.generate eu2om (SphereCoords.families c t r cls) eulers xyz 0 nOrientations

end LaueOps

namespace SphereCoords

/-- The offsets of the directions of a family are `0, 6, 12, ...`: the pairs of
triplets follow one another without a gap. -/
def regularOffsets {α : Type} (l : List (Nat × (Fin 3 → α))) : Prop :=
  ∀ m (h : m < l.length), (l.get ⟨m, h⟩).1 = 6 * m

/-- The entry of a triple that belongs to family `k` (`0`, `1` or `2`). -/
def component {β : Type} (k : Fin 3) (x : β × β × β) : β :=
  match k with
  | 0 => x.1
  | 1 => x.2.1
  | 2 => x.2.2

end SphereCoords

/-! The inverse-pole-figure colour of the cubic class -/

/-- The routines of the C math library and the constants of `EbsdLibMath.h` that
`generateIPFColor` uses. -/
structure IPFMath (α : Type) where
  cos : α → α
  sin : α → α
  tan : α → α
  acos : α → α
  atan2 : α → α → α
  sqrt : α → α
  k_PiD : α
  k_DegToRadD : α
  k_180OverPiD : α
  k_PiOver180D : α

section IPF

variable {α : Type} [LinearOrderedField α] [FloorRing α]

/-- Modelled from the spec: `OrientationTransformation::eu2qu` is not among the
sources.  §3: Euler angles are in the ZXZ (Bunge) convention; this is the unit
quaternion of the passive rotation with these angles, with non-negative scalar
part, in `(x, y, z, w)` storage. -/
def eu2qu (m : IPFMath α) (eu : α × α × α) : Quat α :=
  let ee : α × α × α := (eu.1 / 2, eu.2.1 / 2, eu.2.2 / 2)
  let cPhi := m.cos ee.2.1
  let sPhi := m.sin ee.2.1
  let cm := m.cos (ee.1 - ee.2.2)
  let sm := m.sin (ee.1 - ee.2.2)
  let cp := m.cos (ee.1 + ee.2.2)
  let sp := m.sin (ee.1 + ee.2.2)
  let q : Quat α := ⟨-(sPhi * cm), -(sPhi * sm), -(cPhi * sp), cPhi * cp⟩
  if q.w < 0 then q.negate else q

/-- Modelled from the spec: `Matrix3X1D::normalize()` (`Matrix3X1.hpp`) is not
among the sources; the vector divided by its Euclidean length. -/
def normalize (sqrt : α → α) (v : Fin 3 → α) : Fin 3 → α :=
  let denom := sqrt (v 0 * v 0 + v 1 * v 1 + v 2 * v 2)
  ![v 0 / denom, v 1 / denom, v 2 / denom]

/-- Modelled from the spec: `EbsdLibMath::bound(val, min, max)` (`EbsdLibMath.h`)
is not among the sources; the value clamped to `[min, max]`. -/
def bound (val min max : α) : α :=
  if val < min then min else if val > max then max else val

namespace CubicOps

/-- Source: `CubicOps::getHasInversion()`. -/
def getHasInversion : Bool := true

/-- The computation of `chiMax` from `eta`, which `inUnitTriangleD` and
`generateIPFColor` both spell out. -/
def chiMax (m : IPFMath α) (eta : α) : α :=
  let etaDeg := eta * m.k_180OverPiD
  let chiMax :=
    if etaDeg > 45 then
      m.sqrt (1 / (2 + m.tan (0.5 * m.k_PiD - eta) * m.tan (0.5 * m.k_PiD - eta)))
    else m.sqrt (1 / (2 + m.tan eta * m.tan eta))
  let chiMax := bound chiMax (-1) 1
  m.acos chiMax

/-- The free function `inUnitTriangleD(eta, chi)` of `CubicOps.cpp`. -/
def inUnitTriangleD (m : IPFMath α) (eta chi : α) : Bool :=
  let chiMax := chiMax m eta
  !(decide (eta < 0) || decide (eta > 45 * m.k_PiOver180D) || decide (chi < 0) ||
    decide (chi > chiMax))

/-- The loop over the symmetry operators in `CubicOps::generateIPFColor`: the values
of `chi` and `eta` when the loop is left, by `break` or at its end. -/
def ipfSearch (m : IPFMath α) (q1 : Quat α) (refDirection : Fin 3 → α) :
    List (Quat α) → α × α → α × α
  | [], chiEta => chiEta
  | s :: rest, chiEta =>
    let qu := s * q1
    let g := qu2om qu
    let p := normalize m.sqrt (g.mulVec refDirection)
    if !getHasInversion && decide (p 2 < 0) then ipfSearch m q1 refDirection rest chiEta
    else
      let p : Fin 3 → α :=
        if getHasInversion && decide (p 2 < 0) then ![-p 0, -p 1, -p 2] else p
      let chi := m.acos (p 2)
      let eta := m.atan2 (p 1) (p 0)
      if !inUnitTriangleD m eta chi then ipfSearch m q1 refDirection rest (chi, eta)
      else (chi, eta)

/-- Source: `CubicOps::generateIPFColor(phi1, phi, phi2, refDir0, refDir1, refDir2, degToRad)`;
`c` is `k_1OverRoot2D`. -/
def generateIPFColor (m : IPFMath α) (c : α) (phi1 phi phi2 refDir0 refDir1 refDir2 : α)
    (degToRad : Bool) : Nat :=
  let phi1 := if degToRad then phi1 * m.k_DegToRadD else phi1
  let phi := if degToRad then phi * m.k_DegToRadD else phi
  let phi2 := if degToRad then phi2 * m.k_DegToRadD else phi2
  let refDirection : Fin 3 → α := ![refDir0, refDir1, refDir2]
  let q1 := eu2qu m (phi1, phi, phi2)
  let chiEta := ipfSearch m q1 refDirection (CubicHigh.QuatSym c) (0, 0)
  let chi := chiEta.1
  let eta := chiEta.2
  let etaMin : α := 0
  let etaMax : α := 45
  let etaDeg := eta * m.k_180OverPiD
  let chiMax := chiMax m eta
  let rgb0 := 1 - chi / chiMax
  let rgb2 := |etaDeg - etaMin| / (etaMax - etaMin)
  let rgb1 := 1 - rgb2
  let rgb1 := rgb1 * (chi / chiMax)
  let rgb2 := rgb2 * (chi / chiMax)
  let rgb0 := m.sqrt rgb0
  let rgb1 := m.sqrt rgb1
  let rgb2 := m.sqrt rgb2
  let max := rgb0
  let max := if rgb1 > max then rgb1 else max
  let max := if rgb2 > max then rgb2 else max
  let rgb0 := rgb0 / max
  let rgb1 := rgb1 / max
  let rgb2 := rgb2 / max
  RgbColor.dRgb (truncToInt (rgb0 * 255)) (truncToInt (rgb1 * 255)) (truncToInt (rgb2 * 255)) 255

end CubicOps

end IPF

/-! Quaternion norm and length -/

namespace Quat

variable {α : Type}

/-- Modelled from the spec: `Quaternion.hpp` (`norm()`) is not among the sources.
§3 lists the norm among the operations of a quaternion; the norm test of
`QuaternionTest.cpp` calls it `N(q)`: the sum of the squares of the four
components. -/
def norm [Ring α] (q : Quat α) : α := q.x * q.x + q.y * q.y + q.z * q.z + q.w * q.w

/-- Modelled from the spec: `Quaternion.hpp` (`length()`) is not among the sources.
The length test of `QuaternionTest.cpp` requires `length() = 4` for
`(2, 2, 2, 2)`: the square root of the sum of the squares. -/
def length [Ring α] (sqrt : α → α) (q : Quat α) : α :=
  sqrt (q.x * q.x + q.y * q.y + q.z * q.z + q.w * q.w)

end Quat

/-! The array of projections: `ModifiedLambertProjectionArray` -/

/-- Source: `ModifiedLambertProjectionArray` (`ModifiedLambertProjectionArray.h`): the
vector `m_ModifiedLambertProjectionArray` of shared pointers and the flag
`m_IsAllocated`. The element type `β` stands for the pointer; the null pointer
with which `std::vector` fills new slots is `default`. Indices and sizes are
`size_t`; they are natural numbers here, and the two sums of `copyFromArray` that
can wrap are taken modulo `2^64`. A read or write outside a vector has no
defined result: the functions that index return `none` there. -/
structure ModifiedLambertProjectionArray (β : Type) where
  m_ModifiedLambertProjectionArray : List β
  m_IsAllocated : Bool
deriving DecidableEq, Repr

namespace ModifiedLambertProjectionArray

variable {β : Type}

/-- Source: `ModifiedLambertProjectionArray::getNumberOfTuples`. -/
def getNumberOfTuples (a : ModifiedLambertProjectionArray β) : Nat :=
  a.m_ModifiedLambertProjectionArray.length

/-- Source: `ModifiedLambertProjectionArray::getNumberOfComponents`: `return 1;`. -/
def getNumberOfComponents (_a : ModifiedLambertProjectionArray β) : Nat := 1

/-- Source: `ModifiedLambertProjectionArray::isAllocated`. -/
def isAllocated (a : ModifiedLambertProjectionArray β) : Bool := a.m_IsAllocated

/-- Source: `ModifiedLambertProjectionArray::resizeTotalElements`: `std::vector::resize`
keeps the first `size` elements and fills up with null pointers. -/
def resizeTotalElements [Inhabited β] (a : ModifiedLambertProjectionArray β) (size : Nat) :
    ModifiedLambertProjectionArray β :=
  { a with
    m_ModifiedLambertProjectionArray :=
      a.m_ModifiedLambertProjectionArray.take size ++
        List.replicate (size - a.m_ModifiedLambertProjectionArray.length) default }

/-- Source: `ModifiedLambertProjectionArray::resizeTuples`. -/
def resizeTuples [Inhabited β] (a : ModifiedLambertProjectionArray β) (numTuples : Nat) :
    ModifiedLambertProjectionArray β :=
  a.resizeTotalElements numTuples

/-- Source: the sanity loop of `eraseTuples`: `true` when the loop meets an index
`idxs[i] >= m_ModifiedLambertProjectionArray.size()` (and returns `-100`). -/
def eraseTuplesOutOfRange (size : Nat) : List Nat → Bool
  | [] => false
  | i :: rest => if i ≥ size then true else eraseTuplesOutOfRange size rest

/-- Source: body of the copying loop of `eraseTuples` at `dIdx`; the state is
`(replacement, idxsIndex, rIdx)`. -/
def eraseTuplesStep (idxs : List Nat) (arr : List β) (st : List β × Nat × Nat) (dIdx : Nat) :
    Option (List β × Nat × Nat) :=
  match idxs[st.2.1]? with
  | none => none
  | some ix =>
    if dIdx ≠ ix then
      match arr[dIdx]? with
      | none => none
      | some v =>
        if st.2.2 < st.1.length then some (st.1.set st.2.2 v, st.2.1, st.2.2 + 1) else none
    else
      if st.2.1 + 1 = idxs.length then some (st.1, st.2.1 + 1 - 1, st.2.2)
      else some (st.1, st.2.1 + 1, st.2.2)

/-- Source: `ModifiedLambertProjectionArray::eraseTuples`: the error code and the array
afterwards. -/
def eraseTuples [Inhabited β] (a : ModifiedLambertProjectionArray β) (idxs : List Nat) :
    Option (Int × ModifiedLambertProjectionArray β) :=
  if idxs.isEmpty then some (0, a)
  else if idxs.length ≥ a.getNumberOfTuples then some (0, a.resizeTuples 0)
  else if eraseTuplesOutOfRange a.m_ModifiedLambertProjectionArray.length idxs then some (-100, a)
  else
    let replacement : List β :=
      List.replicate (a.m_ModifiedLambertProjectionArray.length - idxs.length) default
    let count := a.m_ModifiedLambertProjectionArray.length
    match (List.range count).foldlM (eraseTuplesStep idxs a.m_ModifiedLambertProjectionArray)
        (replacement, 0, 0) with
    | none => none
    | some st => some (0, { a with m_ModifiedLambertProjectionArray := st.1 })

/-- Source: body of the loop of `copyFromArray` at `i`:
`m_ModifiedLambertProjectionArray[destTupleOffset + i] = (*source)[i];`. -/
def copyFromArrayStep (destTupleOffset : Nat) (source : List β) (arr : List β) (i : Nat) :
    Option (List β) :=
  match source[i]? with
  | none => none
  | some v => if destTupleOffset + i < arr.length then some (arr.set (destTupleOffset + i) v) else none

/-- Source: `ModifiedLambertProjectionArray::copyFromArray`: the returned flag and the
destination afterwards. The loop runs `i` from `srcTupleOffset` up to
`srcTupleOffset + totalSrcTuples` (a `size_t` sum). -/
def copyFromArray (a : ModifiedLambertProjectionArray β) (destTupleOffset : Nat)
    (sourceArray : ModifiedLambertProjectionArray β) (srcTupleOffset totalSrcTuples : Nat) :
    Option (Bool × ModifiedLambertProjectionArray β) :=
  if !a.m_IsAllocated then some (false, a)
  else if a.m_ModifiedLambertProjectionArray.isEmpty then some (false, a)
  else if destTupleOffset ≥ a.m_ModifiedLambertProjectionArray.length then some (false, a)
  else if !sourceArray.isAllocated then some (false, a)
  else if sourceArray.getNumberOfComponents ≠ a.getNumberOfComponents then some (false, a)
  else if (srcTupleOffset + totalSrcTuples) % 2 ^ 64 > sourceArray.getNumberOfTuples then
    some (false, a)
  else if (totalSrcTuples * sourceArray.getNumberOfComponents +
      destTupleOffset * a.getNumberOfComponents) % 2 ^ 64 >
      a.m_ModifiedLambertProjectionArray.length then some (false, a)
  else
    match (List.range' srcTupleOffset
        ((srcTupleOffset + totalSrcTuples) % 2 ^ 64 - srcTupleOffset)).foldlM
        (copyFromArrayStep destTupleOffset sourceArray.m_ModifiedLambertProjectionArray)
        a.m_ModifiedLambertProjectionArray with
    | none => none
    | some arr => some (true, { a with m_ModifiedLambertProjectionArray := arr })

end ModifiedLambertProjectionArray

namespace ModifiedLambertProjectionArray

/-- The tuples of `arr` whose position is not listed in `idxs`, in their order in
`arr`: what the documentation of `eraseTuples` says is left in the array. -/
def keptTuples {β : Type} (idxs : List Nat) (arr : List β) : List β :=
  (arr.enum.filter (fun p => decide (p.1 ∉ idxs))).map Prod.snd

end ModifiedLambertProjectionArray

/-! The colour computation at the end of `CubicOps::generateIPFColor` -/

namespace CubicOps

variable {α : Type} [LinearOrderedField α] [FloorRing α]

/-- Source: `CubicOps::generateIPFColor`, from `double etaMin = 0.0;` to
`_rgb[2] *= chi / chiMax;`: the three channel values before the square root, as
a function of the `chi` and `eta` the loop over the symmetry operators left. -/
def ipfChannels (m : IPFMath α) (chi eta : α) : α × α × α :=
  let etaMin : α := 0
  let etaMax : α := 45
  let etaDeg := eta * m.k_180OverPiD
  let chiMax := chiMax m eta
  let rgb0 := 1 - chi / chiMax
  let rgb2 := |etaDeg - etaMin| / (etaMax - etaMin)
  let rgb1 := 1 - rgb2
  let rgb1 := rgb1 * (chi / chiMax)
  let rgb2 := rgb2 * (chi / chiMax)
  (rgb0, rgb1, rgb2)

/-- Source: `CubicOps::generateIPFColor`, from `_rgb[0] = std::sqrt(_rgb[0]);` to the
three `static_cast<int32_t>(_rgb[i] * 255)` handed to `dRgb`: square root,
division by the largest of the three, scaling and cast. -/
def ipfScaled (m : IPFMath α) (rgb : α × α × α) : Int × Int × Int :=
  let rgb0 := m.sqrt rgb.1
  let rgb1 := m.sqrt rgb.2.1
  let rgb2 := m.sqrt rgb.2.2
  let max := rgb0
  let max := if rgb1 > max then rgb1 else max
  let max := if rgb2 > max then rgb2 else max
  let rgb0 := rgb0 / max
  let rgb1 := rgb1 / max
  let rgb2 := rgb2 / max
  (truncToInt (rgb0 * 255), truncToInt (rgb1 * 255), truncToInt (rgb2 * 255))

end CubicOps

/-! The inverse projections of the rasters -/

namespace ModifiedLambertProjection

variable {α : Type} [LinearOrderedField α]

/-- Source: `ModifiedLambertProjection::createStereographicProjection(dim, stereoIntensity)`:
the centre `(xtmp, ytmp)` of the pixel `(x, y)`. `xpoints / 2` is the integer
division of C. -/
def stereographicPixelCentre (dim : Int) (x y : Int) : α × α :=
  let xpoints := dim
  let ypoints := dim
  let xpointshalf := Int.tdiv xpoints 2
  let ypointshalf := Int.tdiv ypoints 2
  let xres : α := 2 / (xpoints : α)
  let yres : α := 2 / (ypoints : α)
  let xtmp : α := ((x - xpointshalf : Int) : α) * xres + xres * (1 / 2)
  let ytmp : α := ((y - ypointshalf : Int) : α) * yres + yres * (1 / 2)
  (xtmp, ytmp)

/-- Source: `ModifiedLambertProjection::createStereographicProjection(dim, stereoIntensity)`,
body of the loop at the pixel `(x, y)`: the point `xyz` handed to
`calcInterpolatedValue`, `none` when the pixel centre is outside the unit disk
and the pixel is left at zero. -/
def createStereographicProjectionPoint (dim : Int) (x y : Int) : Option (α × α × α) :=
  let xtmp : α := (stereographicPixelCentre dim x y).1
  let ytmp : α := (stereographicPixelCentre dim x y).2
  if xtmp * xtmp + ytmp * ytmp ≤ 1 then
    let xyz2 := -((xtmp * xtmp + ytmp * ytmp) - 1) / ((xtmp * xtmp + ytmp * ytmp) + 1)
    let xyz0 := xtmp * (1 + xyz2)
    let xyz1 := ytmp * (1 + xyz2)
    some (xyz0, xyz1, xyz2)
  else none

/-- Source: `ModifiedLambertProjection::createCircularProjection(dim)`: the centre
`(xtmp, ytmp)` of the pixel `(x, y)`; `unitRadius = std::sqrt(2.0f)`. -/
def circularPixelCentre (sqrt : α → α) (dim : Int) (x y : Int) : α × α :=
  let xpoints := dim
  let ypoints := dim
  let xpointshalf := Int.tdiv xpoints 2
  let ypointshalf := Int.tdiv ypoints 2
  let unitRadius : α := sqrt 2
  let span : α := unitRadius - (-unitRadius)
  let xres : α := span / (xpoints : α)
  let yres : α := span / (ypoints : α)
  let xtmp : α := ((x - xpointshalf : Int) : α) * xres + xres * (1 / 2)
  let ytmp : α := ((y - ypointshalf : Int) : α) * yres + yres * (1 / 2)
  (xtmp, ytmp)

/-- Source: `ModifiedLambertProjection::createCircularProjection(dim)`, body of the loop
at the pixel `(x, y)`: the point `xyz` handed to `calcInterpolatedValue`, `none`
when the pixel centre is outside the disk of radius `unitRadius`. -/
def createCircularProjectionPoint (sqrt : α → α) (dim : Int) (x y : Int) : Option (α × α × α) :=
  let unitRadius : α := sqrt 2
  let xtmp : α := (circularPixelCentre sqrt dim x y).1
  let ytmp : α := (circularPixelCentre sqrt dim x y).2
  if xtmp * xtmp + ytmp * ytmp ≤ unitRadius * unitRadius then
    let q := xtmp * xtmp + ytmp * ytmp
    let t := sqrt (1 - q / 4)
    some (xtmp * t, ytmp * t, q / 2 - 1)
  else none

end ModifiedLambertProjection

/-! Bin coordinates for an `int` argument -/

namespace LaueOps

/-- Source: the three assignments to `phi[0..2]` in `determineEulerAngles` and
`determineRodriguesVector` of each class, for the argument `int choose`. The bin
counts are `size_t`, so `choose` is converted to `size_t` (modulo `2^64`) before
`%` and `/`, and each result is cast to `int32_t`. -/
def binCoordinatesOfInt (cls : LaueClass) (choose : Int) : Int × Int × Int :=
  let chooseU : Nat := (choose % 2 ^ 64).toNat
  let phi := binCoordinates cls chooseU
  (ModifiedLambertProjection.wrapInt32 phi.1, ModifiedLambertProjection.wrapInt32 phi.2.1,
    ModifiedLambertProjection.wrapInt32 phi.2.2)

end LaueOps

/-! The slip transmission metric `getF1` of the cubic class -/

section SlipMetrics

variable {α : Type} [LinearOrderedField α]

/-- Source: `CubicHigh::SlipDirections`. -/
def CubicHigh.SlipDirections : List (Fin 3 → α) :=
  [ ![0, 1, -1], ![1, 0, -1], ![1, -1, 0], ![1, -1, 0], ![1, 0, 1], ![0, 1, 1],
    ![1, 1, 0], ![0, 1, 1], ![1, 0, -1], ![1, 1, 0], ![1, 0, 1], ![0, 1, -1] ]

/-- Source: `CubicHigh::SlipPlanes`. -/
def CubicHigh.SlipPlanes : List (Fin 3 → α) :=
  [ ![1, 1, 1], ![1, 1, 1], ![1, 1, 1], ![1, 1, -1], ![1, 1, -1], ![1, 1, -1],
    ![1, -1, 1], ![1, -1, 1], ![1, -1, 1], ![-1, 1, 1], ![-1, 1, 1], ![-1, 1, 1] ]

/-- Modelled from the spec: `EbsdLib::GeometryMath::CosThetaBetweenVectors(a, b)`
(`GeometryMath.h`) is not among the sources. It is the cosine of the angle
between the two vectors, their scalar product divided by the product of their
lengths, and 1 when one of the lengths is zero. -/
def CosThetaBetweenVectors (sqrt : α → α) (a b : Fin 3 → α) : α :=
  let norm1 := sqrt (a 0 * a 0 + a 1 * a 1 + a 2 * a 2)
  let norm2 := sqrt (b 0 * b 0 + b 1 * b 1 + b 2 * b 2)
  if norm1 = 0 ∨ norm2 = 0 then 1
  else (a 0 * b 0 + a 1 * b 1 + a 2 * b 2) / (norm1 * norm2)

/-- Modelled from the spec: `EbsdMatrixMath::Normalize3x1(g)` (`EbsdMatrixMath.h`) is
not among the sources; the vector is divided by its Euclidean length, in place. -/
def Normalize3x1 (sqrt : α → α) (g : Fin 3 → α) : Fin 3 → α :=
  let denom := sqrt (g 0 * g 0 + g 1 * g 1 + g 2 * g 2)
  ![g 0 / denom, g 1 / denom, g 2 / denom]

namespace CubicOps

/-- Source: `CubicOps::getF1`, the inner loop over `j`: the value of
`totalDirectionMisalignment` after it, starting from 0. Both arguments of
`CosThetaBetweenVectors` are `uvw2`; `hkl2` is computed and not used. -/
def getF1TotalDirectionMisalignment (sqrt : α → α) (g2 : Matrix (Fin 3) (Fin 3) α) : α :=
  (List.range 12).foldl
    (fun totalDirectionMisalignment j =>
      let slipDirection : Fin 3 → α := (CubicHigh.SlipDirections : List (Fin 3 → α)).getD j 0
      let slipPlane : Fin 3 → α := (CubicHigh.SlipPlanes : List (Fin 3 → α)).getD j 0
      let hkl2 := g2.mulVec slipPlane
      let uvw2 := g2.mulVec slipDirection
      let _hkl2 := normalize sqrt hkl2
      let uvw2 := normalize sqrt uvw2
      let directionMisalignment := |CosThetaBetweenVectors sqrt uvw2 uvw2|
      totalDirectionMisalignment + directionMisalignment)
    0

/-- Source: `CubicOps::getF1`, body of the outer loop at `i`; the state is
`(maxSchmidFactor, maxF1, F1)`. -/
def getF1Step (sqrt : α → α) (g1 g2 : Matrix (Fin 3) (Fin 3) α) (LD : Fin 3 → α) (maxSF : Bool)
    (st : α × α × α) (i : Nat) : α × α × α :=
  let maxSchmidFactor := st.1
  let maxF1 := st.2.1
  let F1 := st.2.2
  let slipDirection : Fin 3 → α := (CubicHigh.SlipDirections : List (Fin 3 → α)).getD i 0
  let slipPlane : Fin 3 → α := (CubicHigh.SlipPlanes : List (Fin 3 → α)).getD i 0
  let hkl1 := g1.mulVec slipPlane
  let uvw1 := g1.mulVec slipDirection
  let hkl1 := normalize sqrt hkl1
  let uvw1 := normalize sqrt uvw1
  let directionComponent1 := |CosThetaBetweenVectors sqrt LD uvw1|
  let planeComponent1 := |CosThetaBetweenVectors sqrt LD hkl1|
  let schmidFactor1 := directionComponent1 * planeComponent1
  if schmidFactor1 > maxSchmidFactor ∨ !maxSF then
    let maxSchmidFactor := if maxSF then schmidFactor1 else maxSchmidFactor
    let totalDirectionMisalignment := getF1TotalDirectionMisalignment sqrt g2
    let F1 := schmidFactor1 * directionComponent1 * totalDirectionMisalignment
    if !maxSF then
      if F1 < maxF1 then (maxSchmidFactor, maxF1, maxF1) else (maxSchmidFactor, F1, F1)
    else (maxSchmidFactor, maxF1, F1)
  else (maxSchmidFactor, maxF1, F1)

/-- Source: `CubicOps::getF1(q1, q2, LD, maxSF)`. -/
def getF1 (sqrt : α → α) (q1 q2 : Quat α) (LD : Fin 3 → α) (maxSF : Bool) : α :=
  let g1 := (qu2om q1).transpose
  let g2 := (qu2om q2).transpose
  let LD := Normalize3x1 sqrt LD
  ((List.range 12).foldl (getF1Step sqrt g1 g2 LD maxSF) (0, 0, 0)).2.2

end CubicOps

end SlipMetrics

/-! Sampling a bin and binning the sample -/

namespace LaueOps

variable {α : Type} [LinearOrderedField α] [FloorRing α]

/-- Modelled from the spec: `LaueOps::_calcODFBin(dim, bins, step, ho)`, whose body
(`LaueOps.cpp`) is not among the sources. §4.4: each of the three homochoric
axes is binned linearly on the grid, `int((ho[i] + dim[i]) / step[i])`, the bin
is kept inside the grid (§5: bin indices lie in `[0, size)`), and the result is
the flattened index `x + y * nx + z * nx * ny`. -/
def _calcODFBin (dim bins step ho : α × α × α) : Int :=
  let g1euler1bin := truncToInt ((ho.1 + dim.1) / step.1)
  let g1euler2bin := truncToInt ((ho.2.1 + dim.2.1) / step.2.1)
  let g1euler3bin := truncToInt ((ho.2.2 + dim.2.2) / step.2.2)
  let g1euler1bin := if (g1euler1bin : α) ≥ bins.1 then truncToInt (bins.1 - 1) else g1euler1bin
  let g1euler2bin := if (g1euler2bin : α) ≥ bins.2.1 then truncToInt (bins.2.1 - 1) else g1euler2bin
  let g1euler3bin := if (g1euler3bin : α) ≥ bins.2.2 then truncToInt (bins.2.2 - 1) else g1euler3bin
  let g1euler1bin := if g1euler1bin < 0 then 0 else g1euler1bin
  let g1euler2bin := if g1euler2bin < 0 then 0 else g1euler2bin
  let g1euler3bin := if g1euler3bin < 0 then 0 else g1euler3bin
  truncToInt ((g1euler3bin : α) * bins.1 * bins.2.1 + (g1euler2bin : α) * bins.1 +
    (g1euler1bin : α))

end LaueOps

namespace CubicOps

variable {α : Type} [LinearOrderedField α]

/-- Source: `CubicOps::determineRodriguesVector(random, choose)`; the array
`CubicHigh::OdfDimInitValue`, computed with `std::pow` at start-up, is an
argument. -/
def determineRodriguesVector (ext : External α) (OdfDimInitValue : α × α × α)
    (random : α × α × α) (choose : Nat) : Rodrigues α :=
  let init := OdfDimInitValue
  let step := LaueOps.OdfDimStepValue LaueClass.Cubic OdfDimInitValue
  let phi := LaueOps.binCoordinates LaueClass.Cubic choose
  let h := ext._calcDetermineHomochoricValues random init step phi
  let ro := ext.ho2ro h
  let ro := getMDFFZRod ext ro
  ro

/-- Source: `CubicOps::getOdfBin(rod)`. -/
def getOdfBin (ext : External α) (OdfDimInitValue : α × α × α) (rod : Rodrigues α) : Int :=
  let ho := ext.ro2ho rod
  let dim := OdfDimInitValue
  let step := LaueOps.OdfDimStepValue LaueClass.Cubic OdfDimInitValue
  let bins : α × α × α :=
    (((LaueOps.getOdfNumBins LaueClass.Cubic).1 : α),
     ((LaueOps.getOdfNumBins LaueClass.Cubic).2.1 : α),
     ((LaueOps.getOdfNumBins LaueClass.Cubic).2.2 : α))
  ext._calcODFBin dim bins step ho

end CubicOps

namespace HexagonalOps

variable {α : Type} [LinearOrderedField α] [FloorRing α]

/-- Source: `HexagonalOps::determineRodriguesVector(random, choose)`; the array
`HexagonalHigh::OdfDimInitValue` is an argument. -/
def determineRodriguesVector (ext : External α) (atan2 : α → α → α) (cos sin sqrt : α → α)
    (k_1OverPiD k_PiOver180D : α) (OdfDimInitValue : α × α × α)
    (random : α × α × α) (choose : Nat) : Rodrigues α :=
  let init := OdfDimInitValue
  let step := LaueOps.OdfDimStepValue LaueClass.Hexagonal OdfDimInitValue
  let phi := LaueOps.binCoordinates LaueClass.Hexagonal choose
  let h := ext._calcDetermineHomochoricValues random init step phi
  let ro := ext.ho2ro h
  let ro := getMDFFZRod ext atan2 cos sin sqrt k_1OverPiD k_PiOver180D ro
  ro

/-- Source: `HexagonalOps::getOdfBin(rod)`. -/
def getOdfBin (ext : External α) (OdfDimInitValue : α × α × α) (rod : Rodrigues α) : Int :=
  let ho := ext.ro2ho rod
  let dim := OdfDimInitValue
  let step := LaueOps.OdfDimStepValue LaueClass.Hexagonal OdfDimInitValue
  let bins : α × α × α :=
    (((LaueOps.getOdfNumBins LaueClass.Hexagonal).1 : α),
     ((LaueOps.getOdfNumBins LaueClass.Hexagonal).2.1 : α),
     ((LaueOps.getOdfNumBins LaueClass.Hexagonal).2.2 : α))
  ext._calcODFBin dim bins step ho

end HexagonalOps

namespace TrigonalOps

variable {α : Type} [LinearOrderedField α] [FloorRing α]

/-- Source: `TrigonalOps::determineRodriguesVector(random, choose)`; the array
`TrigonalHigh::OdfDimInitValue` is an argument. -/
def determineRodriguesVector (ext : External α) (atan2 : α → α → α) (cos sin sqrt : α → α)
    (k_1OverPiD k_PiOver180D : α) (OdfDimInitValue : α × α × α)
    (random : α × α × α) (choose : Nat) : Rodrigues α :=
  let init := OdfDimInitValue
  let step := LaueOps.OdfDimStepValue LaueClass.Trigonal OdfDimInitValue
  let phi := LaueOps.binCoordinates LaueClass.Trigonal choose
  let h := ext._calcDetermineHomochoricValues random init step phi
  let ro := ext.ho2ro h
  let ro := getMDFFZRod ext atan2 cos sin sqrt k_1OverPiD k_PiOver180D ro
  ro

/-- Source: `TrigonalOps::getOdfBin(rod)`. -/
def getOdfBin (ext : External α) (OdfDimInitValue : α × α × α) (rod : Rodrigues α) : Int :=
  let ho := ext.ro2ho rod
  let dim := OdfDimInitValue
  let step := LaueOps.OdfDimStepValue LaueClass.Trigonal OdfDimInitValue
  let bins : α × α × α :=
    (((LaueOps.getOdfNumBins LaueClass.Trigonal).1 : α),
     ((LaueOps.getOdfNumBins LaueClass.Trigonal).2.1 : α),
     ((LaueOps.getOdfNumBins LaueClass.Trigonal).2.2 : α))
  ext._calcODFBin dim bins step ho

end TrigonalOps

/-! Binary floating-point arithmetic -/

namespace Ieee754

/-- The number of binary digits of `n`, for `n < 2 ^ fuel`. -/
def bitLength : Nat → Nat → Nat
  | 0, _ => 0
  | fuel + 1, n => if n = 0 then 0 else bitLength fuel (n / 2) + 1

/-- IEEE 754 rounding of the exact value `x` to the nearest number with `p`
significant bits and exponent at least `emin`, ties to even: the value of an
arithmetic operation whose exact result is `x`.  The exponent has no upper bound
here, an overflow to infinity is not part of this function.  Numerator and
denominator of `x` are taken below `2 ^ 4096`. -/
def roundToPrecision (p : Nat) (emin : Int) (x : ℚ) : ℚ :=
  if x = 0 then 0
  else
    let n : Nat := x.num.natAbs
    let d : Nat := x.den
    let e0 : Int := (bitLength 4096 n : Int) - (bitLength 4096 d : Int)
    let below : Bool :=
      if 0 ≤ e0 then decide (n < d * 2 ^ e0.toNat) else decide (n * 2 ^ (-e0).toNat < d)
    let e : Int := if below then e0 - 1 else e0
    let e : Int := if e < emin then emin else e
    let s : Int := e - ((p : Int) - 1)
    let num : Nat := if 0 ≤ s then n else n * 2 ^ (-s).toNat
    let den : Nat := if 0 ≤ s then d * 2 ^ s.toNat else d
    let q : Nat := num / den
    let r : Nat := num % den
    let q : Nat :=
      if 2 * r < den then q else if den < 2 * r then q + 1 else if q % 2 = 0 then q else q + 1
    let m : ℚ := if 0 ≤ s then (q : ℚ) * (2 ^ s.toNat : Nat) else (q : ℚ) / (2 ^ (-s).toNat : Nat)
    if x < 0 then -m else m

/-- The value of a `float` operation (binary32) with exact result `x`. -/
def round32 (x : ℚ) : ℚ := roundToPrecision 24 (-126) x

/-- The value of a `double` operation (binary64) with exact result `x`. -/
def round64 (x : ℚ) : ℚ := roundToPrecision 53 (-1022) x

/-- The largest `r + t` with `t < 2 ^ bits` a sum of powers of two and
`(r + t) ^ 2 ≤ n`: the integer square root of `n`, by bisection. -/
def isqrt : Nat → Nat → Nat → Nat
  | 0, _, r => r
  | bits + 1, n, r =>
    if (r + 2 ^ bits) * (r + 2 ^ bits) ≤ n then isqrt bits n (r + 2 ^ bits) else isqrt bits n r

/-- The correctly rounded square root (`std::sqrt`): the number with `p`
significant bits nearest to the square root of `x`.  With `k` large enough for
the integer root `s` of `x * 4 ^ k` to have more than `p + 1` digits, the root
lies in `[s, s + 1) / 2 ^ k` and is rounded like `s / 2 ^ k` when `x * 4 ^ k` is
the square of `s` and like `(s + 1/2) / 2 ^ k` otherwise. -/
def sqrtToPrecision (p : Nat) (emin : Int) (x : ℚ) : ℚ :=
  if x ≤ 0 then 0
  else
    let n : Nat := x.num.natAbs
    let d : Nat := x.den
    let k : Nat := p + 2 + bitLength 4096 d
    let t : Nat := n * 4 ^ k / d
    let s : Nat := isqrt (bitLength 4096 t / 2 + 1) t 0
    let y : ℚ :=
      if s * s * d = n * 4 ^ k then (s : ℚ) / (2 ^ k : Nat)
      else ((2 * s + 1 : Nat) : ℚ) / (2 ^ (k + 1) : Nat)
    roundToPrecision p emin y

/-- Source: `std::sqrt` on a `float`. -/
def sqrt32 (x : ℚ) : ℚ := sqrtToPrecision 24 (-126) x

/-- Source: `std::sqrt` on a `double`. -/
def sqrt64 (x : ℚ) : ℚ := sqrtToPrecision 53 (-1022) x

/-- The constant `EbsdLib::Constants::k_PiF`: the `float` nearest to `π`. -/
def k_PiF : ℚ := 13176795 / 4194304

/-- The constant `EbsdLib::Constants::k_HalfOfSqrtPiD`: the `double` nearest to
`√π / 2`. -/
def k_HalfOfSqrtPiD : ℚ := 7982422502469483 / 9007199254740992

/-- The constant `EbsdLib::Constants::k_2OverSqrtPiD`: the `double` nearest to
`2 / √π`. -/
def k_2OverSqrtPiD : ℚ := 5081767996463981 / 4503599627370496

end Ieee754

/-! The modified Lambert projection in `float` arithmetic -/

namespace Ieee754.ModifiedLambertProjection

/-- Source: `ModifiedLambertProjection::initializeSquares(dims, sphereRadius)` with the
roundings of its `float` operations. -/
def initializeSquares (dims : Int) (sphereRadius : ℚ) : ModifiedLambertProjection ℚ :=
  let m_Dimension := dims
  let m_SphereRadius := sphereRadius
  let halfSphereArea :=
    round32 (round32 (round32 (round32 (4 * k_PiF) * sphereRadius) * sphereRadius) / 2)
  let squareEdge := sqrt32 halfSphereArea
  let m_StepSize := round32 (squareEdge / round32 (m_Dimension : ℚ))
  let m_MaxCoord := round32 (squareEdge / 2)
  let m_MinCoord := round32 (-squareEdge / 2)
  let m_HalfDimension := round32 (round32 (m_Dimension : ℚ) / 2)
  let m_HalfDimensionTimesStepSize := round32 (m_HalfDimension * m_StepSize)
  { m_Dimension := m_Dimension
    m_StepSize := m_StepSize
    m_SphereRadius := m_SphereRadius
    m_HalfDimension := m_HalfDimension
    m_HalfDimensionTimesStepSize := m_HalfDimensionTimesStepSize
    m_MaxCoord := m_MaxCoord
    m_MinCoord := m_MinCoord
    m_NorthSquare := List.replicate (m_Dimension.toNat * m_Dimension.toNat) 0
    m_SouthSquare := List.replicate (m_Dimension.toNat * m_Dimension.toNat) 0 }

/-- Source: `ModifiedLambertProjection::getSquareCoord(xyz, sqCoord)` with the roundings
of its operations: `xyz`, `adjust`, the members and `sqCoord` are `float`, the
product under the square root, the root and the products with the constants are
`double` (`2.0` and the constants are `double`), `std::atan` is called on a
`float` and is an argument.  `root` is the value of
`std::sqrt(2.0 * m_SphereRadius * (m_SphereRadius + (xyz[2] * adjust)))`, which
the source writes out four times. -/
def getSquareCoord (atan : ℚ → ℚ) (P : ModifiedLambertProjection ℚ) (xyz : ℚ × ℚ × ℚ) :
    Bool × (ℚ × ℚ) :=
  let nhCheck : Bool := decide (xyz.2.2 ≥ 0)
  let adjust : ℚ := if xyz.2.2 ≥ 0 then -1 else 1
  if xyz.1 = 0 ∧ xyz.2.1 = 0 then (nhCheck, (0, 0))
  else
    let root : ℚ :=
      sqrt64 (round64 (round64 (2 * P.m_SphereRadius) *
        round32 (P.m_SphereRadius + round32 (xyz.2.2 * adjust))))
    let sqCoord : ℚ × ℚ :=
      if |xyz.1| ≥ |xyz.2.1| then
        (round32 (round64 (round64 (round32 (xyz.1 / |xyz.1|) * root) * k_HalfOfSqrtPiD)),
          round32 (round64 (round64 (round32 (xyz.1 / |xyz.1|) * root) *
            round64 (k_2OverSqrtPiD * atan (round32 (xyz.2.1 / xyz.1))))))
      else
        (round32 (round64 (round64 (round32 (xyz.2.1 / |xyz.2.1|) * root) *
            round64 (k_2OverSqrtPiD * atan (round32 (xyz.1 / xyz.2.1))))),
          round32 (round64 (round64 (round32 (xyz.2.1 / |xyz.2.1|) * root) * k_HalfOfSqrtPiD)))
    let sqCoord0 :=
      if sqCoord.1 ≥ P.m_MaxCoord then round32 (P.m_MaxCoord - round32 (1 / 10000))
      else sqCoord.1
    let sqCoord1 :=
      if sqCoord.2 ≥ P.m_MaxCoord then round32 (P.m_MaxCoord - round32 (1 / 10000))
      else sqCoord.2
    (nhCheck, (sqCoord0, sqCoord1))

/-- The statements that `addInterpolatedValues` and `getInterpolatedValue` have in
common, from `float modX = ...` to `modY = fabs(modY);`, with the roundings of
the `float` operations (`modX -= 0.5` is a `double` subtraction stored in a
`float`): the four bins `(abin1, bbin1)`, ..., `(abin4, bbin4)` and the weights
`modX`, `modY`. -/
def interpolationBins (P : ModifiedLambertProjection ℚ) (sqCoord : ℚ × ℚ) :
    (Int × Int) × (Int × Int) × (Int × Int) × (Int × Int) × ℚ × ℚ :=
  let modX := round32 (round32 (sqCoord.1 + P.m_HalfDimensionTimesStepSize) / P.m_StepSize)
  let modY := round32 (round32 (sqCoord.2 + P.m_HalfDimensionTimesStepSize) / P.m_StepSize)
  let abin := truncToInt modX
  let bbin := truncToInt modY
  let modX := round32 (modX - round32 (abin : ℚ))
  let modY := round32 (modY - round32 (bbin : ℚ))
  let modX := round32 (round64 (modX - 0.5))
  let modY := round32 (round64 (modY - 0.5))
  let abinSign : Int := if modX = 0 then 1 else truncToInt (round32 (modX / |modX|))
  let bbinSign : Int := if modY = 0 then 1 else truncToInt (round32 (modY / |modY|))
  let abin1 := abin
  let bbin1 := bbin
  let abin2 := abin + abinSign
  let bbin2 := bbin
  let bin2 : Int × Int :=
    if abin2 < 0 ∨ abin2 > P.m_Dimension - 1 then
      (abin2 - abinSign * P.m_Dimension, P.m_Dimension - bbin2 - 1)
    else (abin2, bbin2)
  let abin3 := abin
  let bbin3 := bbin + bbinSign
  let bin3 : Int × Int :=
    if bbin3 < 0 ∨ bbin3 > P.m_Dimension - 1 then
      (P.m_Dimension - abin3 - 1, bbin3 - bbinSign * P.m_Dimension)
    else (abin3, bbin3)
  let abin4 := abin + abinSign
  let bbin4 := bbin + bbinSign
  let bin4 : Int × Int :=
    if (abin4 < 0 ∨ abin4 > P.m_Dimension - 1) ∧ (bbin4 ≥ 0 ∧ bbin4 ≤ P.m_Dimension - 1) then
      (abin4 - abinSign * P.m_Dimension, P.m_Dimension - bbin4 - 1)
    else if (abin4 ≥ 0 ∧ abin4 ≤ P.m_Dimension - 1) ∧
        (bbin4 < 0 ∨ bbin4 > P.m_Dimension - 1) then
      (P.m_Dimension - abin4 - 1, bbin4 - bbinSign * P.m_Dimension)
    else if (abin4 < 0 ∨ abin4 > P.m_Dimension - 1) ∧
        (bbin4 < 0 ∨ bbin4 > P.m_Dimension - 1) then
      (abin4 - abinSign * P.m_Dimension, bbin4 - bbinSign * P.m_Dimension)
    else (abin4, bbin4)
  let modX := |modX|
  let modY := |modY|
  ((abin1, bbin1), bin2, bin3, bin4, modX, modY)

/-- The read `array->getValue(index)` of a `DoubleArrayType`: the read of an index
outside the array has no defined result and is `none`. -/
def arrayGetValue (a : List ℚ) (index : Int) : Option ℚ :=
  if 0 ≤ index then a[index.toNat]? else none

/-- Source: `ModifiedLambertProjection::getInterpolatedValue(square, sqCoord)` with the
roundings of its `float` operations; the two branches of the source differ in
the square that is read.  The result is `none` when one of the four reads is
outside the square. -/
def getInterpolatedValue (P : ModifiedLambertProjection ℚ) (square : Square)
    (sqCoord : ℚ × ℚ) : Option ℚ :=
  let bins := interpolationBins P sqCoord
  let modX := bins.2.2.2.2.1
  let modY := bins.2.2.2.2.2
  let values : List ℚ :=
    match square with
    | Square.NorthSquare => P.m_NorthSquare
    | Square.SouthSquare => P.m_SouthSquare
  match arrayGetValue values (bins.1.1 + bins.1.2 * P.m_Dimension),
      arrayGetValue values (bins.2.1.1 + bins.2.1.2 * P.m_Dimension),
      arrayGetValue values (bins.2.2.1.1 + bins.2.2.1.2 * P.m_Dimension),
      arrayGetValue values (bins.2.2.2.1.1 + bins.2.2.2.1.2 * P.m_Dimension) with
  | some v1, some v2, some v3, some v4 =>
    let intensity1 := round32 v1
    let intensity2 := round32 v2
    let intensity3 := round32 v3
    let intensity4 := round32 v4
    some (round32 (round32 (round32
      (round32 (round32 (intensity1 * round32 (1 - modX)) * round32 (1 - modY)) +
        round32 (round32 (intensity2 * modX) * round32 (1 - modY))) +
      round32 (round32 (intensity3 * round32 (1 - modX)) * modY)) +
      round32 (round32 (intensity4 * modX) * modY)))
  | _, _, _, _ => none

/-- Source: `ModifiedLambertProjection::addInterpolatedValues(square, sqCoord, value)` with
the roundings of its operations (the four sums are `double` operations).  The
four values are read before any of them is stored; the result is `none` when one
of the four indices is outside the square. -/
def addInterpolatedValues (P : ModifiedLambertProjection ℚ) (square : Square)
    (sqCoord : ℚ × ℚ) (value : ℚ) : Option (ModifiedLambertProjection ℚ) :=
  let bins := interpolationBins P sqCoord
  let modX := bins.2.2.2.2.1
  let modY := bins.2.2.2.2.2
  let index1 := bins.1.2 * P.m_Dimension + bins.1.1
  let index2 := bins.2.1.2 * P.m_Dimension + bins.2.1.1
  let index3 := bins.2.2.1.2 * P.m_Dimension + bins.2.2.1.1
  let index4 := bins.2.2.2.1.2 * P.m_Dimension + bins.2.2.2.1.1
  let values : List ℚ :=
    match square with
    | Square.NorthSquare => P.m_NorthSquare
    | Square.SouthSquare => P.m_SouthSquare
  match arrayGetValue values index1, arrayGetValue values index2,
      arrayGetValue values index3, arrayGetValue values index4 with
  | some g1, some g2, some g3, some g4 =>
    let v1 := round64 (g1 + round64 (round64 (value * round64 (1 - modX)) * round64 (1 - modY)))
    let v2 := round64 (g2 + round64 (round64 (value * modX) * round64 (1 - modY)))
    let v3 := round64 (g3 + round64 (round64 (value * round64 (1 - modX)) * modY))
    let v4 := round64 (g4 + round64 (round64 (value * modX) * modY))
    let values := values.set index1.toNat v1
    let values := values.set index2.toNat v2
    let values := values.set index3.toNat v3
    let values := values.set index4.toNat v4
    match square with
    | Square.NorthSquare => some { P with m_NorthSquare := values }
    | Square.SouthSquare => some { P with m_SouthSquare := values }
  | _, _, _, _ => none

end Ieee754.ModifiedLambertProjection

/-! `double` values with infinities and NaN -/

namespace Ieee754

/-- A value of type `double`: a finite number, an infinity or a NaN.  The sign of
a zero is left out. -/
inductive Double where
  | finite (x : ℚ)
  | posInf
  | negInf
  | nan
deriving DecidableEq, Repr

namespace Double

/-- Source: `DBL_MAX`, the largest finite `double`. -/
def maxFinite : ℚ := (2 ^ 53 - 1) * 2 ^ 971

/-- The `double` that an operation with the exact finite result `x` returns: `x`
rounded to 53 significant bits, an infinity when the rounded value is beyond
`DBL_MAX`. -/
def ofExact (x : ℚ) : Double :=
  if round64 x > maxFinite then posInf
  else if round64 x < -maxFinite then negInf
  else finite (round64 x)

/-- Unary minus. -/
def neg : Double → Double
  | finite x => finite (-x)
  | posInf => negInf
  | negInf => posInf
  | nan => nan

/-- Addition: `∞ + (-∞)` is a NaN. -/
def add : Double → Double → Double
  | finite x, finite y => ofExact (x + y)
  | nan, _ => nan
  | _, nan => nan
  | posInf, negInf => nan
  | negInf, posInf => nan
  | posInf, _ => posInf
  | _, posInf => posInf
  | negInf, _ => negInf
  | _, negInf => negInf

/-- Subtraction. -/
def sub (a b : Double) : Double := add a (neg b)

/-- Multiplication: `0 * ∞` is a NaN. -/
def mul : Double → Double → Double
  | finite x, finite y => ofExact (x * y)
  | nan, _ => nan
  | _, nan => nan
  | finite x, posInf => if x = 0 then nan else if x > 0 then posInf else negInf
  | finite x, negInf => if x = 0 then nan else if x > 0 then negInf else posInf
  | posInf, finite y => if y = 0 then nan else if y > 0 then posInf else negInf
  | negInf, finite y => if y = 0 then nan else if y > 0 then negInf else posInf
  | posInf, posInf => posInf
  | negInf, negInf => posInf
  | posInf, negInf => negInf
  | negInf, posInf => negInf

/-- Division: `0 / 0` and `∞ / ∞` are NaN, a non-zero number over zero is an
infinity. -/
def div : Double → Double → Double
  | finite x, finite y =>
    if y = 0 then (if x = 0 then nan else if x > 0 then posInf else negInf)
    else ofExact (x / y)
  | nan, _ => nan
  | _, nan => nan
  | finite _, posInf => finite 0
  | finite _, negInf => finite 0
  | posInf, finite y => if y < 0 then negInf else posInf
  | negInf, finite y => if y < 0 then posInf else negInf
  | posInf, posInf => nan
  | negInf, negInf => nan
  | posInf, negInf => nan
  | negInf, posInf => nan

/-- Source: `std::fabs`. -/
def abs : Double → Double
  | finite x => finite |x|
  | posInf => posInf
  | negInf => posInf
  | nan => nan

/-- The comparison `a <= b`: false when an operand is a NaN. -/
def le : Double → Double → Bool
  | finite x, finite y => decide (x ≤ y)
  | nan, _ => false
  | _, nan => false
  | negInf, _ => true
  | _, posInf => true
  | posInf, _ => false
  | _, negInf => false

/-- The comparison `a < b`: false when an operand is a NaN. -/
def lt : Double → Double → Bool
  | finite x, finite y => decide (x < y)
  | nan, _ => false
  | _, nan => false
  | posInf, _ => false
  | _, negInf => false
  | negInf, _ => true
  | _, posInf => true

instance : Neg Double := ⟨neg⟩
instance : Add Double := ⟨add⟩
instance : Sub Double := ⟨sub⟩
instance : Mul Double := ⟨mul⟩
instance : Div Double := ⟨div⟩
instance : LE Double := ⟨fun a b => le a b = true⟩
instance : LT Double := ⟨fun a b => lt a b = true⟩
instance (a b : Double) : Decidable (a ≤ b) := inferInstanceAs (Decidable (le a b = true))
instance (a b : Double) : Decidable (a < b) := inferInstanceAs (Decidable (lt a b = true))

end Double

/-- The constant `EbsdLib::Constants::k_Sqrt2D`: the `double` nearest to `√2`. -/
def k_Sqrt2D : Double := Double.finite (6369051672525773 / 4503599627370496)

namespace Quat

/-- Modelled from the spec: the Hamilton product of `EbsdLib.Quat.mul`, every
product, sum and difference a `double` operation. -/
def mul (p q : Quat Double) : Quat Double :=
  { x := q.x * p.w + q.w * p.x + q.z * p.y - q.y * p.z
    y := q.y * p.w + q.w * p.y + q.x * p.z - q.z * p.x
    z := q.z * p.w + q.w * p.z + q.y * p.x - q.x * p.y
    w := q.w * p.w - q.x * p.x - q.y * p.y - q.z * p.z }

/-- Source: `elementWiseAbs()` on `double` components. -/
def elementWiseAbs (q : Quat Double) : Quat Double :=
  ⟨Double.abs q.x, Double.abs q.y, Double.abs q.z, Double.abs q.w⟩

end Quat

namespace CubicOps

/-- Lines 280-455 of `CubicOps::calculateMisorientationInternal` on `double`
values: the branches of `EbsdLib.CubicOps.sortedQuadruplet` with the
comparisons of `double`, which are false on a NaN. -/
def sortedQuadruplet (qc : Quat Double) : Quat Double :=
  if qc.x ≤ qc.y ∧ qc.x ≤ qc.z ∧ qc.x ≤ qc.w then
    if qc.y ≤ qc.z ∧ qc.y ≤ qc.w then
      if qc.z ≤ qc.w then ⟨qc.x, qc.y, qc.z, qc.w⟩ else ⟨qc.x, qc.y, qc.w, qc.z⟩
    else if qc.z ≤ qc.y ∧ qc.z ≤ qc.w then
      if qc.y ≤ qc.w then ⟨qc.x, qc.z, qc.y, qc.w⟩ else ⟨qc.x, qc.z, qc.w, qc.y⟩
    else
      if qc.y ≤ qc.z then ⟨qc.x, qc.w, qc.y, qc.z⟩ else ⟨qc.x, qc.w, qc.z, qc.y⟩
  else if qc.y ≤ qc.x ∧ qc.y ≤ qc.z ∧ qc.y ≤ qc.w then
    if qc.x ≤ qc.z ∧ qc.x ≤ qc.w then
      if qc.z ≤ qc.w then ⟨qc.y, qc.x, qc.z, qc.w⟩ else ⟨qc.y, qc.x, qc.w, qc.z⟩
    else if qc.z ≤ qc.x ∧ qc.z ≤ qc.w then
      if qc.x ≤ qc.w then ⟨qc.y, qc.z, qc.x, qc.w⟩ else ⟨qc.y, qc.z, qc.w, qc.x⟩
    else
      if qc.x ≤ qc.z then ⟨qc.y, qc.w, qc.x, qc.z⟩ else ⟨qc.y, qc.w, qc.z, qc.x⟩
  else if qc.z ≤ qc.x ∧ qc.z ≤ qc.y ∧ qc.z ≤ qc.w then
    if qc.x ≤ qc.y ∧ qc.x ≤ qc.w then
      if qc.y ≤ qc.w then ⟨qc.z, qc.x, qc.y, qc.w⟩ else ⟨qc.z, qc.x, qc.w, qc.y⟩
    else if qc.y ≤ qc.x ∧ qc.y ≤ qc.w then
      if qc.x ≤ qc.w then ⟨qc.z, qc.y, qc.x, qc.w⟩ else ⟨qc.z, qc.y, qc.w, qc.x⟩
    else
      if qc.x ≤ qc.y then ⟨qc.z, qc.w, qc.x, qc.y⟩ else ⟨qc.z, qc.w, qc.y, qc.x⟩
  else
    if qc.x ≤ qc.y ∧ qc.x ≤ qc.z then
      if qc.y ≤ qc.z then ⟨qc.w, qc.x, qc.y, qc.z⟩ else ⟨qc.w, qc.x, qc.z, qc.y⟩
    else if qc.y ≤ qc.x ∧ qc.y ≤ qc.z then
      if qc.x ≤ qc.z then ⟨qc.w, qc.y, qc.x, qc.z⟩ else ⟨qc.w, qc.y, qc.z, qc.x⟩
    else
      if qc.x ≤ qc.y then ⟨qc.w, qc.z, qc.x, qc.y⟩ else ⟨qc.w, qc.z, qc.y, qc.x⟩

/-- Lines 456-466 on `double` values: `wmin` after the two comparisons with the
other candidates, and `type`. -/
def selectCandidate (qco : Quat Double) : Double × Nat :=
  let s1 : Double × Nat := (qco.w, 1)
  let s2 : Double × Nat :=
    if (qco.z + qco.w) / k_Sqrt2D > s1.1 then ((qco.z + qco.w) / k_Sqrt2D, 2) else s1
  if (qco.x + qco.y + qco.z + qco.w) / Double.finite 2 > s2.1 then
    ((qco.x + qco.y + qco.z + qco.w) / Double.finite 2, 3)
  else s2

/-- Source: `CubicOps::calculateMisorientationInternal` on `double` values; `acos`, `sin`
and `sqrt` stand for the routines of the C library, `k_ACosNeg1D` and `k_ACos1D`
for the constants of `EbsdLibMath.h`. -/
def calculateMisorientationInternal (k_ACosNeg1D k_ACos1D : Double)
    (acos sin sqrt : Double → Double) (_quatsym : List (Quat Double))
    (q1 q2 : Quat Double) : AxisAngle Double :=
  let qc := Quat.elementWiseAbs (Quat.mul q1 q2.conjugate)
  let qco := sortedQuadruplet qc
  let sel := selectCandidate qco
  let type := sel.2
  let wmin : Double :=
    if sel.1 < Double.finite (-1) then k_ACosNeg1D
    else if sel.1 > Double.finite 1 then k_ACos1D
    else acos sel.1
  let sin_wmin_over_2 := sin wmin
  let n : Double × Double × Double :=
    if type = 1 then
      (qco.x / sin_wmin_over_2, qco.y / sin_wmin_over_2, qco.z / sin_wmin_over_2)
    else if type = 2 then
      ( ((qco.x - qco.y) / k_Sqrt2D) / sin_wmin_over_2,
        ((qco.x + qco.y) / k_Sqrt2D) / sin_wmin_over_2,
        ((qco.z - qco.w) / k_Sqrt2D) / sin_wmin_over_2 )
    else if type = 3 then
      ( ((qco.x - qco.y + qco.z - qco.w) / Double.finite 2) / sin_wmin_over_2,
        ((qco.x + qco.y - qco.z - qco.w) / Double.finite 2) / sin_wmin_over_2,
        ((-qco.x + qco.y + qco.z - qco.w) / Double.finite 2) / sin_wmin_over_2 )
    else (Double.finite 0, Double.finite 0, Double.finite 0)
  let denom := sqrt (n.1 * n.1 + n.2.1 * n.2.1 + n.2.2 * n.2.2)
  let m : Double × Double × Double := (n.1 / denom, n.2.1 / denom, n.2.2 / denom)
  let m1 : Double × Double × Double :=
    if denom = Double.finite 0 then (Double.finite 0, Double.finite 0, Double.finite 1) else m
  let m2 : Double × Double × Double :=
    if wmin = Double.finite 0 then (Double.finite 0, Double.finite 0, Double.finite 1) else m1
  ⟨m2.1, m2.2.1, m2.2.2, Double.finite 2 * wmin⟩

end CubicOps

end Ieee754

/-! The inverse-pole-figure search on `double` values -/

namespace Ieee754

/-- Source: `std::sqrt` on a `double`: correctly rounded, a NaN below zero. -/
def Double.sqrt : Double → Double
  | Double.finite x => if x < 0 then Double.nan else Double.finite (sqrt64 x)
  | Double.posInf => Double.posInf
  | Double.negInf => Double.nan
  | Double.nan => Double.nan

/-- The constant `EbsdLib::Constants::k_1OverRoot2D`: the `double` nearest to
`1 / √2`. -/
def k_1OverRoot2D : ℚ := 6369051672525773 / 9007199254740992

/-- The constant `EbsdLib::Constants::k_PiD`: the `double` nearest to `π`. -/
def k_PiD : Double := Double.finite (884279719003555 / 281474976710656)

/-- The constant `EbsdLib::Constants::k_180OverPiD`: the `double` nearest to
`180 / π`. -/
def k_180OverPiD : Double := Double.finite (1007958012753983 / 17592186044416)

/-- The constant `EbsdLib::Constants::k_PiOver180D`: the `double` nearest to
`π / 180`. -/
def k_PiOver180D : Double := Double.finite (5030569068109113 / 288230376151711744)

/-- Source: `CubicHigh::QuatSym` as `double` values: the entries `0`, `±1`, `±0.5` and
`±k_1OverRoot2D` of `EbsdLib.CubicHigh.QuatSym`. -/
def CubicHigh.QuatSym : List (Quat Double) :=
  (EbsdLib.CubicHigh.QuatSym k_1OverRoot2D).map
    (fun q => ⟨Double.finite q.x, Double.finite q.y, Double.finite q.z, Double.finite q.w⟩)

/-- Modelled from the spec: the rotation matrix of `EbsdLib.qu2om`, row by row,
every product, sum and difference a `double` operation. -/
def qu2om (q : Quat Double) :
    (Double × Double × Double) × (Double × Double × Double) × (Double × Double × Double) :=
  let qq := q.w * q.w - (q.x * q.x + q.y * q.y + q.z * q.z)
  ((qq + Double.finite 2 * q.x * q.x, Double.finite 2 * (q.x * q.y + q.w * q.z),
      Double.finite 2 * (q.x * q.z - q.w * q.y)),
    (Double.finite 2 * (q.y * q.x - q.w * q.z), qq + Double.finite 2 * q.y * q.y,
      Double.finite 2 * (q.y * q.z + q.w * q.x)),
    (Double.finite 2 * (q.z * q.x + q.w * q.y), Double.finite 2 * (q.z * q.y - q.w * q.x),
      qq + Double.finite 2 * q.z * q.z))

/-- Modelled from the spec: the product `g * refDirection` of a 3 × 3 matrix and
a vector, on `double` values. -/
def mulVec
    (g : (Double × Double × Double) × (Double × Double × Double) × (Double × Double × Double))
    (v : Double × Double × Double) : Double × Double × Double :=
  (g.1.1 * v.1 + g.1.2.1 * v.2.1 + g.1.2.2 * v.2.2,
    g.2.1.1 * v.1 + g.2.1.2.1 * v.2.1 + g.2.1.2.2 * v.2.2,
    g.2.2.1 * v.1 + g.2.2.2.1 * v.2.1 + g.2.2.2.2 * v.2.2)

/-- Modelled from the spec: `Matrix3X1D::normalize()` of `EbsdLib.normalize` on
`double` values. -/
def normalize (v : Double × Double × Double) : Double × Double × Double :=
  let denom := Double.sqrt (v.1 * v.1 + v.2.1 * v.2.1 + v.2.2 * v.2.2)
  (v.1 / denom, v.2.1 / denom, v.2.2 / denom)

/-- Modelled from the spec: `EbsdLibMath::bound(val, min, max)` of `EbsdLib.bound`
with the comparisons of `double`. -/
def bound (val min max : Double) : Double :=
  if val < min then min else if val > max then max else val

namespace CubicOps

/-- The computation of `chiMax` from `eta`, which `inUnitTriangleD` and
`generateIPFColor` both spell out, on `double` values; `tan` and `acos` stand
for the routines of the C library. -/
def chiMax (tan acos : Double → Double) (eta : Double) : Double :=
  let etaDeg := eta * k_180OverPiD
  let chiMax :=
    if etaDeg > Double.finite 45 then
      Double.sqrt (Double.finite 1 / (Double.finite 2 +
        tan (Double.finite (1 / 2) * k_PiD - eta) * tan (Double.finite (1 / 2) * k_PiD - eta)))
    else Double.sqrt (Double.finite 1 / (Double.finite 2 + tan eta * tan eta))
  let chiMax := bound chiMax (Double.finite (-1)) (Double.finite 1)
  acos chiMax

/-- The free function `inUnitTriangleD(eta, chi)` of `CubicOps.cpp` on `double`
values. -/
def inUnitTriangleD (tan acos : Double → Double) (eta chi : Double) : Bool :=
  let chiMax := chiMax tan acos eta
  !(decide (eta < Double.finite 0) || decide (eta > Double.finite 45 * k_PiOver180D) ||
    decide (chi < Double.finite 0) || decide (chi > chiMax))

/-- The first three statements of the body of the loop in
`CubicOps::generateIPFColor` on `double` values: the direction
`p = (g * refDirection).normalize()` for the operator `s`. -/
def ipfDirection (q1 : Quat Double) (refDirection : Double × Double × Double)
    (s : Quat Double) : Double × Double × Double :=
  let qu := Quat.mul s q1
  let g := qu2om qu
  normalize (mulVec g refDirection)

/-- The statement `if(getHasInversion() && p[2] < 0) { p = -p }` of the loop in
`CubicOps::generateIPFColor`. -/
def invertIntoUpperHemisphere (p : Double × Double × Double) : Double × Double × Double :=
  if EbsdLib.CubicOps.getHasInversion && decide (p.2.2 < Double.finite 0) then
    (-p.1, -p.2.1, -p.2.2)
  else p

/-- The test of the body of the loop in `CubicOps::generateIPFColor` on the
direction `p`: the inversion, `chi = std::acos(p[2])`, `eta = std::atan2(p[1], p[0])`
and the value of `inUnitTriangleD(eta, chi)`. -/
def ipfTest (acos tan : Double → Double) (atan2 : Double → Double → Double)
    (p : Double × Double × Double) : Bool :=
  inUnitTriangleD tan acos
    (atan2 (invertIntoUpperHemisphere p).2.1 (invertIntoUpperHemisphere p).1)
    (acos (invertIntoUpperHemisphere p).2.2)

/-- The loop over the symmetry operators in `CubicOps::generateIPFColor` on `double`
values: the values of `chi` and `eta` when the loop is left, and whether it was
left by `break` (`true`) or at its end (`false`); `acos`, `tan` and `atan2`
stand for the routines of the C library. -/
def ipfSearch (acos tan : Double → Double) (atan2 : Double → Double → Double)
    (q1 : Quat Double) (refDirection : Double × Double × Double) :
    List (Quat Double) → Double × Double → (Double × Double) × Bool
  | [], chiEta => (chiEta, false)
  | s :: rest, chiEta =>
    let p := ipfDirection q1 refDirection s
    if !EbsdLib.CubicOps.getHasInversion && decide (p.2.2 < Double.finite 0) then
      ipfSearch acos tan atan2 q1 refDirection rest chiEta
    else
      let p := invertIntoUpperHemisphere p
      let chi := acos p.2.2
      let eta := atan2 p.2.1 p.1
      if !inUnitTriangleD tan acos eta chi then
        ipfSearch acos tan atan2 q1 refDirection rest (chi, eta)
      else ((chi, eta), true)

end CubicOps

end Ieee754

/-! Values of the C library for the witness of the search -/

namespace Ieee754

/-- A routine with the values of `std::acos` (glibc, x86-64) at the four arguments
`0.6154574548966636`, `0.4923659639173309`, `0.6154574548966637` and
`0.5773502691896257`. -/
def acosTable (v : Double) : Double :=
  if v = Double.finite (86617936391719 / 140737488355328) then
    Double.finite (8177006514585381 / 9007199254740992)
  else if v = Double.finite (4434838343256013 / 9007199254740992) then
    Double.finite (1188939461095687 / 1125899906842624)
  else if v = Double.finite (5543547929070017 / 9007199254740992) then
    Double.finite (2044251628646345 / 2251799813685248)
  else Double.finite (8604727130812765 / 9007199254740992)

/-- A routine with the values of `std::tan` (glibc, x86-64) at the two arguments
`0.6747409422235526` and `0.7853981633974483`. -/
def tanTable (v : Double) : Double :=
  if v = Double.finite (3038763055969609 / 4503599627370496) then
    Double.finite (7205759403792793 / 9007199254740992)
  else Double.finite (9007199254740991 / 9007199254740992)

/-- A routine with the values of `std::atan2(y, x)` (glibc, x86-64) at
`(0.4923659639173309, 0.6154574548966636)`,
`(0.6154574548966636, 0.6154574548966636)` and
`(0.6154574548966636, 0.4923659639173309)`; for `y < 0` a value in `(-π, 0)` and
for `x < 0 ≤ y` a value in `(π/2, π]`, as `atan2` gives there. -/
def atan2Table (y x : Double) : Double :=
  if y < Double.finite 0 then Double.finite (-1)
  else if x < Double.finite 0 then Double.finite 2
  else if y = Double.finite (4434838343256013 / 9007199254740992) then
    Double.finite (3038763055969609 / 4503599627370496)
  else if x = Double.finite (86617936391719 / 140737488355328) then
    Double.finite (884279719003555 / 1125899906842624)
  else Double.finite (4035474696058831 / 4503599627370496)

end Ieee754

/-! Theorems: the cubic misorientation fast path -/

namespace CubicOps
variable {α : Type} [LinearOrderedField α]

theorem sortedQuadruplet_eq (qc : Quat α) :
    sortedQuadruplet qc =
      if qc.x ≤ qc.y ∧ qc.x ≤ qc.z ∧ qc.x ≤ qc.w then
        ⟨qc.x, (sort3 qc.y qc.z qc.w).1, (sort3 qc.y qc.z qc.w).2.1, (sort3 qc.y qc.z qc.w).2.2⟩
      else if qc.y ≤ qc.x ∧ qc.y ≤ qc.z ∧ qc.y ≤ qc.w then
        ⟨qc.y, (sort3 qc.x qc.z qc.w).1, (sort3 qc.x qc.z qc.w).2.1, (sort3 qc.x qc.z qc.w).2.2⟩
      else if qc.z ≤ qc.x ∧ qc.z ≤ qc.y ∧ qc.z ≤ qc.w then
        ⟨qc.z, (sort3 qc.x qc.y qc.w).1, (sort3 qc.x qc.y qc.w).2.1, (sort3 qc.x qc.y qc.w).2.2⟩
      else
        ⟨qc.w, (sort3 qc.x qc.y qc.z).1, (sort3 qc.x qc.y qc.z).2.1, (sort3 qc.x qc.y qc.z).2.2⟩ := by
  unfold sortedQuadruplet sort3
  split_ifs <;> rfl

theorem sort3_spec (a b c : α) :
    ((sort3 a b c).2.2 = a ∨ (sort3 a b c).2.2 = b ∨ (sort3 a b c).2.2 = c) ∧
    (a ≤ (sort3 a b c).2.2 ∧ b ≤ (sort3 a b c).2.2 ∧ c ≤ (sort3 a b c).2.2) ∧
    ((sort3 a b c).2.1 + (sort3 a b c).2.2 = a + b ∨
      (sort3 a b c).2.1 + (sort3 a b c).2.2 = a + c ∨
      (sort3 a b c).2.1 + (sort3 a b c).2.2 = b + c) ∧
    (a + b ≤ (sort3 a b c).2.1 + (sort3 a b c).2.2 ∧
      a + c ≤ (sort3 a b c).2.1 + (sort3 a b c).2.2 ∧
      b + c ≤ (sort3 a b c).2.1 + (sort3 a b c).2.2) ∧
    (sort3 a b c).1 + (sort3 a b c).2.1 + (sort3 a b c).2.2 = a + b + c := by
  unfold sort3
  split_ifs <;> simp only [not_and_or, not_le] at * <;>
    (try casesm* _ ∧ _) <;> (try casesm* _ ∨ _) <;>
    refine ⟨?_, ⟨?_, ?_, ?_⟩, ?_, ⟨?_, ?_, ?_⟩, ?_⟩ <;>
    first
      | linarith
      | simp [add_comm]


theorem sortedQuadruplet_spec (qc : Quat α) :
    ((sortedQuadruplet qc).w = qc.x ∨ (sortedQuadruplet qc).w = qc.y ∨
      (sortedQuadruplet qc).w = qc.z ∨ (sortedQuadruplet qc).w = qc.w) ∧
    (qc.x ≤ (sortedQuadruplet qc).w ∧ qc.y ≤ (sortedQuadruplet qc).w ∧
      qc.z ≤ (sortedQuadruplet qc).w ∧ qc.w ≤ (sortedQuadruplet qc).w) ∧
    ((sortedQuadruplet qc).z + (sortedQuadruplet qc).w = qc.x + qc.y ∨
      (sortedQuadruplet qc).z + (sortedQuadruplet qc).w = qc.x + qc.z ∨
      (sortedQuadruplet qc).z + (sortedQuadruplet qc).w = qc.x + qc.w ∨
      (sortedQuadruplet qc).z + (sortedQuadruplet qc).w = qc.y + qc.z ∨
      (sortedQuadruplet qc).z + (sortedQuadruplet qc).w = qc.y + qc.w ∨
      (sortedQuadruplet qc).z + (sortedQuadruplet qc).w = qc.z + qc.w) ∧
    (qc.x + qc.y ≤ (sortedQuadruplet qc).z + (sortedQuadruplet qc).w ∧
      qc.x + qc.z ≤ (sortedQuadruplet qc).z + (sortedQuadruplet qc).w ∧
      qc.x + qc.w ≤ (sortedQuadruplet qc).z + (sortedQuadruplet qc).w ∧
      qc.y + qc.z ≤ (sortedQuadruplet qc).z + (sortedQuadruplet qc).w ∧
      qc.y + qc.w ≤ (sortedQuadruplet qc).z + (sortedQuadruplet qc).w ∧
      qc.z + qc.w ≤ (sortedQuadruplet qc).z + (sortedQuadruplet qc).w) ∧
    (sortedQuadruplet qc).x + (sortedQuadruplet qc).y + (sortedQuadruplet qc).z +
      (sortedQuadruplet qc).w = qc.x + qc.y + qc.z + qc.w := by
  rw [sortedQuadruplet_eq]
  split_ifs with h1 h2 h3
  · obtain ⟨m, ⟨l1, l2, l3⟩, p, ⟨k1, k2, k3⟩, t⟩ := sort3_spec qc.y qc.z qc.w
    obtain ⟨a1, a2, a3⟩ := h1
    dsimp only
    refine ⟨by rcases m with h | h | h <;> simp [h], ⟨by linarith, l1, l2, l3⟩, by rcases p with h | h | h <;> simp [h],
      ⟨by linarith, by linarith, by linarith, k1, k2, k3⟩, by linarith⟩
  · obtain ⟨m, ⟨l1, l2, l3⟩, p, ⟨k1, k2, k3⟩, t⟩ := sort3_spec qc.x qc.z qc.w
    obtain ⟨a1, a2, a3⟩ := h2
    dsimp only
    refine ⟨by rcases m with h | h | h <;> simp [h], ⟨l1, by linarith, l2, l3⟩, by rcases p with h | h | h <;> simp [h],
      ⟨by linarith, k1, k2, by linarith, by linarith, k3⟩, by linarith⟩
  · obtain ⟨m, ⟨l1, l2, l3⟩, p, ⟨k1, k2, k3⟩, t⟩ := sort3_spec qc.x qc.y qc.w
    obtain ⟨a1, a2, a3⟩ := h3
    dsimp only
    refine ⟨by rcases m with h | h | h <;> simp [h], ⟨l1, l2, by linarith, l3⟩, by rcases p with h | h | h <;> simp [h],
      ⟨k1, by linarith, k2, by linarith, k3, by linarith⟩, by linarith⟩
  · obtain ⟨m, ⟨l1, l2, l3⟩, p, ⟨k1, k2, k3⟩, t⟩ := sort3_spec qc.x qc.y qc.z
    have a1 : qc.w ≤ qc.x := by
      simp only [not_and_or, not_le] at h1 h2 h3
      rcases h1 with h | h | h <;> rcases h2 with g | g | g <;>
        rcases h3 with f | f | f <;> linarith
    have a2 : qc.w ≤ qc.y := by
      simp only [not_and_or, not_le] at h1 h2 h3
      rcases h1 with h | h | h <;> rcases h2 with g | g | g <;>
        rcases h3 with f | f | f <;> linarith
    have a3 : qc.w ≤ qc.z := by
      simp only [not_and_or, not_le] at h1 h2 h3
      rcases h1 with h | h | h <;> rcases h2 with g | g | g <;>
        rcases h3 with f | f | f <;> linarith
    dsimp only
    refine ⟨by rcases m with h | h | h <;> simp [h], ⟨l1, l2, l3, by linarith⟩, by rcases p with h | h | h <;> simp [h],
      ⟨k1, k2, by linarith, k3, by linarith, by linarith⟩, by linarith⟩


theorem selectCandidate_spec (k : α) (q : Quat α) :
    ((selectCandidate k q).1 = q.w ∨ (selectCandidate k q).1 = (q.z + q.w) / k ∨
      (selectCandidate k q).1 = (q.x + q.y + q.z + q.w) / 2) ∧
    q.w ≤ (selectCandidate k q).1 ∧ (q.z + q.w) / k ≤ (selectCandidate k q).1 ∧
      (q.x + q.y + q.z + q.w) / 2 ≤ (selectCandidate k q).1 := by
  unfold selectCandidate
  dsimp only
  split_ifs with h1 h2 h2 <;> dsimp only at * <;> simp only [gt_iff_lt, not_lt] at * <;>
    refine ⟨by simp, ?_, ?_, ?_⟩ <;> linarith

theorem mul_w (p q : Quat α) :
    (p * q).w = q.w * p.w - q.x * p.x - q.y * p.y - q.z * p.z := rfl

end CubicOps

section RealArithmetic

open Real CubicOps

theorem arccos_le_arccos_of_le {x y : ℝ} (h : x ≤ y) : arccos y ≤ arccos x := by
  have := Real.monotone_arcsin h
  unfold Real.arccos
  linarith

theorem cubic_angle_eq (tbl : List (Quat ℝ)) (q1 q2 : Quat ℝ) :
    (calculateMisorientationInternal (√2) arccos sin sqrt tbl q1 q2).w =
      2 * arccos (selectCandidate (√2) (sortedQuadruplet (q1 * q2.conjugate).elementWiseAbs)).1 := by
  unfold calculateMisorientationInternal
  dsimp only
  split_ifs with h1 h2
  · rw [arccos_neg_one, arccos_of_le_neg_one h1.le]
  · rw [arccos_one, arccos_of_one_le h2.le]
  · rfl

theorem cubic_symW_le (qc : Quat ℝ) :
    ∀ s ∈ CubicHigh.QuatSym (1 / √2), |(s * qc).w| ≤
      (selectCandidate (√2) (sortedQuadruplet qc.elementWiseAbs)).1 := by
  obtain ⟨-, ⟨m1, m2, m3, m4⟩, -, ⟨p1, p2, p3, p4, p5, p6⟩, t⟩ :=
    sortedQuadruplet_spec qc.elementWiseAbs
  obtain ⟨-, b1, b2, b3⟩ := selectCandidate_spec (√2) (sortedQuadruplet qc.elementWiseAbs)
  set q := sortedQuadruplet qc.elementWiseAbs with hq
  simp only [show qc.elementWiseAbs.x = |qc.x| from rfl, show qc.elementWiseAbs.y = |qc.y| from rfl,
    show qc.elementWiseAbs.z = |qc.z| from rfl, show qc.elementWiseAbs.w = |qc.w| from rfl]
    at m1 m2 m3 m4 p1 p2 p3 p4 p5 p6 t
  set M := (selectCandidate (√2) q).1 with hM
  have hc : (0 : ℝ) < 1 / √2 := by positivity
  set c : ℝ := 1 / √2 with hcdef
  have hdiv : (q.z + q.w) / √2 = c * (q.z + q.w) := by rw [hcdef]; ring
  rw [hdiv] at b2
  have x1 := le_abs_self qc.x
  have x2 := neg_abs_le qc.x
  have y1 := le_abs_self qc.y
  have y2 := neg_abs_le qc.y
  have z1 := le_abs_self qc.z
  have z2 := neg_abs_le qc.z
  have w1 := le_abs_self qc.w
  have w2 := neg_abs_le qc.w
  have cx1 := mul_le_mul_of_nonneg_left x1 hc.le
  have cx2 := mul_le_mul_of_nonneg_left x2 hc.le
  have cy1 := mul_le_mul_of_nonneg_left y1 hc.le
  have cy2 := mul_le_mul_of_nonneg_left y2 hc.le
  have cz1 := mul_le_mul_of_nonneg_left z1 hc.le
  have cz2 := mul_le_mul_of_nonneg_left z2 hc.le
  have cw1 := mul_le_mul_of_nonneg_left w1 hc.le
  have cw2 := mul_le_mul_of_nonneg_left w2 hc.le
  have cp1 := mul_le_mul_of_nonneg_left p1 hc.le
  have cp2 := mul_le_mul_of_nonneg_left p2 hc.le
  have cp3 := mul_le_mul_of_nonneg_left p3 hc.le
  have cp4 := mul_le_mul_of_nonneg_left p4 hc.le
  have cp5 := mul_le_mul_of_nonneg_left p5 hc.le
  have cp6 := mul_le_mul_of_nonneg_left p6 hc.le
  intro s hs
  simp only [CubicHigh.QuatSym, List.mem_cons, List.mem_singleton, List.not_mem_nil, or_false] at hs
  rcases hs with rfl | rfl | rfl | rfl | rfl | rfl | rfl | rfl | rfl | rfl | rfl | rfl |
    rfl | rfl | rfl | rfl | rfl | rfl | rfl | rfl | rfl | rfl | rfl | rfl <;>
  · rw [mul_w, abs_le]
    dsimp only
    constructor <;> norm_num <;> linarith


theorem cubic_attain_aux (c : ℝ) (qc s : Quat ℝ) (t : ℝ) (hs : s ∈ CubicHigh.QuatSym c)
    (ht : 0 ≤ t) (h : (s * qc).w = t ∨ (s * qc).w = -t) :
    ∃ s ∈ CubicHigh.QuatSym c, |(s * qc).w| = t :=
  ⟨s, hs, by rcases h with h | h <;> rw [h] <;> simp [abs_of_nonneg ht]⟩

theorem cubic_attain_single (qc : Quat ℝ) :
    (∃ s ∈ CubicHigh.QuatSym (1 / √2), |(s * qc).w| = |qc.x|) ∧
    (∃ s ∈ CubicHigh.QuatSym (1 / √2), |(s * qc).w| = |qc.y|) ∧
    (∃ s ∈ CubicHigh.QuatSym (1 / √2), |(s * qc).w| = |qc.z|) ∧
    (∃ s ∈ CubicHigh.QuatSym (1 / √2), |(s * qc).w| = |qc.w|) := by
  refine ⟨⟨⟨1, 0, 0, 0⟩, by simp [CubicHigh.QuatSym], by simp [mul_w]⟩,
    ⟨⟨0, 1, 0, 0⟩, by simp [CubicHigh.QuatSym], by simp [mul_w]⟩,
    ⟨⟨0, 0, 1, 0⟩, by simp [CubicHigh.QuatSym], by simp [mul_w]⟩,
    ⟨⟨0, 0, 0, 1⟩, by simp [CubicHigh.QuatSym], by simp [mul_w]⟩⟩

theorem cubic_attain_xy (qc : Quat ℝ) :
    ∃ s ∈ CubicHigh.QuatSym (1 / √2), |(s * qc).w| = 1 / √2 * (|qc.x| + |qc.y|) := by
  have ht : 0 ≤ 1 / √2 * (|qc.x| + |qc.y|) := by positivity
  rcases le_total 0 qc.x with h1 | h1 <;> rcases le_total 0 qc.y with h2 | h2 <;>
    first
      | (refine cubic_attain_aux _ qc ⟨1 / √2, 1 / √2, 0, 0⟩ _ (by simp [CubicHigh.QuatSym]) ht (Or.inl ?_)
         simp only [mul_w, abs_of_nonneg, abs_of_nonpos, h1, h2]
         ring1)
      | (refine cubic_attain_aux _ qc ⟨1 / √2, 1 / √2, 0, 0⟩ _ (by simp [CubicHigh.QuatSym]) ht (Or.inr ?_)
         simp only [mul_w, abs_of_nonneg, abs_of_nonpos, h1, h2]
         ring1)
      | (refine cubic_attain_aux _ qc ⟨-(1 / √2), 1 / √2, 0, 0⟩ _ (by simp [CubicHigh.QuatSym]) ht (Or.inl ?_)
         simp only [mul_w, abs_of_nonneg, abs_of_nonpos, h1, h2]
         ring1)
      | (refine cubic_attain_aux _ qc ⟨-(1 / √2), 1 / √2, 0, 0⟩ _ (by simp [CubicHigh.QuatSym]) ht (Or.inr ?_)
         simp only [mul_w, abs_of_nonneg, abs_of_nonpos, h1, h2]
         ring1)

theorem cubic_attain_xz (qc : Quat ℝ) :
    ∃ s ∈ CubicHigh.QuatSym (1 / √2), |(s * qc).w| = 1 / √2 * (|qc.x| + |qc.z|) := by
  have ht : 0 ≤ 1 / √2 * (|qc.x| + |qc.z|) := by positivity
  rcases le_total 0 qc.x with h1 | h1 <;> rcases le_total 0 qc.z with h2 | h2 <;>
    first
      | (refine cubic_attain_aux _ qc ⟨1 / √2, 0, 1 / √2, 0⟩ _ (by simp [CubicHigh.QuatSym]) ht (Or.inl ?_)
         simp only [mul_w, abs_of_nonneg, abs_of_nonpos, h1, h2]
         ring1)
      | (refine cubic_attain_aux _ qc ⟨1 / √2, 0, 1 / √2, 0⟩ _ (by simp [CubicHigh.QuatSym]) ht (Or.inr ?_)
         simp only [mul_w, abs_of_nonneg, abs_of_nonpos, h1, h2]
         ring1)
      | (refine cubic_attain_aux _ qc ⟨-(1 / √2), 0, 1 / √2, 0⟩ _ (by simp [CubicHigh.QuatSym]) ht (Or.inl ?_)
         simp only [mul_w, abs_of_nonneg, abs_of_nonpos, h1, h2]
         ring1)
      | (refine cubic_attain_aux _ qc ⟨-(1 / √2), 0, 1 / √2, 0⟩ _ (by simp [CubicHigh.QuatSym]) ht (Or.inr ?_)
         simp only [mul_w, abs_of_nonneg, abs_of_nonpos, h1, h2]
         ring1)

theorem cubic_attain_xw (qc : Quat ℝ) :
    ∃ s ∈ CubicHigh.QuatSym (1 / √2), |(s * qc).w| = 1 / √2 * (|qc.x| + |qc.w|) := by
  have ht : 0 ≤ 1 / √2 * (|qc.x| + |qc.w|) := by positivity
  rcases le_total 0 qc.x with h1 | h1 <;> rcases le_total 0 qc.w with h2 | h2 <;>
    first
      | (refine cubic_attain_aux _ qc ⟨1 / √2, 0, 0, 1 / √2⟩ _ (by simp [CubicHigh.QuatSym]) ht (Or.inl ?_)
         simp only [mul_w, abs_of_nonneg, abs_of_nonpos, h1, h2]
         ring1)
      | (refine cubic_attain_aux _ qc ⟨1 / √2, 0, 0, 1 / √2⟩ _ (by simp [CubicHigh.QuatSym]) ht (Or.inr ?_)
         simp only [mul_w, abs_of_nonneg, abs_of_nonpos, h1, h2]
         ring1)
      | (refine cubic_attain_aux _ qc ⟨-(1 / √2), 0, 0, 1 / √2⟩ _ (by simp [CubicHigh.QuatSym]) ht (Or.inl ?_)
         simp only [mul_w, abs_of_nonneg, abs_of_nonpos, h1, h2]
         ring1)
      | (refine cubic_attain_aux _ qc ⟨-(1 / √2), 0, 0, 1 / √2⟩ _ (by simp [CubicHigh.QuatSym]) ht (Or.inr ?_)
         simp only [mul_w, abs_of_nonneg, abs_of_nonpos, h1, h2]
         ring1)

theorem cubic_attain_yz (qc : Quat ℝ) :
    ∃ s ∈ CubicHigh.QuatSym (1 / √2), |(s * qc).w| = 1 / √2 * (|qc.y| + |qc.z|) := by
  have ht : 0 ≤ 1 / √2 * (|qc.y| + |qc.z|) := by positivity
  rcases le_total 0 qc.y with h1 | h1 <;> rcases le_total 0 qc.z with h2 | h2 <;>
    first
      | (refine cubic_attain_aux _ qc ⟨0, 1 / √2, 1 / √2, 0⟩ _ (by simp [CubicHigh.QuatSym]) ht (Or.inl ?_)
         simp only [mul_w, abs_of_nonneg, abs_of_nonpos, h1, h2]
         ring1)
      | (refine cubic_attain_aux _ qc ⟨0, 1 / √2, 1 / √2, 0⟩ _ (by simp [CubicHigh.QuatSym]) ht (Or.inr ?_)
         simp only [mul_w, abs_of_nonneg, abs_of_nonpos, h1, h2]
         ring1)
      | (refine cubic_attain_aux _ qc ⟨0, -(1 / √2), 1 / √2, 0⟩ _ (by simp [CubicHigh.QuatSym]) ht (Or.inl ?_)
         simp only [mul_w, abs_of_nonneg, abs_of_nonpos, h1, h2]
         ring1)
      | (refine cubic_attain_aux _ qc ⟨0, -(1 / √2), 1 / √2, 0⟩ _ (by simp [CubicHigh.QuatSym]) ht (Or.inr ?_)
         simp only [mul_w, abs_of_nonneg, abs_of_nonpos, h1, h2]
         ring1)

theorem cubic_attain_yw (qc : Quat ℝ) :
    ∃ s ∈ CubicHigh.QuatSym (1 / √2), |(s * qc).w| = 1 / √2 * (|qc.y| + |qc.w|) := by
  have ht : 0 ≤ 1 / √2 * (|qc.y| + |qc.w|) := by positivity
  rcases le_total 0 qc.y with h1 | h1 <;> rcases le_total 0 qc.w with h2 | h2 <;>
    first
      | (refine cubic_attain_aux _ qc ⟨0, 1 / √2, 0, 1 / √2⟩ _ (by simp [CubicHigh.QuatSym]) ht (Or.inl ?_)
         simp only [mul_w, abs_of_nonneg, abs_of_nonpos, h1, h2]
         ring1)
      | (refine cubic_attain_aux _ qc ⟨0, 1 / √2, 0, 1 / √2⟩ _ (by simp [CubicHigh.QuatSym]) ht (Or.inr ?_)
         simp only [mul_w, abs_of_nonneg, abs_of_nonpos, h1, h2]
         ring1)
      | (refine cubic_attain_aux _ qc ⟨0, -(1 / √2), 0, 1 / √2⟩ _ (by simp [CubicHigh.QuatSym]) ht (Or.inl ?_)
         simp only [mul_w, abs_of_nonneg, abs_of_nonpos, h1, h2]
         ring1)
      | (refine cubic_attain_aux _ qc ⟨0, -(1 / √2), 0, 1 / √2⟩ _ (by simp [CubicHigh.QuatSym]) ht (Or.inr ?_)
         simp only [mul_w, abs_of_nonneg, abs_of_nonpos, h1, h2]
         ring1)

theorem cubic_attain_zw (qc : Quat ℝ) :
    ∃ s ∈ CubicHigh.QuatSym (1 / √2), |(s * qc).w| = 1 / √2 * (|qc.z| + |qc.w|) := by
  have ht : 0 ≤ 1 / √2 * (|qc.z| + |qc.w|) := by positivity
  rcases le_total 0 qc.z with h1 | h1 <;> rcases le_total 0 qc.w with h2 | h2 <;>
    first
      | (refine cubic_attain_aux _ qc ⟨0, 0, 1 / √2, 1 / √2⟩ _ (by simp [CubicHigh.QuatSym]) ht (Or.inl ?_)
         simp only [mul_w, abs_of_nonneg, abs_of_nonpos, h1, h2]
         ring1)
      | (refine cubic_attain_aux _ qc ⟨0, 0, 1 / √2, 1 / √2⟩ _ (by simp [CubicHigh.QuatSym]) ht (Or.inr ?_)
         simp only [mul_w, abs_of_nonneg, abs_of_nonpos, h1, h2]
         ring1)
      | (refine cubic_attain_aux _ qc ⟨0, 0, -(1 / √2), 1 / √2⟩ _ (by simp [CubicHigh.QuatSym]) ht (Or.inl ?_)
         simp only [mul_w, abs_of_nonneg, abs_of_nonpos, h1, h2]
         ring1)
      | (refine cubic_attain_aux _ qc ⟨0, 0, -(1 / √2), 1 / √2⟩ _ (by simp [CubicHigh.QuatSym]) ht (Or.inr ?_)
         simp only [mul_w, abs_of_nonneg, abs_of_nonpos, h1, h2]
         ring1)

theorem cubic_attain_sum (qc : Quat ℝ) :
    ∃ s ∈ CubicHigh.QuatSym (1 / √2),
      |(s * qc).w| = (|qc.x| + |qc.y| + |qc.z| + |qc.w|) / 2 := by
  have ht : 0 ≤ (|qc.x| + |qc.y| + |qc.z| + |qc.w|) / 2 := by positivity
  have m0 : (⟨0.5, 0.5, 0.5, 0.5⟩ : Quat ℝ) ∈ CubicHigh.QuatSym (1 / √2) := by simp [CubicHigh.QuatSym]
  have m1 : (⟨-0.5, -0.5, -0.5, 0.5⟩ : Quat ℝ) ∈ CubicHigh.QuatSym (1 / √2) := by simp [CubicHigh.QuatSym]
  have m2 : (⟨0.5, -0.5, 0.5, 0.5⟩ : Quat ℝ) ∈ CubicHigh.QuatSym (1 / √2) := by simp [CubicHigh.QuatSym]
  have m3 : (⟨-0.5, 0.5, -0.5, 0.5⟩ : Quat ℝ) ∈ CubicHigh.QuatSym (1 / √2) := by simp [CubicHigh.QuatSym]
  have m4 : (⟨-0.5, 0.5, 0.5, 0.5⟩ : Quat ℝ) ∈ CubicHigh.QuatSym (1 / √2) := by simp [CubicHigh.QuatSym]
  have m5 : (⟨0.5, -0.5, -0.5, 0.5⟩ : Quat ℝ) ∈ CubicHigh.QuatSym (1 / √2) := by simp [CubicHigh.QuatSym]
  have m6 : (⟨-0.5, -0.5, 0.5, 0.5⟩ : Quat ℝ) ∈ CubicHigh.QuatSym (1 / √2) := by simp [CubicHigh.QuatSym]
  have m7 : (⟨0.5, 0.5, -0.5, 0.5⟩ : Quat ℝ) ∈ CubicHigh.QuatSym (1 / √2) := by simp [CubicHigh.QuatSym]
  rcases le_total 0 qc.x with h1 | h1 <;> rcases le_total 0 qc.y with h2 | h2 <;>
    rcases le_total 0 qc.z with h3 | h3 <;> rcases le_total 0 qc.w with h4 | h4 <;>
    simp only [abs_of_nonneg, abs_of_nonpos, h1, h2, h3, h4] at ht ⊢ <;>
    first
      | exact cubic_attain_aux _ qc _ _ m0 ht (Or.inl (by rw [mul_w]; dsimp only; ring1))
      | exact cubic_attain_aux _ qc _ _ m0 ht (Or.inr (by rw [mul_w]; dsimp only; ring1))
      | exact cubic_attain_aux _ qc _ _ m1 ht (Or.inl (by rw [mul_w]; dsimp only; ring1))
      | exact cubic_attain_aux _ qc _ _ m1 ht (Or.inr (by rw [mul_w]; dsimp only; ring1))
      | exact cubic_attain_aux _ qc _ _ m2 ht (Or.inl (by rw [mul_w]; dsimp only; ring1))
      | exact cubic_attain_aux _ qc _ _ m2 ht (Or.inr (by rw [mul_w]; dsimp only; ring1))
      | exact cubic_attain_aux _ qc _ _ m3 ht (Or.inl (by rw [mul_w]; dsimp only; ring1))
      | exact cubic_attain_aux _ qc _ _ m3 ht (Or.inr (by rw [mul_w]; dsimp only; ring1))
      | exact cubic_attain_aux _ qc _ _ m4 ht (Or.inl (by rw [mul_w]; dsimp only; ring1))
      | exact cubic_attain_aux _ qc _ _ m4 ht (Or.inr (by rw [mul_w]; dsimp only; ring1))
      | exact cubic_attain_aux _ qc _ _ m5 ht (Or.inl (by rw [mul_w]; dsimp only; ring1))
      | exact cubic_attain_aux _ qc _ _ m5 ht (Or.inr (by rw [mul_w]; dsimp only; ring1))
      | exact cubic_attain_aux _ qc _ _ m6 ht (Or.inl (by rw [mul_w]; dsimp only; ring1))
      | exact cubic_attain_aux _ qc _ _ m6 ht (Or.inr (by rw [mul_w]; dsimp only; ring1))
      | exact cubic_attain_aux _ qc _ _ m7 ht (Or.inl (by rw [mul_w]; dsimp only; ring1))
      | exact cubic_attain_aux _ qc _ _ m7 ht (Or.inr (by rw [mul_w]; dsimp only; ring1))

theorem cubic_symW_attained (qc : Quat ℝ) :
    ∃ s ∈ CubicHigh.QuatSym (1 / √2), |(s * qc).w| =
      (selectCandidate (√2) (sortedQuadruplet qc.elementWiseAbs)).1 := by
  obtain ⟨m, -, p, -, t⟩ := sortedQuadruplet_spec qc.elementWiseAbs
  obtain ⟨b, -⟩ := selectCandidate_spec (√2) (sortedQuadruplet qc.elementWiseAbs)
  set q := sortedQuadruplet qc.elementWiseAbs with hq
  simp only [show qc.elementWiseAbs.x = |qc.x| from rfl, show qc.elementWiseAbs.y = |qc.y| from rfl,
    show qc.elementWiseAbs.z = |qc.z| from rfl, show qc.elementWiseAbs.w = |qc.w| from rfl]
    at m p t
  have hdiv : (q.z + q.w) / √2 = 1 / √2 * (q.z + q.w) := by ring
  rcases b with b | b | b
  · rw [b]
    obtain ⟨e1, e2, e3, e4⟩ := cubic_attain_single qc
    rcases m with m | m | m | m <;> rw [m] <;> assumption
  · rw [b, hdiv]
    rcases p with p | p | p | p | p | p <;> rw [p]
    · exact cubic_attain_xy qc
    · exact cubic_attain_xz qc
    · exact cubic_attain_xw qc
    · exact cubic_attain_yz qc
    · exact cubic_attain_yw qc
    · exact cubic_attain_zw qc
  · rw [b, t]
    exact cubic_attain_sum qc


theorem cubic_result_of_one_le (tbl : List (Quat ℝ)) (q1 q2 : Quat ℝ)
    (h : 1 ≤ (selectCandidate (√2) (sortedQuadruplet (q1 * q2.conjugate).elementWiseAbs)).1) :
    calculateMisorientationInternal (√2) arccos sin sqrt tbl q1 q2 = ⟨0, 0, 1, 0⟩ := by
  have hw : (if (selectCandidate (√2) (sortedQuadruplet (q1 * q2.conjugate).elementWiseAbs)).1 < -1
      then arccos (-1)
      else if (selectCandidate (√2) (sortedQuadruplet (q1 * q2.conjugate).elementWiseAbs)).1 > 1
        then arccos 1
        else arccos (selectCandidate (√2) (sortedQuadruplet (q1 * q2.conjugate).elementWiseAbs)).1)
      = 0 := by
    split_ifs with h1 h2
    · linarith
    · exact arccos_one
    · exact arccos_of_one_le h
  unfold calculateMisorientationInternal
  simp only [hw, if_true, mul_zero]

theorem cubic_normSq_eq_one : ∀ s ∈ CubicHigh.QuatSym (1 / √2), s.normSq = 1 := by
  have h2 : (1 / √2) * (1 / √2) = (1 / 2 : ℝ) := by
    rw [div_mul_div_comm, Real.mul_self_sqrt (by norm_num)]
    norm_num
  intro s hs
  simp only [CubicHigh.QuatSym, List.mem_cons, List.mem_singleton, List.not_mem_nil, or_false] at hs
  rcases hs with rfl | rfl | rfl | rfl | rfl | rfl | rfl | rfl | rfl | rfl | rfl | rfl |
    rfl | rfl | rfl | rfl | rfl | rfl | rfl | rfl | rfl | rfl | rfl | rfl <;>
  · simp only [Quat.normSq, neg_mul_neg, h2]
    norm_num

theorem mul_conj_mul_w (s q : Quat ℝ) :
    (s * (q * (s * q).conjugate)).w = s.normSq * q.normSq := by
  simp only [mul_w, Quat.conjugate, Quat.normSq, show ∀ p r : Quat ℝ, (p * r).x =
    r.x * p.w + r.w * p.x + r.z * p.y - r.y * p.z from fun _ _ => rfl,
    show ∀ p r : Quat ℝ, (p * r).y = r.y * p.w + r.w * p.y + r.x * p.z - r.z * p.x
      from fun _ _ => rfl,
    show ∀ p r : Quat ℝ, (p * r).z = r.z * p.w + r.w * p.z + r.y * p.x - r.x * p.y
      from fun _ _ => rfl]
  ring


/-- C1. In exact real arithmetic, for unit quaternions `q1` and `q2` the angle
returned by `CubicOps::calculateMisorientation(q1, q2)` is the minimum, over the
24 operators `s` of `CubicHigh::QuatSym`, of the rotation angle
`2 * acos |w|` of `s * (q1 * conj q2)`: it is the angle of one operator and it
is at most the angle of every operator. -/
theorem cubic_fast_path_angle_is_min_over_QuatSym (q1 q2 : Quat ℝ)
    (_h1 : q1.normSq = 1) (_h2 : q2.normSq = 1) :
    (∃ s ∈ CubicHigh.QuatSym (1 / √2),
      (calculateMisorientation (√2) (1 / √2) arccos sin sqrt q1 q2).w =
        2 * arccos |(s * (q1 * q2.conjugate)).w|) ∧
    ∀ s ∈ CubicHigh.QuatSym (1 / √2),
      (calculateMisorientation (√2) (1 / √2) arccos sin sqrt q1 q2).w ≤
        2 * arccos |(s * (q1 * q2.conjugate)).w| := by
  unfold calculateMisorientation
  rw [cubic_angle_eq]
  constructor
  · obtain ⟨s, hs, h⟩ := cubic_symW_attained (q1 * q2.conjugate)
    exact ⟨s, hs, by rw [h]⟩
  · intro s hs
    have := arccos_le_arccos_of_le (cubic_symW_le (q1 * q2.conjugate) s hs)
    linarith

theorem cubic_fast_path_angle_is_min_over_QuatSym_witness :
    (⟨0, 0, 0, 1⟩ : Quat ℝ).normSq = 1 ∧
    ((∃ s ∈ CubicHigh.QuatSym (1 / √2),
      (calculateMisorientation (√2) (1 / √2) arccos sin sqrt ⟨0, 0, 0, 1⟩ ⟨0, 0, 0, 1⟩).w =
        2 * arccos |(s * ((⟨0, 0, 0, 1⟩ : Quat ℝ) * (⟨0, 0, 0, 1⟩ : Quat ℝ).conjugate)).w|) ∧
    ∀ s ∈ CubicHigh.QuatSym (1 / √2),
      (calculateMisorientation (√2) (1 / √2) arccos sin sqrt ⟨0, 0, 0, 1⟩ ⟨0, 0, 0, 1⟩).w ≤
        2 * arccos |(s * ((⟨0, 0, 0, 1⟩ : Quat ℝ) * (⟨0, 0, 0, 1⟩ : Quat ℝ).conjugate)).w|) :=
  ⟨by simp [Quat.normSq],
    cubic_fast_path_angle_is_min_over_QuatSym ⟨0, 0, 0, 1⟩ ⟨0, 0, 0, 1⟩
      (by simp [Quat.normSq]) (by simp [Quat.normSq])⟩

theorem cubic_symmetric_equivalent_aux (q : Quat ℝ) (hq : q.normSq = 1) :
    ∀ s ∈ CubicHigh.QuatSym (1 / √2),
      calculateMisorientation (√2) (1 / √2) arccos sin sqrt q (s * q) = ⟨0, 0, 1, 0⟩ := by
  intro s hs
  unfold calculateMisorientation
  apply cubic_result_of_one_le
  have h := cubic_symW_le (q * (s * q).conjugate) s hs
  rw [mul_conj_mul_w, cubic_normSq_eq_one s hs, hq] at h
  simpa using h

/-- C2. In exact real arithmetic, for every unit quaternion `q` and every entry
`s` of `CubicHigh::QuatSym`, `calculateMisorientation(q, s * q)` is the rotation
by angle 0 about the default axis `(0, 0, 1)`; in particular this is the result
for `q1 = (0, 0, 0, 1)` and `q2 = (0, 0, 1/√2, 1/√2)`, the quarter turn about Z. -/
theorem cubic_misorientation_to_symmetric_equivalent (q : Quat ℝ) (hq : q.normSq = 1) :
    (∀ s ∈ CubicHigh.QuatSym (1 / √2),
      calculateMisorientation (√2) (1 / √2) arccos sin sqrt q (s * q) = ⟨0, 0, 1, 0⟩) ∧
    calculateMisorientation (√2) (1 / √2) arccos sin sqrt
      ⟨0, 0, 0, 1⟩ ⟨0, 0, 1 / √2, 1 / √2⟩ = ⟨0, 0, 1, 0⟩ := by
  refine ⟨cubic_symmetric_equivalent_aux q hq, ?_⟩
  have h6 : (⟨0, 0, 1 / √2, 1 / √2⟩ : Quat ℝ) ∈ CubicHigh.QuatSym (1 / √2) := by
    simp [CubicHigh.QuatSym]
  have e : (⟨0, 0, 1 / √2, 1 / √2⟩ : Quat ℝ) * ⟨0, 0, 0, 1⟩ = ⟨0, 0, 1 / √2, 1 / √2⟩ := by
    show Quat.mul _ _ = _
    simp [Quat.mul]
  have := cubic_symmetric_equivalent_aux ⟨0, 0, 0, 1⟩ (by simp [Quat.normSq]) _ h6
  rwa [e] at this

theorem cubic_misorientation_to_symmetric_equivalent_witness :
    (⟨0.6, 0, 0.8, 0⟩ : Quat ℝ).normSq = 1 ∧
    ((∀ s ∈ CubicHigh.QuatSym (1 / √2),
      calculateMisorientation (√2) (1 / √2) arccos sin sqrt ⟨0.6, 0, 0.8, 0⟩
        (s * ⟨0.6, 0, 0.8, 0⟩) = ⟨0, 0, 1, 0⟩) ∧
    calculateMisorientation (√2) (1 / √2) arccos sin sqrt
      ⟨0, 0, 0, 1⟩ ⟨0, 0, 1 / √2, 1 / √2⟩ = ⟨0, 0, 1, 0⟩) :=
  ⟨by norm_num [Quat.normSq],
    cubic_misorientation_to_symmetric_equivalent ⟨0.6, 0, 0.8, 0⟩ (by norm_num [Quat.normSq])⟩

/-- C3. In exact real arithmetic, for every unit quaternion `q`,
`calculateMisorientation(q, q)` has rotation angle 0 and the default axis
`(0, 0, 1)`. -/
theorem cubic_misorientation_self (q : Quat ℝ) (hq : q.normSq = 1) :
    calculateMisorientation (√2) (1 / √2) arccos sin sqrt q q = ⟨0, 0, 1, 0⟩ := by
  unfold calculateMisorientation
  apply cubic_result_of_one_le
  have hid : (⟨0, 0, 0, 1⟩ : Quat ℝ) ∈ CubicHigh.QuatSym (1 / √2) := by
    simp [CubicHigh.QuatSym]
  have h := cubic_symW_le (q * q.conjugate) ⟨0, 0, 0, 1⟩ hid
  have e : ((⟨0, 0, 0, 1⟩ : Quat ℝ) * (q * q.conjugate)).w = q.normSq := by
    simp only [mul_w, Quat.conjugate, Quat.normSq]
    ring
  rw [e, hq] at h
  simpa using h

theorem cubic_misorientation_self_witness :
    (⟨0.6, 0, 0.8, 0⟩ : Quat ℝ).normSq = 1 ∧
    calculateMisorientation (√2) (1 / √2) arccos sin sqrt
      (⟨0.6, 0, 0.8, 0⟩ : Quat ℝ) ⟨0.6, 0, 0.8, 0⟩ = ⟨0, 0, 1, 0⟩ :=
  ⟨by norm_num [Quat.normSq],
    cubic_misorientation_self ⟨0.6, 0, 0.8, 0⟩ (by norm_num [Quat.normSq])⟩

end RealArithmetic

section Swap

variable {α : Type} [LinearOrderedField α]

theorem elementWiseAbs_swap (q1 q2 : Quat α) :
    (q2 * q1.conjugate).elementWiseAbs = (q1 * q2.conjugate).elementWiseAbs := by
  show (Quat.mul _ _).elementWiseAbs = (Quat.mul _ _).elementWiseAbs
  simp only [Quat.mul, Quat.conjugate, Quat.elementWiseAbs, Quat.mk.injEq]
  refine ⟨?_, ?_, ?_, ?_⟩
  · rw [← abs_neg]; congr 1; ring
  · rw [← abs_neg]; congr 1; ring
  · rw [← abs_neg]; congr 1; ring
  · congr 1; ring

/-- C4. For all quaternions `q1` and `q2`, whatever the math library behind
`acos`, `sin` and `sqrt`, `calculateMisorientation(q1, q2)` and
`calculateMisorientation(q2, q1)` return the same rotation angle, and their
axes are equal up to sign (they are in fact equal, because only the
component-wise absolute value of `q1 * conj q2` is used). -/
theorem cubic_misorientation_swap (k_Sqrt2D c : α) (acos sin sqrt : α → α) (q1 q2 : Quat α) :
    (CubicOps.calculateMisorientation k_Sqrt2D c acos sin sqrt q1 q2).w =
      (CubicOps.calculateMisorientation k_Sqrt2D c acos sin sqrt q2 q1).w ∧
    (((CubicOps.calculateMisorientation k_Sqrt2D c acos sin sqrt q1 q2).n1 =
        (CubicOps.calculateMisorientation k_Sqrt2D c acos sin sqrt q2 q1).n1 ∧
      (CubicOps.calculateMisorientation k_Sqrt2D c acos sin sqrt q1 q2).n2 =
        (CubicOps.calculateMisorientation k_Sqrt2D c acos sin sqrt q2 q1).n2 ∧
      (CubicOps.calculateMisorientation k_Sqrt2D c acos sin sqrt q1 q2).n3 =
        (CubicOps.calculateMisorientation k_Sqrt2D c acos sin sqrt q2 q1).n3) ∨
     ((CubicOps.calculateMisorientation k_Sqrt2D c acos sin sqrt q1 q2).n1 =
        -(CubicOps.calculateMisorientation k_Sqrt2D c acos sin sqrt q2 q1).n1 ∧
      (CubicOps.calculateMisorientation k_Sqrt2D c acos sin sqrt q1 q2).n2 =
        -(CubicOps.calculateMisorientation k_Sqrt2D c acos sin sqrt q2 q1).n2 ∧
      (CubicOps.calculateMisorientation k_Sqrt2D c acos sin sqrt q1 q2).n3 =
        -(CubicOps.calculateMisorientation k_Sqrt2D c acos sin sqrt q2 q1).n3)) := by
  have h : CubicOps.calculateMisorientation k_Sqrt2D c acos sin sqrt q1 q2 =
      CubicOps.calculateMisorientation k_Sqrt2D c acos sin sqrt q2 q1 := by
    unfold CubicOps.calculateMisorientation CubicOps.calculateMisorientationInternal
    rw [elementWiseAbs_swap q1 q2]
  rw [h]
  exact ⟨rfl, Or.inl ⟨rfl, rfl, rfl⟩⟩

end Swap

/-! Closure of the quaternion tables -/

namespace CubicHigh

theorem symQuatSym_eval (c : ℚ) :
    QuatSym c = symQuatSym.map fun s => ⟨symEval c s.x, symEval c s.y, symEval c s.z, symEval c s.w⟩ := by
  simp [QuatSym, symQuatSym, symEval]
  norm_num

theorem symClosed_symQuatSym : symClosed symQuatSym = true := by decide!

theorem symEval_mul (c : ℚ) (s t : ℤ × ℤ) :
    symEval c s * symEval c t = symEval3 c (symMul s t) := by
  simp only [symEval, symEval3, symMul]
  push_cast
  ring

theorem symEval3_add (c : ℚ) (s t : ℤ × ℤ × ℤ) :
    symEval3 c (s + t) = symEval3 c s + symEval3 c t := by
  simp only [symEval3, Prod.fst_add, Prod.snd_add]
  push_cast
  ring

theorem symEval3_sub (c : ℚ) (s t : ℤ × ℤ × ℤ) :
    symEval3 c (s - t) = symEval3 c s - symEval3 c t := by
  simp only [symEval3, Prod.fst_sub, Prod.snd_sub]
  push_cast
  ring

theorem symNear_sound (c : ℚ) (hc : |2 * c * c - 1| ≤ 1e-6) (t : ℤ × ℤ × ℤ) (s : ℤ × ℤ)
    (h : symNear t s = true) : |symEval3 c t - symEval c s| ≤ 1e-6 := by
  simp only [symNear, Bool.and_eq_true, beq_iff_eq, decide_eq_true_eq] at h
  obtain ⟨⟨⟨h1, h2⟩, h3⟩, h4⟩ := h
  have e1 : ((t.1 : ℤ) : ℚ) + 2 * t.2.2 = 2 * s.1 := by exact_mod_cast h1
  have e2 : ((t.2.1 : ℤ) : ℚ) = 2 * s.2 := by exact_mod_cast h2
  have e3 : (-2 : ℚ) ≤ t.2.2 := by exact_mod_cast h3
  have e4 : ((t.2.2 : ℤ) : ℚ) ≤ 2 := by exact_mod_cast h4
  have key : symEval3 c t - symEval c s = t.2.2 * ((2 * c * c - 1) / 2) := by
    simp only [symEval3, symEval]
    rw [e2]
    have : ((t.1 : ℤ) : ℚ) = 2 * s.1 - 2 * t.2.2 := by linarith
    rw [this]
    ring
  rw [key, abs_mul]
  have a1 : |((t.2.2 : ℤ) : ℚ)| ≤ 2 := abs_le.mpr ⟨e3, e4⟩
  have a2 : |(2 * c * c - 1) / 2| ≤ 1e-6 / 2 := by
    rw [abs_div]
    simpa using div_le_div_of_nonneg_right hc (by norm_num : (0 : ℚ) ≤ 2)
  calc |((t.2.2 : ℤ) : ℚ)| * |(2 * c * c - 1) / 2| ≤ 2 * (1e-6 / 2) :=
        mul_le_mul a1 a2 (abs_nonneg _) (by norm_num)
    _ = 1e-6 := by norm_num

theorem symEval_neg (c : ℚ) (s : ℤ × ℤ) : symEval c (-s) = -symEval c s := by
  simp only [symEval, Prod.fst_neg, Prod.snd_neg]
  push_cast
  ring

theorem symQuatNear_sound (c : ℚ) (hc : |2 * c * c - 1| ≤ 1e-6) (p q r : Quat (ℤ × ℤ))
    (h : symQuatNear (symQuatMul p q) r = true) :
    (symQuatEval c p * symQuatEval c q).closeTo (1e-6) (symQuatEval c r) := by
  simp only [symQuatNear, Bool.and_eq_true] at h
  obtain ⟨⟨⟨h1, h2⟩, h3⟩, h4⟩ := h
  have k1 := symNear_sound c hc _ _ h1
  have k2 := symNear_sound c hc _ _ h2
  have k3 := symNear_sound c hc _ _ h3
  have k4 := symNear_sound c hc _ _ h4
  simp only [symQuatMul, symEval3_add, symEval3_sub, ← symEval_mul] at k1 k2 k3 k4
  exact ⟨k1, k2, k3, k4⟩

theorem closedUpTo_QuatSym (c : ℚ) (hc : |2 * c * c - 1| ≤ 1e-6) :
    ClosedUpTo (1e-6) (QuatSym c) := by
  have hall := symClosed_symQuatSym
  simp only [symClosed, List.all_eq_true, List.any_eq_true, Bool.or_eq_true] at hall
  have htbl : QuatSym c = symQuatSym.map (symQuatEval c) := symQuatSym_eval c
  rw [htbl]
  intro p hp q hq
  obtain ⟨sp, hsp, rfl⟩ := List.mem_map.mp hp
  obtain ⟨sq, hsq, rfl⟩ := List.mem_map.mp hq
  obtain ⟨sr, hsr, hnear⟩ := hall sp hsp sq hsq
  refine ⟨symQuatEval c sr, List.mem_map.mpr ⟨sr, hsr, rfl⟩, ?_⟩
  rcases hnear with h | h
  · exact Or.inl (symQuatNear_sound c hc _ _ _ h)
  · right
    have := symQuatNear_sound c hc _ _ _ h
    simpa only [symQuatEval, Quat.negate, symEval_neg] using this

end CubicHigh

theorem length_QuatSym (c : ℚ) (cls : LaueClass) :
    (LaueOps.QuatSym c cls).length = LaueOps.getNumSymOps cls := by
  cases cls <;> rfl

theorem closedUpTo_all (c : ℚ) (hc : |2 * c * c - 1| ≤ 1e-6) (cls : LaueClass) :
    ClosedUpTo (1e-6) (LaueOps.QuatSym c cls) := by
  cases cls
  · exact CubicHigh.closedUpTo_QuatSym c hc
  · show ClosedUpTo (1e-6) (HexagonalHigh.QuatSym (α := ℚ))
    decide!
  · show ClosedUpTo (1e-6) (TrigonalHigh.QuatSym (α := ℚ))
    decide!
  · show ClosedUpTo (1e-6) (Monoclinic.QuatSym (α := ℚ))
    decide!

/-- C5. For each of the Cubic, Hexagonal, Trigonal and Monoclinic classes and
all indices `i, j < getNumSymOps()`, the operators `QuatSym[i]` and `QuatSym[j]`
exist and there is `k < getNumSymOps()` such that `QuatSym[i] * QuatSym[j]`
equals `+QuatSym[k]` or `-QuatSym[k]` in every component to within `1e-6`.  The
constant `k_1OverRoot2D` may be any number `c` with `|2c² - 1| ≤ 1e-6`. -/
theorem quatSym_closed_under_composition (c : ℚ) (hc : |2 * c * c - 1| ≤ 1e-6)
    (cls : LaueClass) (i j : Nat) (hi : i < LaueOps.getNumSymOps cls)
    (hj : j < LaueOps.getNumSymOps cls) :
    ∃ p q, LaueOps.getQuatSymOp c cls i = some p ∧ LaueOps.getQuatSymOp c cls j = some q ∧
      ∃ k r, k < LaueOps.getNumSymOps cls ∧ LaueOps.getQuatSymOp c cls k = some r ∧
        ((p * q).closeTo (1e-6) r ∨ (p * q).closeTo (1e-6) r.negate) := by
  have hlen := length_QuatSym c cls
  have hi2 : i < (LaueOps.QuatSym c cls).length := by omega
  have hj2 : j < (LaueOps.QuatSym c cls).length := by omega
  refine ⟨(LaueOps.QuatSym c cls)[i], (LaueOps.QuatSym c cls)[j], ?_, ?_, ?_⟩
  · simp [LaueOps.getQuatSymOp, hi2]
  · simp [LaueOps.getQuatSymOp, hj2]
  · obtain ⟨r, hr, hclose⟩ := closedUpTo_all c hc cls _ (List.getElem_mem hi2) _
      (List.getElem_mem hj2)
    obtain ⟨k, hk, rfl⟩ := List.getElem_of_mem hr
    exact ⟨k, _, by omega, by simp [LaueOps.getQuatSymOp, hk], hclose⟩

theorem quatSym_closed_under_composition_witness :
    |2 * (0.7071067811865476 : ℚ) * 0.7071067811865476 - 1| ≤ 1e-6 ∧
    4 < LaueOps.getNumSymOps LaueClass.Cubic ∧ 16 < LaueOps.getNumSymOps LaueClass.Cubic ∧
    ∃ p q, LaueOps.getQuatSymOp (0.7071067811865476 : ℚ) LaueClass.Cubic 4 = some p ∧
      LaueOps.getQuatSymOp (0.7071067811865476 : ℚ) LaueClass.Cubic 16 = some q ∧
      ∃ k r, k < LaueOps.getNumSymOps LaueClass.Cubic ∧
        LaueOps.getQuatSymOp (0.7071067811865476 : ℚ) LaueClass.Cubic k = some r ∧
        ((p * q).closeTo (1e-6) r ∨ (p * q).closeTo (1e-6) r.negate) :=
  ⟨by norm_num [abs_le], by decide, by decide,
    quatSym_closed_under_composition 0.7071067811865476 (by norm_num [abs_le])
      LaueClass.Cubic 4 16 (by decide) (by decide)⟩

/-! Agreement of the three tables -/

/-- C6, the claim as stated fails: index by index the tables do not agree.  In
the Cubic class `QuatSym[1]` and `RodSym[1]` are the half turn about X while
`MatSym[1]` is a quarter turn about X; in the Monoclinic class `QuatSym[1]` and
`RodSym[1]` are the half turn about Y while `MatSym[1]` is the half turn about
Z; in the Trigonal class `QuatSym[3]` is the half turn about X while `RodSym[3]`
lies along `(0.8660254, 0.5, 0)`. -/
theorem tables_do_not_agree_elementwise :
    ¬ tablesAgreeAt (0.7071067811865476 : ℚ) 0.8660254037844386 LaueClass.Cubic 1 ∧
    ¬ tablesAgreeAt (0.7071067811865476 : ℚ) 0.8660254037844386 LaueClass.Monoclinic 1 ∧
    ¬ rodAgreesAt (0.7071067811865476 : ℚ) LaueClass.Trigonal 3 := by
  decide!

theorem rodAgrees_concrete :
    (∀ i < 12, rodAgreesAt (0 : ℚ) LaueClass.Hexagonal i) ∧
    (∀ i < 2, rodAgreesAt (0 : ℚ) LaueClass.Monoclinic i) ∧
    (∀ i < 3, rodAgreesAt (0 : ℚ) LaueClass.Trigonal i) := by
  decide!

theorem rodAgrees_cubic (c : ℚ) (hc0 : 0 < c) (hc : |2 * c * c - 1| ≤ 1e-6) :
    ∀ i < 24, rodAgreesAt c LaueClass.Cubic i := by
  have h5 : (1 / 2 : ℚ) ≤ c := by
    have := (abs_le.mp hc).1
    nlinarith
  have hne : c ≠ 0 := hc0.ne'
  intro i hi
  interval_cases i <;>
    simp [rodAgreesAt, LaueOps.getQuatSymOp, LaueOps.getRodSymOp, LaueOps.QuatSym,
      LaueOps.RodSym, CubicHigh.QuatSym, CubicHigh.RodSym, rodAgrees, hne] <;>
    norm_num <;> linarith
namespace CubicHigh

theorem symMatCheck_holds : symMatCheck := by decide!

theorem symNearRat_sound (c : ℚ) (hc : |2 * c * c - 1| ≤ 1e-6) (t : ℤ × ℤ × ℤ) (m : ℚ)
    (h : symNearRat t m) : |m - symEval3 c t| ≤ 1e-6 := by
  obtain ⟨h1, h2, h3, h4⟩ := h
  obtain ⟨c1, c2⟩ := abs_le.mp hc
  have e3 : (-2 : ℚ) ≤ t.2.2 := by exact_mod_cast h3
  have e4 : ((t.2.2 : ℤ) : ℚ) ≤ 2 := by exact_mod_cast h4
  have key : m - symEval3 c t = -(t.2.2 * ((2 * c * c - 1) / 2)) := by
    rw [← h2]
    simp only [symEval3, h1]
    push_cast
    ring
  rw [key, abs_neg, abs_mul]
  have a1 : |((t.2.2 : ℤ) : ℚ)| ≤ 2 := abs_le.mpr ⟨e3, e4⟩
  have a2 : |(2 * c * c - 1) / 2| ≤ 1e-6 / 2 := by
    rw [abs_div]
    simpa using div_le_div_of_nonneg_right hc (by norm_num : (0 : ℚ) ≤ 2)
  calc |((t.2.2 : ℤ) : ℚ)| * |(2 * c * c - 1) / 2| ≤ 2 * (1e-6 / 2) :=
        mul_le_mul a1 a2 (abs_nonneg _) (by norm_num)
    _ = 1e-6 := by norm_num

theorem symEval3_symMul (c : ℚ) (s t : ℤ × ℤ) :
    symEval3 c (symMul s t) = symEval c s * symEval c t :=
  (symEval_mul c s t).symm

theorem symQu2om_eval (c : ℚ) (q : Quat (ℤ × ℤ)) (a b : Fin 3) :
    symEval3 c (symQu2om q a b) = qu2om (symQuatEval c q) a b := by
  fin_cases a <;> fin_cases b <;>
    simp [symQu2om, qu2om, symQuatEval, Matrix.vecHead, Matrix.vecTail, symEval3_add,
      symEval3_sub, symEval3_symMul] <;>
    ring

end CubicHigh

theorem getElem?_of_lt_length {β : Type} (l : List β) (d : β) (k : Nat) (hk : k < l.length) :
    l[k]? = some (l.getD k d) := by
  simp [List.getD_eq_getElem?_getD, List.getElem?_eq_getElem hk]

theorem matAgrees_cubic (c r : ℚ) (hc : |2 * c * c - 1| ≤ 1e-6) :
    ∀ i < 24, matAgreesAt c r LaueClass.Cubic i (CubicHigh.matOrder.getD i 0) := by
  intro i hi
  have hk : CubicHigh.matOrder.getD i 0 < 24 := by
    interval_cases i <;> decide
  have hcheck := CubicHigh.symMatCheck_holds i hi
  generalize CubicHigh.matOrder.getD i 0 = k at hk hcheck ⊢
  have hM : LaueOps.getMatSymOpD r LaueClass.Cubic i =
      some ((CubicHigh.MatSym (α := ℚ)).getD i 0) :=
    getElem?_of_lt_length _ _ i hi
  have hQ : LaueOps.getQuatSymOp c LaueClass.Cubic k =
      some (CubicHigh.symQuatEval c (CubicHigh.symQuatSym.getD k ⟨0, 0, 0, 0⟩)) := by
    have h1 : CubicHigh.symQuatSym[k]? = some (CubicHigh.symQuatSym.getD k ⟨0, 0, 0, 0⟩) :=
      getElem?_of_lt_length _ _ k hk
    show (CubicHigh.QuatSym c)[k]? = _
    rw [CubicHigh.symQuatSym_eval c, List.getElem?_map, h1]
    rfl
  simp only [matAgreesAt, hM, hQ]
  left
  intro a b
  rw [← CubicHigh.symQu2om_eval]
  exact CubicHigh.symNearRat_sound c hc _ _ (hcheck a b)

set_option maxHeartbeats 1000000 in
theorem matAgrees_hexagonal (c r : ℚ) (hr : |r - 0.8660254| ≤ 1e-7) :
    ∀ i < 12, matAgreesAt c r LaueClass.Hexagonal i (HexagonalHigh.matOrder.getD i 0) := by
  obtain ⟨h1, h2⟩ := abs_le.mp hr
  intro i hi
  interval_cases i <;>
  · simp only [matAgreesAt, LaueOps.getMatSymOpD, LaueOps.getQuatSymOp, LaueOps.QuatSym,
      LaueOps.MatSym, HexagonalHigh.QuatSym, HexagonalHigh.MatSym, HexagonalHigh.matOrder, List.getD_cons_zero,
      List.getD_cons_succ, List.getElem?_cons_zero, List.getElem?_cons_succ]
    left
    intro a b
    fin_cases a <;> fin_cases b <;>
      simp only [qu2om, Matrix.of_apply, Matrix.cons_val_zero, Matrix.cons_val_one, Matrix.head_cons,
        Matrix.cons_val_two, Matrix.tail_cons, Fin.zero_eta, Fin.mk_one, Fin.reduceFinMk, Fin.isValue,
        Matrix.cons_val', Matrix.empty_val', Matrix.cons_val_fin_one] <;>
      rw [abs_le] <;> constructor <;> norm_num <;> linarith

theorem rodAgreesAt_of_not_cubic (c : ℚ) :
    (∀ i < 12, rodAgreesAt c LaueClass.Hexagonal i) ∧
    (∀ i < 2, rodAgreesAt c LaueClass.Monoclinic i) ∧
    (∀ i < 3, rodAgreesAt c LaueClass.Trigonal i) :=
  rodAgrees_concrete

/-- C6, amended.  With `k_1OverRoot2D = c`, `0 < c`, `|2c² - 1| ≤ 1e-6` and
`k_Root3Over2D = r`, `|r - 0.8660254| ≤ 1e-7`: for every index of the Cubic,
Hexagonal and Monoclinic tables, and for the first three of the Trigonal ones,
`RodSym[i]` is the Rodrigues vector of `QuatSym[i]` (within `1e-5`; a vector of
length at least `1e10` along the same axis when `w = 0`).  `MatSym` lists the
same rotations in an order of its own: in the Cubic and Hexagonal classes
`MatSym[i]` is within `1e-6` the rotation matrix of `QuatSym[matOrder[i]]`,
where `matOrder` is a permutation of the indices that differs from the
identity (`matOrder[1] ≠ 1` in both classes). -/
theorem tables_agree_up_to_order (c r : ℚ) (hc0 : 0 < c) (hc : |2 * c * c - 1| ≤ 1e-6)
    (hr : |r - 0.8660254| ≤ 1e-7) :
    (∀ cls i, i < LaueOps.getNumSymOps cls → (cls = LaueClass.Trigonal → i < 3) →
      rodAgreesAt c cls i) ∧
    (∀ i < 24, matAgreesAt c r LaueClass.Cubic i (CubicHigh.matOrder.getD i 0)) ∧
    (∀ i < 12, matAgreesAt c r LaueClass.Hexagonal i (HexagonalHigh.matOrder.getD i 0)) ∧
    CubicHigh.matOrder.Perm (List.range 24) ∧ HexagonalHigh.matOrder.Perm (List.range 12) ∧
    CubicHigh.matOrder.getD 1 0 ≠ 1 ∧ HexagonalHigh.matOrder.getD 1 0 ≠ 1 := by
  refine ⟨?_, matAgrees_cubic c r hc, matAgrees_hexagonal c r hr, by decide, by decide, by decide,
    by decide⟩
  intro cls i hi htrig
  cases cls
  · exact rodAgrees_cubic c hc0 hc i hi
  · exact (rodAgreesAt_of_not_cubic c).1 i hi
  · exact (rodAgreesAt_of_not_cubic c).2.2 i (htrig rfl)
  · exact (rodAgreesAt_of_not_cubic c).2.1 i hi

theorem tables_agree_up_to_order_witness :
    (0 : ℚ) < 0.7071067811865476 ∧
    |2 * (0.7071067811865476 : ℚ) * 0.7071067811865476 - 1| ≤ 1e-6 ∧
    |(0.8660254037844386 : ℚ) - 0.8660254| ≤ 1e-7 ∧
    ((∀ cls i, i < LaueOps.getNumSymOps cls → (cls = LaueClass.Trigonal → i < 3) →
      rodAgreesAt (0.7071067811865476 : ℚ) cls i) ∧
    (∀ i < 24, matAgreesAt (0.7071067811865476 : ℚ) 0.8660254037844386 LaueClass.Cubic i
      (CubicHigh.matOrder.getD i 0)) ∧
    (∀ i < 12, matAgreesAt (0.7071067811865476 : ℚ) 0.8660254037844386 LaueClass.Hexagonal i
      (HexagonalHigh.matOrder.getD i 0)) ∧
    CubicHigh.matOrder.Perm (List.range 24) ∧ HexagonalHigh.matOrder.Perm (List.range 12) ∧
    CubicHigh.matOrder.getD 1 0 ≠ 1 ∧ HexagonalHigh.matOrder.getD 1 0 ≠ 1) :=
  ⟨by norm_num, by norm_num [abs_le], by norm_num [abs_le],
    tables_agree_up_to_order 0.7071067811865476 0.8660254037844386 (by norm_num)
      (by norm_num [abs_le]) (by norm_num [abs_le])⟩

/-! Fundamental-zone reduction -/

namespace LaueOps

variable {α : Type} [LinearOrderedField α]

theorem foldl_nearer_mem (rs : List (Rodrigues α)) (r0 : Rodrigues α) :
    rs.foldl nearer r0 ∈ r0 :: rs := by
  induction rs generalizing r0 with
  | nil => simp
  | cons r rs ih =>
    rw [List.foldl_cons]
    have h := ih (nearer r0 r)
    unfold nearer at h ⊢
    split_ifs at h ⊢ with hlt
    · exact List.mem_cons_of_mem _ h
    · rcases List.mem_cons.mp h with h | h
      · rw [h]; exact List.mem_cons_self _ _
      · exact List.mem_cons_of_mem _ (List.mem_cons_of_mem _ h)

theorem foldl_nearer_le_start (rs : List (Rodrigues α)) (r0 : Rodrigues α) :
    rodNormSq (rs.foldl nearer r0) ≤ rodNormSq r0 := by
  induction rs generalizing r0 with
  | nil => simp
  | cons r rs ih =>
    rw [List.foldl_cons]
    refine le_trans (ih _) ?_
    unfold nearer
    split_ifs with hlt
    · exact hlt.le
    · exact le_refl _

theorem foldl_nearer_le (rs : List (Rodrigues α)) (r0 : Rodrigues α) :
    ∀ r ∈ r0 :: rs, rodNormSq (rs.foldl nearer r0) ≤ rodNormSq r := by
  induction rs generalizing r0 with
  | nil => simp
  | cons r rs ih =>
    intro t ht
    rw [List.foldl_cons]
    have hstep : rodNormSq (nearer r0 r) ≤ rodNormSq r0 ∧ rodNormSq (nearer r0 r) ≤ rodNormSq r := by
      unfold nearer
      split_ifs with hlt
      · exact ⟨hlt.le, le_refl _⟩
      · exact ⟨le_refl _, not_lt.mp hlt⟩
    rcases List.mem_cons.mp ht with rfl | ht
    · exact le_trans (foldl_nearer_le_start rs _) hstep.1
    · rcases List.mem_cons.mp ht with rfl | ht
      · exact le_trans (foldl_nearer_le_start rs _) hstep.2
      · exact ih _ t (List.mem_cons_of_mem _ ht)

theorem foldl_nearer_eq_start (rs : List (Rodrigues α)) (r0 : Rodrigues α)
    (h : ∀ r ∈ rs, rodNormSq r0 ≤ rodNormSq r) : rs.foldl nearer r0 = r0 := by
  induction rs with
  | nil => rfl
  | cons r rs ih =>
    rw [List.foldl_cons]
    have h1 : nearer r0 r = r0 := by
      unfold nearer
      rw [if_neg (not_lt.mpr (h r (List.mem_cons_self _ _)))]
    rw [h1]
    exact ih fun t ht => h t (List.mem_cons_of_mem _ ht)

theorem rodSymAction_zero (rod : Rodrigues α) : rodSymAction ⟨0, 0, 0⟩ rod = some rod := by
  simp [rodSymAction]

theorem rodImages_cons_zero (tl : List (Rodrigues α)) (rod : Rodrigues α) :
    rodImages (⟨0, 0, 0⟩ :: tl) rod = rod :: rodImages tl rod := by
  simp only [rodImages, List.filterMap_cons, rodSymAction_zero]

theorem rodImages_head (cls : LaueClass) (rod : Rodrigues α) :
    ∃ rest, rodImages (RodSym cls) rod = rod :: rest := by
  cases cls <;> exact ⟨_, rodImages_cons_zero _ rod⟩

theorem getODFFZRod_spec (cls : LaueClass) (rod : Rodrigues α) :
    getODFFZRod cls rod ∈ rodImages (RodSym cls) rod ∧
    (∀ r ∈ rodImages (RodSym cls) rod, rodNormSq (getODFFZRod cls rod) ≤ rodNormSq r) ∧
    rodNormSq (getODFFZRod cls rod) ≤ rodNormSq rod := by
  obtain ⟨rest, h⟩ := rodImages_head cls rod
  unfold getODFFZRod _calcRodNearestOrigin
  rw [h]
  exact ⟨foldl_nearer_mem rest rod, foldl_nearer_le rest rod, foldl_nearer_le_start rest rod⟩

theorem getODFFZRod_fixed (cls : LaueClass) (rod : Rodrigues α)
    (h : ∀ r ∈ rodImages (RodSym cls) rod, rodNormSq rod ≤ rodNormSq r) :
    getODFFZRod cls rod = rod := by
  obtain ⟨rest, hrest⟩ := rodImages_head cls rod
  rw [hrest] at h
  unfold getODFFZRod _calcRodNearestOrigin
  rw [hrest]
  exact foldl_nearer_eq_start rest rod fun r hr => h r (List.mem_cons_of_mem _ hr)

end LaueOps

/-- C7, the claim as stated fails: for the Monoclinic class and the Rodrigues
vector `(0, 1.0000000002, 0)` a second application of `getODFFZRod` moves the
result again.  The half turn about Y is tabulated as the finite vector
`(0, 1e10, 0)`, so the table is not a group under the Rodrigues action. -/
theorem getODFFZRod_not_idempotent :
    LaueOps.getODFFZRod LaueClass.Monoclinic
        (LaueOps.getODFFZRod LaueClass.Monoclinic (⟨0, 1.0000000002, 0⟩ : Rodrigues ℚ)) ≠
      LaueOps.getODFFZRod LaueClass.Monoclinic (⟨0, 1.0000000002, 0⟩ : Rodrigues ℚ) := by
  decide!

/-- C7, amended.  For each class and every Rodrigues vector `r`,
`getODFFZRod r` is one of the finite symmetry images of `r` and no image is
nearer the origin; a second application never moves the result farther from
the origin, `|F (F r)| ≤ |F r| ≤ |r|`; and `F (F r) = F r` holds whenever no
image of `F r` is strictly nearer the origin than `F r` itself. -/
theorem getODFFZRod_reduces (cls : LaueClass) (r : Rodrigues ℚ) :
    LaueOps.getODFFZRod cls r ∈ LaueOps.rodImages (LaueOps.RodSym cls) r ∧
    (∀ s ∈ LaueOps.rodImages (LaueOps.RodSym cls) r,
      LaueOps.rodNormSq (LaueOps.getODFFZRod cls r) ≤ LaueOps.rodNormSq s) ∧
    LaueOps.rodNormSq (LaueOps.getODFFZRod cls (LaueOps.getODFFZRod cls r)) ≤
      LaueOps.rodNormSq (LaueOps.getODFFZRod cls r) ∧
    LaueOps.rodNormSq (LaueOps.getODFFZRod cls r) ≤ LaueOps.rodNormSq r ∧
    ((∀ s ∈ LaueOps.rodImages (LaueOps.RodSym cls) (LaueOps.getODFFZRod cls r),
        LaueOps.rodNormSq (LaueOps.getODFFZRod cls r) ≤ LaueOps.rodNormSq s) →
      LaueOps.getODFFZRod cls (LaueOps.getODFFZRod cls r) = LaueOps.getODFFZRod cls r) :=
  ⟨(LaueOps.getODFFZRod_spec cls r).1, (LaueOps.getODFFZRod_spec cls r).2.1,
    (LaueOps.getODFFZRod_spec cls (LaueOps.getODFFZRod cls r)).2.2,
    (LaueOps.getODFFZRod_spec cls r).2.2,
    LaueOps.getODFFZRod_fixed cls (LaueOps.getODFFZRod cls r)⟩

theorem getODFFZRod_reduces_witness :
    (∀ s ∈ LaueOps.rodImages (LaueOps.RodSym LaueClass.Monoclinic)
        (LaueOps.getODFFZRod LaueClass.Monoclinic (⟨0, 3, 0⟩ : Rodrigues ℚ)),
      LaueOps.rodNormSq (LaueOps.getODFFZRod LaueClass.Monoclinic (⟨0, 3, 0⟩ : Rodrigues ℚ)) ≤
        LaueOps.rodNormSq s) ∧
    LaueOps.getODFFZRod LaueClass.Monoclinic
        (LaueOps.getODFFZRod LaueClass.Monoclinic (⟨0, 3, 0⟩ : Rodrigues ℚ)) =
      LaueOps.getODFFZRod LaueClass.Monoclinic (⟨0, 3, 0⟩ : Rodrigues ℚ) :=
  ⟨by decide!,
    (getODFFZRod_reduces LaueClass.Monoclinic ⟨0, 3, 0⟩).2.2.2.2 (by decide!)⟩

/-! Unimplemented members -/

/-- C9. `MonoclinicOps::getMDFFZRod` ends in the exception
`method_not_implemented("MonoclinicOps::getMDFFZRod not implemented")` for
every input Rodrigues vector, whatever the external conversions do, and so
never returns a value. -/
theorem monoclinic_getMDFFZRod_not_implemented (ext : External ℚ) (inRod : Rodrigues ℚ) :
    MonoclinicOps.getMDFFZRod ext inRod =
      Except.error
        (EbsdError.method_not_implemented "MonoclinicOps::getMDFFZRod not implemented") ∧
    ∀ v, MonoclinicOps.getMDFFZRod ext inRod ≠ Except.ok v := by
  have h : MonoclinicOps.getMDFFZRod ext inRod =
      Except.error
        (EbsdError.method_not_implemented "MonoclinicOps::getMDFFZRod not implemented") := rfl
  refine ⟨h, fun v hv => ?_⟩
  rw [h] at hv
  cases hv

theorem monoclinic_determineRodriguesVector_error {α : Type} [LinearOrderedField α]
    (ext : External α) (init random : α × α × α) (choose : Nat) :
    MonoclinicOps.determineRodriguesVector ext init random choose =
      Except.error
        (EbsdError.method_not_implemented "MonoclinicOps::getMDFFZRod not implemented") := rfl

theorem binCoordinates_flatten (cls : LaueClass) (b : Nat) (hb : b < LaueOps.getODFSize cls) :
    (LaueOps.binCoordinates cls b).1 < (LaueOps.getOdfNumBins cls).1 ∧
    (LaueOps.binCoordinates cls b).2.1 < (LaueOps.getOdfNumBins cls).2.1 ∧
    (LaueOps.binCoordinates cls b).2.2 < (LaueOps.getOdfNumBins cls).2.2 ∧
    LaueOps.flattenBin cls (LaueOps.binCoordinates cls b) = b := by
  cases cls <;>
    simp only [LaueOps.getODFSize, LaueOps.binCoordinates, LaueOps.getOdfNumBins,
      LaueOps.flattenBin] at hb ⊢ <;>
    omega

/-- C8, the claim as stated fails: in the Monoclinic class, for bin 0 and the
random triple `(0, 0, 0)`, `getOdfBin(determineRodriguesVector(random, 0))`
does not produce bin 0: `determineRodriguesVector` ends in the
`method_not_implemented` exception of `getMDFFZRod`. -/
theorem monoclinic_bin_round_trip_fails :
    (MonoclinicOps.determineRodriguesVector External.constant (1.3, 0.75, 1.33) (0, 0, 0) 0).map
        (MonoclinicOps.getOdfBin External.constant (1.3, 0.75, 1.33)) =
      Except.error
        (EbsdError.method_not_implemented "MonoclinicOps::getMDFFZRod not implemented") ∧
    (MonoclinicOps.determineRodriguesVector External.constant (1.3, 0.75, 1.33) (0, 0, 0) 0).map
        (MonoclinicOps.getOdfBin External.constant (1.3, 0.75, 1.33)) ≠ Except.ok 0 := by
  constructor
  · rfl
  · intro h
    cases h

/-- C10, the code at the failing input: the four slip-misalignment metrics of
`MonoclinicOps` and of `TrigonalOps` return the number 0 for every input and
raise nothing; only the four of `HexagonalOps` end in the
`method_not_implemented` exception. -/
theorem slip_metrics_unimplemented_behaviour (q1 q2 : Quat ℚ) (LD : ℚ × ℚ × ℚ) (maxSF : Bool) :
    (MonoclinicOps.getmPrime q1 q2 LD = Except.ok 0 ∧
      MonoclinicOps.getF1 q1 q2 LD maxSF = Except.ok 0 ∧
      MonoclinicOps.getF1spt q1 q2 LD maxSF = Except.ok 0 ∧
      MonoclinicOps.getF7 q1 q2 LD maxSF = Except.ok 0) ∧
    (TrigonalOps.getmPrime q1 q2 LD = Except.ok 0 ∧
      TrigonalOps.getF1 q1 q2 LD maxSF = Except.ok 0 ∧
      TrigonalOps.getF1spt q1 q2 LD maxSF = Except.ok 0 ∧
      TrigonalOps.getF7 q1 q2 LD maxSF = Except.ok 0) ∧
    (HexagonalOps.getmPrime q1 q2 LD =
        Except.error (EbsdError.method_not_implemented "method not implemented") ∧
      HexagonalOps.getF1 q1 q2 LD maxSF =
        Except.error (EbsdError.method_not_implemented "method not implemented") ∧
      HexagonalOps.getF1spt q1 q2 LD maxSF =
        Except.error (EbsdError.method_not_implemented "method not implemented") ∧
      HexagonalOps.getF7 q1 q2 LD maxSF =
        Except.error (EbsdError.method_not_implemented "method not implemented")) :=
  ⟨⟨rfl, rfl, rfl, rfl⟩, ⟨rfl, rfl, rfl, rfl⟩, ⟨rfl, rfl, rfl, rfl⟩⟩

/-! Theorems: fundamental zone of misorientations, sizes of the grids -/

theorem truncToInt_of_nonneg {α : Type} [LinearOrderedField α] [FloorRing α] (x : α)
    (hx : 0 ≤ x) : truncToInt x = ⌊x⌋ := by
  unfold truncToInt
  rw [if_pos hx]

theorem truncToInt_eq {α : Type} [LinearOrderedField α] [FloorRing α] (x : α) (n : Int)
    (h0 : 0 ≤ n) (h1 : (n : α) ≤ x) (h2 : x < n + 1) : truncToInt x = n := by
  have hx : 0 ≤ x := le_trans (by exact_mod_cast h0) h1
  rw [truncToInt_of_nonneg x hx, Int.floor_eq_iff]
  exact ⟨h1, h2⟩

/-- C11: in `CubicOps::getMDFFZRod` the axis-angle pair handed to `ax2ro` keeps
the angle `w` of the pair obtained from the ODF-reduced input, and its axis is
`|n1|, |n2|, |n3|` rearranged in descending order: the three entries are a
permutation of the absolute values, `FZn1 ≥ FZn2 ≥ FZn3 ≥ 0`.  This holds for
every pair `ax` that `ro2ax` may return. -/
theorem cubic_getMDFFZRod_axis_sorted_descending {α : Type} [LinearOrderedField α]
    (ext : External α) (inRod : Rodrigues α) (ax : AxisAngle α) :
    CubicOps.getMDFFZRod ext inRod =
        ext.ax2ro (CubicOps.getMDFFZAxisAngle
          (ext.ro2ax (LaueOps._calcRodNearestOrigin CubicHigh.RodSym inRod))) ∧
      (CubicOps.getMDFFZAxisAngle ax).w = ax.w ∧
      List.Perm
        [(CubicOps.getMDFFZAxisAngle ax).n1, (CubicOps.getMDFFZAxisAngle ax).n2,
          (CubicOps.getMDFFZAxisAngle ax).n3]
        [|ax.n1|, |ax.n2|, |ax.n3|] ∧
      (CubicOps.getMDFFZAxisAngle ax).n1 ≥ (CubicOps.getMDFFZAxisAngle ax).n2 ∧
      (CubicOps.getMDFFZAxisAngle ax).n2 ≥ (CubicOps.getMDFFZAxisAngle ax).n3 ∧
      (CubicOps.getMDFFZAxisAngle ax).n3 ≥ 0 := by
  have h1 := abs_nonneg ax.n1
  have h2 := abs_nonneg ax.n2
  have h3 := abs_nonneg ax.n3
  refine ⟨rfl, rfl, ?_, ?_⟩
  · unfold CubicOps.getMDFFZAxisAngle
    dsimp only
    split_ifs
    · exact List.Perm.refl _
    · exact List.Perm.cons _ (List.Perm.swap _ _ _)
    · exact (List.Perm.swap _ _ _).trans (List.Perm.cons _ (List.Perm.swap _ _ _))
    · exact List.Perm.swap _ _ _
    · exact (List.Perm.cons _ (List.Perm.swap _ _ _)).trans (List.Perm.swap _ _ _)
    · exact ((List.Perm.swap _ _ _).trans (List.Perm.cons _ (List.Perm.swap _ _ _))).trans
        (List.Perm.swap _ _ _)
  · unfold CubicOps.getMDFFZAxisAngle
    dsimp only
    split_ifs <;> refine ⟨?_, ?_, ?_⟩ <;> linarith

/-- C20: in each of the four classes `getODFSize()` and `getMDFSize()` equal the
product of the three entries of `getOdfNumBins()` (5832, 15552, 31104 and
186624), and every flattened index `x + y * nx + z * nx * ny` with `x < nx`,
`y < ny`, `z < nz` is below that size. -/
theorem odf_mdf_size_is_product_of_bins (cls : LaueClass) :
    LaueOps.getODFSize cls =
        (LaueOps.getOdfNumBins cls).1 * (LaueOps.getOdfNumBins cls).2.1 *
          (LaueOps.getOdfNumBins cls).2.2 ∧
      LaueOps.getMDFSize cls = LaueOps.getODFSize cls ∧
      LaueOps.getODFSize cls =
        (match cls with
          | .Cubic => 5832 | .Hexagonal => 15552 | .Trigonal => 31104 | .Monoclinic => 186624) ∧
      ∀ x y z : Nat, x < (LaueOps.getOdfNumBins cls).1 → y < (LaueOps.getOdfNumBins cls).2.1 →
        z < (LaueOps.getOdfNumBins cls).2.2 →
        LaueOps.flattenBin cls (x, y, z) < LaueOps.getODFSize cls ∧
        LaueOps.flattenBin cls (x, y, z) < LaueOps.getMDFSize cls := by
  cases cls <;>
    simp only [LaueOps.getODFSize, LaueOps.getMDFSize, LaueOps.getOdfNumBins,
      LaueOps.flattenBin] <;>
    refine ⟨by norm_num, trivial, trivial, ?_⟩ <;>
    intro x y z hx hy hz <;> omega

theorem odf_mdf_size_is_product_of_bins_witness :
    17 < (LaueOps.getOdfNumBins LaueClass.Cubic).1 ∧
      17 < (LaueOps.getOdfNumBins LaueClass.Cubic).2.1 ∧
      17 < (LaueOps.getOdfNumBins LaueClass.Cubic).2.2 ∧
      LaueOps.flattenBin LaueClass.Cubic (17, 17, 17) < LaueOps.getODFSize LaueClass.Cubic ∧
      LaueOps.flattenBin LaueClass.Cubic (17, 17, 17) < LaueOps.getMDFSize LaueClass.Cubic :=
  ⟨by decide, by decide, by decide,
    (odf_mdf_size_is_product_of_bins LaueClass.Cubic).2.2.2 17 17 17
      (by decide) (by decide) (by decide)⟩

/-! Theorems: the in-plane fold of the hexagonal and trigonal classes -/

theorem arg_mk_polar (r θ : ℝ) (hr : 0 < r) (h1 : -Real.pi < θ) (h2 : θ ≤ Real.pi) :
    Complex.arg ⟨r * Real.cos θ, r * Real.sin θ⟩ = θ := by
  have e : (⟨r * Real.cos θ, r * Real.sin θ⟩ : ℂ) =
      ↑r * (Complex.cos ↑θ + Complex.sin ↑θ * Complex.I) := by
    apply Complex.ext <;>
      simp [Complex.cos_ofReal_re, Complex.sin_ofReal_re, Complex.cos_ofReal_im,
        Complex.sin_ofReal_im]
  rw [e]
  exact Complex.arg_mul_cos_add_sin_mul_I hr ⟨h1, h2⟩

theorem arg_mk_smul (r x y : ℝ) (hr : 0 < r) :
    Complex.arg ⟨r * x, r * y⟩ = Complex.arg ⟨x, y⟩ := by
  have e : (⟨r * x, r * y⟩ : ℂ) = (r : ℂ) * ⟨x, y⟩ := by
    apply Complex.ext <;> simp
  rw [e, Complex.arg_real_mul _ hr]

/-- The polar angles of `z` and `-z` differ by a multiple of `π`. -/
theorem arg_mk_neg (x y : ℝ) :
    ∃ k : ℤ, Complex.arg ⟨-x, -y⟩ = Complex.arg ⟨x, y⟩ + k * Real.pi := by
  have e : (⟨-x, -y⟩ : ℂ) = -⟨x, y⟩ := by apply Complex.ext <;> simp
  rw [e]
  rcases lt_trichotomy y 0 with hy | hy | hy
  · refine ⟨1, ?_⟩
    rw [Complex.arg_neg_eq_arg_add_pi_of_im_neg (by simpa using hy)]
    simp
  · subst hy
    rcases lt_trichotomy x 0 with hx | hx | hx
    · refine ⟨-1, ?_⟩
      have h1 : Complex.arg ⟨x, 0⟩ = Real.pi := by
        rw [Complex.arg_eq_pi_iff]; exact ⟨hx, rfl⟩
      have h2 : Complex.arg (-⟨x, 0⟩) = 0 := by
        rw [Complex.arg_eq_zero_iff]; constructor <;> simp [hx.le]
      rw [h1, h2]; simp
    · subst hx
      refine ⟨0, ?_⟩
      have : (⟨0, 0⟩ : ℂ) = 0 := rfl
      simp [this]
    · refine ⟨1, ?_⟩
      have h1 : Complex.arg ⟨x, 0⟩ = 0 := by
        rw [Complex.arg_eq_zero_iff]; exact ⟨hx.le, rfl⟩
      have h2 : Complex.arg (-⟨x, 0⟩) = Real.pi := by
        rw [Complex.arg_eq_pi_iff]; constructor <;> simp [hx]
      rw [h1, h2]; simp
  · refine ⟨-1, ?_⟩
    rw [Complex.arg_neg_eq_arg_sub_pi_of_im_pos (by simpa using hy)]
    simp; ring

/-- The in-plane stage of `HexagonalOps::getMDFFZRod` (lines 292-318) on the
components `(p, q)` of the normalised axis, in exact real arithmetic. -/
theorem hexagonal_fold_in_plane (p q : ℝ) (FZn : ℝ × ℝ)
    (hFZ : FZn = HexagonalOps.foldInPlane (fun y x => Complex.arg ⟨x, y⟩) Real.cos Real.sin
      Real.sqrt (1 / Real.pi) (Real.pi / 180) p q) :
    FZn.1 * FZn.1 + FZn.2 * FZn.2 = p * p + q * q ∧
      0 ≤ 180 * Complex.arg ⟨FZn.1, FZn.2⟩ * (1 / Real.pi) ∧
      180 * Complex.arg ⟨FZn.1, FZn.2⟩ * (1 / Real.pi) ≤ 30 ∧
      ∃ k : ℤ, 180 * Complex.arg ⟨FZn.1, FZn.2⟩ * (1 / Real.pi) =
            180 * Complex.arg ⟨p, q⟩ * (1 / Real.pi) + 60 * k ∨
        180 * Complex.arg ⟨FZn.1, FZn.2⟩ * (1 / Real.pi) =
            60 * k - 180 * Complex.arg ⟨p, q⟩ * (1 / Real.pi) := by
  obtain ⟨deg, hdeg_def⟩ : ∃ deg, deg = 180 * Complex.arg ⟨p, q⟩ * (1 / Real.pi) := ⟨_, rfl⟩
  obtain ⟨angle, hangle_def⟩ : ∃ angle, angle = if deg < 0 then deg + 360 else deg := ⟨_, rfl⟩
  have hFZ_def : FZn = if angle > 30 then
        if Int.tmod (truncToInt (angle / 30)) 2 = 0 then
          (Real.sqrt (p * p + q * q) *
              Real.cos ((angle - 30 * (truncToInt (angle / 30) : ℝ)) * (Real.pi / 180)),
            Real.sqrt (p * p + q * q) *
              Real.sin ((angle - 30 * (truncToInt (angle / 30) : ℝ)) * (Real.pi / 180)))
        else
          (Real.sqrt (p * p + q * q) *
              Real.cos ((30 - (angle - 30 * (truncToInt (angle / 30) : ℝ))) * (Real.pi / 180)),
            Real.sqrt (p * p + q * q) *
              Real.sin ((30 - (angle - 30 * (truncToInt (angle / 30) : ℝ))) * (Real.pi / 180)))
      else (p, q) := by
    rw [hFZ, hangle_def, hdeg_def]
    rfl
  clear hFZ
  rw [← hdeg_def]
  have hpi : 0 < Real.pi := Real.pi_pos
  have hθ1 := Complex.neg_pi_lt_arg ⟨p, q⟩
  have hθ2 := Complex.arg_le_pi ⟨p, q⟩
  have hdeg : deg * Real.pi = 180 * Complex.arg ⟨p, q⟩ := by
    rw [hdeg_def]
    field_simp
  have hdeg1 : -180 < deg := by
    by_contra h
    push_neg at h
    nlinarith
  have hdeg2 : deg ≤ 180 := by
    by_contra h
    push_neg at h
    nlinarith
  have hangle : angle = deg ∨ angle = deg + 360 := by
    rw [hangle_def]
    split_ifs
    · right; rfl
    · left; rfl
  have hangle0 : 0 ≤ angle := by
    rw [hangle_def]
    split_ifs with h
    · linarith
    · linarith
  have hangle360 : angle < 360 := by
    rw [hangle_def]
    split_ifs with h
    · linarith
    · linarith
  have hsq : 0 ≤ p * p + q * q := by nlinarith [mul_self_nonneg p, mul_self_nonneg q]
  by_cases h30 : angle > 30
  · -- the axis is not along z
    have hz : 0 < p * p + q * q := by
      rcases hsq.lt_or_eq with h | h
      · exact h
      · exfalso
        have hp : p = 0 := by nlinarith
        have hq : q = 0 := by nlinarith
        have harg : Complex.arg ⟨p, q⟩ = 0 := by
          rw [hp, hq]; exact Complex.arg_zero
        have h0 : deg = 0 := by
          rw [hdeg_def, harg]; simp
        rw [hangle_def, h0, if_neg (lt_irrefl 0)] at h30
        linarith
    have hmag : 0 < Real.sqrt (p * p + q * q) := Real.sqrt_pos.mpr hz
    have hmagsq : Real.sqrt (p * p + q * q) * Real.sqrt (p * p + q * q) = p * p + q * q :=
      Real.mul_self_sqrt hsq
    have hk : truncToInt (angle / 30) = ⌊angle / 30⌋ :=
      truncToInt_of_nonneg _ (div_nonneg hangle0 (by norm_num))
    have hk0 : 0 ≤ ⌊angle / 30⌋ := Int.floor_nonneg.mpr (div_nonneg hangle0 (by norm_num))
    have hf1 : (⌊angle / 30⌋ : ℝ) ≤ angle / 30 := Int.floor_le _
    have hf2 : angle / 30 < ⌊angle / 30⌋ + 1 := Int.lt_floor_add_one _
    have hf1' : 0 ≤ angle - 30 * (⌊angle / 30⌋ : ℝ) := by linarith
    have hf2' : angle - 30 * (⌊angle / 30⌋ : ℝ) < 30 := by linarith
    have hsc : ∀ r φ : ℝ, (r * Real.cos φ) * (r * Real.cos φ) + (r * Real.sin φ) * (r * Real.sin φ)
        = r * r := by
      intro r φ
      have := Real.sin_sq_add_cos_sq φ
      nlinarith
    have hback : ∀ x : ℝ, 180 * (x * (Real.pi / 180)) * (1 / Real.pi) = x := by
      intro x; field_simp
    have hφ : ∀ x : ℝ, 0 ≤ x → x ≤ 30 →
        -Real.pi < x * (Real.pi / 180) ∧ x * (Real.pi / 180) ≤ Real.pi := by
      intro x hx1 hx2
      have hc : 0 ≤ Real.pi / 180 := by positivity
      have h1 := mul_nonneg hx1 hc
      have h2 := mul_le_mul_of_nonneg_right hx2 hc
      constructor <;> linarith
    by_cases hev : Int.tmod (truncToInt (angle / 30)) 2 = 0
    · have hFZ : FZn = (Real.sqrt (p * p + q * q) *
              Real.cos ((angle - 30 * (⌊angle / 30⌋ : ℝ)) * (Real.pi / 180)),
            Real.sqrt (p * p + q * q) *
              Real.sin ((angle - 30 * (⌊angle / 30⌋ : ℝ)) * (Real.pi / 180))) := by
        rw [hFZ_def, if_pos h30, if_pos hev, hk]
      rw [hFZ]
      dsimp only
      have harg := arg_mk_polar (Real.sqrt (p * p + q * q))
        ((angle - 30 * (⌊angle / 30⌋ : ℝ)) * (Real.pi / 180)) hmag
        (hφ _ hf1' hf2'.le).1 (hφ _ hf1' hf2'.le).2
      rw [harg, hback, hsc, hmagsq]
      refine ⟨rfl, hf1', hf2'.le, ?_⟩
      rw [hk, Int.tmod_eq_emod hk0 (by norm_num)] at hev
      obtain ⟨j, hj⟩ : ∃ j : ℤ, ⌊angle / 30⌋ = 2 * j := ⟨⌊angle / 30⌋ / 2, by omega⟩
      rw [hj]
      rcases hangle with h' | h'
      · exact ⟨-j, Or.inl (by rw [h']; push_cast; ring)⟩
      · exact ⟨6 - j, Or.inl (by rw [h']; push_cast; ring)⟩
    · have hFZ : FZn = (Real.sqrt (p * p + q * q) *
              Real.cos ((30 - (angle - 30 * (⌊angle / 30⌋ : ℝ))) * (Real.pi / 180)),
            Real.sqrt (p * p + q * q) *
              Real.sin ((30 - (angle - 30 * (⌊angle / 30⌋ : ℝ))) * (Real.pi / 180))) := by
        rw [hFZ_def, if_pos h30, if_neg hev, hk]
      rw [hFZ]
      dsimp only
      have harg := arg_mk_polar (Real.sqrt (p * p + q * q))
        ((30 - (angle - 30 * (⌊angle / 30⌋ : ℝ))) * (Real.pi / 180)) hmag
        (hφ _ (by linarith) (by linarith)).1 (hφ _ (by linarith) (by linarith)).2
      rw [harg, hback, hsc, hmagsq]
      refine ⟨rfl, by linarith, by linarith, ?_⟩
      rw [hk, Int.tmod_eq_emod hk0 (by norm_num)] at hev
      obtain ⟨j, hj⟩ : ∃ j : ℤ, ⌊angle / 30⌋ = 2 * j - 1 := ⟨(⌊angle / 30⌋ + 1) / 2, by omega⟩
      rw [hj]
      rcases hangle with h' | h'
      · exact ⟨j, Or.inr (by rw [h']; push_cast; ring)⟩
      · exact ⟨j - 6, Or.inr (by rw [h']; push_cast; ring)⟩
  · have hFZ : FZn = (p, q) := by
      rw [hFZ_def, if_neg h30]
    have hle : angle ≤ 30 := not_lt.mp h30
    have han : angle = deg := by
      rcases hangle with h' | h'
      · exact h'
      · exfalso; linarith
    rw [hFZ]
    dsimp only
    rw [← hdeg_def]
    refine ⟨rfl, by linarith, by linarith, 0, Or.inl ?_⟩
    push_cast
    ring

/-- C12: in `HexagonalOps::getMDFFZRod`, in exact real arithmetic, for an
axis-angle pair `ax` with non-zero axis obtained from the ODF-reduced input, the
pair `fz` handed to `ax2ro` keeps the rotation angle `w`, has `z` component
`≥ 0`, has the in-plane magnitude of the normalised axis,
`FZn1² + FZn2² = n1² + n2²`, and its in-plane polar angle `atan2(FZn2, FZn1)`
lies in `[0, 30]` degrees and is the polar angle of the normalised axis
reflected about multiples of 30 degrees (it is `θ + 60 k` or `60 k - θ`). -/
theorem hexagonal_getMDFFZRod_folds_into_sector (ext : External ℝ) (inRod : Rodrigues ℝ)
    (ax : AxisAngle ℝ)
    (hrod : ax = ext.ro2ax (LaueOps._calcRodNearestOrigin HexagonalHigh.RodSym inRod))
    (hax : ax.n1 * ax.n1 + ax.n2 * ax.n2 + ax.n3 * ax.n3 ≠ 0) :
    ∃ fz : AxisAngle ℝ,
      fz = HexagonalOps.getMDFFZAxisAngle (fun y x => Complex.arg ⟨x, y⟩) Real.cos Real.sin
        Real.sqrt (1 / Real.pi) (Real.pi / 180) ax ∧
      HexagonalOps.getMDFFZRod ext (fun y x => Complex.arg ⟨x, y⟩) Real.cos Real.sin
        Real.sqrt (1 / Real.pi) (Real.pi / 180) inRod = ext.ax2ro fz ∧
      fz.w = ax.w ∧ 0 ≤ fz.n3 ∧
      fz.n1 * fz.n1 + fz.n2 * fz.n2 =
        (ax.n1 * ax.n1 + ax.n2 * ax.n2) / (ax.n1 * ax.n1 + ax.n2 * ax.n2 + ax.n3 * ax.n3) ∧
      0 ≤ 180 * Complex.arg ⟨fz.n1, fz.n2⟩ * (1 / Real.pi) ∧
      180 * Complex.arg ⟨fz.n1, fz.n2⟩ * (1 / Real.pi) ≤ 30 ∧
      ∃ k : ℤ,
        180 * Complex.arg ⟨fz.n1, fz.n2⟩ * (1 / Real.pi) =
            180 * Complex.arg ⟨ax.n1, ax.n2⟩ * (1 / Real.pi) + 60 * k ∨
          180 * Complex.arg ⟨fz.n1, fz.n2⟩ * (1 / Real.pi) =
            60 * k - 180 * Complex.arg ⟨ax.n1, ax.n2⟩ * (1 / Real.pi) := by
  refine ⟨_, rfl, by rw [hrod]; rfl, rfl, ?_⟩
  unfold HexagonalOps.getMDFFZAxisAngle
  dsimp only
  have hpi : 0 < Real.pi := Real.pi_pos
  have hs0 : 0 ≤ ax.n1 * ax.n1 + ax.n2 * ax.n2 + ax.n3 * ax.n3 := by
    nlinarith [mul_self_nonneg ax.n1, mul_self_nonneg ax.n2, mul_self_nonneg ax.n3]
  have hs : 0 < ax.n1 * ax.n1 + ax.n2 * ax.n2 + ax.n3 * ax.n3 := lt_of_le_of_ne hs0 (Ne.symm hax)
  have hd : 0 < Real.sqrt (ax.n1 * ax.n1 + ax.n2 * ax.n2 + ax.n3 * ax.n3) := Real.sqrt_pos.mpr hs
  have hdd : Real.sqrt (ax.n1 * ax.n1 + ax.n2 * ax.n2 + ax.n3 * ax.n3) *
      Real.sqrt (ax.n1 * ax.n1 + ax.n2 * ax.n2 + ax.n3 * ax.n3) =
      ax.n1 * ax.n1 + ax.n2 * ax.n2 + ax.n3 * ax.n3 := Real.mul_self_sqrt hs0
  generalize Real.sqrt (ax.n1 * ax.n1 + ax.n2 * ax.n2 + ax.n3 * ax.n3) = d at hd hdd
  -- the polar angle of the normalised axis is the one of the axis itself
  have hargn : Complex.arg ⟨ax.n1 / d, ax.n2 / d⟩ = Complex.arg ⟨ax.n1, ax.n2⟩ := by
    have := arg_mk_smul (1 / d) ax.n1 ax.n2 (by positivity)
    rw [← this]
    congr 1
    apply Complex.ext <;> simp <;> ring
  have hmag : (ax.n1 / d) * (ax.n1 / d) + (ax.n2 / d) * (ax.n2 / d) =
      (ax.n1 * ax.n1 + ax.n2 * ax.n2) / (ax.n1 * ax.n1 + ax.n2 * ax.n2 + ax.n3 * ax.n3) := by
    rw [← hdd]; field_simp
  by_cases hflip : ax.n3 / d < 0
  · rw [if_pos hflip]
    obtain ⟨h1, h2, h3, k, h4⟩ := hexagonal_fold_in_plane (-(ax.n1 / d)) (-(ax.n2 / d)) _ rfl
    obtain ⟨k0, hk0⟩ := arg_mk_neg (ax.n1 / d) (ax.n2 / d)
    rw [hargn] at hk0
    rw [hk0] at h4
    refine ⟨by linarith, ?_, h2, h3, ?_⟩
    · rw [h1, ← hmag]; ring
    · rcases h4 with h4 | h4
      · exact ⟨k + 3 * k0, Or.inl (by rw [h4]; push_cast; field_simp; ring)⟩
      · exact ⟨k - 3 * k0, Or.inr (by rw [h4]; push_cast; field_simp; ring)⟩
  · rw [if_neg hflip]
    obtain ⟨h1, h2, h3, k, h4⟩ := hexagonal_fold_in_plane (ax.n1 / d) (ax.n2 / d) _ rfl
    rw [hargn] at h4
    exact ⟨by linarith, by rw [h1, ← hmag], h2, h3, k, h4⟩

theorem hexagonal_getMDFFZRod_folds_into_sector_witness :
    ∃ ax : AxisAngle ℝ, ax = ⟨1, 0, 0, 1⟩ ∧
      ax.n1 * ax.n1 + ax.n2 * ax.n2 + ax.n3 * ax.n3 ≠ 0 ∧
      ∃ fz : AxisAngle ℝ,
        fz = HexagonalOps.getMDFFZAxisAngle (fun y x => Complex.arg ⟨x, y⟩) Real.cos Real.sin
          Real.sqrt (1 / Real.pi) (Real.pi / 180) ax ∧
        HexagonalOps.getMDFFZRod
          ⟨fun _ => ⟨1, 0, 0, 1⟩, fun a => ⟨a.n1, a.n2, a.n3⟩, fun _ => ⟨0, 0, 0⟩,
            fun _ => (0, 0, 0), fun _ _ _ _ => (0, 0, 0), fun _ _ _ _ => 0⟩
          (fun y x => Complex.arg ⟨x, y⟩) Real.cos Real.sin
          Real.sqrt (1 / Real.pi) (Real.pi / 180) ⟨0, 0, 0⟩ =
            (⟨fz.n1, fz.n2, fz.n3⟩ : Rodrigues ℝ) ∧
        fz.w = ax.w ∧ 0 ≤ fz.n3 ∧
        fz.n1 * fz.n1 + fz.n2 * fz.n2 =
          (ax.n1 * ax.n1 + ax.n2 * ax.n2) / (ax.n1 * ax.n1 + ax.n2 * ax.n2 + ax.n3 * ax.n3) ∧
        0 ≤ 180 * Complex.arg ⟨fz.n1, fz.n2⟩ * (1 / Real.pi) ∧
        180 * Complex.arg ⟨fz.n1, fz.n2⟩ * (1 / Real.pi) ≤ 30 ∧
        ∃ k : ℤ,
          180 * Complex.arg ⟨fz.n1, fz.n2⟩ * (1 / Real.pi) =
              180 * Complex.arg ⟨ax.n1, ax.n2⟩ * (1 / Real.pi) + 60 * k ∨
            180 * Complex.arg ⟨fz.n1, fz.n2⟩ * (1 / Real.pi) =
              60 * k - 180 * Complex.arg ⟨ax.n1, ax.n2⟩ * (1 / Real.pi) :=
  ⟨⟨1, 0, 0, 1⟩, rfl, by norm_num,
    hexagonal_getMDFFZRod_folds_into_sector
      ⟨fun _ => ⟨1, 0, 0, 1⟩, fun a => ⟨a.n1, a.n2, a.n3⟩, fun _ => ⟨0, 0, 0⟩,
        fun _ => (0, 0, 0), fun _ _ _ _ => (0, 0, 0), fun _ _ _ _ => 0⟩
      ⟨0, 0, 0⟩ ⟨1, 0, 0, 1⟩ rfl (by norm_num)⟩

theorem arg_mk_one_zero : Complex.arg ⟨1, 0⟩ = 0 := by
  rw [Complex.arg_eq_zero_iff]
  exact ⟨zero_le_one, rfl⟩

/-- C13: `TrigonalOps::getMDFFZRod` hands to `ax2ro` the local `FZw`, not the
rotation angle `w` of the ODF-reduced input: the pair handed over does not
depend on `w` at all, and for the axis `(1, 0, 0)` with angle 1 it is
`(1, 0, 0)` with angle 0, where `HexagonalOps::getMDFFZRod` hands over angle 1. -/
theorem trigonal_getMDFFZRod_drops_rotation_angle :
    (∀ (ext : External ℝ) (inRod : Rodrigues ℝ),
      TrigonalOps.getMDFFZRod ext (fun y x => Complex.arg ⟨x, y⟩) Real.cos Real.sin
          Real.sqrt (1 / Real.pi) (Real.pi / 180) inRod =
        ext.ax2ro (TrigonalOps.getMDFFZAxisAngle (fun y x => Complex.arg ⟨x, y⟩) Real.cos
          Real.sin Real.sqrt (1 / Real.pi) (Real.pi / 180)
          (ext.ro2ax (LaueOps._calcRodNearestOrigin TrigonalHigh.RodSym inRod)))) ∧
    (∀ n1 n2 n3 w w' : ℝ,
      TrigonalOps.getMDFFZAxisAngle (fun y x => Complex.arg ⟨x, y⟩) Real.cos Real.sin
          Real.sqrt (1 / Real.pi) (Real.pi / 180) ⟨n1, n2, n3, w⟩ =
        TrigonalOps.getMDFFZAxisAngle (fun y x => Complex.arg ⟨x, y⟩) Real.cos Real.sin
          Real.sqrt (1 / Real.pi) (Real.pi / 180) ⟨n1, n2, n3, w'⟩) ∧
    TrigonalOps.getMDFFZAxisAngle (fun y x => Complex.arg ⟨x, y⟩) Real.cos Real.sin
        Real.sqrt (1 / Real.pi) (Real.pi / 180) ⟨1, 0, 0, 1⟩ = ⟨1, 0, 0, 0⟩ ∧
    HexagonalOps.getMDFFZAxisAngle (fun y x => Complex.arg ⟨x, y⟩) Real.cos Real.sin
        Real.sqrt (1 / Real.pi) (Real.pi / 180) ⟨1, 0, 0, 1⟩ = ⟨1, 0, 0, 1⟩ := by
  refine ⟨fun _ _ => rfl, fun _ _ _ _ _ => rfl, ?_, ?_⟩
  · norm_num [TrigonalOps.getMDFFZAxisAngle, TrigonalOps.foldInPlane, arg_mk_one_zero]
  · norm_num [HexagonalOps.getMDFFZAxisAngle, HexagonalOps.foldInPlane, arg_mk_one_zero]

/-! Theorems: colours -/

/-- The cube root `y = x ^ (1 / 3)` of a non-negative real lies between `a` and `b`
as soon as `x` lies between their cubes. -/
theorem cbrt_bounds (x a b : ℝ) (ha : 0 ≤ a) (hb : 0 ≤ b) (h1 : a ^ 3 < x) (h2 : x < b ^ 3) :
    a < x ^ ((1 : ℝ) / 3) ∧ x ^ ((1 : ℝ) / 3) < b := by
  have hx : 0 ≤ x := le_trans (pow_nonneg ha 3) h1.le
  have hy : 0 ≤ x ^ ((1 : ℝ) / 3) := Real.rpow_nonneg hx _
  have hy3 : (x ^ ((1 : ℝ) / 3)) ^ 3 = x := by
    rw [← Real.rpow_natCast, ← Real.rpow_mul hx]
    norm_num
  constructor
  · by_contra h
    push_neg at h
    have := pow_le_pow_left₀ hy h 3
    rw [hy3] at this
    linarith
  · by_contra h
    push_neg at h
    have := pow_le_pow_left₀ hb h 3
    rw [hy3] at this
    linarith

/-- The first two entries of `HexagonalHigh::OdfDimInitValue`, and the second of
`Monoclinic::OdfDimInitValue`: `(0.75 (π/2 - 1))^(1/3) ≈ 0.75367`. -/
theorem odfDim_hexagonal_bounds :
    (0.7536 : ℝ) < (0.75 * (Real.pi / 2 - Real.sin (Real.pi / 2))) ^ ((1 : ℝ) / 3) ∧
      (0.75 * (Real.pi / 2 - Real.sin (Real.pi / 2))) ^ ((1 : ℝ) / 3) < 0.7537 := by
  rw [Real.sin_pi_div_two]
  have h1 := Real.pi_gt_d6
  have h2 := Real.pi_lt_d6
  apply cbrt_bounds <;> norm_num <;> linarith

/-- The first entry of `Monoclinic::OdfDimInitValue`: `(0.7f π)^(1/3) ≈ 1.30042`. -/
theorem odfDim_monoclinic_bounds :
    (1.3 : ℝ) < (11744051 / 16777216 * (Real.pi - Real.sin Real.pi)) ^ ((1 : ℝ) / 3) ∧
      (11744051 / 16777216 * (Real.pi - Real.sin Real.pi)) ^ ((1 : ℝ) / 3) < 1.301 := by
  rw [Real.sin_pi]
  have h1 := Real.pi_gt_d6
  have h2 := Real.pi_lt_d6
  apply cbrt_bounds <;> norm_num <;> linarith

theorem scaled_half (d e : ℝ) (hd : 0 < d) (he : 0 < e) :
    (0 + 2 * d / 2) / (2 * d) / (2 * e / 2) * 255 = 127.5 / e := by
  field_simp
  ring

theorem trunc_scaled_half_hexagonal (d e : ℝ) (hd : 0 < d) (h1 : 0.7536 < e) (h2 : e < 0.7537) :
    truncToInt ((0 + 2 * d / 2) / (2 * d) / (2 * e / 2) * 255) = 169 := by
  have he : 0 < e := by linarith
  rw [scaled_half d e hd he]
  apply truncToInt_eq _ 169 (by norm_num)
  · rw [le_div_iff₀ he]; push_cast; linarith
  · rw [div_lt_iff₀ he]; push_cast; linarith

theorem trunc_scaled_half_monoclinic (d e : ℝ) (hd : 0 < d) (h1 : 1.3 < e) (h2 : e < 1.301) :
    truncToInt ((0 + 2 * d / 2) / (2 * d) / (2 * e / 2) * 255) = 98 := by
  have he : 0 < e := by linarith
  rw [scaled_half d e hd he]
  apply truncToInt_eq _ 98 (by norm_num)
  · rw [le_div_iff₀ he]; push_cast; linarith
  · rw [div_lt_iff₀ he]; push_cast; linarith

theorem trunc_half (d : ℝ) (hd : 0 < d) : truncToInt (255 * (0 + d) / (2 * d)) = 127 := by
  have e : 255 * (0 + d) / (2 * d) = 127.5 := by field_simp; ring
  rw [e]
  apply truncToInt_eq _ 127 (by norm_num) <;> norm_num

theorem trunc_wrapped_hexagonal (d : ℝ) (h1 : 0.7536 < d) (h2 : d < 0.7537) :
    truncToInt ((1 / 2 + 2 * d / 2) / (2 * d) / (2 * d / 2) * 255) = 281 := by
  have hd : 0 < d := by linarith
  have e : (1 / 2 + 2 * d / 2) / (2 * d) / (2 * d / 2) * 255 = 255 * (1 / 2 + d) / (2 * d * d) := by
    field_simp
    ring
  rw [e]
  have hdd : 0 < 2 * d * d := by positivity
  apply truncToInt_eq _ 281 (by norm_num)
  · rw [le_div_iff₀ hdd]; push_cast; nlinarith
  · rw [div_lt_iff₀ hdd]; push_cast; nlinarith

/-- C15: with the arrays `OdfDimInitValue` of the source, in exact real
arithmetic, `HexagonalOps::generateRodriguesColor(0, 0, 0)` has the channels
169, 169, 169 and `MonoclinicOps::generateRodriguesColor(0, 0, 0)` the channels
98, 98, 169, where the truncation of `255 (r + d) / (2 d)` is 127; and the red
channel of `HexagonalOps::generateRodriguesColor(0.5, 0, 0)` has wrapped around:
the value `281` is stored as `25`. -/
theorem generateRodriguesColor_hexagonal_monoclinic_rescaled :
    HexagonalOps.generateRodriguesColor
        (HexagonalHigh.OdfDimInitValue (fun x y => x ^ y) Real.sin (Real.pi / 2) Real.pi)
        0 0 0 = RgbColor.dRgb 169 169 169 255 ∧
      MonoclinicOps.generateRodriguesColor
        (Monoclinic.OdfDimInitValue (fun x y => x ^ y) Real.sin (Real.pi / 2) Real.pi)
        0 0 0 = RgbColor.dRgb 98 98 169 255 ∧
      truncToInt (255 * (0 + (HexagonalHigh.OdfDimInitValue (fun x y => x ^ y) Real.sin
          (Real.pi / 2) Real.pi).1) /
        (2 * (HexagonalHigh.OdfDimInitValue (fun x y => x ^ y) Real.sin
          (Real.pi / 2) Real.pi).1)) = 127 ∧
      truncToInt (255 * (0 + (Monoclinic.OdfDimInitValue (fun x y => x ^ y) Real.sin
          (Real.pi / 2) Real.pi).1) /
        (2 * (Monoclinic.OdfDimInitValue (fun x y => x ^ y) Real.sin
          (Real.pi / 2) Real.pi).1)) = 127 ∧
      (1 / 2 : ℝ) ≤ (HexagonalHigh.OdfDimInitValue (fun x y => x ^ y) Real.sin
          (Real.pi / 2) Real.pi).1 ∧
      RgbColor.dRed (HexagonalOps.generateRodriguesColor
        (HexagonalHigh.OdfDimInitValue (fun x y => x ^ y) Real.sin (Real.pi / 2) Real.pi)
        (1 / 2) 0 0) = 25 := by
  obtain ⟨hd1, hd2⟩ := odfDim_hexagonal_bounds
  obtain ⟨hm1, hm2⟩ := odfDim_monoclinic_bounds
  have hd3 : (0 : ℝ) < (0.75 * (Real.pi / 6 - Real.sin (Real.pi / 6))) ^ ((1 : ℝ) / 3) := by
    apply Real.rpow_pos_of_pos
    rw [Real.sin_pi_div_six]
    have := Real.pi_gt_d6
    linarith
  have hm3 : (0 : ℝ) < (0.75 * (Real.pi - Real.sin Real.pi)) ^ ((1 : ℝ) / 3) := by
    apply Real.rpow_pos_of_pos
    rw [Real.sin_pi]
    have := Real.pi_pos
    linarith
  simp only [HexagonalOps.generateRodriguesColor, MonoclinicOps.generateRodriguesColor,
    HexagonalHigh.OdfDimInitValue, Monoclinic.OdfDimInitValue]
  generalize (0.75 * (Real.pi / 2 - Real.sin (Real.pi / 2))) ^ ((1 : ℝ) / 3) = d at hd1 hd2
  generalize (11744051 / 16777216 * (Real.pi - Real.sin Real.pi)) ^ ((1 : ℝ) / 3) = m at hm1 hm2
  generalize (0.75 * (Real.pi / 6 - Real.sin (Real.pi / 6))) ^ ((1 : ℝ) / 3) = d3 at hd3
  generalize (0.75 * (Real.pi - Real.sin Real.pi)) ^ ((1 : ℝ) / 3) = m3 at hm3
  have hd : 0 < d := by linarith
  have hm : 0 < m := by linarith
  refine ⟨?_, ?_, trunc_half d hd, trunc_half m hm, by linarith, ?_⟩
  · rw [trunc_scaled_half_hexagonal d d hd hd1 hd2, trunc_scaled_half_hexagonal d3 d hd3 hd1 hd2]
  · rw [trunc_scaled_half_monoclinic m m hm hm1 hm2, trunc_scaled_half_monoclinic d m hd hm1 hm2,
      trunc_scaled_half_hexagonal m3 d hm3 hd1 hd2]
  · rw [trunc_wrapped_hexagonal d hd1 hd2, trunc_scaled_half_hexagonal d d hd hd1 hd2,
      trunc_scaled_half_hexagonal d3 d hd3 hd1 hd2]
    decide

theorem quat_identity_mul (q : Quat ℝ) : (⟨0, 0, 0, 1⟩ : Quat ℝ) * q = q := by
  show Quat.mul _ _ = _
  cases q
  simp [Quat.mul]

section IPFProof

open Real

theorem arg_mk_zero_zero : Complex.arg ⟨0, 0⟩ = 0 := by
  have : (⟨0, 0⟩ : ℂ) = 0 := rfl
  rw [this, Complex.arg_zero]

theorem eu2qu_zero (m : IPFMath ℝ) (hc : m.cos 0 = 1) (hs : m.sin 0 = 0) :
    eu2qu m (0, 0, 0) = ⟨0, 0, 0, 1⟩ := by
  simp [eu2qu, hc, hs]

theorem qu2om_identity : qu2om (⟨0, 0, 0, 1⟩ : Quat ℝ) = 1 := by
  ext i j
  fin_cases i <;> fin_cases j <;> simp [qu2om, Matrix.vecHead, Matrix.vecTail]

theorem normalize_e3 : normalize Real.sqrt (![0, 0, 1] : Fin 3 → ℝ) = ![0, 0, 1] := by
  simp [normalize]

theorem chiMax_zero_pos :
    0 < CubicOps.chiMax
      ⟨cos, sin, tan, arccos, fun y x => Complex.arg ⟨x, y⟩, sqrt, π, π / 180, 180 / π, π / 180⟩
      0 := by
  have h0 : (0 : ℝ) ≤ √(1 / 2) := Real.sqrt_nonneg _
  have h1 : √(1 / 2) < 1 := by
    rw [Real.sqrt_lt' one_pos]
    norm_num
  have hb : bound (√(1 / 2)) (-1) 1 = √(1 / 2) := by
    unfold bound
    rw [if_neg (by linarith), if_neg (by linarith)]
  have e : CubicOps.chiMax
      ⟨cos, sin, tan, arccos, fun y x => Complex.arg ⟨x, y⟩, sqrt, π, π / 180, 180 / π, π / 180⟩
      0 = arccos (√(1 / 2)) := by
    simp only [CubicOps.chiMax, zero_mul, Real.tan_zero, mul_zero, add_zero]
    rw [if_neg (by norm_num), hb]
  rw [e]
  exact Real.arccos_pos.mpr h1

theorem inUnitTriangleD_zero :
    CubicOps.inUnitTriangleD
      ⟨cos, sin, tan, arccos, fun y x => Complex.arg ⟨x, y⟩, sqrt, π, π / 180, 180 / π, π / 180⟩
      0 0 = true := by
  have h := chiMax_zero_pos
  have hpi := Real.pi_pos
  unfold CubicOps.inUnitTriangleD
  simp only [lt_irrefl, decide_False, Bool.false_or, Bool.or_false, Bool.not_eq_true',
    decide_eq_false_iff_not, not_lt, gt_iff_lt]
  rw [decide_eq_false (by simp only [not_lt]; positivity), decide_eq_false (not_lt.mpr h.le)]
  rfl

theorem ipfSearch_identity :
    CubicOps.ipfSearch
      ⟨cos, sin, tan, arccos, fun y x => Complex.arg ⟨x, y⟩, sqrt, π, π / 180, 180 / π, π / 180⟩
      ⟨0, 0, 0, 1⟩ ![0, 0, 1] (CubicHigh.QuatSym (1 / √2)) (0, 0) = (0, 0) := by
  have hp : normalize Real.sqrt ((qu2om ((⟨0, 0, 0, 1⟩ : Quat ℝ) * ⟨0, 0, 0, 1⟩)).mulVec
      ![0, 0, 1]) = ![0, 0, 1] := by
    rw [quat_identity_mul, qu2om_identity, Matrix.one_mulVec, normalize_e3]
  unfold CubicHigh.QuatSym
  rw [CubicOps.ipfSearch]
  simp only [hp]
  norm_num [CubicOps.getHasInversion, arg_mk_zero_zero, inUnitTriangleD_zero]

/-- C14: in exact real arithmetic, `CubicOps::generateIPFColor` with Euler angles
`(0, 0, 0)` and reference direction `(0, 0, 1)` returns the packed value
`0xFFFF0000`: red 255, green 0, blue 0, alpha 255.  The divisor `chiMax` of the
colour computation is not zero at `eta = 0`. -/
theorem cubic_generateIPFColor_identity_is_red (degToRad : Bool) :
    CubicOps.generateIPFColor
        ⟨cos, sin, tan, arccos, fun y x => Complex.arg ⟨x, y⟩, sqrt, π, π / 180, 180 / π, π / 180⟩
        (1 / √2) 0 0 0 0 0 1 degToRad = 0xFFFF0000 ∧
      RgbColor.dRed 0xFFFF0000 = 255 ∧ RgbColor.dGreen 0xFFFF0000 = 0 ∧
      RgbColor.dBlue 0xFFFF0000 = 0 ∧ RgbColor.dAlpha 0xFFFF0000 = 255 ∧
      CubicOps.chiMax
        ⟨cos, sin, tan, arccos, fun y x => Complex.arg ⟨x, y⟩, sqrt, π, π / 180, 180 / π, π / 180⟩
        0 ≠ 0 := by
  refine ⟨?_, by decide, by decide, by decide, by decide, chiMax_zero_pos.ne'⟩
  have hq : eu2qu
      (⟨cos, sin, tan, arccos, fun y x => Complex.arg ⟨x, y⟩, sqrt, π, π / 180, 180 / π,
        π / 180⟩ : IPFMath ℝ) (0, 0, 0) = ⟨0, 0, 0, 1⟩ :=
    eu2qu_zero _ Real.cos_zero Real.sin_zero
  have h255 : truncToInt ((255 : ℝ)) = 255 :=
    truncToInt_eq 255 255 (by norm_num) (by norm_num) (by norm_num)
  have h0 : truncToInt ((0 : ℝ)) = 0 :=
    truncToInt_eq 0 0 (by norm_num) (by norm_num) (by norm_num)
  unfold CubicOps.generateIPFColor
  simp only [zero_mul, ite_self, hq, ipfSearch_identity]
  norm_num [h255, h0]
  decide

end IPFProof

/-! Theorems: the modified Lambert projection and the sphere coordinates -/

section Lambert

variable {α : Type} [LinearOrderedField α]

theorem foldl_add_eq_sum (l : List α) (t : α) : l.foldl (fun t v => t + v) t = t + l.sum := by
  induction l generalizing t with
  | nil => simp
  | cons x xs ih => simp [List.foldl_cons, ih, add_assoc]

theorem wrapInt32_of_range (n : Int) (h0 : 0 ≤ n) (h1 : n < 2147483648) :
    ModifiedLambertProjection.wrapInt32 n = n := by
  unfold ModifiedLambertProjection.wrapInt32
  omega

theorem sum_map_mul_right (l : List α) (c : α) : (l.map (fun v => v * c)).sum = l.sum * c := by
  induction l with
  | nil => simp
  | cons x xs ih => simp [ih, add_mul]

theorem take_map_append_drop {β : Type} (l : List β) (n : Nat) (f : β → β) (h : l.length ≤ n) :
    (l.take n).map f ++ l.drop n = l.map f := by
  rw [List.take_of_length_le h, List.drop_of_length_le h, List.append_nil]

theorem normalizeSquares_north (P : ModifiedLambertProjection α) :
    P.normalizeSquares.m_NorthSquare =
      P.m_NorthSquare.map (fun v => v * (1 / P.m_NorthSquare.sum)) := by
  unfold ModifiedLambertProjection.normalizeSquares
  dsimp only
  rw [take_map_append_drop _ _ _ le_rfl, List.take_length, foldl_add_eq_sum, zero_add]

theorem normalizeSquares_south (P : ModifiedLambertProjection α)
    (h : P.m_SouthSquare.length ≤ P.m_NorthSquare.length) :
    P.normalizeSquares.m_SouthSquare =
      P.m_SouthSquare.map (fun v => v * (1 / P.m_SouthSquare.sum)) := by
  unfold ModifiedLambertProjection.normalizeSquares
  dsimp only
  rw [take_map_append_drop _ _ _ h, List.take_of_length_le h, foldl_add_eq_sum, zero_add]

theorem normalizeSquares_dimension (P : ModifiedLambertProjection α) :
    P.normalizeSquares.m_Dimension = P.m_Dimension := rfl

theorem normalizeSquaresToMRD_north (P : ModifiedLambertProjection α) :
    P.normalizeSquaresToMRD.m_NorthSquare =
      P.normalizeSquares.m_NorthSquare.map (fun v => v *
        ((ModifiedLambertProjection.wrapInt32 (P.m_Dimension * P.m_Dimension) : Int) : α)) := by
  unfold ModifiedLambertProjection.normalizeSquaresToMRD
  dsimp only
  rw [take_map_append_drop _ _ _ le_rfl, normalizeSquares_dimension]

theorem normalizeSquaresToMRD_south (P : ModifiedLambertProjection α)
    (h : P.m_SouthSquare.length ≤ P.m_NorthSquare.length) :
    P.normalizeSquaresToMRD.m_SouthSquare =
      P.normalizeSquares.m_SouthSquare.map (fun v => v *
        ((ModifiedLambertProjection.wrapInt32 (P.m_Dimension * P.m_Dimension) : Int) : α)) := by
  have h2 : P.normalizeSquares.m_SouthSquare.length ≤ P.normalizeSquares.m_NorthSquare.length := by
    rw [normalizeSquares_north, normalizeSquares_south P h]
    simpa using h
  unfold ModifiedLambertProjection.normalizeSquaresToMRD
  dsimp only
  rw [take_map_append_drop _ _ _ h2, normalizeSquares_dimension]

/-- A list of `n` bins, all equal to `c` and with a non-zero sum, turns into a
list of ones when every bin is divided by the sum and multiplied by `n`. -/
theorem mrd_of_constant (l : List α) (c : α) (n : Int) (hlen : l.length = n.toNat) (hn : 0 ≤ n)
    (hc : ∀ v ∈ l, v = c) (hsum : l.sum ≠ 0) :
    ∀ v ∈ l.map (fun v => v / l.sum * (n : α)), v = 1 := by
  have hl : l = List.replicate l.length c := List.eq_replicate_of_mem hc
  have hs : l.sum = l.length * c := by
    conv_lhs => rw [hl]
    simp
  have hnc : (n : α) = (l.length : α) := by
    rw [hlen]
    have : ((n.toNat : Int) : α) = (n : α) := by rw [Int.toNat_of_nonneg hn]
    exact_mod_cast this.symm
  intro v hv
  rw [List.mem_map] at hv
  obtain ⟨x, hx, rfl⟩ := hv
  rw [hc x hx, hnc, hs]
  rw [hs] at hsum
  have h1 : (l.length : α) ≠ 0 := left_ne_zero_of_mul hsum
  have h2 : c ≠ 0 := right_ne_zero_of_mul hsum
  field_simp
  ring

/-- C18: for a projection whose two squares hold `Dimension * Dimension` bins
(`Dimension * Dimension` within the range of `int`) and whose north and south
totals are both non-zero, `normalizeSquaresToMRD` leaves in every bin its previous
value divided by its hemisphere's total and multiplied by
`Dimension * Dimension`; each hemisphere's bins then sum to
`Dimension * Dimension`, and a square whose bins were all equal ends with every
bin equal to 1. -/
theorem normalizeSquaresToMRD_spec (P : ModifiedLambertProjection α)
    (hN : P.m_NorthSquare.length = (P.m_Dimension * P.m_Dimension).toNat)
    (hS : P.m_SouthSquare.length = (P.m_Dimension * P.m_Dimension).toNat)
    (hD : P.m_Dimension * P.m_Dimension < 2147483648)
    (hn : P.m_NorthSquare.sum ≠ 0) (hs : P.m_SouthSquare.sum ≠ 0) :
    P.normalizeSquaresToMRD.m_NorthSquare =
        P.m_NorthSquare.map
          (fun v => v / P.m_NorthSquare.sum * ((P.m_Dimension * P.m_Dimension : Int) : α)) ∧
      P.normalizeSquaresToMRD.m_SouthSquare =
        P.m_SouthSquare.map
          (fun v => v / P.m_SouthSquare.sum * ((P.m_Dimension * P.m_Dimension : Int) : α)) ∧
      P.normalizeSquaresToMRD.m_NorthSquare.sum = ((P.m_Dimension * P.m_Dimension : Int) : α) ∧
      P.normalizeSquaresToMRD.m_SouthSquare.sum = ((P.m_Dimension * P.m_Dimension : Int) : α) ∧
      (∀ c : α, (∀ v ∈ P.m_NorthSquare, v = c) →
        ∀ v ∈ P.normalizeSquaresToMRD.m_NorthSquare, v = 1) ∧
      (∀ c : α, (∀ v ∈ P.m_SouthSquare, v = c) →
        ∀ v ∈ P.normalizeSquaresToMRD.m_SouthSquare, v = 1) := by
  have hw : ModifiedLambertProjection.wrapInt32 (P.m_Dimension * P.m_Dimension) =
      P.m_Dimension * P.m_Dimension := wrapInt32_of_range _ (mul_self_nonneg _) hD
  have hle : P.m_SouthSquare.length ≤ P.m_NorthSquare.length := by rw [hN, hS]
  have eN : P.normalizeSquaresToMRD.m_NorthSquare =
      P.m_NorthSquare.map
        (fun v => v / P.m_NorthSquare.sum * ((P.m_Dimension * P.m_Dimension : Int) : α)) := by
    rw [normalizeSquaresToMRD_north, normalizeSquares_north, hw, List.map_map]
    apply List.map_congr_left
    intro v _
    simp [div_eq_mul_inv]
  have eS : P.normalizeSquaresToMRD.m_SouthSquare =
      P.m_SouthSquare.map
        (fun v => v / P.m_SouthSquare.sum * ((P.m_Dimension * P.m_Dimension : Int) : α)) := by
    rw [normalizeSquaresToMRD_south P hle, normalizeSquares_south P hle, hw, List.map_map]
    apply List.map_congr_left
    intro v _
    simp [div_eq_mul_inv]
  have sum_eq : ∀ l : List α, l.sum ≠ 0 → ∀ c : α,
      (l.map (fun v => v / l.sum * c)).sum = c := by
    intro l hl c
    have : (fun v : α => v / l.sum * c) = fun v => v * (1 / l.sum * c) := by
      funext v; ring
    rw [this, sum_map_mul_right]
    field_simp
  refine ⟨eN, eS, ?_, ?_, ?_, ?_⟩
  · rw [eN]; exact sum_eq _ hn _
  · rw [eS]; exact sum_eq _ hs _
  · intro c hc
    rw [eN]
    exact mrd_of_constant _ c _ hN (mul_self_nonneg _) hc hn
  · intro c hc
    rw [eS]
    exact mrd_of_constant _ c _ hS (mul_self_nonneg _) hc hs

end Lambert

theorem normalizeSquaresToMRD_spec_witness :
    ∃ P : ModifiedLambertProjection ℚ,
      P = ⟨2, 1, 1, 1, 1, 1, -1, [1, 2, 3, 4], [5, 5, 5, 5]⟩ ∧
      P.m_NorthSquare.length = (P.m_Dimension * P.m_Dimension).toNat ∧
      P.m_SouthSquare.length = (P.m_Dimension * P.m_Dimension).toNat ∧
      P.m_Dimension * P.m_Dimension < 2147483648 ∧
      P.m_NorthSquare.sum ≠ 0 ∧ P.m_SouthSquare.sum ≠ 0 ∧
      P.normalizeSquaresToMRD.m_NorthSquare =
        P.m_NorthSquare.map
          (fun v => v / P.m_NorthSquare.sum * ((P.m_Dimension * P.m_Dimension : Int) : ℚ)) ∧
      P.normalizeSquaresToMRD.m_SouthSquare =
        P.m_SouthSquare.map
          (fun v => v / P.m_SouthSquare.sum * ((P.m_Dimension * P.m_Dimension : Int) : ℚ)) ∧
      P.normalizeSquaresToMRD.m_NorthSquare.sum = ((P.m_Dimension * P.m_Dimension : Int) : ℚ) ∧
      P.normalizeSquaresToMRD.m_SouthSquare.sum = ((P.m_Dimension * P.m_Dimension : Int) : ℚ) ∧
      (∀ c : ℚ, (∀ v ∈ P.m_NorthSquare, v = c) →
        ∀ v ∈ P.normalizeSquaresToMRD.m_NorthSquare, v = 1) ∧
      (∀ c : ℚ, (∀ v ∈ P.m_SouthSquare, v = c) →
        ∀ v ∈ P.normalizeSquaresToMRD.m_SouthSquare, v = 1) :=
  ⟨⟨2, 1, 1, 1, 1, 1, -1, [1, 2, 3, 4], [5, 5, 5, 5]⟩, rfl, by decide, by decide, by decide,
    by norm_num, by norm_num,
    normalizeSquaresToMRD_spec ⟨2, 1, 1, 1, 1, 1, -1, [1, 2, 3, 4], [5, 5, 5, 5]⟩
      (by decide) (by decide) (by decide) (by norm_num) (by norm_num)⟩

section LambertCorner

variable {α : Type} [LinearOrderedField α] [FloorRing α]

/-- In a 2 × 2 square, a coordinate in the upper right quarter of the upper right
cell (`abin = bbin = 1`, both fractions above one half) sends the second, third
and fourth write of `addInterpolatedValues` to bin 0; the last one stays. -/
theorem addInterpolatedValues_corner (P : ModifiedLambertProjection α) (x y value : α)
    (a0 a1 a2 a3 : α)
    (hD : P.m_Dimension = 2) (hN : P.m_NorthSquare = [a0, a1, a2, a3])
    (hx1 : 3 / 2 < (x + P.m_HalfDimensionTimesStepSize) / P.m_StepSize)
    (hx2 : (x + P.m_HalfDimensionTimesStepSize) / P.m_StepSize < 2)
    (hy1 : 3 / 2 < (y + P.m_HalfDimensionTimesStepSize) / P.m_StepSize)
    (hy2 : (y + P.m_HalfDimensionTimesStepSize) / P.m_StepSize < 2) :
    (P.addInterpolatedValues Square.NorthSquare (x, y) value).m_NorthSquare =
      [a0 + value * ((x + P.m_HalfDimensionTimesStepSize) / P.m_StepSize - 3 / 2) *
          ((y + P.m_HalfDimensionTimesStepSize) / P.m_StepSize - 3 / 2), a1, a2,
        a3 + value * (1 - ((x + P.m_HalfDimensionTimesStepSize) / P.m_StepSize - 3 / 2)) *
          (1 - ((y + P.m_HalfDimensionTimesStepSize) / P.m_StepSize - 3 / 2))] ∧
    (P.addInterpolatedValues Square.NorthSquare (x, y) value).m_SouthSquare =
      P.m_SouthSquare := by
  generalize hmx : (x + P.m_HalfDimensionTimesStepSize) / P.m_StepSize = mx at hx1 hx2
  generalize hmy : (y + P.m_HalfDimensionTimesStepSize) / P.m_StepSize = my at hy1 hy2
  have hax : truncToInt mx = 1 := truncToInt_eq mx 1 (by norm_num) (by push_cast; linarith)
    (by push_cast; linarith)
  have hay : truncToInt my = 1 := truncToInt_eq my 1 (by norm_num) (by push_cast; linarith)
    (by push_cast; linarith)
  have one : truncToInt (1 : α) = 1 := truncToInt_eq 1 1 (by norm_num) (by norm_num) (by norm_num)
  have htx : (0 : α) < mx - 3 / 2 := by linarith
  have hty : (0 : α) < my - 3 / 2 := by linarith
  have ex : mx - ((1 : Int) : α) - 0.5 = mx - 3 / 2 := by push_cast; ring
  have ey : my - ((1 : Int) : α) - 0.5 = my - 3 / 2 := by push_cast; ring
  refine ⟨?_, ?_⟩
  · simp only [ModifiedLambertProjection.addInterpolatedValues, hmx, hmy, hax, hay, hD, hN,
      abs_of_pos htx, abs_of_pos hty, ex, ey, if_neg htx.ne', if_neg hty.ne',
      div_self htx.ne', div_self hty.ne', one]
    have t3 : Int.toNat 3 = 3 := rfl
    norm_num [ModifiedLambertProjection.splat, ModifiedLambertProjection.arrayGetValue,
      ModifiedLambertProjection.arraySetValue, t3]
  · simp only [ModifiedLambertProjection.addInterpolatedValues]

end LambertCorner

/-- C17: `addInterpolatedValues` on the freshly initialised projection of
dimension 2 and radius 1, in exact real arithmetic, with the north-square
coordinate `(1, 1)` (inside `[-MaxCoord, MaxCoord)`) and the value 1: the second,
third and fourth bin index coincide (bin 0), the later writes overwrite the
earlier ones, and the north total grows by less than the value added.  The south
square is unchanged. -/
theorem addInterpolatedValues_loses_value_in_corner :
    (2 : Int) ≤ (ModifiedLambertProjection.initializeSquares Real.sqrt Real.pi 2 1).m_Dimension ∧
      -(ModifiedLambertProjection.initializeSquares Real.sqrt Real.pi 2 1).m_MaxCoord ≤ 1 ∧
      1 < (ModifiedLambertProjection.initializeSquares Real.sqrt Real.pi 2 1).m_MaxCoord ∧
      (ModifiedLambertProjection.initializeSquares Real.sqrt Real.pi 2 1).m_NorthSquare.sum = 0 ∧
      (((ModifiedLambertProjection.initializeSquares Real.sqrt Real.pi 2 1).addInterpolatedValues
          Square.NorthSquare (1, 1) 1).m_NorthSquare.sum <
        (ModifiedLambertProjection.initializeSquares Real.sqrt Real.pi 2 1).m_NorthSquare.sum
          + 1) ∧
      ((ModifiedLambertProjection.initializeSquares Real.sqrt Real.pi 2 1).addInterpolatedValues
          Square.NorthSquare (1, 1) 1).m_SouthSquare =
        (ModifiedLambertProjection.initializeSquares Real.sqrt Real.pi 2 1).m_SouthSquare := by
  have hpi1 := Real.pi_gt_three
  have hpi2 := Real.pi_le_four
  have hs1 : 2 < Real.sqrt (4 * Real.pi * 1 * 1 / 2) := by
    rw [Real.lt_sqrt (by norm_num)]
    linarith
  have hs2 : Real.sqrt (4 * Real.pi * 1 * 1 / 2) < 4 := by
    rw [Real.sqrt_lt' (by norm_num)]
    linarith
  have key := addInterpolatedValues_corner
    (ModifiedLambertProjection.initializeSquares Real.sqrt Real.pi 2 1) 1 1 1 0 0 0 0 rfl rfl
  simp only [ModifiedLambertProjection.initializeSquares] at key ⊢
  generalize Real.sqrt (4 * Real.pi * 1 * 1 / 2) = s at hs1 hs2 key ⊢
  have hs : 0 < s := by linarith
  have hm : (1 + ((2 : Int) : ℝ) / 2 * (s / ((2 : Int) : ℝ))) / (s / ((2 : Int) : ℝ)) = 2 / s + 1 := by
    push_cast
    field_simp
  rw [hm] at key
  have h1 : 1 / 2 < 2 / s := by rw [lt_div_iff₀ hs]; linarith
  have h2 : 2 / s < 1 := by rw [div_lt_iff₀ hs]; linarith
  obtain ⟨kN, kS⟩ := key (by linarith) (by linarith) (by linarith) (by linarith)
  refine ⟨le_refl _, by linarith, by linarith, by simp, ?_, kS⟩
  rw [kN]
  simp only [List.sum_cons, List.sum_nil]
  have : (List.replicate (Int.toNat 2 * Int.toNat 2) (0 : ℝ)).sum = 0 := by simp
  rw [this]
  nlinarith

section LambertInjective

open Real

/-- On the sphere of radius `R`, off the equator, the radius `ρ` of the Lambert
disc satisfies `ρ √π / 2 < MaxCoord`. -/
theorem lambert_rho_lt_max (R w : ℝ) (hR : 0 < R) (hw : 0 < w) (hwR : w ≤ R) :
    √(2 * R * (R - w)) * (√π / 2) < √(4 * π * R * R / 2) / 2 := by
  have h0 : 0 ≤ 2 * R * (R - w) := by
    have : 0 ≤ R - w := by linarith
    positivity
  have e : √(2 * R * (R - w)) * (√π / 2) = √(2 * R * (R - w) * π) / 2 := by
    rw [Real.sqrt_mul h0]; ring
  rw [e]
  have : √(2 * R * (R - w) * π) < √(4 * π * R * R / 2) := by
    apply Real.sqrt_lt_sqrt (by positivity)
    have hπ := Real.pi_pos
    nlinarith [mul_pos (mul_pos hR hw) hπ]
  linarith

theorem abs_arctan_le (t : ℝ) (ht : |t| ≤ 1) : |arctan t| ≤ π / 4 := by
  rw [abs_le] at ht ⊢
  have h1 : arctan (-1) ≤ arctan t := Real.arctan_strictMono.monotone ht.1
  have h2 : arctan t ≤ arctan 1 := Real.arctan_strictMono.monotone ht.2
  rw [Real.arctan_neg, Real.arctan_one] at h1
  rw [Real.arctan_one] at h2
  exact ⟨h1, h2⟩

theorem abs_arctan_lt (t : ℝ) (ht : |t| < 1) : |arctan t| < π / 4 := by
  rw [abs_lt] at ht ⊢
  have h1 : arctan (-1) < arctan t := Real.arctan_strictMono ht.1
  have h2 : arctan t < arctan 1 := Real.arctan_strictMono ht.2
  rw [Real.arctan_neg, Real.arctan_one] at h1
  rw [Real.arctan_one] at h2
  exact ⟨h1, h2⟩

theorem two_div_sqrt_pi_mul (a : ℝ) : 2 / √π * a * (√π / 2) * (√π / 2) = a * (√π / 2) := by
  have h : √π ≠ 0 := (Real.sqrt_pos.mpr Real.pi_pos).ne'
  field_simp

theorem two_over_sqrt_pi_quarter : 2 / √π * (π / 4) = √π / 2 := by
  have h : 0 < √π := Real.sqrt_pos.mpr Real.pi_pos
  have h2 : √π * √π = π := Real.mul_self_sqrt Real.pi_pos.le
  field_simp
  nlinarith

theorem sign_div_abs (u : ℝ) (hu : u ≠ 0) : abs (u / abs u) = 1 := by
  rw [abs_div, abs_abs, div_self (abs_ne_zero.mpr hu)]

/-- Two points of the plane with the same sign of the first coordinate, the same
slope and the same distance from the origin are equal. -/
theorem planar_decode (u v u' v' : ℝ) (hu : u ≠ 0) (hu' : u' ≠ 0)
    (hsign : u / |u| = u' / |u'|) (hslope : v / u = v' / u')
    (hnorm : u * u + v * v = u' * u' + v' * v') : u = u' ∧ v = v' := by
  have hv : v = v / u * u := by field_simp
  have hv' : v' = v' / u' * u' := by field_simp
  set t := v / u with ht
  rw [← hslope] at hv'
  have hsq : u * u = u' * u' := by
    have h1 : u * u * (1 + t * t) = u' * u' * (1 + t * t) := by
      rw [hv, hv'] at hnorm
      linarith
    have h2 : 0 < 1 + t * t := by nlinarith [mul_self_nonneg t]
    exact mul_right_cancel₀ h2.ne' h1
  have habs : |u| = |u'| := by
    rw [← Real.sqrt_mul_self_eq_abs, ← Real.sqrt_mul_self_eq_abs, hsq]
  have huu : u = u' := by
    rw [habs] at hsign
    have := abs_ne_zero.mpr hu'
    field_simp at hsign
    exact hsign
  exact ⟨huu, by rw [hv, hv', huu]⟩

end LambertInjective

section LambertInjective2

open Real

theorem abs_le_radius (R x y z : ℝ) (hR : 0 < R) (hs : x * x + y * y + z * z = R * R) :
    |z| ≤ R := by
  rw [abs_le]
  constructor <;> nlinarith [mul_self_nonneg x, mul_self_nonneg y]

theorem regroup_factor (σ ρ q h : ℝ) (hh : h ≠ 0) : σ * ρ * q = σ * q / h * ρ * h := by
  field_simp
  ring

/-- The coordinate that `getSquareCoord` writes for a point of the sphere of
radius `R` that is neither on the equator nor a pole: no clamping to
`MaxCoord` takes place. -/
theorem getSquareCoord_off_pole (dims : Int) (R x y z : ℝ) (hR : 0 < R) (hz : z ≠ 0)
    (hs : x * x + y * y + z * z = R * R) (hxy : ¬(x = 0 ∧ y = 0)) :
    (|x| ≥ |y| →
      (ModifiedLambertProjection.getSquareCoord Real.sqrt Real.arctan (√π / 2) (2 / √π)
        (ModifiedLambertProjection.initializeSquares Real.sqrt π dims R) (x, y, z)).2 =
      (x / |x| * √(2 * R * (R - |z|)) * (√π / 2),
        x / |x| * √(2 * R * (R - |z|)) * (2 / √π * arctan (y / x)))) ∧
    (¬ |x| ≥ |y| →
      (ModifiedLambertProjection.getSquareCoord Real.sqrt Real.arctan (√π / 2) (2 / √π)
        (ModifiedLambertProjection.initializeSquares Real.sqrt π dims R) (x, y, z)).2 =
      (y / |y| * √(2 * R * (R - |z|)) * (2 / √π * arctan (x / y)),
        y / |y| * √(2 * R * (R - |z|)) * (√π / 2))) := by
  have hzR := abs_le_radius R x y z hR hs
  have hz0 : 0 < |z| := abs_pos.mpr hz
  have hmax := lambert_rho_lt_max R |z| hR hz0 hzR
  have hadj : z * (if z ≥ 0 then (-1 : ℝ) else 1) = -|z| := by
    split_ifs with h
    · rw [abs_of_nonneg h]; ring
    · rw [abs_of_neg (not_le.mp h)]; ring
  have hρ : 0 ≤ √(2 * R * (R - |z|)) := Real.sqrt_nonneg _
  have hh : 0 < √π / 2 := by have := Real.sqrt_pos.mpr Real.pi_pos; positivity
  have hk : 0 < 2 / √π := by have := Real.sqrt_pos.mpr Real.pi_pos; positivity
  -- a signed multiple of `ρ √π / 2` of modulus at most 1 stays below `MaxCoord`
  have hclamp : ∀ c : ℝ, |c| ≤ 1 →
      ¬ (c * √(2 * R * (R - |z|)) * (√π / 2) ≥ √(4 * π * R * R / 2) / 2) := by
    intro c hc
    have h1 : c * (√(2 * R * (R - |z|)) * (√π / 2)) ≤ 1 * (√(2 * R * (R - |z|)) * (√π / 2)) :=
      mul_le_mul_of_nonneg_right (le_trans (le_abs_self c) hc) (by positivity)
    intro hge
    linarith
  have hclamp2 : ∀ (σ t : ℝ), |σ| = 1 → |t| ≤ 1 →
      ¬ (σ * √(2 * R * (R - |z|)) * (2 / √π * arctan t) ≥ √(4 * π * R * R / 2) / 2) := by
    intro σ t hσ ht
    rw [regroup_factor σ _ (2 / √π * arctan t) (√π / 2) hh.ne']
    apply hclamp
    rw [abs_div, abs_mul, abs_mul, hσ, abs_of_pos hh, abs_of_pos hk, one_mul,
      div_le_one hh, ← two_over_sqrt_pi_quarter]
    exact mul_le_mul_of_nonneg_left (abs_arctan_le t ht) hk.le
  constructor
  · intro hb
    have hx : x ≠ 0 := by
      intro h0
      apply hxy
      refine ⟨h0, ?_⟩
      rw [h0, abs_zero] at hb
      exact abs_eq_zero.mp (le_antisymm hb (abs_nonneg y))
    have ht : |y / x| ≤ 1 := by
      rw [abs_div, div_le_one (abs_pos.mpr hx)]
      exact hb
    simp only [ModifiedLambertProjection.getSquareCoord,
      ModifiedLambertProjection.initializeSquares, if_neg hxy, if_pos hb, hadj,
      if_neg (hclamp _ (sign_div_abs x hx).le),
      if_neg (hclamp2 _ _ (sign_div_abs x hx) ht), ← sub_eq_add_neg]
  · intro hb
    have hlt : |x| < |y| := not_le.mp hb
    have hy : y ≠ 0 := by
      intro h0
      rw [h0, abs_zero] at hlt
      exact absurd hlt (not_lt.mpr (abs_nonneg x))
    have ht : |x / y| ≤ 1 := by
      rw [abs_div, div_le_one (abs_pos.mpr hy)]
      exact hlt.le
    simp only [ModifiedLambertProjection.getSquareCoord,
      ModifiedLambertProjection.initializeSquares, if_neg hxy, if_neg hb, hadj,
      if_neg (hclamp _ (sign_div_abs y hy).le),
      if_neg (hclamp2 _ _ (sign_div_abs y hy) ht), ← sub_eq_add_neg]

end LambertInjective2

section LambertInjective3

open Real

theorem lambert_decode (ρ ρ' u v u' v' : ℝ) (hρ : 0 < ρ) (hρ' : 0 < ρ') (hu : u ≠ 0)
    (hu' : u' ≠ 0)
    (hA : u / |u| * ρ * (√π / 2) = u' / |u'| * ρ' * (√π / 2))
    (hB : u / |u| * ρ * (2 / √π * arctan (v / u)) = u' / |u'| * ρ' * (2 / √π * arctan (v' / u'))) :
    ρ = ρ' ∧ u / |u| = u' / |u'| ∧ v / u = v' / u' := by
  have hh : 0 < √π / 2 := by have := Real.sqrt_pos.mpr Real.pi_pos; positivity
  have hk : 0 < 2 / √π := by have := Real.sqrt_pos.mpr Real.pi_pos; positivity
  have hσ := sign_div_abs u hu
  have hσ' := sign_div_abs u' hu'
  generalize u / |u| = σ at hA hB hσ
  generalize u' / |u'| = σ' at hA hB hσ'
  have h1 : σ * ρ = σ' * ρ' := mul_right_cancel₀ hh.ne' hA
  have h2 : ρ = ρ' := by
    have := congrArg abs h1
    rwa [abs_mul, abs_mul, hσ, hσ', one_mul, one_mul, abs_of_pos hρ, abs_of_pos hρ'] at this
  subst h2
  have h3 : σ = σ' := mul_right_cancel₀ hρ.ne' h1
  subst h3
  have hσ0 : σ ≠ 0 := by
    intro h0
    rw [h0, abs_zero] at hσ
    exact zero_ne_one hσ
  refine ⟨rfl, rfl, ?_⟩
  have h4 : 2 / √π * arctan (v / u) = 2 / √π * arctan (v' / u') :=
    mul_left_cancel₀ (mul_ne_zero hσ0 hρ.ne') hB
  exact Real.arctan_injective (mul_left_cancel₀ hk.ne' h4)

/-- Off the poles the radius of the Lambert disc is positive. -/
theorem lambert_rho_pos (R x y z : ℝ) (hR : 0 < R) (hs : x * x + y * y + z * z = R * R)
    (hxy : ¬(x = 0 ∧ y = 0)) : 0 < 2 * R * (R - |z|) := by
  have hzR := abs_le_radius R x y z hR hs
  have hlt : |z| < R := by
    rcases hzR.lt_or_eq with h | h
    · exact h
    · exfalso
      have hz2 : z * z = R * R := by rw [← h, abs_mul_abs_self]
      have hx : x = 0 := by nlinarith [mul_self_nonneg x, mul_self_nonneg y]
      have hy : y = 0 := by nlinarith [mul_self_nonneg x, mul_self_nonneg y]
      exact hxy ⟨hx, hy⟩
  have : 0 < R - |z| := by linarith
  positivity

theorem getSquareCoord_pole (dims : Int) (R z : ℝ) :
    (ModifiedLambertProjection.getSquareCoord Real.sqrt Real.arctan (√π / 2) (2 / √π)
      (ModifiedLambertProjection.initializeSquares Real.sqrt π dims R) (0, 0, z)).2 = (0, 0) := by
  simp [ModifiedLambertProjection.getSquareCoord]

end LambertInjective3

section LambertInjective4

open Real

theorem lambert_major_abs (σ ρ : ℝ) (hσ : |σ| = 1) (hρ : 0 < ρ) :
    |σ * ρ * (√π / 2)| = ρ * (√π / 2) := by
  have hh : 0 < √π / 2 := by have := Real.sqrt_pos.mpr Real.pi_pos; positivity
  rw [abs_mul, abs_mul, hσ, one_mul, abs_of_pos hρ, abs_of_pos hh]

theorem lambert_minor_abs (σ ρ t : ℝ) (hσ : |σ| = 1) (hρ : 0 < ρ) :
    |σ * ρ * (2 / √π * arctan t)| = ρ * (2 / √π * |arctan t|) := by
  have hk : 0 < 2 / √π := by have := Real.sqrt_pos.mpr Real.pi_pos; positivity
  rw [abs_mul, abs_mul, hσ, one_mul, abs_of_pos hρ, abs_mul, abs_of_pos hk]

theorem lambert_minor_le (σ ρ t : ℝ) (hσ : |σ| = 1) (hρ : 0 < ρ) (ht : |t| ≤ 1) :
    |σ * ρ * (2 / √π * arctan t)| ≤ ρ * (√π / 2) := by
  have hk : 0 < 2 / √π := by have := Real.sqrt_pos.mpr Real.pi_pos; positivity
  rw [lambert_minor_abs σ ρ t hσ hρ, ← two_over_sqrt_pi_quarter]
  exact mul_le_mul_of_nonneg_left (mul_le_mul_of_nonneg_left (abs_arctan_le t ht) hk.le) hρ.le

theorem lambert_minor_lt (σ ρ t : ℝ) (hσ : |σ| = 1) (hρ : 0 < ρ) (ht : |t| < 1) :
    |σ * ρ * (2 / √π * arctan t)| < ρ * (√π / 2) := by
  have hk : 0 < 2 / √π := by have := Real.sqrt_pos.mpr Real.pi_pos; positivity
  rw [lambert_minor_abs σ ρ t hσ hρ, ← two_over_sqrt_pi_quarter]
  exact mul_lt_mul_of_pos_left (mul_lt_mul_of_pos_left (abs_arctan_lt t ht) hk) hρ

/-- C16: for the projection initialised with sphere radius `R > 0` (any
dimension), in exact real arithmetic, two points of the sphere
`x² + y² + z² = R²` that lie both in the open northern hemisphere (`z > 0`) or
both in the open southern one (`z < 0`) and that `getSquareCoord` sends to the
same square coordinate are equal. -/
theorem getSquareCoord_injective_on_open_hemisphere (dims : Int) (R : ℝ) (hR : 0 < R)
    (x y z x' y' z' : ℝ)
    (hs : x * x + y * y + z * z = R * R) (hs' : x' * x' + y' * y' + z' * z' = R * R)
    (hhemi : (0 < z ∧ 0 < z') ∨ (z < 0 ∧ z' < 0))
    (heq : (ModifiedLambertProjection.getSquareCoord Real.sqrt Real.arctan (√π / 2) (2 / √π)
        (ModifiedLambertProjection.initializeSquares Real.sqrt π dims R) (x, y, z)).2 =
      (ModifiedLambertProjection.getSquareCoord Real.sqrt Real.arctan (√π / 2) (2 / √π)
        (ModifiedLambertProjection.initializeSquares Real.sqrt π dims R) (x', y', z')).2) :
    (x, y, z) = (x', y', z') := by
  have hz : z ≠ 0 := by rcases hhemi with h | h <;> [exact h.1.ne'; exact h.1.ne]
  have hz' : z' ≠ 0 := by rcases hhemi with h | h <;> [exact h.2.ne'; exact h.2.ne]
  have same_z : |z| = |z'| → z = z' := by
    intro h
    rcases hhemi with ⟨h1, h2⟩ | ⟨h1, h2⟩
    · rwa [abs_of_pos h1, abs_of_pos h2] at h
    · rw [abs_of_neg h1, abs_of_neg h2] at h; linarith
  -- the images of points off the poles
  have off : ∀ u v w : ℝ, w ≠ 0 → u * u + v * v + w * w = R * R → ¬(u = 0 ∧ v = 0) →
      ∀ a b : ℝ, (ModifiedLambertProjection.getSquareCoord Real.sqrt Real.arctan (√π / 2) (2 / √π)
        (ModifiedLambertProjection.initializeSquares Real.sqrt π dims R) (u, v, w)).2 = (a, b) →
      0 < √(2 * R * (R - |w|)) ∧
      ((u ≠ 0 ∧ |b| ≤ |a| ∧ |a| = √(2 * R * (R - |w|)) * (√π / 2) ∧
          a = u / |u| * √(2 * R * (R - |w|)) * (√π / 2) ∧
          b = u / |u| * √(2 * R * (R - |w|)) * (2 / √π * arctan (v / u))) ∨
        (v ≠ 0 ∧ |a| < |b| ∧ |b| = √(2 * R * (R - |w|)) * (√π / 2) ∧
          b = v / |v| * √(2 * R * (R - |w|)) * (√π / 2) ∧
          a = v / |v| * √(2 * R * (R - |w|)) * (2 / √π * arctan (u / v)))) := by
    intro u v w hw hsw huv a b hab
    have hρ : 0 < √(2 * R * (R - |w|)) := Real.sqrt_pos.mpr (lambert_rho_pos R u v w hR hsw huv)
    refine ⟨hρ, ?_⟩
    obtain ⟨c1, c2⟩ := getSquareCoord_off_pole dims R u v w hR hw hsw huv
    by_cases hb : |u| ≥ |v|
    · left
      have hu : u ≠ 0 := by
        intro h0
        apply huv
        refine ⟨h0, ?_⟩
        rw [h0, abs_zero] at hb
        exact abs_eq_zero.mp (le_antisymm hb (abs_nonneg v))
      have ht : |v / u| ≤ 1 := by
        rw [abs_div, div_le_one (abs_pos.mpr hu)]
        exact hb
      rw [c1 hb, Prod.mk.injEq] at hab
      obtain ⟨ha, hb'⟩ := hab
      have hσ := sign_div_abs u hu
      refine ⟨hu, ?_, ?_, ha.symm, hb'.symm⟩
      · rw [← ha, ← hb', lambert_major_abs _ _ hσ hρ]
        exact lambert_minor_le _ _ _ hσ hρ ht
      · rw [← ha, lambert_major_abs _ _ hσ hρ]
    · right
      have hlt : |u| < |v| := not_le.mp hb
      have hv : v ≠ 0 := by
        intro h0
        rw [h0, abs_zero] at hlt
        exact absurd hlt (not_lt.mpr (abs_nonneg u))
      have ht : |u / v| < 1 := by
        rw [abs_div, div_lt_one (abs_pos.mpr hv)]
        exact hlt
      rw [c2 hb, Prod.mk.injEq] at hab
      obtain ⟨ha, hb'⟩ := hab
      have hσ := sign_div_abs v hv
      refine ⟨hv, ?_, ?_, hb'.symm, ha.symm⟩
      · rw [← ha, ← hb', lambert_major_abs _ _ hσ hρ]
        exact lambert_minor_lt _ _ _ hσ hρ ht
      · rw [← hb', lambert_major_abs _ _ hσ hρ]
  have rho_inj : ∀ u v w u' v' w' : ℝ, u * u + v * v + w * w = R * R →
      u' * u' + v' * v' + w' * w' = R * R →
      √(2 * R * (R - |w|)) = √(2 * R * (R - |w'|)) → |w| = |w'| := by
    intro u v w u' v' w' h1 h2 h
    have hw := abs_le_radius R u v w hR h1
    have hw' := abs_le_radius R u' v' w' hR h2
    have e := (Real.sqrt_inj (by nlinarith) (by nlinarith)).mp h
    have : R - |w| = R - |w'| := mul_left_cancel₀ (by positivity : (2 * R) ≠ 0) e
    linarith
  by_cases hp : x = 0 ∧ y = 0
  · by_cases hq : x' = 0 ∧ y' = 0
    · obtain ⟨hx, hy⟩ := hp
      obtain ⟨hx', hy'⟩ := hq
      subst hx hy hx' hy'
      have h1 : |z| = R := by
        rw [← abs_of_pos hR]
        exact abs_eq_abs.mpr (by
          have : (z - R) * (z + R) = 0 := by nlinarith
          rcases mul_eq_zero.mp this with h | h
          · left; linarith
          · right; linarith)
      have h2 : |z'| = R := by
        rw [← abs_of_pos hR]
        exact abs_eq_abs.mpr (by
          have : (z' - R) * (z' + R) = 0 := by nlinarith
          rcases mul_eq_zero.mp this with h | h
          · left; linarith
          · right; linarith)
      rw [same_z (h1.trans h2.symm)]
    · exfalso
      obtain ⟨hx, hy⟩ := hp
      subst hx hy
      rw [getSquareCoord_pole] at heq
      obtain ⟨hρ, h | h⟩ := off x' y' z' hz' hs' hq 0 0 heq.symm
      · have := h.2.2.1
        rw [abs_zero] at this
        have hh : 0 < √π / 2 := by have := Real.sqrt_pos.mpr Real.pi_pos; positivity
        have := mul_pos hρ hh
        linarith
      · have := h.2.2.1
        rw [abs_zero] at this
        have hh : 0 < √π / 2 := by have := Real.sqrt_pos.mpr Real.pi_pos; positivity
        have := mul_pos hρ hh
        linarith
  · by_cases hq : x' = 0 ∧ y' = 0
    · exfalso
      obtain ⟨hx, hy⟩ := hq
      subst hx hy
      rw [getSquareCoord_pole] at heq
      obtain ⟨hρ, h | h⟩ := off x y z hz hs hp 0 0 heq
      · have := h.2.2.1
        rw [abs_zero] at this
        have hh : 0 < √π / 2 := by have := Real.sqrt_pos.mpr Real.pi_pos; positivity
        have := mul_pos hρ hh
        linarith
      · have := h.2.2.1
        rw [abs_zero] at this
        have hh : 0 < √π / 2 := by have := Real.sqrt_pos.mpr Real.pi_pos; positivity
        have := mul_pos hρ hh
        linarith
    · obtain ⟨a, b, hab⟩ : ∃ a b : ℝ,
          (ModifiedLambertProjection.getSquareCoord Real.sqrt Real.arctan (√π / 2) (2 / √π)
            (ModifiedLambertProjection.initializeSquares Real.sqrt π dims R) (x, y, z)).2 =
          (a, b) := ⟨_, _, rfl⟩
      have hab' := hab
      rw [heq] at hab'
      obtain ⟨hρ, h⟩ := off x y z hz hs hp a b hab
      obtain ⟨hρ', h'⟩ := off x' y' z' hz' hs' hq a b hab'
      rcases h with ⟨hx, hle, habs, ha, hb⟩ | ⟨hy, hlt, habs, hb, ha⟩ <;>
        rcases h' with ⟨hx', hle', habs', ha', hb'⟩ | ⟨hy', hlt', habs', hb', ha'⟩
      · obtain ⟨e1, e2, e3⟩ := lambert_decode _ _ x y x' y' hρ hρ' hx hx'
          (ha.symm.trans ha') (hb.symm.trans hb')
        have ez := same_z (rho_inj x y z x' y' z' hs hs' e1)
        subst ez
        obtain ⟨ex, ey⟩ := planar_decode x y x' y' hx hx' e2 e3 (by linarith)
        rw [ex, ey]
      · exfalso; linarith
      · exfalso; linarith
      · obtain ⟨e1, e2, e3⟩ := lambert_decode _ _ y x y' x' hρ hρ' hy hy'
          (hb.symm.trans hb') (ha.symm.trans ha')
        have ez := same_z (rho_inj x y z x' y' z' hs hs' e1)
        subst ez
        obtain ⟨ey, ex⟩ := planar_decode y x y' x' hy hy' e2 e3 (by linarith)
        rw [ex, ey]

end LambertInjective4

theorem getSquareCoord_injective_on_open_hemisphere_witness :
    (0 : ℝ) < 1 ∧
      (0.6 : ℝ) * 0.6 + 0 * 0 + 0.8 * 0.8 = 1 * 1 ∧
      (((0 : ℝ) < 0.8 ∧ (0 : ℝ) < 0.8) ∨ ((0.8 : ℝ) < 0 ∧ (0.8 : ℝ) < 0)) ∧
      ((0.6, 0, 0.8) : ℝ × ℝ × ℝ) = (0.6, 0, 0.8) :=
  ⟨one_pos, by norm_num, Or.inl ⟨by norm_num, by norm_num⟩,
    getSquareCoord_injective_on_open_hemisphere 2 1 one_pos 0.6 0 0.8 0.6 0 0.8
      (by norm_num) (by norm_num) (Or.inl ⟨by norm_num, by norm_num⟩) rfl⟩

section SphereCoordsProofs

variable {α : Type} [Field α]

open SphereCoords

theorem writeDirection_frame (a : Nat → α) (p : Nat) (gT : Matrix (Fin 3) (Fin 3) α)
    (d : Fin 3 → α) (idx : Nat) (h : idx < p ∨ p + 6 ≤ idx) :
    writeDirection a p gT d idx = a idx := by
  unfold writeDirection negateInto copyInto
  simp only [Function.update_apply]
  repeat' rw [if_neg (by omega)]

theorem writeDirection_value (a : Nat → α) (p : Nat) (gT : Matrix (Fin 3) (Fin 3) α)
    (d : Fin 3 → α) (j : Fin 3) :
    writeDirection a p gT d (p + j.val) = gT.mulVec d j ∧
      writeDirection a p gT d (p + 3 + j.val) = -(gT.mulVec d j) := by
  unfold writeDirection negateInto copyInto
  fin_cases j <;> simp [Function.update_apply]
  all_goals split_ifs
  all_goals first | rfl | omega

theorem writeFamily_append (a : Nat → α) (base : Nat) (gT : Matrix (Fin 3) (Fin 3) α)
    (l : List (Nat × (Fin 3 → α))) (e : Nat × (Fin 3 → α)) :
    writeFamily a base gT (l ++ [e]) =
      writeDirection (writeFamily a base gT l) (base + e.1) gT e.2 := by
  unfold writeFamily
  rw [List.foldl_append]
  rfl

end SphereCoordsProofs

section SphereCoordsProofs2

variable {α : Type} [Field α]

open SphereCoords

omit [Field α] in
theorem regularOffsets_append (l : List (Nat × (Fin 3 → α))) (e : Nat × (Fin 3 → α))
    (h : regularOffsets (l ++ [e])) : regularOffsets l ∧ e.1 = 6 * l.length := by
  constructor
  · intro m hm
    have := h m (by simp; omega)
    simpa [List.getElem_append_left hm] using this
  · have := h l.length (by simp)
    simpa using this

/-- The array after the writes of one family for one orientation: positions
outside the block are unchanged, and pair `m` of the block holds the rotated
direction `m` and its negative. -/
theorem writeFamily_spec (base : Nat) (gT : Matrix (Fin 3) (Fin 3) α)
    (l : List (Nat × (Fin 3 → α))) (hl : regularOffsets l) (a : Nat → α) :
    (∀ idx, idx < base ∨ base + 6 * l.length ≤ idx → writeFamily a base gT l idx = a idx) ∧
    (∀ m (h : m < l.length) (j : Fin 3),
      writeFamily a base gT l (base + 6 * m + j.val) = gT.mulVec (l.get ⟨m, h⟩).2 j ∧
      writeFamily a base gT l (base + 6 * m + 3 + j.val) = -(gT.mulVec (l.get ⟨m, h⟩).2 j)) := by
  induction l using List.reverseRecOn with
  | nil =>
    refine ⟨fun _ _ => rfl, fun m h => absurd h (by simp)⟩
  | append_singleton l e ih =>
    obtain ⟨hl', he⟩ := regularOffsets_append l e hl
    obtain ⟨ih1, ih2⟩ := ih hl'
    rw [writeFamily_append, he]
    constructor
    · intro idx hidx
      rw [List.length_append, List.length_singleton] at hidx
      rw [writeDirection_frame _ _ _ _ _ (by omega)]
      exact ih1 idx (by omega)
    · intro m hm j
      rw [List.length_append, List.length_singleton] at hm
      have hj := j.isLt
      by_cases hml : m < l.length
      · have e1 : (l ++ [e]).get ⟨m, by simp; omega⟩ = l.get ⟨m, hml⟩ := by
          simp [List.getElem_append_left hml]
        rw [e1]
        rw [writeDirection_frame _ _ _ _ _ (by omega), writeDirection_frame _ _ _ _ _ (by omega)]
        exact ih2 m hml j
      · have hm' : m = l.length := by omega
        subst hm'
        have e1 : (l ++ [e]).get ⟨l.length, by simp⟩ = e := by simp
        rw [e1]
        exact writeDirection_value _ _ gT e.2 j

end SphereCoordsProofs2

section SphereCoordsLoop

variable {α : Type} [Field α]

open SphereCoords

/-- The loop of `generate` seen from one array: orientation `i` writes the block
that starts at `i * stride`. -/
theorem generate_component (eu2om : α × α × α → Matrix (Fin 3) (Fin 3) α)
    (F : SphereFamily α × SphereFamily α × SphereFamily α) (eulers : Nat → α) (k : Fin 3)
    (l : List Nat) (xyz : (Nat → α) × (Nat → α) × (Nat → α)) :
    component k (l.foldl (generateStep eu2om F eulers) xyz) =
      l.foldl (fun a i => writeFamily a (i * (component k F).stride)
        (eu2om (eulers (i * 3), eulers (i * 3 + 1), eulers (i * 3 + 2))).transpose
        (component k F).directions) (component k xyz) := by
  induction l generalizing xyz with
  | nil => rfl
  | cons i l ih =>
    rw [List.foldl_cons, List.foldl_cons, ih]
    fin_cases k <;> rfl

theorem loop_spec (gT : Nat → Matrix (Fin 3) (Fin 3) α) (l : List (Nat × (Fin 3 → α)))
    (hl : regularOffsets l) (s : Nat) (hs : s = 6 * l.length) (start n : Nat) (a : Nat → α) :
    (∀ idx, idx < start * s ∨ (start + n) * s ≤ idx →
      (List.range' start n).foldl (fun a i => writeFamily a (i * s) (gT i) l) a idx = a idx) ∧
    (∀ i, start ≤ i → i < start + n → ∀ m (h : m < l.length) (j : Fin 3),
      (List.range' start n).foldl (fun a i => writeFamily a (i * s) (gT i) l) a
          (i * s + 6 * m + j.val) = (gT i).mulVec (l.get ⟨m, h⟩).2 j ∧
      (List.range' start n).foldl (fun a i => writeFamily a (i * s) (gT i) l) a
          (i * s + 6 * m + 3 + j.val) = -((gT i).mulVec (l.get ⟨m, h⟩).2 j)) := by
  induction n with
  | zero =>
    refine ⟨fun _ _ => rfl, fun i h1 h2 => absurd h2 (by omega)⟩
  | succ n ih =>
    obtain ⟨ih1, ih2⟩ := ih
    rw [List.range'_concat, List.foldl_append]
    simp only [List.foldl_cons, List.foldl_nil, one_mul]
    have hblock : (start + (n + 1)) * s = (start + n) * s + 6 * l.length := by rw [hs]; ring
    have hmono : start * s ≤ (start + n) * s := Nat.mul_le_mul_right s (Nat.le_add_right _ _)
    obtain ⟨w1, w2⟩ := writeFamily_spec ((start + n) * s) (gT (start + n)) l hl
      ((List.range' start n).foldl (fun a i => writeFamily a (i * s) (gT i) l) a)
    constructor
    · intro idx hidx
      rw [hblock] at hidx
      rw [w1 idx (by omega)]
      exact ih1 idx (by omega)
    · intro i hi1 hi2 m hm j
      have hj := j.isLt
      by_cases hin : i < start + n
      · have hlt : i * s + 6 * l.length ≤ (start + n) * s := by
          have : (i + 1) * s ≤ (start + n) * s := Nat.mul_le_mul_right s hin
          rw [hs] at this ⊢
          linarith
        rw [w1 _ (by omega), w1 _ (by omega)]
        exact ih2 i hi1 hin m hm j
      · have hi : i = start + n := by omega
        subst hi
        exact w2 m hm j

end SphereCoordsLoop

section SphereCoordsMain

variable {α : Type} [Field α]

open SphereCoords

theorem families_regular (c t r : α) (cls : LaueClass) (k : Fin 3) :
    regularOffsets (component k (families c t r cls)).directions ∧
      (component k (families c t r cls)).stride =
        6 * (component k (families c t r cls)).directions.length ∧
      component k (LaueOps.getNumSymmetry cls) =
        2 * (component k (families c t r cls)).directions.length := by
  cases cls <;> fin_cases k <;> refine ⟨?_, rfl, rfl⟩ <;> intro m h <;>
    (have h6 : m < 6 := by
      simp [component, families, cubicFamilies, hexagonalFamilies, trigonalFamilies,
        monoclinicFamilies] at h
      omega) <;>
    interval_cases m <;>
    first
    | rfl
    | (simp [component, families, cubicFamilies, hexagonalFamilies, trigonalFamilies,
        monoclinicFamilies] at h)

/-- C19: for each class and each of its three families `k`, with
`N = getNumSymmetry()[k]`: the block of orientation `i` is the `3 N` values from
`i * 3 N` on (the factor of `i` in the source is `3 N`);
`generateSphereCoordsFromEulers` writes nothing behind the blocks of the
`nOrientations` orientations; every one of the `N` points of the block of an
orientation `i < nOrientations` is written (its value does not depend on what
the array held before); and point `2 m + 1` of a block is the negation of point
`2 m`. -/
theorem generateSphereCoordsFromEulers_blocks_antipodal
    (eu2om : α × α × α → Matrix (Fin 3) (Fin 3) α) (c t r : α) (cls : LaueClass)
    (nOrientations : Nat) (eulers : Nat → α) (xyz : (Nat → α) × (Nat → α) × (Nat → α))
    (k : Fin 3) :
    (component k (families c t r cls)).stride = 3 * component k (LaueOps.getNumSymmetry cls) ∧
    (∀ idx, 3 * component k (LaueOps.getNumSymmetry cls) * nOrientations ≤ idx →
      component k (LaueOps.generateSphereCoordsFromEulers eu2om c t r cls nOrientations eulers xyz)
        idx = component k xyz idx) ∧
    (∀ i, i < nOrientations → ∀ p, p < component k (LaueOps.getNumSymmetry cls) →
      ∀ j, j < 3 → ∀ xyz2 : (Nat → α) × (Nat → α) × (Nat → α),
      component k (LaueOps.generateSphereCoordsFromEulers eu2om c t r cls nOrientations eulers xyz)
          (i * (3 * component k (LaueOps.getNumSymmetry cls)) + 3 * p + j) =
        component k
          (LaueOps.generateSphereCoordsFromEulers eu2om c t r cls nOrientations eulers xyz2)
          (i * (3 * component k (LaueOps.getNumSymmetry cls)) + 3 * p + j)) ∧
    (∀ i, i < nOrientations → ∀ m, 2 * m + 1 < component k (LaueOps.getNumSymmetry cls) →
      ∀ j, j < 3 →
      component k (LaueOps.generateSphereCoordsFromEulers eu2om c t r cls nOrientations eulers xyz)
          (i * (3 * component k (LaueOps.getNumSymmetry cls)) + 3 * (2 * m + 1) + j) =
        -component k
          (LaueOps.generateSphereCoordsFromEulers eu2om c t r cls nOrientations eulers xyz)
          (i * (3 * component k (LaueOps.getNumSymmetry cls)) + 3 * (2 * m) + j)) := by
  obtain ⟨hreg, hstride, hN⟩ := families_regular c t r cls k
  have hgen : ∀ xyz : (Nat → α) × (Nat → α) × (Nat → α),
      component k (LaueOps.generateSphereCoordsFromEulers eu2om c t r cls nOrientations eulers xyz)
        = (List.range' 0 nOrientations).foldl (fun a i => writeFamily a
          (i * (component k (families c t r cls)).stride)
          (eu2om (eulers (i * 3), eulers (i * 3 + 1), eulers (i * 3 + 2))).transpose
          (component k (families c t r cls)).directions) (component k xyz) := by
    intro xyz
    unfold LaueOps.generateSphereCoordsFromEulers generate
    rw [generate_component, Nat.sub_zero]
  have hs3 : 3 * component k (LaueOps.getNumSymmetry cls) =
      (component k (families c t r cls)).stride := by rw [hstride, hN]; ring
  have spec := fun a => loop_spec
    (fun i => (eu2om (eulers (i * 3), eulers (i * 3 + 1), eulers (i * 3 + 2))).transpose)
    (component k (families c t r cls)).directions hreg
    (component k (families c t r cls)).stride hstride 0 nOrientations a
  rw [hs3]
  refine ⟨rfl, ?_, ?_, ?_⟩
  · intro idx hidx
    rw [hgen]
    exact (spec _).1 idx (Or.inr (by rw [Nat.zero_add, Nat.mul_comm]; exact hidx))
  · intro i hi p hp j hj xyz2
    rw [hgen, hgen]
    rw [hN] at hp
    obtain ⟨m, hm | hm⟩ : ∃ m, p = 2 * m ∨ p = 2 * m + 1 := ⟨p / 2, by omega⟩
    · have h1 := ((spec (component k xyz)).2 i (Nat.zero_le _) (by omega) m (by omega) ⟨j, hj⟩).1
      have h2 := ((spec (component k xyz2)).2 i (Nat.zero_le _) (by omega) m (by omega) ⟨j, hj⟩).1
      have e : i * (component k (families c t r cls)).stride + 3 * p + j =
          i * (component k (families c t r cls)).stride + 6 * m + j := by omega
      rw [e]
      exact h1.trans h2.symm
    · have h1 := ((spec (component k xyz)).2 i (Nat.zero_le _) (by omega) m (by omega) ⟨j, hj⟩).2
      have h2 := ((spec (component k xyz2)).2 i (Nat.zero_le _) (by omega) m (by omega) ⟨j, hj⟩).2
      have e : i * (component k (families c t r cls)).stride + 3 * p + j =
          i * (component k (families c t r cls)).stride + 6 * m + 3 + j := by omega
      rw [e]
      exact h1.trans h2.symm
  · intro i hi m hm j hj
    rw [hgen]
    rw [hN] at hm
    obtain ⟨h1, h2⟩ := (spec (component k xyz)).2 i (Nat.zero_le _) (by omega) m (by omega) ⟨j, hj⟩
    have e1 : i * (component k (families c t r cls)).stride + 3 * (2 * m + 1) + j =
        i * (component k (families c t r cls)).stride + 6 * m + 3 + j := by omega
    have e2 : i * (component k (families c t r cls)).stride + 3 * (2 * m) + j =
        i * (component k (families c t r cls)).stride + 6 * m + j := by omega
    rw [e1, e2]
    exact h2.trans (by rw [h1])

end SphereCoordsMain

theorem generateSphereCoordsFromEulers_blocks_antipodal_witness :
    0 < 1 ∧ 2 * 5 + 1 < SphereCoords.component 1 (LaueOps.getNumSymmetry LaueClass.Cubic) ∧
      2 < 3 ∧
      SphereCoords.component 1
          (LaueOps.generateSphereCoordsFromEulers (fun _ => (1 : Matrix (Fin 3) (Fin 3) ℚ))
            (1 / 2) (1 / 2) (1 / 2) LaueClass.Cubic 1 (fun _ => 0)
            (fun _ => 0, fun _ => 0, fun _ => 0))
          (0 * (3 * SphereCoords.component 1 (LaueOps.getNumSymmetry LaueClass.Cubic)) +
            3 * (2 * 5 + 1) + 2) =
        -SphereCoords.component 1
          (LaueOps.generateSphereCoordsFromEulers (fun _ => (1 : Matrix (Fin 3) (Fin 3) ℚ))
            (1 / 2) (1 / 2) (1 / 2) LaueClass.Cubic 1 (fun _ => 0)
            (fun _ => 0, fun _ => 0, fun _ => 0))
          (0 * (3 * SphereCoords.component 1 (LaueOps.getNumSymmetry LaueClass.Cubic)) +
            3 * (2 * 5) + 2) :=
  ⟨by decide, by decide, by decide,
    (generateSphereCoordsFromEulers_blocks_antipodal (fun _ => (1 : Matrix (Fin 3) (Fin 3) ℚ))
      (1 / 2) (1 / 2) (1 / 2) LaueClass.Cubic 1 (fun _ => 0)
      (fun _ => 0, fun _ => 0, fun _ => 0) 1).2.2.2 0 (by decide) 5 (by decide) 2 (by decide)⟩

/-! Theorems: quaternion algebra, the arc cosine of the misorientation and colour packing -/

section QuaternionAlgebra

/-- C25: conjugation reverses the Hamilton product in `(x, y, z, w)` storage: for
all quaternions `p` and `q` over a commutative ring,
`conjugate (p * q) = conjugate q * conjugate p`, component by component; in
particular for `p = (1, 2, 3, 1)`, `q = (1, 0, 1, 1)`, the pair of the test. -/
theorem conjugate_mul_reverses {α : Type} [CommRing α] (p q : Quat α) :
    (p * q).conjugate = q.conjugate * p.conjugate ∧
      ((⟨1, 2, 3, 1⟩ : Quat α) * ⟨1, 0, 1, 1⟩).conjugate =
        (⟨1, 0, 1, 1⟩ : Quat α).conjugate * (⟨1, 2, 3, 1⟩ : Quat α).conjugate := by
  have key : ∀ p q : Quat α, (p * q).conjugate = q.conjugate * p.conjugate := by
    intro p q
    show (Quat.mul p q).conjugate = Quat.mul q.conjugate p.conjugate
    simp only [Quat.mul, Quat.conjugate, Quat.mk.injEq]
    refine ⟨?_, ?_, ?_, ?_⟩ <;> ring
  exact ⟨key p q, key _ _⟩

/-- C26: conjugation negates the vector part only and is an involution:
`conjugate (x, y, z, w) = (-x, -y, -z, w)` and
`conjugate (conjugate q) = q`. -/
theorem conjugate_involution {α : Type} [Ring α] (q : Quat α) (x y z w : α) :
    (⟨x, y, z, w⟩ : Quat α).conjugate = ⟨-x, -y, -z, w⟩ ∧ q.conjugate.conjugate = q ∧
      q.conjugate = ⟨-q.x, -q.y, -q.z, q.w⟩ := by
  refine ⟨rfl, ?_, rfl⟩
  cases q
  simp [Quat.conjugate]

/-- C27: the norm is invariant under conjugation, `norm (conjugate q) = norm q`,
and so is the length, whatever the square-root routine. -/
theorem norm_conjugate {α : Type} [Ring α] (q : Quat α) (sqrt : α → α) :
    q.conjugate.norm = q.norm ∧ q.conjugate.length sqrt = q.length sqrt := by
  constructor
  · simp only [Quat.norm, Quat.conjugate, neg_mul_neg]
  · simp only [Quat.length, Quat.conjugate, neg_mul_neg]

end QuaternionAlgebra

section AcosDomain

theorem sortedQuadruplet_w_nonneg {α : Type} [LinearOrderedField α] (q : Quat α) :
    0 ≤ (CubicOps.sortedQuadruplet q.elementWiseAbs).w := by
  obtain ⟨h, -⟩ := CubicOps.sortedQuadruplet_spec q.elementWiseAbs
  rcases h with h | h | h | h <;> rw [h] <;> exact abs_nonneg _

/-- In exact real arithmetic, without overflow: for all quaternions `q1`, `q2` (unit or not),
`CubicOps::calculateMisorientationInternal` evaluates `acos` at one point `x`
with `0 ≤ x ≤ 1`, whatever routines stand for `acos`, `sin` and `sqrt` and
whatever the value of `k_Sqrt2D`: a value above 1 is replaced by the bound (the
branch for values below -1 cannot be reached); the returned angle is `2 acos x`,
which lies in `[0, π]` in exact real arithmetic. -/
theorem cubic_misorientation_acos_argument_in_range (q1 q2 : Quat ℝ) (k_Sqrt2D : ℝ)
    (quatsym : List (Quat ℝ)) :
    ∃ x : ℝ, -1 ≤ x ∧ 0 ≤ x ∧ x ≤ 1 ∧
      (∀ acos sin sqrt : ℝ → ℝ,
        (CubicOps.calculateMisorientationInternal k_Sqrt2D acos sin sqrt quatsym q1 q2).w =
          2 * acos x) ∧
      0 ≤ (CubicOps.calculateMisorientationInternal k_Sqrt2D Real.arccos Real.sin Real.sqrt
        quatsym q1 q2).w ∧
      (CubicOps.calculateMisorientationInternal k_Sqrt2D Real.arccos Real.sin Real.sqrt
        quatsym q1 q2).w ≤ Real.pi := by
  have hw := sortedQuadruplet_w_nonneg (q1 * q2.conjugate)
  have hsel := (CubicOps.selectCandidate_spec k_Sqrt2D
    (CubicOps.sortedQuadruplet (q1 * q2.conjugate).elementWiseAbs)).2.1
  have h0 : 0 ≤ (CubicOps.selectCandidate k_Sqrt2D
      (CubicOps.sortedQuadruplet (q1 * q2.conjugate).elementWiseAbs)).1 := le_trans hw hsel
  have hform : ∀ acos sin sqrt : ℝ → ℝ,
      (CubicOps.calculateMisorientationInternal k_Sqrt2D acos sin sqrt quatsym q1 q2).w =
        2 * acos (min (CubicOps.selectCandidate k_Sqrt2D
      (CubicOps.sortedQuadruplet (q1 * q2.conjugate).elementWiseAbs)).1 1) := by
    intro acos sin sqrt
    unfold CubicOps.calculateMisorientationInternal
    dsimp only
    rw [if_neg (by linarith)]
    split_ifs with h
    · rw [min_eq_right h.le]
    · rw [min_eq_left (not_lt.mp h)]
  refine ⟨min (CubicOps.selectCandidate k_Sqrt2D
      (CubicOps.sortedQuadruplet (q1 * q2.conjugate).elementWiseAbs)).1 1, ?_, le_min h0 zero_le_one,
      min_le_right _ _, hform, ?_, ?_⟩
  · linarith [le_min h0 (zero_le_one : (0 : ℝ) ≤ 1)]
  · rw [hform]
    have := Real.arccos_nonneg (min (CubicOps.selectCandidate k_Sqrt2D
      (CubicOps.sortedQuadruplet (q1 * q2.conjugate).elementWiseAbs)).1 1)
    linarith
  · rw [hform]
    have := Real.arccos_le_pi_div_two.mpr (le_min h0 (zero_le_one : (0 : ℝ) ≤ 1))
    linarith

end AcosDomain

section Packing

theorem pack_nat (a r g b : Nat) (hr : r < 256) (hg : g < 256) (hb : b < 256) :
    (a <<< 24 ||| r <<< 16 ||| g <<< 8 ||| b) = a * 2 ^ 24 + r * 2 ^ 16 + g * 2 ^ 8 + b := by
  simp only [Nat.shiftLeft_eq]
  have h1 : 2 ^ 24 * a + r * 2 ^ 16 = 2 ^ 24 * a ||| r * 2 ^ 16 :=
    Nat.mul_add_lt_is_or (by omega) a
  have h2 : 2 ^ 16 * (a * 2 ^ 8 + r) + g * 2 ^ 8 = 2 ^ 16 * (a * 2 ^ 8 + r) ||| g * 2 ^ 8 :=
    Nat.mul_add_lt_is_or (by omega) _
  have h3 : 2 ^ 8 * (a * 2 ^ 16 + r * 2 ^ 8 + g) + b = 2 ^ 8 * (a * 2 ^ 16 + r * 2 ^ 8 + g) ||| b :=
    Nat.mul_add_lt_is_or (by omega) _
  have e1 : a * 2 ^ 24 = 2 ^ 24 * a := by ring
  have e2 : 2 ^ 24 * a + r * 2 ^ 16 = 2 ^ 16 * (a * 2 ^ 8 + r) := by ring
  have e3 : 2 ^ 16 * (a * 2 ^ 8 + r) + g * 2 ^ 8 = 2 ^ 8 * (a * 2 ^ 16 + r * 2 ^ 8 + g) := by ring
  rw [e1, ← h1, e2, ← h2, e3, ← h3]

/-- The packed value and the four channels read back from it, for channel values
between 0 and 255. -/
theorem dRgb_channels (r g b a : Int) (hr0 : 0 ≤ r) (hr : r ≤ 255) (hg0 : 0 ≤ g) (hg : g ≤ 255)
    (hb0 : 0 ≤ b) (hb : b ≤ 255) (ha0 : 0 ≤ a) (ha : a ≤ 255) :
    (RgbColor.dRgb r g b a : Int) = a * 2 ^ 24 + r * 2 ^ 16 + g * 2 ^ 8 + b ∧
      RgbColor.dRgb r g b a < 2 ^ 32 ∧
      (RgbColor.dRed (RgbColor.dRgb r g b a) : Int) = r ∧
      (RgbColor.dGreen (RgbColor.dRgb r g b a) : Int) = g ∧
      (RgbColor.dBlue (RgbColor.dRgb r g b a) : Int) = b ∧
      (RgbColor.dAlpha (RgbColor.dRgb r g b a) : Int) = a := by
  obtain ⟨r', rfl⟩ := Int.eq_ofNat_of_zero_le hr0
  obtain ⟨g', rfl⟩ := Int.eq_ofNat_of_zero_le hg0
  obtain ⟨b', rfl⟩ := Int.eq_ofNat_of_zero_le hb0
  obtain ⟨a', rfl⟩ := Int.eq_ofNat_of_zero_le ha0
  have hr' : r' < 256 := by omega
  have hg' : g' < 256 := by omega
  have hb' : b' < 256 := by omega
  have ha' : a' < 256 := by omega
  have em : ∀ n : Nat, n < 256 → ((n : Int) % 256).toNat = n := by
    intro n hn
    omega
  have e : RgbColor.dRgb r' g' b' a' = a' * 2 ^ 24 + r' * 2 ^ 16 + g' * 2 ^ 8 + b' := by
    unfold RgbColor.dRgb
    rw [em r' hr', em g' hg', em b' hb', em a' ha']
    exact pack_nat a' r' g' b' hr' hg' hb'
  have hff : (0xff : Nat) = 2 ^ 8 - 1 := by norm_num
  have e' : RgbColor.dRgb r' g' b' a' = a' * 16777216 + r' * 65536 + g' * 256 + b' := by
    rw [e]; norm_num
  have c1 : RgbColor.dRed (RgbColor.dRgb r' g' b' a') = r' := by
    unfold RgbColor.dRed
    rw [e', Nat.shiftRight_eq_div_pow, hff, Nat.and_pow_two_sub_one_eq_mod]
    norm_num
    omega
  have c2 : RgbColor.dGreen (RgbColor.dRgb r' g' b' a') = g' := by
    unfold RgbColor.dGreen
    rw [e', Nat.shiftRight_eq_div_pow, hff, Nat.and_pow_two_sub_one_eq_mod]
    norm_num
    omega
  have c3 : RgbColor.dBlue (RgbColor.dRgb r' g' b' a') = b' := by
    unfold RgbColor.dBlue
    rw [e', hff, Nat.and_pow_two_sub_one_eq_mod]
    norm_num
    omega
  have c4 : RgbColor.dAlpha (RgbColor.dRgb r' g' b' a') = a' := by
    unfold RgbColor.dAlpha
    rw [e', Nat.shiftRight_eq_div_pow]
    norm_num
    omega
  rw [c1, c2, c3, c4]
  refine ⟨by rw [e']; push_cast; ring, by rw [e']; norm_num; omega, rfl, rfl, rfl, rfl⟩

/-- C24: `RgbColor` packs colours as `#AARRGGBB`: for integers `r`, `g`, `b`, `a`
between 0 and 255, `dRgb(r, g, b, a)` is the unsigned 32-bit value
`a 2^24 + r 2^16 + g 2^8 + b`, and `dRed`, `dGreen`, `dBlue`, `dAlpha` read
`r`, `g`, `b`, `a` back from it. -/
theorem dRgb_packs_AARRGGBB (r g b a : Int) (hr : 0 ≤ r ∧ r ≤ 255) (hg : 0 ≤ g ∧ g ≤ 255)
    (hb : 0 ≤ b ∧ b ≤ 255) (ha : 0 ≤ a ∧ a ≤ 255) :
    (RgbColor.dRgb r g b a : Int) = a * 2 ^ 24 + r * 2 ^ 16 + g * 2 ^ 8 + b ∧
      RgbColor.dRgb r g b a < 2 ^ 32 ∧
      (RgbColor.dRed (RgbColor.dRgb r g b a) : Int) = r ∧
      (RgbColor.dGreen (RgbColor.dRgb r g b a) : Int) = g ∧
      (RgbColor.dBlue (RgbColor.dRgb r g b a) : Int) = b ∧
      (RgbColor.dAlpha (RgbColor.dRgb r g b a) : Int) = a :=
  dRgb_channels r g b a hr.1 hr.2 hg.1 hg.2 hb.1 hb.2 ha.1 ha.2

theorem dRgb_packs_AARRGGBB_witness :
    ((0 : Int) ≤ 18 ∧ (18 : Int) ≤ 255) ∧ ((0 : Int) ≤ 52 ∧ (52 : Int) ≤ 255) ∧
      ((0 : Int) ≤ 86 ∧ (86 : Int) ≤ 255) ∧ ((0 : Int) ≤ 255 ∧ (255 : Int) ≤ 255) ∧
      ((RgbColor.dRgb 18 52 86 255 : Int) = 255 * 2 ^ 24 + 18 * 2 ^ 16 + 52 * 2 ^ 8 + 86 ∧
        RgbColor.dRgb 18 52 86 255 < 2 ^ 32 ∧
        (RgbColor.dRed (RgbColor.dRgb 18 52 86 255) : Int) = 18 ∧
        (RgbColor.dGreen (RgbColor.dRgb 18 52 86 255) : Int) = 52 ∧
        (RgbColor.dBlue (RgbColor.dRgb 18 52 86 255) : Int) = 86 ∧
        (RgbColor.dAlpha (RgbColor.dRgb 18 52 86 255) : Int) = 255) :=
  ⟨by decide, by decide, by decide, by decide,
    dRgb_packs_AARRGGBB 18 52 86 255 (by decide) (by decide) (by decide) (by decide)⟩

end Packing

/-! Theorems: the array of projections -/

section EraseTuples

open ModifiedLambertProjectionArray

variable {β : Type}

theorem keptTuples_take_succ (idxs : List Nat) (arr : List β) (d : Nat) (h : d < arr.length) :
    keptTuples idxs (arr.take (d + 1)) =
      keptTuples idxs (arr.take d) ++ (if d ∈ idxs then [] else [arr[d]]) := by
  rw [List.take_succ, List.getElem?_eq_getElem h]
  simp only [keptTuples, Option.toList, List.enum_append, List.filter_append, List.map_append,
    List.length_take, min_eq_left h.le, List.enumFrom_cons, List.enumFrom_nil]
  by_cases hd : d ∈ idxs <;> simp [List.filter_cons, hd]

theorem keptTuples_length_le (idxs : List Nat) (arr : List β) :
    (keptTuples idxs arr).length ≤ arr.length := by
  simp only [keptTuples, List.length_map]
  exact (List.length_filter_le _ _).trans (by simp)

theorem set_append_replicate (l : List β) (m : Nat) (x v : β) :
    (l ++ List.replicate (m + 1) x).set l.length v = (l ++ [v]) ++ List.replicate m x := by
  rw [List.set_append_right _ _ le_rfl]
  simp [List.replicate_succ]

theorem sorted_getElem_add_le (idxs : List Nat) (hs : idxs.Sorted (· < ·)) (i m : Nat)
    (him : i ≤ m) (hm : m < idxs.length) :
    idxs[i] + (m - i) ≤ idxs[m] := by
  induction m with
  | zero =>
    obtain rfl : i = 0 := by omega
    simp
  | succ m ih =>
    rcases Nat.lt_or_ge i (m + 1) with h | h
    · have h1 := ih (by omega) (by omega)
      have h2 : idxs[m] < idxs[m + 1] :=
        List.pairwise_iff_getElem.1 hs m (m + 1) (by omega) hm (by omega)
      omega
    · obtain rfl : i = m + 1 := by omega
      simp

end EraseTuples

section EraseLoop

open ModifiedLambertProjectionArray

variable {β : Type}

/-- The copying loop of `eraseTuples` after `d` rounds, for a strictly increasing
list of `k` indices below the size `n` of the array, `0 < k < n`: the kept
tuples among the first `d` sit at the front of `replacement`, `rIdx` counts
them, and `idxsIndex` is the number `c` of listed indices below `d`, held at
`k - 1` once all are passed. -/
theorem eraseTuples_loop_spec [Inhabited β] (idxs : List Nat) (arr : List β)
    (hs : idxs.Sorted (· < ·)) (hlt : ∀ i ∈ idxs, i < arr.length) (h0 : 0 < idxs.length)
    (hk : idxs.length < arr.length) (d : Nat) (hd : d ≤ arr.length) :
    ∃ c : Nat, c ≤ d ∧ c ≤ idxs.length ∧
      (keptTuples idxs (arr.take d)).length = d - c ∧
      (∀ i (hi : i < idxs.length), i < c → idxs[i] < d) ∧
      (∀ i (hi : i < idxs.length), c ≤ i → d ≤ idxs[i]) ∧
      (List.range d).foldlM (eraseTuplesStep idxs arr)
          (List.replicate (arr.length - idxs.length) default, 0, 0) =
        some (keptTuples idxs (arr.take d) ++
            List.replicate (arr.length - idxs.length - (d - c)) default,
          min c (idxs.length - 1), d - c) := by
  induction d with
  | zero =>
    refine ⟨0, le_rfl, Nat.zero_le _, by simp [keptTuples], ?_, ?_, ?_⟩
    · intro i hi h; omega
    · intro i hi h; omega
    · simp [keptTuples]
  | succ d ih =>
    obtain ⟨c, hcd, hck, hlen, hlow, hhigh, hrun⟩ := ih (by omega)
    have hdn : d < arr.length := hd
    have hj : min c (idxs.length - 1) < idxs.length := by omega
    have hlast : idxs[idxs.length - 1] < arr.length :=
      hlt _ (List.getElem_mem _)
    rw [List.range_succ, List.foldlM_append, hrun]
    simp only [Option.bind_eq_bind, Option.some_bind, List.foldlM_cons, List.foldlM_nil,
      Option.pure_def, Option.bind_some]
    unfold eraseTuplesStep
    simp only [List.getElem?_eq_getElem hj, List.getElem?_eq_getElem hdn]
    rcases Nat.lt_or_ge c idxs.length with hc | hc
    · -- some listed index is still ahead
      have hmin : min c (idxs.length - 1) = c := by omega
      have hge : d ≤ idxs[c] := hhigh c hc le_rfl
      simp only [hmin]
      by_cases hdc : d = idxs[c]
      · -- position `d` is listed
        have hmem : d ∈ idxs := hdc ▸ List.getElem_mem _
        refine ⟨c + 1, by omega, by omega, ?_, ?_, ?_, ?_⟩
        · rw [keptTuples_take_succ idxs arr d hdn, if_pos hmem, List.append_nil, hlen]
          omega
        · intro i hi h
          rcases Nat.lt_or_ge i c with h' | h'
          · have := hlow i hi h'
            omega
          · obtain rfl : i = c := by omega
            omega
        · intro i hi h
          have : idxs[c] < idxs[i] :=
            List.pairwise_iff_getElem.1 hs c i hc hi (by omega)
          omega
        · rw [keptTuples_take_succ idxs arr d hdn, if_pos hmem, List.append_nil]
          have e1 : d + 1 - (c + 1) = d - c := by omega
          rw [if_neg (by simpa using hdc), e1]
          by_cases hck1 : c + 1 = idxs.length
          · rw [if_pos hck1]
            have : min (c + 1) (idxs.length - 1) = c := by omega
            simp [this]
          · rw [if_neg hck1]
            have : min (c + 1) (idxs.length - 1) = c + 1 := by omega
            rw [this]
      · -- position `d` is kept
        have hlt' : d < idxs[c] := by omega
        have hmem : d ∉ idxs := by
          intro hm
          obtain ⟨i, hi, hid⟩ := List.mem_iff_getElem.1 hm
          rcases Nat.lt_or_ge i c with h' | h'
          · have := hlow i hi h'
            omega
          · have := sorted_getElem_add_le idxs hs c i h' hi
            omega
        have hroom : d - c + 1 ≤ arr.length - idxs.length := by
          have := sorted_getElem_add_le idxs hs c (idxs.length - 1) (by omega) (by omega)
          omega
        refine ⟨c, by omega, hck, ?_, ?_, ?_, ?_⟩
        · rw [keptTuples_take_succ idxs arr d hdn, if_neg hmem, List.length_append, hlen]
          simp
          omega
        · intro i hi h
          have := hlow i hi h
          omega
        · intro i hi h
          have := sorted_getElem_add_le idxs hs c i h hi
          omega
        · rw [keptTuples_take_succ idxs arr d hdn, if_neg hmem]
          rw [if_pos (by simpa using hdc)]
          have e2 : arr.length - idxs.length - (d - c) =
              (arr.length - idxs.length - (d + 1 - c)) + 1 := by omega
          have e3 : d - c + 1 = d + 1 - c := by omega
          simp only [List.length_append, List.length_replicate, hlen]
          rw [if_pos (by omega), e2, ← hlen, set_append_replicate, hlen, e3, hmin]
    · -- every listed index is passed
      have hck' : c = idxs.length := by omega
      subst hck'
      have hmin : min idxs.length (idxs.length - 1) = idxs.length - 1 := by omega
      have hpast : idxs[idxs.length - 1] < d := hlow _ (by omega) (by omega)
      have hmem : d ∉ idxs := by
        intro hm
        obtain ⟨i, hi, hid⟩ := List.mem_iff_getElem.1 hm
        have := hlow i hi hi
        omega
      simp only [hmin]
      refine ⟨idxs.length, by omega, le_rfl, ?_, ?_, ?_, ?_⟩
      · rw [keptTuples_take_succ idxs arr d hdn, if_neg hmem, List.length_append, hlen]
        simp
        omega
      · intro i hi h
        have := hlow i hi h
        omega
      · intro i hi h
        omega
      · rw [keptTuples_take_succ idxs arr d hdn, if_neg hmem]
        rw [if_pos (by omega)]
        have e2 : arr.length - idxs.length - (d - idxs.length) =
            (arr.length - idxs.length - (d + 1 - idxs.length)) + 1 := by omega
        have e3 : d - idxs.length + 1 = d + 1 - idxs.length := by omega
        simp only [List.length_append, List.length_replicate, hlen]
        rw [if_pos (by omega), e2, ← hlen, set_append_replicate, hlen, e3, hmin]

end EraseLoop

section ArrayClaims

open ModifiedLambertProjectionArray

variable {β : Type}

theorem eraseTuplesOutOfRange_iff (size : Nat) (idxs : List Nat) :
    eraseTuplesOutOfRange size idxs = true ↔ ∃ i ∈ idxs, size ≤ i := by
  induction idxs with
  | nil => simp [eraseTuplesOutOfRange]
  | cons i rest ih =>
    unfold eraseTuplesOutOfRange
    by_cases h : i ≥ size
    · simp [h]
    · simp only [if_neg h, ih, List.mem_cons, exists_eq_or_imp]
      constructor
      · intro h'
        exact Or.inr h'
      · rintro (h' | h')
        · exact absurd h' h
        · exact h'

theorem keptTuples_length (idxs : List Nat) (arr : List β) (hs : idxs.Sorted (· < ·))
    (hlt : ∀ i ∈ idxs, i < arr.length) (h0 : 0 < idxs.length) (hk : idxs.length < arr.length)
    [Inhabited β] :
    (keptTuples idxs arr).length = arr.length - idxs.length ∧
      (List.range arr.length).foldlM (eraseTuplesStep idxs arr)
          (List.replicate (arr.length - idxs.length) default, 0, 0) =
        some (keptTuples idxs arr, idxs.length - 1, arr.length - idxs.length) := by
  obtain ⟨c, hcd, hck, hlen, hlow, hhigh, hrun⟩ :=
    eraseTuples_loop_spec idxs arr hs hlt h0 hk arr.length le_rfl
  have hc : c = idxs.length := by
    by_contra hne
    have h1 : c < idxs.length := by omega
    have h2 := hhigh c h1 le_rfl
    have h3 := hlt _ (List.getElem_mem h1)
    omega
  subst hc
  rw [List.take_length] at hlen hrun
  refine ⟨hlen, ?_⟩
  rw [hrun]
  simp

/-- C21 (as amended), for every array of `n` tuples and every index list:
(1) a list shorter than `n` that holds an index not smaller than `n` makes
`eraseTuples` return `-100` and leaves the array as it is; (2) a list that is
not empty and has `n` entries or more empties the array and returns `0`,
whatever the indices are (no condition is put on them); (3) the empty list
returns `0` and changes nothing. -/
theorem eraseTuples_index_out_of_range [Inhabited β] (a : ModifiedLambertProjectionArray β)
    (idxs : List Nat) :
    (idxs.length < a.getNumberOfTuples → (∃ i ∈ idxs, a.getNumberOfTuples ≤ i) →
        a.eraseTuples idxs = some (-100, a)) ∧
      (idxs ≠ [] → a.getNumberOfTuples ≤ idxs.length →
        a.eraseTuples idxs = some (0, a.resizeTuples 0) ∧
          (a.resizeTuples 0).getNumberOfTuples = 0 ∧
          (a.resizeTuples 0).m_ModifiedLambertProjectionArray = []) ∧
      a.eraseTuples [] = some (0, a) := by
  refine ⟨?_, ?_, ?_⟩
  · intro hlt h
    have hne : idxs.isEmpty = false := by
      obtain ⟨i, hi, -⟩ := h
      cases idxs with
      | nil => simp at hi
      | cons _ _ => rfl
    have hr : eraseTuplesOutOfRange a.m_ModifiedLambertProjectionArray.length idxs = true :=
      (eraseTuplesOutOfRange_iff _ _).2 h
    unfold eraseTuples
    rw [hne, if_neg (by simp), if_neg (by omega), if_pos hr]
  · intro hnil hge
    have hne : idxs.isEmpty = false := by
      cases idxs with
      | nil => exact absurd rfl hnil
      | cons _ _ => rfl
    refine ⟨?_, ?_, ?_⟩
    · unfold eraseTuples
      rw [hne, if_neg (by simp), if_pos hge]
    · simp [resizeTuples, resizeTotalElements, getNumberOfTuples]
    · simp [resizeTuples, resizeTotalElements]
  · rfl

theorem eraseTuples_index_out_of_range_witness :
    (([1, 7] : List Nat).length <
        (⟨[10, 11, 12], true⟩ : ModifiedLambertProjectionArray Nat).getNumberOfTuples ∧
      (∃ i ∈ [1, 7],
        (⟨[10, 11, 12], true⟩ : ModifiedLambertProjectionArray Nat).getNumberOfTuples ≤ i) ∧
      (⟨[10, 11, 12], true⟩ : ModifiedLambertProjectionArray Nat).eraseTuples [1, 7] =
        some (-100, ⟨[10, 11, 12], true⟩)) ∧
    (([0, 0, 1] : List Nat) ≠ [] ∧
      (⟨[10, 11, 12], true⟩ : ModifiedLambertProjectionArray Nat).getNumberOfTuples ≤
        ([0, 0, 1] : List Nat).length ∧
      (⟨[10, 11, 12], true⟩ : ModifiedLambertProjectionArray Nat).eraseTuples [0, 0, 1] =
        some (0, (⟨[10, 11, 12], true⟩ : ModifiedLambertProjectionArray Nat).resizeTuples 0) ∧
      ((⟨[10, 11, 12], true⟩ : ModifiedLambertProjectionArray Nat).resizeTuples
        0).getNumberOfTuples = 0 ∧
      ((⟨[10, 11, 12], true⟩ : ModifiedLambertProjectionArray Nat).resizeTuples
        0).m_ModifiedLambertProjectionArray = []) ∧
    (⟨[10, 11, 12], true⟩ : ModifiedLambertProjectionArray Nat).eraseTuples [] =
      some (0, ⟨[10, 11, 12], true⟩) :=
  ⟨⟨by decide, ⟨7, by decide, by decide⟩,
      (eraseTuples_index_out_of_range ⟨[10, 11, 12], true⟩ [1, 7]).1 (by decide)
        ⟨7, by decide, by decide⟩⟩,
    ⟨by decide, by decide,
      (eraseTuples_index_out_of_range ⟨[10, 11, 12], true⟩ [0, 0, 1]).2.1 (by decide)
        (by decide)⟩,
    (eraseTuples_index_out_of_range ⟨[10, 11, 12], true⟩ []).2.2⟩

/-- C21 (counterexample): an array of two tuples and the index list `[5, 7]`: both
indices are not smaller than the number of tuples, and `eraseTuples` returns
`0`, not `-100`; the array is emptied. -/
theorem eraseTuples_oversized_list_returns_zero :
    (∃ i ∈ [5, 7], (⟨[10, 11], true⟩ : ModifiedLambertProjectionArray Nat).getNumberOfTuples ≤ i) ∧
      (⟨[10, 11], true⟩ : ModifiedLambertProjectionArray Nat).eraseTuples [5, 7] =
        some (0, ⟨[], true⟩) :=
  ⟨⟨5, by decide, by decide⟩, by decide⟩

/-- C22: for an array of `n` tuples and a strictly increasing index list `idxs`
with all entries below `n` and `0 < |idxs| < n`, `eraseTuples` returns `0` and
leaves exactly the `n - |idxs|` tuples whose original positions are not in
`idxs`, in their original order. -/
theorem eraseTuples_removes_listed_tuples [Inhabited β] (a : ModifiedLambertProjectionArray β)
    (idxs : List Nat) (hs : idxs.Sorted (· < ·)) (hlt : ∀ i ∈ idxs, i < a.getNumberOfTuples)
    (h0 : 0 < idxs.length) (hk : idxs.length < a.getNumberOfTuples) :
    a.eraseTuples idxs =
        some (0, ⟨keptTuples idxs a.m_ModifiedLambertProjectionArray, a.m_IsAllocated⟩) ∧
      (keptTuples idxs a.m_ModifiedLambertProjectionArray).length =
        a.getNumberOfTuples - idxs.length ∧
      keptTuples idxs a.m_ModifiedLambertProjectionArray =
        (a.m_ModifiedLambertProjectionArray.enum.filter
          (fun p => decide (p.1 ∉ idxs))).map Prod.snd := by
  obtain ⟨hlen, hrun⟩ :=
    keptTuples_length idxs a.m_ModifiedLambertProjectionArray hs hlt h0 hk
  have hne : idxs.isEmpty = false := by
    cases idxs with
    | nil => simp at h0
    | cons _ _ => rfl
  have hr : ¬ eraseTuplesOutOfRange a.m_ModifiedLambertProjectionArray.length idxs = true := by
    rw [eraseTuplesOutOfRange_iff]
    rintro ⟨i, hi, hle⟩
    have := hlt i hi
    simp only [getNumberOfTuples] at this
    omega
  refine ⟨?_, hlen, rfl⟩
  unfold eraseTuples
  simp only [getNumberOfTuples] at hk
  rw [hne, if_neg (by simp), if_neg (by simp only [getNumberOfTuples]; omega), if_neg hr]
  simp only [hrun]

theorem eraseTuples_removes_listed_tuples_witness :
    ([1, 3] : List Nat).Sorted (· < ·) ∧
      (∀ i ∈ [1, 3],
        i < (⟨[10, 11, 12, 13, 14], true⟩ : ModifiedLambertProjectionArray Nat).getNumberOfTuples) ∧
      0 < ([1, 3] : List Nat).length ∧
      ([1, 3] : List Nat).length <
        (⟨[10, 11, 12, 13, 14], true⟩ : ModifiedLambertProjectionArray Nat).getNumberOfTuples ∧
      (⟨[10, 11, 12, 13, 14], true⟩ : ModifiedLambertProjectionArray Nat).eraseTuples [1, 3] =
        some (0, ⟨[10, 12, 14], true⟩) :=
  ⟨by decide, by decide, by decide, by decide,
    (eraseTuples_removes_listed_tuples ⟨[10, 11, 12, 13, 14], true⟩ [1, 3] (by decide)
      (by decide) (by decide) (by decide)).1⟩

/-- C23: `copyFromArray` on two arrays of ten tuples. With `destTupleOffset = 1`,
`srcTupleOffset = 2`, `totalSrcTuples = 3` it returns `true` and the source
tuples 2, 3, 4 are in the destination tuples 3, 4, 5 (at `destTupleOffset + i`
with `i` counted from `srcTupleOffset`), the destination tuples 1 and 2 being
unchanged. With the offsets 5, 5 and 3 of the documentation every check passes
and the first write goes to the destination index 10, outside the array. With
`srcTupleOffset = 0` the tuples land where the documentation puts them. -/
theorem copyFromArray_adds_source_offset :
    copyFromArray (⟨[0, 1, 2, 3, 4, 5, 6, 7, 8, 9], true⟩ : ModifiedLambertProjectionArray Nat) 1
        ⟨[100, 101, 102, 103, 104, 105, 106, 107, 108, 109], true⟩ 2 3 =
      some (true, ⟨[0, 1, 2, 102, 103, 104, 6, 7, 8, 9], true⟩) ∧
    copyFromArray (⟨[0, 1, 2, 3, 4, 5, 6, 7, 8, 9], true⟩ : ModifiedLambertProjectionArray Nat) 5
        ⟨[100, 101, 102, 103, 104, 105, 106, 107, 108, 109], true⟩ 5 3 = none ∧
    copyFromArrayStep 5 [100, 101, 102, 103, 104, 105, 106, 107, 108, 109]
        [0, 1, 2, 3, 4, 5, 6, 7, 8, 9] 5 = none ∧
    copyFromArray (⟨[0, 1, 2, 3, 4, 5, 6, 7, 8, 9], true⟩ : ModifiedLambertProjectionArray Nat) 5
        ⟨[100, 101, 102, 103, 104, 105, 106, 107, 108, 109], true⟩ 0 3 =
      some (true, ⟨[0, 1, 2, 3, 4, 100, 101, 102, 8, 9], true⟩) :=
  ⟨by decide, by decide, by decide, by decide⟩

end ArrayClaims

/-! Theorems: the IPF colour channels and the inverse projections of the rasters -/

section IPFChannels

open Real

/-- Source: `generateIPFColor` is the loop over the symmetry operators followed by
`ipfChannels`, `ipfScaled` and `dRgb` with alpha 255. -/
theorem generateIPFColor_eq_ipfScaled {α : Type} [LinearOrderedField α] [FloorRing α]
    (m : IPFMath α) (c phi1 phi phi2 refDir0 refDir1 refDir2 : α) (degToRad : Bool) :
    CubicOps.generateIPFColor m c phi1 phi phi2 refDir0 refDir1 refDir2 degToRad =
      RgbColor.dRgb
        (CubicOps.ipfScaled m (CubicOps.ipfChannels m
          (CubicOps.ipfSearch m
            (eu2qu m (if degToRad then phi1 * m.k_DegToRadD else phi1,
              if degToRad then phi * m.k_DegToRadD else phi,
              if degToRad then phi2 * m.k_DegToRadD else phi2))
            ![refDir0, refDir1, refDir2] (CubicHigh.QuatSym c) (0, 0)).1
          (CubicOps.ipfSearch m
            (eu2qu m (if degToRad then phi1 * m.k_DegToRadD else phi1,
              if degToRad then phi * m.k_DegToRadD else phi,
              if degToRad then phi2 * m.k_DegToRadD else phi2))
            ![refDir0, refDir1, refDir2] (CubicHigh.QuatSym c) (0, 0)).2)).1
        (CubicOps.ipfScaled m (CubicOps.ipfChannels m
          (CubicOps.ipfSearch m
            (eu2qu m (if degToRad then phi1 * m.k_DegToRadD else phi1,
              if degToRad then phi * m.k_DegToRadD else phi,
              if degToRad then phi2 * m.k_DegToRadD else phi2))
            ![refDir0, refDir1, refDir2] (CubicHigh.QuatSym c) (0, 0)).1
          (CubicOps.ipfSearch m
            (eu2qu m (if degToRad then phi1 * m.k_DegToRadD else phi1,
              if degToRad then phi * m.k_DegToRadD else phi,
              if degToRad then phi2 * m.k_DegToRadD else phi2))
            ![refDir0, refDir1, refDir2] (CubicHigh.QuatSym c) (0, 0)).2)).2.1
        (CubicOps.ipfScaled m (CubicOps.ipfChannels m
          (CubicOps.ipfSearch m
            (eu2qu m (if degToRad then phi1 * m.k_DegToRadD else phi1,
              if degToRad then phi * m.k_DegToRadD else phi,
              if degToRad then phi2 * m.k_DegToRadD else phi2))
            ![refDir0, refDir1, refDir2] (CubicHigh.QuatSym c) (0, 0)).1
          (CubicOps.ipfSearch m
            (eu2qu m (if degToRad then phi1 * m.k_DegToRadD else phi1,
              if degToRad then phi * m.k_DegToRadD else phi,
              if degToRad then phi2 * m.k_DegToRadD else phi2))
            ![refDir0, refDir1, refDir2] (CubicHigh.QuatSym c) (0, 0)).2)).2.2
        255 := rfl

/-- The divisor `chiMax` is positive for every `eta`: the argument of the arc cosine
is at most `sqrt (1 / 2)`. -/
theorem chiMax_pos (eta : ℝ) :
    0 < CubicOps.chiMax
      ⟨cos, sin, tan, arccos, fun y x => Complex.arg ⟨x, y⟩, sqrt, π, π / 180, 180 / π, π / 180⟩
      eta := by
  have key : ∀ t : ℝ, 0 < arccos (bound (√(1 / (2 + t * t))) (-1) 1) := by
    intro t
    have ht : 0 ≤ t * t := mul_self_nonneg t
    have h0 : (0 : ℝ) ≤ √(1 / (2 + t * t)) := Real.sqrt_nonneg _
    have h1 : √(1 / (2 + t * t)) < 1 := by
      rw [Real.sqrt_lt' one_pos, div_lt_iff₀ (by linarith)]
      linarith
    have hb : bound (√(1 / (2 + t * t))) (-1) 1 = √(1 / (2 + t * t)) := by
      unfold bound
      rw [if_neg (by linarith), if_neg (by linarith)]
    rw [hb]
    exact Real.arccos_pos.mpr h1
  unfold CubicOps.chiMax
  dsimp only
  split_ifs
  · exact key _
  · exact key _

theorem inUnitTriangleD_bounds (eta chi : ℝ)
    (h : CubicOps.inUnitTriangleD
      ⟨cos, sin, tan, arccos, fun y x => Complex.arg ⟨x, y⟩, sqrt, π, π / 180, 180 / π, π / 180⟩
      eta chi = true) :
    0 ≤ eta ∧ eta ≤ 45 * (π / 180) ∧ 0 ≤ chi ∧
      chi ≤ CubicOps.chiMax
        ⟨cos, sin, tan, arccos, fun y x => Complex.arg ⟨x, y⟩, sqrt, π, π / 180, 180 / π,
          π / 180⟩ eta := by
  unfold CubicOps.inUnitTriangleD at h
  simp only [Bool.not_eq_true', Bool.or_eq_false_iff, decide_eq_false_iff_not, not_lt,
    gt_iff_lt] at h
  exact ⟨h.1.1.1, h.1.1.2, h.1.2, h.2⟩

theorem ipfChannels_spec (eta chi : ℝ)
    (h : CubicOps.inUnitTriangleD
      ⟨cos, sin, tan, arccos, fun y x => Complex.arg ⟨x, y⟩, sqrt, π, π / 180, 180 / π, π / 180⟩
      eta chi = true) :
    0 ≤ (CubicOps.ipfChannels
        ⟨cos, sin, tan, arccos, fun y x => Complex.arg ⟨x, y⟩, sqrt, π, π / 180, 180 / π,
          π / 180⟩ chi eta).1 ∧
      0 ≤ (CubicOps.ipfChannels
        ⟨cos, sin, tan, arccos, fun y x => Complex.arg ⟨x, y⟩, sqrt, π, π / 180, 180 / π,
          π / 180⟩ chi eta).2.1 ∧
      0 ≤ (CubicOps.ipfChannels
        ⟨cos, sin, tan, arccos, fun y x => Complex.arg ⟨x, y⟩, sqrt, π, π / 180, 180 / π,
          π / 180⟩ chi eta).2.2 ∧
      (CubicOps.ipfChannels
        ⟨cos, sin, tan, arccos, fun y x => Complex.arg ⟨x, y⟩, sqrt, π, π / 180, 180 / π,
          π / 180⟩ chi eta).1 +
        (CubicOps.ipfChannels
          ⟨cos, sin, tan, arccos, fun y x => Complex.arg ⟨x, y⟩, sqrt, π, π / 180, 180 / π,
            π / 180⟩ chi eta).2.1 +
        (CubicOps.ipfChannels
          ⟨cos, sin, tan, arccos, fun y x => Complex.arg ⟨x, y⟩, sqrt, π, π / 180, 180 / π,
            π / 180⟩ chi eta).2.2 = 1 := by
  obtain ⟨he0, he1, hc0, hc1⟩ := inUnitTriangleD_bounds eta chi h
  have hM := chiMax_pos eta
  have hpi := Real.pi_pos
  obtain ⟨M, hMdef⟩ : ∃ M, M = CubicOps.chiMax
      ⟨cos, sin, tan, arccos, fun y x => Complex.arg ⟨x, y⟩, sqrt, π, π / 180, 180 / π, π / 180⟩
      eta := ⟨_, rfl⟩
  rw [← hMdef] at hM hc1
  have hq0 : 0 ≤ chi / M := div_nonneg hc0 hM.le
  have hq1 : chi / M ≤ 1 := (div_le_one hM).2 hc1
  have hdeg0 : 0 ≤ eta * (180 / π) := by positivity
  have hdeg1 : eta * (180 / π) ≤ 45 := by
    have : eta * (180 / π) ≤ 45 * (π / 180) * (180 / π) :=
      mul_le_mul_of_nonneg_right he1 (by positivity)
    have e : 45 * (π / 180) * (180 / π) = 45 := by field_simp
    linarith
  have he : |eta * (180 / π) - 0| / (45 - 0) = eta * (180 / π) / 45 := by
    rw [sub_zero, sub_zero, abs_of_nonneg hdeg0]
  have hf0 : 0 ≤ eta * (180 / π) / 45 := by positivity
  have hf1 : eta * (180 / π) / 45 ≤ 1 := by
    rw [div_le_one (by norm_num)]
    exact hdeg1
  simp only [CubicOps.ipfChannels, ← hMdef, he]
  refine ⟨by linarith, mul_nonneg (by linarith) hq0, mul_nonneg hf0 hq0, by ring⟩

theorem truncToInt_scaled_range (x : ℝ) (h0 : 0 ≤ x) (h1 : x ≤ 1) :
    0 ≤ truncToInt (x * 255) ∧ truncToInt (x * 255) ≤ 255 := by
  have hx : 0 ≤ x * 255 := by positivity
  rw [truncToInt_of_nonneg _ hx]
  constructor
  · exact Int.floor_nonneg.2 hx
  · have h255 : x * 255 ≤ ((255 : Int) : ℝ) := by
      push_cast
      linarith
    have h := Int.floor_le_floor h255
    rw [Int.floor_intCast] at h
    exact h

/-- Square root, division by the largest and cast to `int`, for three non-negative
values of sum 1: the three integers lie in `[0, 255]` and the largest is 255. -/
theorem ipfScaled_spec (m : IPFMath ℝ) (hm : m.sqrt = Real.sqrt) (a b c : ℝ) (ha : 0 ≤ a)
    (hb : 0 ≤ b) (hc : 0 ≤ c) (hsum : a + b + c = 1) :
    (0 ≤ (CubicOps.ipfScaled m (a, b, c)).1 ∧ (CubicOps.ipfScaled m (a, b, c)).1 ≤ 255) ∧
      (0 ≤ (CubicOps.ipfScaled m (a, b, c)).2.1 ∧ (CubicOps.ipfScaled m (a, b, c)).2.1 ≤ 255) ∧
      (0 ≤ (CubicOps.ipfScaled m (a, b, c)).2.2 ∧ (CubicOps.ipfScaled m (a, b, c)).2.2 ≤ 255) ∧
      max (CubicOps.ipfScaled m (a, b, c)).1
        (max (CubicOps.ipfScaled m (a, b, c)).2.1 (CubicOps.ipfScaled m (a, b, c)).2.2) = 255 := by
  have hsa : 0 ≤ √a := Real.sqrt_nonneg a
  have hsb : 0 ≤ √b := Real.sqrt_nonneg b
  have hsc : 0 ≤ √c := Real.sqrt_nonneg c
  obtain ⟨M, hMdef⟩ : ∃ M, M = (if √c > (if √b > √a then √b else √a) then √c
      else (if √b > √a then √b else √a)) := ⟨_, rfl⟩
  have hMa : √a ≤ M := by
    rw [hMdef]
    split_ifs <;> linarith
  have hMb : √b ≤ M := by
    rw [hMdef]
    split_ifs <;> linarith
  have hMc : √c ≤ M := by
    rw [hMdef]
    split_ifs <;> linarith
  have hMcase : M = √a ∨ M = √b ∨ M = √c := by
    rw [hMdef]
    split_ifs <;> simp
  have hMpos : 0 < M := by
    rcases lt_or_eq_of_le (hsa.trans hMa) with h | h
    · exact h
    · exfalso
      have h1 : √a = 0 := le_antisymm (by linarith) hsa
      have h2 : √b = 0 := le_antisymm (by linarith) hsb
      have h3 : √c = 0 := le_antisymm (by linarith) hsc
      rw [Real.sqrt_eq_zero ha] at h1
      rw [Real.sqrt_eq_zero hb] at h2
      rw [Real.sqrt_eq_zero hc] at h3
      linarith
  have e : CubicOps.ipfScaled m (a, b, c) =
      (truncToInt (√a / M * 255), truncToInt (√b / M * 255), truncToInt (√c / M * 255)) := by
    simp only [CubicOps.ipfScaled, hm, hMdef]
  have ra := truncToInt_scaled_range (√a / M) (div_nonneg hsa hMpos.le) ((div_le_one hMpos).2 hMa)
  have rb := truncToInt_scaled_range (√b / M) (div_nonneg hsb hMpos.le) ((div_le_one hMpos).2 hMb)
  have rc := truncToInt_scaled_range (√c / M) (div_nonneg hsc hMpos.le) ((div_le_one hMpos).2 hMc)
  have h255 : truncToInt (M / M * 255) = 255 := by
    rw [div_self hMpos.ne', one_mul]
    exact truncToInt_eq 255 255 (by norm_num) (by norm_num) (by norm_num)
  rw [e]
  refine ⟨ra, rb, rc, ?_⟩
  dsimp only
  rcases hMcase with h | h | h
  · rw [← h, h255]
    rw [← h] at ra
    omega
  · rw [← h, h255]
    rw [← h] at rb
    omega
  · rw [← h, h255]
    rw [← h] at rc
    omega

end IPFChannels

section IPFClaim

open Real

/-- C28: `CubicOps::generateIPFColor` in exact real arithmetic. When the pair
`(chi, eta)` left by the loop over the symmetry operators passes the cubic
unit-triangle test, the three channel values before the square root are
non-negative and sum to 1; the three integers handed to `dRgb` lie in
`[0, 255]`, the largest of them is 255, they are the red, green and blue
channels of the returned colour, and its alpha channel is 255. The divisor
`chiMax` is positive for every `eta`. -/
theorem cubic_generateIPFColor_channel_ranges (c phi1 phi phi2 refDir0 refDir1 refDir2 : ℝ)
    (degToRad : Bool) (chi eta : ℝ)
    (hsel : CubicOps.ipfSearch
      ⟨cos, sin, tan, arccos, fun y x => Complex.arg ⟨x, y⟩, sqrt, π, π / 180, 180 / π, π / 180⟩
      (eu2qu
        ⟨cos, sin, tan, arccos, fun y x => Complex.arg ⟨x, y⟩, sqrt, π, π / 180, 180 / π, π / 180⟩
        (if degToRad then phi1 * (π / 180) else phi1, if degToRad then phi * (π / 180) else phi,
          if degToRad then phi2 * (π / 180) else phi2))
      ![refDir0, refDir1, refDir2] (CubicHigh.QuatSym c) (0, 0) = (chi, eta))
    (h : CubicOps.inUnitTriangleD
      ⟨cos, sin, tan, arccos, fun y x => Complex.arg ⟨x, y⟩, sqrt, π, π / 180, 180 / π, π / 180⟩
      eta chi = true) :
    ∃ (p0 p1 p2 : ℝ) (R G B : Int),
      CubicOps.ipfChannels
        ⟨cos, sin, tan, arccos, fun y x => Complex.arg ⟨x, y⟩, sqrt, π, π / 180, 180 / π,
          π / 180⟩ chi eta = (p0, p1, p2) ∧
      0 ≤ p0 ∧ 0 ≤ p1 ∧ 0 ≤ p2 ∧ p0 + p1 + p2 = 1 ∧
      CubicOps.ipfScaled
        ⟨cos, sin, tan, arccos, fun y x => Complex.arg ⟨x, y⟩, sqrt, π, π / 180, 180 / π,
          π / 180⟩ (p0, p1, p2) = (R, G, B) ∧
      (0 ≤ R ∧ R ≤ 255) ∧ (0 ≤ G ∧ G ≤ 255) ∧ (0 ≤ B ∧ B ≤ 255) ∧ max R (max G B) = 255 ∧
      CubicOps.generateIPFColor
        ⟨cos, sin, tan, arccos, fun y x => Complex.arg ⟨x, y⟩, sqrt, π, π / 180, 180 / π,
          π / 180⟩ c phi1 phi phi2 refDir0 refDir1 refDir2 degToRad = RgbColor.dRgb R G B 255 ∧
      (RgbColor.dRed (RgbColor.dRgb R G B 255) : Int) = R ∧
      (RgbColor.dGreen (RgbColor.dRgb R G B 255) : Int) = G ∧
      (RgbColor.dBlue (RgbColor.dRgb R G B 255) : Int) = B ∧
      (RgbColor.dAlpha (RgbColor.dRgb R G B 255) : Int) = 255 ∧
      0 < CubicOps.chiMax
        ⟨cos, sin, tan, arccos, fun y x => Complex.arg ⟨x, y⟩, sqrt, π, π / 180, 180 / π,
          π / 180⟩ eta := by
  obtain ⟨h0, h1, h2, hsum⟩ := ipfChannels_spec eta chi h
  obtain ⟨p0, p1, p2, hp⟩ : ∃ p0 p1 p2 : ℝ, CubicOps.ipfChannels
      ⟨cos, sin, tan, arccos, fun y x => Complex.arg ⟨x, y⟩, sqrt, π, π / 180, 180 / π,
        π / 180⟩ chi eta = (p0, p1, p2) := ⟨_, _, _, rfl⟩
  rw [hp] at h0 h1 h2 hsum
  simp only at h0 h1 h2 hsum
  obtain ⟨rR, rG, rB, hmax⟩ := ipfScaled_spec
    ⟨cos, sin, tan, arccos, fun y x => Complex.arg ⟨x, y⟩, sqrt, π, π / 180, 180 / π, π / 180⟩
    rfl p0 p1 p2 h0 h1 h2 hsum
  obtain ⟨R, G, B, hs⟩ : ∃ R G B : Int, CubicOps.ipfScaled
      ⟨cos, sin, tan, arccos, fun y x => Complex.arg ⟨x, y⟩, sqrt, π, π / 180, 180 / π,
        π / 180⟩ (p0, p1, p2) = (R, G, B) := ⟨_, _, _, rfl⟩
  rw [hs] at rR rG rB hmax
  simp only at rR rG rB hmax
  obtain ⟨-, -, cR, cG, cB, cA⟩ :=
    dRgb_channels R G B 255 rR.1 rR.2 rG.1 rG.2 rB.1 rB.2 (by norm_num) (by norm_num)
  refine ⟨p0, p1, p2, R, G, B, hp, h0, h1, h2, hsum, hs, rR, rG, rB, hmax, ?_, cR, cG, cB, cA,
    chiMax_pos eta⟩
  rw [generateIPFColor_eq_ipfScaled]
  simp only [hsel, hp, hs]

theorem cubic_generateIPFColor_channel_ranges_witness :
    CubicOps.inUnitTriangleD
        ⟨cos, sin, tan, arccos, fun y x => Complex.arg ⟨x, y⟩, sqrt, π, π / 180, 180 / π, π / 180⟩
        0 0 = true ∧
      ∃ (p0 p1 p2 : ℝ) (R G B : Int),
        CubicOps.ipfChannels
          ⟨cos, sin, tan, arccos, fun y x => Complex.arg ⟨x, y⟩, sqrt, π, π / 180, 180 / π,
            π / 180⟩ 0 0 = (p0, p1, p2) ∧
        0 ≤ p0 ∧ 0 ≤ p1 ∧ 0 ≤ p2 ∧ p0 + p1 + p2 = 1 ∧
        CubicOps.ipfScaled
          ⟨cos, sin, tan, arccos, fun y x => Complex.arg ⟨x, y⟩, sqrt, π, π / 180, 180 / π,
            π / 180⟩ (p0, p1, p2) = (R, G, B) ∧
        (0 ≤ R ∧ R ≤ 255) ∧ (0 ≤ G ∧ G ≤ 255) ∧ (0 ≤ B ∧ B ≤ 255) ∧ max R (max G B) = 255 ∧
        CubicOps.generateIPFColor
          ⟨cos, sin, tan, arccos, fun y x => Complex.arg ⟨x, y⟩, sqrt, π, π / 180, 180 / π,
            π / 180⟩ (1 / √2) 0 0 0 0 0 1 false = RgbColor.dRgb R G B 255 ∧
        (RgbColor.dRed (RgbColor.dRgb R G B 255) : Int) = R ∧
        (RgbColor.dGreen (RgbColor.dRgb R G B 255) : Int) = G ∧
        (RgbColor.dBlue (RgbColor.dRgb R G B 255) : Int) = B ∧
        (RgbColor.dAlpha (RgbColor.dRgb R G B 255) : Int) = 255 ∧
        0 < CubicOps.chiMax
          ⟨cos, sin, tan, arccos, fun y x => Complex.arg ⟨x, y⟩, sqrt, π, π / 180, 180 / π,
            π / 180⟩ 0 :=
  ⟨inUnitTriangleD_zero,
    cubic_generateIPFColor_channel_ranges (1 / √2) 0 0 0 0 0 1 false 0 0
      (by
        have hq : eu2qu
            (⟨cos, sin, tan, arccos, fun y x => Complex.arg ⟨x, y⟩, sqrt, π, π / 180, 180 / π,
              π / 180⟩ : IPFMath ℝ) (0, 0, 0) = ⟨0, 0, 0, 1⟩ :=
          eu2qu_zero _ Real.cos_zero Real.sin_zero
        simp only [Bool.false_eq_true, if_false, hq]
        exact ipfSearch_identity)
      inUnitTriangleD_zero⟩

end IPFClaim

section InverseProjections

open ModifiedLambertProjection

theorem stereographic_point_on_sphere (u v : ℝ) (h : u * u + v * v ≤ 1) :
    (u * (1 + -((u * u + v * v) - 1) / ((u * u + v * v) + 1))) ^ 2 +
        (v * (1 + -((u * u + v * v) - 1) / ((u * u + v * v) + 1))) ^ 2 +
        (-((u * u + v * v) - 1) / ((u * u + v * v) + 1)) ^ 2 = 1 ∧
      0 ≤ -((u * u + v * v) - 1) / ((u * u + v * v) + 1) := by
  have hs : 0 ≤ u * u + v * v := by nlinarith [mul_self_nonneg u, mul_self_nonneg v]
  have hne : u * u + v * v + 1 ≠ 0 := by linarith
  constructor
  · field_simp
    ring
  · exact div_nonneg (by linarith) (by linarith)

theorem circular_point_on_sphere (u v : ℝ) (h : u * u + v * v ≤ 2) :
    (u * √(1 - (u * u + v * v) / 4)) ^ 2 + (v * √(1 - (u * u + v * v) / 4)) ^ 2 +
        ((u * u + v * v) / 2 - 1) ^ 2 = 1 := by
  have ht : (√(1 - (u * u + v * v) / 4)) ^ 2 = 1 - (u * u + v * v) / 4 :=
    Real.sq_sqrt (by linarith)
  rw [mul_pow, mul_pow, ht]
  ring

/-- C29: the inverse projections of the two rasters in exact real arithmetic, at
the pixel `(x, y)` of a raster of `dim` by `dim` pixels, for all integers
`dim`, `x`, `y`. In
`createStereographicProjection`, when the pixel centre `(xtmp, ytmp)` has
`xtmp^2 + ytmp^2 <= 1`, the point handed to the interpolation satisfies
`x^2 + y^2 + z^2 = 1` and `z >= 0`. In `createCircularProjection`, when the
pixel centre has `q = xtmp^2 + ytmp^2 <= 2`, the point is
`(xtmp t, ytmp t, q/2 - 1)` with `t = sqrt (1 - q/4)` and satisfies
`x^2 + y^2 + z^2 = 1`. -/
theorem inverse_projection_points_on_unit_sphere (dim x y : Int) :
    ((stereographicPixelCentre dim x y : ℝ × ℝ).1 * (stereographicPixelCentre dim x y : ℝ × ℝ).1 +
        (stereographicPixelCentre dim x y : ℝ × ℝ).2 *
          (stereographicPixelCentre dim x y : ℝ × ℝ).2 ≤ 1 →
      ∃ p : ℝ × ℝ × ℝ, createStereographicProjectionPoint dim x y = some p ∧
        p.1 ^ 2 + p.2.1 ^ 2 + p.2.2 ^ 2 = 1 ∧ 0 ≤ p.2.2) ∧
    ((circularPixelCentre Real.sqrt dim x y).1 * (circularPixelCentre Real.sqrt dim x y).1 +
        (circularPixelCentre Real.sqrt dim x y).2 *
          (circularPixelCentre Real.sqrt dim x y).2 ≤ 2 →
      ∃ p : ℝ × ℝ × ℝ, createCircularProjectionPoint Real.sqrt dim x y = some p ∧
        p = ((circularPixelCentre Real.sqrt dim x y).1 *
              √(1 - ((circularPixelCentre Real.sqrt dim x y).1 *
                  (circularPixelCentre Real.sqrt dim x y).1 +
                (circularPixelCentre Real.sqrt dim x y).2 *
                  (circularPixelCentre Real.sqrt dim x y).2) / 4),
            (circularPixelCentre Real.sqrt dim x y).2 *
              √(1 - ((circularPixelCentre Real.sqrt dim x y).1 *
                  (circularPixelCentre Real.sqrt dim x y).1 +
                (circularPixelCentre Real.sqrt dim x y).2 *
                  (circularPixelCentre Real.sqrt dim x y).2) / 4),
            ((circularPixelCentre Real.sqrt dim x y).1 *
                  (circularPixelCentre Real.sqrt dim x y).1 +
                (circularPixelCentre Real.sqrt dim x y).2 *
                  (circularPixelCentre Real.sqrt dim x y).2) / 2 - 1) ∧
        p.1 ^ 2 + p.2.1 ^ 2 + p.2.2 ^ 2 = 1) := by
  constructor
  · intro h
    obtain ⟨u, hu⟩ : ∃ u : ℝ, u = (stereographicPixelCentre dim x y : ℝ × ℝ).1 := ⟨_, rfl⟩
    obtain ⟨v, hv⟩ : ∃ v : ℝ, v = (stereographicPixelCentre dim x y : ℝ × ℝ).2 := ⟨_, rfl⟩
    rw [← hu, ← hv] at h
    refine ⟨(u * (1 + -((u * u + v * v) - 1) / ((u * u + v * v) + 1)),
      v * (1 + -((u * u + v * v) - 1) / ((u * u + v * v) + 1)),
      -((u * u + v * v) - 1) / ((u * u + v * v) + 1)), ?_, stereographic_point_on_sphere u v h⟩
    simp only [createStereographicProjectionPoint, ← hu, ← hv]
    rw [if_pos h]
  · intro h
    obtain ⟨u, hu⟩ : ∃ u : ℝ, u = (circularPixelCentre Real.sqrt dim x y).1 := ⟨_, rfl⟩
    obtain ⟨v, hv⟩ : ∃ v : ℝ, v = (circularPixelCentre Real.sqrt dim x y).2 := ⟨_, rfl⟩
    rw [← hu, ← hv] at h ⊢
    have h2 : √2 * √2 = 2 := Real.mul_self_sqrt (by norm_num)
    refine ⟨(u * √(1 - (u * u + v * v) / 4), v * √(1 - (u * u + v * v) / 4),
      (u * u + v * v) / 2 - 1), ?_, rfl, circular_point_on_sphere u v h⟩
    simp only [createCircularProjectionPoint, ← hu, ← hv, h2]
    rw [if_pos h]

theorem inverse_projection_points_on_unit_sphere_witness :
    (stereographicPixelCentre 4 2 2 : ℝ × ℝ).1 * (stereographicPixelCentre 4 2 2 : ℝ × ℝ).1 +
          (stereographicPixelCentre 4 2 2 : ℝ × ℝ).2 *
            (stereographicPixelCentre 4 2 2 : ℝ × ℝ).2 ≤ 1 ∧
      (circularPixelCentre Real.sqrt 4 2 2).1 * (circularPixelCentre Real.sqrt 4 2 2).1 +
          (circularPixelCentre Real.sqrt 4 2 2).2 *
            (circularPixelCentre Real.sqrt 4 2 2).2 ≤ 2 ∧
      (∃ p : ℝ × ℝ × ℝ, createStereographicProjectionPoint 4 2 2 = some p ∧
        p.1 ^ 2 + p.2.1 ^ 2 + p.2.2 ^ 2 = 1 ∧ 0 ≤ p.2.2) ∧
      (∃ p : ℝ × ℝ × ℝ, createCircularProjectionPoint Real.sqrt 4 2 2 = some p ∧
        p.1 ^ 2 + p.2.1 ^ 2 + p.2.2 ^ 2 = 1) := by
  have hs : (stereographicPixelCentre 4 2 2 : ℝ × ℝ).1 *
        (stereographicPixelCentre 4 2 2 : ℝ × ℝ).1 +
      (stereographicPixelCentre 4 2 2 : ℝ × ℝ).2 *
        (stereographicPixelCentre 4 2 2 : ℝ × ℝ).2 ≤ 1 := by
    have e : Int.tdiv 4 2 = 2 := by decide
    simp only [stereographicPixelCentre, e]
    norm_num
  have hc : (circularPixelCentre Real.sqrt 4 2 2).1 * (circularPixelCentre Real.sqrt 4 2 2).1 +
      (circularPixelCentre Real.sqrt 4 2 2).2 * (circularPixelCentre Real.sqrt 4 2 2).2 ≤ 2 := by
    have e : Int.tdiv 4 2 = 2 := by decide
    have h2 : √2 * √2 = 2 := Real.mul_self_sqrt (by norm_num)
    simp only [circularPixelCentre, e]
    norm_num
    nlinarith [h2]
  obtain ⟨p, hp, -, hn⟩ := (inverse_projection_points_on_unit_sphere 4 2 2).2 hc
  exact ⟨hs, hc, (inverse_projection_points_on_unit_sphere 4 2 2).1 hs, p, hp, hn⟩

end InverseProjections

/-! Theorems: bin coordinates, the Monoclinic grid, erasing with an unordered list, and the symmetry tables -/

section BinCoordinates

/-- C31: for each class with bin counts `(n0, n1, n2) = getOdfNumBins()` and every
integer `choose` with `0 <= choose < n0 n1 n2`, the bin coordinates of
`determineEulerAngles` and `determineRodriguesVector` are
`phi0 = choose mod n0`, `phi1 = (choose / n0) mod n1`, `phi2 = choose / (n0 n1)`;
they satisfy `0 <= phi0 < n0`, `0 <= phi1 < n1`, `0 <= phi2 < n2` and
`phi0 + phi1 n0 + phi2 n0 n1 = choose`. -/
theorem bin_coordinates_in_range_and_flatten_back (cls : LaueClass) (choose : Int)
    (h0 : 0 ≤ choose)
    (h1 : choose < ((LaueOps.getOdfNumBins cls).1 * (LaueOps.getOdfNumBins cls).2.1 *
      (LaueOps.getOdfNumBins cls).2.2 : Nat)) :
    (LaueOps.binCoordinatesOfInt cls choose).1 = choose % ((LaueOps.getOdfNumBins cls).1 : Int) ∧
      (LaueOps.binCoordinatesOfInt cls choose).2.1 =
        (choose / ((LaueOps.getOdfNumBins cls).1 : Int)) % ((LaueOps.getOdfNumBins cls).2.1 : Int) ∧
      (LaueOps.binCoordinatesOfInt cls choose).2.2 =
        choose / (((LaueOps.getOdfNumBins cls).1 : Int) * ((LaueOps.getOdfNumBins cls).2.1 : Int)) ∧
      (0 ≤ (LaueOps.binCoordinatesOfInt cls choose).1 ∧
        (LaueOps.binCoordinatesOfInt cls choose).1 < ((LaueOps.getOdfNumBins cls).1 : Int)) ∧
      (0 ≤ (LaueOps.binCoordinatesOfInt cls choose).2.1 ∧
        (LaueOps.binCoordinatesOfInt cls choose).2.1 < ((LaueOps.getOdfNumBins cls).2.1 : Int)) ∧
      (0 ≤ (LaueOps.binCoordinatesOfInt cls choose).2.2 ∧
        (LaueOps.binCoordinatesOfInt cls choose).2.2 < ((LaueOps.getOdfNumBins cls).2.2 : Int)) ∧
      (LaueOps.binCoordinatesOfInt cls choose).1 +
          (LaueOps.binCoordinatesOfInt cls choose).2.1 * ((LaueOps.getOdfNumBins cls).1 : Int) +
          (LaueOps.binCoordinatesOfInt cls choose).2.2 * ((LaueOps.getOdfNumBins cls).1 : Int) *
            ((LaueOps.getOdfNumBins cls).2.1 : Int) = choose ∧
      LaueOps.getODFSize cls = (LaueOps.getOdfNumBins cls).1 * (LaueOps.getOdfNumBins cls).2.1 *
        (LaueOps.getOdfNumBins cls).2.2 := by
  obtain ⟨n, rfl⟩ := Int.eq_ofNat_of_zero_le h0
  have hn : n < 2 ^ 64 := by
    cases cls <;> simp only [LaueOps.getOdfNumBins] at h1 <;> omega
  have hU : ((n : Int) % 2 ^ 64).toNat = n := by omega
  have hw : ∀ k : Nat, k < 2147483648 → ModifiedLambertProjection.wrapInt32 (k : Int) = k := by
    intro k hk
    unfold ModifiedLambertProjection.wrapInt32
    omega
  obtain ⟨b0, b1, b2, hflat⟩ : (LaueOps.binCoordinates cls n).1 < (LaueOps.getOdfNumBins cls).1 ∧
      (LaueOps.binCoordinates cls n).2.1 < (LaueOps.getOdfNumBins cls).2.1 ∧
      (LaueOps.binCoordinates cls n).2.2 < (LaueOps.getOdfNumBins cls).2.2 ∧
      LaueOps.flattenBin cls (LaueOps.binCoordinates cls n) = n :=
    binCoordinates_flatten cls n (by
      cases cls <;> simp only [LaueOps.getOdfNumBins, LaueOps.getODFSize] at h1 ⊢ <;> omega)
  have hsmall : ∀ k : Nat, (k < (LaueOps.getOdfNumBins cls).1 ∨ k < (LaueOps.getOdfNumBins cls).2.1 ∨
      k < (LaueOps.getOdfNumBins cls).2.2) → k < 2147483648 := by
    intro k hk
    cases cls <;> simp only [LaueOps.getOdfNumBins] at hk <;> omega
  have e : LaueOps.binCoordinatesOfInt cls (n : Int) =
      (((LaueOps.binCoordinates cls n).1 : Int), ((LaueOps.binCoordinates cls n).2.1 : Int),
        ((LaueOps.binCoordinates cls n).2.2 : Int)) := by
    simp only [LaueOps.binCoordinatesOfInt, hU]
    rw [hw _ (hsmall _ (Or.inl b0)), hw _ (hsmall _ (Or.inr (Or.inl b1))),
      hw _ (hsmall _ (Or.inr (Or.inr b2)))]
  rw [e]
  dsimp only
  simp only [LaueOps.flattenBin] at hflat
  refine ⟨?_, ?_, ?_, ⟨by positivity, by exact_mod_cast b0⟩, ⟨by positivity, by exact_mod_cast b1⟩,
    ⟨by positivity, by exact_mod_cast b2⟩, by exact_mod_cast hflat, ?_⟩
  · simp [LaueOps.binCoordinates]
  · simp [LaueOps.binCoordinates]
  · simp only [LaueOps.binCoordinates]
    push_cast
    rfl
  · cases cls <;> rfl

theorem bin_coordinates_in_range_and_flatten_back_witness :
    (0 : Int) ≤ 5000 ∧
      (5000 : Int) < ((LaueOps.getOdfNumBins LaueClass.Cubic).1 *
        (LaueOps.getOdfNumBins LaueClass.Cubic).2.1 *
        (LaueOps.getOdfNumBins LaueClass.Cubic).2.2 : Nat) ∧
      LaueOps.binCoordinatesOfInt LaueClass.Cubic 5000 = (14, 7, 15) ∧
      (LaueOps.binCoordinatesOfInt LaueClass.Cubic 5000).1 +
          (LaueOps.binCoordinatesOfInt LaueClass.Cubic 5000).2.1 *
            ((LaueOps.getOdfNumBins LaueClass.Cubic).1 : Int) +
          (LaueOps.binCoordinatesOfInt LaueClass.Cubic 5000).2.2 *
            ((LaueOps.getOdfNumBins LaueClass.Cubic).1 : Int) *
            ((LaueOps.getOdfNumBins LaueClass.Cubic).2.1 : Int) = 5000 :=
  ⟨by decide, by decide, by decide,
    (bin_coordinates_in_range_and_flatten_back LaueClass.Cubic 5000 (by decide)
      (by decide)).2.2.2.2.2.2.1⟩

end BinCoordinates

section MonoclinicGrid

/-- C39: the array `Monoclinic::OdfDimInitValue` in exact real arithmetic. The third
entry is `(0.75 (π - sin π))^(1/3)`, above 1.33; the first entry, written with
the factor `0.7f`, is below 1.301. The two entries differ, and so do the first
and third entries of `OdfDimStepValue`, both of which divide by 36. -/
theorem monoclinic_odfDimInitValue_axes_differ :
    (Monoclinic.OdfDimInitValue (fun x y => x ^ y) Real.sin (Real.pi / 2) Real.pi).2.2 =
        (0.75 * (Real.pi - Real.sin Real.pi)) ^ ((1 : ℝ) / 3) ∧
      (Monoclinic.OdfDimInitValue (fun x y => x ^ y) Real.sin (Real.pi / 2) Real.pi).1 =
        (11744051 / 16777216 * (Real.pi - Real.sin Real.pi)) ^ ((1 : ℝ) / 3) ∧
      (Monoclinic.OdfDimInitValue (fun x y => x ^ y) Real.sin (Real.pi / 2) Real.pi).1 < 1.301 ∧
      (1.33 : ℝ) <
        (Monoclinic.OdfDimInitValue (fun x y => x ^ y) Real.sin (Real.pi / 2) Real.pi).2.2 ∧
      (Monoclinic.OdfDimInitValue (fun x y => x ^ y) Real.sin (Real.pi / 2) Real.pi).1 ≠
        (Monoclinic.OdfDimInitValue (fun x y => x ^ y) Real.sin (Real.pi / 2) Real.pi).2.2 ∧
      (LaueOps.OdfDimStepValue LaueClass.Monoclinic
          (Monoclinic.OdfDimInitValue (fun x y => x ^ y) Real.sin (Real.pi / 2) Real.pi)).1 ≠
        (LaueOps.OdfDimStepValue LaueClass.Monoclinic
          (Monoclinic.OdfDimInitValue (fun x y => x ^ y) Real.sin (Real.pi / 2) Real.pi)).2.2 := by
  obtain ⟨-, hm2⟩ := odfDim_monoclinic_bounds
  have h3 : (1.33 : ℝ) < (0.75 * (Real.pi - Real.sin Real.pi)) ^ ((1 : ℝ) / 3) := by
    rw [Real.sin_pi]
    have h1 := Real.pi_gt_d6
    have h2 := Real.pi_lt_d6
    exact (cbrt_bounds _ 1.33 1.34 (by norm_num) (by norm_num) (by norm_num; linarith)
      (by norm_num; linarith)).1
  refine ⟨rfl, rfl, hm2, h3, ?_, ?_⟩
  · exact ne_of_lt (lt_trans hm2 (lt_trans (by norm_num) h3))
  · have hlt : (11744051 / 16777216 * (Real.pi - Real.sin Real.pi)) ^ ((1 : ℝ) / 3) <
        (0.75 * (Real.pi - Real.sin Real.pi)) ^ ((1 : ℝ) / 3) :=
      lt_trans hm2 (lt_trans (by norm_num) h3)
    simp only [LaueOps.OdfDimStepValue, LaueOps.getOdfNumBins, Monoclinic.OdfDimInitValue]
    intro h
    have h36 : (((72 / 2 : Nat) : Nat) : ℝ) = 36 := by norm_num
    rw [h36] at h
    exact absurd ((div_left_inj' (by norm_num : (36 : ℝ) ≠ 0)).1 h) (ne_of_lt hlt)

end MonoclinicGrid

section EraseUnsorted

open ModifiedLambertProjectionArray

/-- C40: `eraseTuples` on the array of three tuples `[10, 11, 12]` with the index list
`[1, 1]` (in range, shorter than the array, one entry repeated): after the
rounds `dIdx = 0, 1` the replacement vector of length 1 is full (`rIdx = 1`),
and the round `dIdx = 2` writes to `replacement[1]`, outside the vector; the
same happens in the round `dIdx = 4` for five tuples and the list `[3, 1]`
(no repetition, descending order). -/
theorem eraseTuples_unsorted_writes_out_of_bounds :
    (List.range 2).foldlM (eraseTuplesStep [1, 1] [10, 11, 12])
        (List.replicate (3 - 2) (default : Nat), 0, 0) = some ([10], 1, 1) ∧
      eraseTuplesStep [1, 1] [10, 11, 12] ([10], 1, 1) 2 = none ∧
      eraseTuples (⟨[10, 11, 12], true⟩ : ModifiedLambertProjectionArray Nat) [1, 1] = none ∧
      (List.range 4).foldlM (eraseTuplesStep [3, 1] [10, 11, 12, 13, 14])
        (List.replicate (5 - 2) (default : Nat), 0, 0) = some ([10, 11, 12], 1, 3) ∧
      eraseTuplesStep [3, 1] [10, 11, 12, 13, 14] ([10, 11, 12], 1, 3) 4 = none ∧
      eraseTuples (⟨[10, 11, 12, 13, 14], true⟩ : ModifiedLambertProjectionArray Nat) [3, 1] =
        none :=
  ⟨by decide, by decide, by decide, by decide, by decide, by decide⟩

end EraseUnsorted

section MatSymRotations

variable {α : Type} [LinearOrderedField α]

set_option maxHeartbeats 4000000 in
theorem matSym_cubic_rotation :
    ∀ M ∈ (CubicHigh.MatSym : List (Matrix (Fin 3) (Fin 3) α)), M * M.transpose = 1 ∧ M.det = 1 := by
  simp only [CubicHigh.MatSym, HexagonalHigh.MatSym, TrigonalHigh.MatSym,
    Monoclinic.MatSym, List.forall_mem_cons, List.not_mem_nil, IsEmpty.forall_iff,
    implies_true, and_true]
  (repeat' apply And.intro) <;>
    first
      | (rw [Matrix.det_fin_three]
         simp only [Matrix.of_apply, Matrix.cons_val', Matrix.cons_val_zero, Matrix.cons_val_one,
           Matrix.head_cons, Matrix.cons_val_two, Matrix.tail_cons, Matrix.empty_val',
           Matrix.cons_val_fin_one, Matrix.vecHead, Matrix.vecTail, Function.comp,
           Fin.succ_zero_eq_one, Fin.succ_one_eq_two, Fin.isValue]
         ring1)
      | (ext i j
         fin_cases i <;> fin_cases j <;>
           simp only [Matrix.mul_apply, Fin.sum_univ_three, Matrix.transpose_apply,
             Matrix.one_apply, Matrix.of_apply, Matrix.cons_val', Matrix.cons_val_zero,
             Matrix.cons_val_one, Matrix.head_cons, Matrix.cons_val_two, Matrix.tail_cons,
             Matrix.empty_val', Matrix.cons_val_fin_one, Fin.zero_eta, Fin.mk_one,
             Fin.reduceFinMk, Fin.isValue, Matrix.vecHead, Matrix.vecTail, Function.comp,
             Fin.succ_zero_eq_one, Fin.succ_one_eq_two, Fin.reduceEq, if_true, if_false,
             reduceIte] <;>
           ring1)

set_option maxHeartbeats 2000000 in
theorem matSym_hexagonal_rotation (r : α) (hr : r * r = 3 / 4) :
    ∀ M ∈ (HexagonalHigh.MatSym r : List (Matrix (Fin 3) (Fin 3) α)), M * M.transpose = 1 ∧ M.det = 1 := by
  simp only [CubicHigh.MatSym, HexagonalHigh.MatSym, TrigonalHigh.MatSym,
    Monoclinic.MatSym, List.forall_mem_cons, List.not_mem_nil, IsEmpty.forall_iff,
    implies_true, and_true]
  (repeat' apply And.intro) <;>
    first
      | (rw [Matrix.det_fin_three]
         simp only [Matrix.of_apply, Matrix.cons_val', Matrix.cons_val_zero, Matrix.cons_val_one,
           Matrix.head_cons, Matrix.cons_val_two, Matrix.tail_cons, Matrix.empty_val',
           Matrix.cons_val_fin_one, Matrix.vecHead, Matrix.vecTail, Function.comp,
           Fin.succ_zero_eq_one, Fin.succ_one_eq_two, Fin.isValue]
         first | ring1 | linear_combination hr)
      | (ext i j
         fin_cases i <;> fin_cases j <;>
           simp only [Matrix.mul_apply, Fin.sum_univ_three, Matrix.transpose_apply,
             Matrix.one_apply, Matrix.of_apply, Matrix.cons_val', Matrix.cons_val_zero,
             Matrix.cons_val_one, Matrix.head_cons, Matrix.cons_val_two, Matrix.tail_cons,
             Matrix.empty_val', Matrix.cons_val_fin_one, Fin.zero_eta, Fin.mk_one,
             Fin.reduceFinMk, Fin.isValue, Matrix.vecHead, Matrix.vecTail, Function.comp,
             Fin.succ_zero_eq_one, Fin.succ_one_eq_two, Fin.reduceEq, if_true, if_false,
             reduceIte] <;>
           first | ring1 | linear_combination hr)

set_option maxHeartbeats 1000000 in
theorem matSym_trigonal_rotation (r : α) (hr : r * r = 3 / 4) :
    ∀ M ∈ (TrigonalHigh.MatSym r : List (Matrix (Fin 3) (Fin 3) α)), M * M.transpose = 1 ∧ M.det = 1 := by
  simp only [CubicHigh.MatSym, HexagonalHigh.MatSym, TrigonalHigh.MatSym,
    Monoclinic.MatSym, List.forall_mem_cons, List.not_mem_nil, IsEmpty.forall_iff,
    implies_true, and_true]
  (repeat' apply And.intro) <;>
    first
      | (rw [Matrix.det_fin_three]
         simp only [Matrix.of_apply, Matrix.cons_val', Matrix.cons_val_zero, Matrix.cons_val_one,
           Matrix.head_cons, Matrix.cons_val_two, Matrix.tail_cons, Matrix.empty_val',
           Matrix.cons_val_fin_one, Matrix.vecHead, Matrix.vecTail, Function.comp,
           Fin.succ_zero_eq_one, Fin.succ_one_eq_two, Fin.isValue]
         first | ring1 | linear_combination hr)
      | (ext i j
         fin_cases i <;> fin_cases j <;>
           simp only [Matrix.mul_apply, Fin.sum_univ_three, Matrix.transpose_apply,
             Matrix.one_apply, Matrix.of_apply, Matrix.cons_val', Matrix.cons_val_zero,
             Matrix.cons_val_one, Matrix.head_cons, Matrix.cons_val_two, Matrix.tail_cons,
             Matrix.empty_val', Matrix.cons_val_fin_one, Fin.zero_eta, Fin.mk_one,
             Fin.reduceFinMk, Fin.isValue, Matrix.vecHead, Matrix.vecTail, Function.comp,
             Fin.succ_zero_eq_one, Fin.succ_one_eq_two, Fin.reduceEq, if_true, if_false,
             reduceIte] <;>
           first | ring1 | linear_combination hr)

set_option maxHeartbeats 400000 in
theorem matSym_monoclinic_rotation :
    ∀ M ∈ (Monoclinic.MatSym : List (Matrix (Fin 3) (Fin 3) α)), M * M.transpose = 1 ∧ M.det = 1 := by
  simp only [CubicHigh.MatSym, HexagonalHigh.MatSym, TrigonalHigh.MatSym,
    Monoclinic.MatSym, List.forall_mem_cons, List.not_mem_nil, IsEmpty.forall_iff,
    implies_true, and_true]
  (repeat' apply And.intro) <;>
    first
      | (rw [Matrix.det_fin_three]
         simp only [Matrix.of_apply, Matrix.cons_val', Matrix.cons_val_zero, Matrix.cons_val_one,
           Matrix.head_cons, Matrix.cons_val_two, Matrix.tail_cons, Matrix.empty_val',
           Matrix.cons_val_fin_one, Matrix.vecHead, Matrix.vecTail, Function.comp,
           Fin.succ_zero_eq_one, Fin.succ_one_eq_two, Fin.isValue]
         ring1)
      | (ext i j
         fin_cases i <;> fin_cases j <;>
           simp only [Matrix.mul_apply, Fin.sum_univ_three, Matrix.transpose_apply,
             Matrix.one_apply, Matrix.of_apply, Matrix.cons_val', Matrix.cons_val_zero,
             Matrix.cons_val_one, Matrix.head_cons, Matrix.cons_val_two, Matrix.tail_cons,
             Matrix.empty_val', Matrix.cons_val_fin_one, Fin.zero_eta, Fin.mk_one,
             Fin.reduceFinMk, Fin.isValue, Matrix.vecHead, Matrix.vecTail, Function.comp,
             Fin.succ_zero_eq_one, Fin.succ_one_eq_two, Fin.reduceEq, if_true, if_false,
             reduceIte] <;>
           ring1)

theorem matSym_mem_rotation (r : α) (hr : r * r = 3 / 4) (cls : LaueClass) :
    ∀ M ∈ LaueOps.MatSym r cls, M * M.transpose = 1 ∧ M.det = 1 := by
  cases cls
  · exact matSym_cubic_rotation
  · exact matSym_hexagonal_rotation r hr
  · exact matSym_trigonal_rotation r hr
  · exact matSym_monoclinic_rotation

/-- C33: for each of the four classes and every index `i < getNumSymOps()`,
`MatSym[i]` exists and is a proper rotation matrix: its product with its
transpose is the identity and its determinant is 1. `r` stands for
`k_Root3Over2D`, of which only `r r = 3/4` is used. -/
theorem matSym_entries_are_proper_rotations (r : α) (hr : r * r = 3 / 4) (cls : LaueClass)
    (i : Nat) (hi : i < LaueOps.getNumSymOps cls) :
    ∃ M, LaueOps.getMatSymOpD r cls i = some M ∧ M * M.transpose = 1 ∧ M.det = 1 := by
  have hlen : (LaueOps.MatSym r cls).length = LaueOps.getNumSymOps cls := by
    cases cls <;> rfl
  have hi' : i < (LaueOps.MatSym r cls).length := by omega
  refine ⟨(LaueOps.MatSym r cls)[i], ?_, matSym_mem_rotation r hr cls _ (List.getElem_mem hi')⟩
  unfold LaueOps.getMatSymOpD
  exact List.getElem?_eq_getElem hi'

end MatSymRotations

theorem matSym_entries_are_proper_rotations_witness :
    (√3 / 2 : ℝ) * (√3 / 2) = 3 / 4 ∧ 7 < LaueOps.getNumSymOps LaueClass.Hexagonal ∧
      ∃ M, LaueOps.getMatSymOpD (√3 / 2 : ℝ) LaueClass.Hexagonal 7 = some M ∧
        M * M.transpose = 1 ∧ M.det = 1 := by
  have h3 : (√3 / 2 : ℝ) * (√3 / 2) = 3 / 4 := by
    have : (√3 : ℝ) * √3 = 3 := Real.mul_self_sqrt (by norm_num)
    linear_combination this / 4
  exact ⟨h3, by decide, matSym_entries_are_proper_rotations _ h3 LaueClass.Hexagonal 7
    (by decide)⟩

section QuatSymDistinct

variable {α : Type} [LinearOrderedField α]

set_option maxHeartbeats 4000000 in
theorem quatSym_cubic_pairwise (c : α) (hc : c ≠ 0) :
    (CubicHigh.QuatSym c).Pairwise (fun p q => p ≠ q ∧ p ≠ q.negate) := by
  have hc' : (0 : α) ≠ c := fun h => hc h.symm
  have hn : c ≠ -c := fun h => hc (by linarith)
  have hn' : -c ≠ c := fun h => hc (by linarith)
  simp only [CubicHigh.QuatSym, List.pairwise_cons, List.mem_cons, forall_eq_or_imp,
    List.not_mem_nil, IsEmpty.forall_iff, implies_true, and_true, List.Pairwise.nil,
    Quat.negate, ne_eq, Quat.mk.injEq]
  norm_num [hc, hc', hn, hn']

theorem quatSym_other_pairwise :
    (HexagonalHigh.QuatSym : List (Quat α)).Pairwise (fun p q => p ≠ q ∧ p ≠ q.negate) ∧
      (TrigonalHigh.QuatSym : List (Quat α)).Pairwise (fun p q => p ≠ q ∧ p ≠ q.negate) ∧
      (Monoclinic.QuatSym : List (Quat α)).Pairwise (fun p q => p ≠ q ∧ p ≠ q.negate) := by
  refine ⟨?_, ?_, ?_⟩ <;>
    simp only [HexagonalHigh.QuatSym, TrigonalHigh.QuatSym, Monoclinic.QuatSym,
      List.pairwise_cons, List.mem_cons, forall_eq_or_imp,
      List.not_mem_nil, IsEmpty.forall_iff, implies_true, and_true, List.Pairwise.nil,
      Quat.negate, ne_eq, Quat.mk.injEq] <;>
    norm_num

theorem quatSym_pairwise (c : α) (hc : c ≠ 0) (cls : LaueClass) :
    (LaueOps.QuatSym c cls).Pairwise (fun p q => p ≠ q ∧ p ≠ q.negate) := by
  cases cls
  · exact quatSym_cubic_pairwise c hc
  · exact quatSym_other_pairwise.1
  · exact quatSym_other_pairwise.2.1
  · exact quatSym_other_pairwise.2.2

theorem quat_negate_negate (q : Quat α) : q.negate.negate = q := by
  cases q
  simp [Quat.negate]

/-- C34: for each of the four classes, `QuatSym` has exactly `getNumSymOps()`
entries, entry 0 is the identity `(0, 0, 0, 1)`, and for `i ≠ j` below
`getNumSymOps()` the entries `QuatSym[i]` and `QuatSym[j]` are different
rotations: `QuatSym[i]` is neither `QuatSym[j]` nor `-QuatSym[j]`. Of the
constant `c = k_1OverRoot2D` only `c ≠ 0` is used. -/
theorem quatSym_entries_distinct_rotations (c : α) (hc : c ≠ 0) (cls : LaueClass) :
    (LaueOps.QuatSym c cls).length = LaueOps.getNumSymOps cls ∧
      LaueOps.getQuatSymOp c cls 0 = some ⟨0, 0, 0, 1⟩ ∧
      ∀ i j : Nat, i < LaueOps.getNumSymOps cls → j < LaueOps.getNumSymOps cls → i ≠ j →
        ∃ p q, LaueOps.getQuatSymOp c cls i = some p ∧ LaueOps.getQuatSymOp c cls j = some q ∧
          p ≠ q ∧ p ≠ q.negate := by
  have hlen : (LaueOps.QuatSym c cls).length = LaueOps.getNumSymOps cls := by
    cases cls <;> rfl
  refine ⟨hlen, by cases cls <;> rfl, ?_⟩
  intro i j hi hj hij
  have hi' : i < (LaueOps.QuatSym c cls).length := by omega
  have hj' : j < (LaueOps.QuatSym c cls).length := by omega
  have hp := List.pairwise_iff_getElem.1 (quatSym_pairwise c hc cls)
  refine ⟨(LaueOps.QuatSym c cls)[i], (LaueOps.QuatSym c cls)[j],
    List.getElem?_eq_getElem hi', List.getElem?_eq_getElem hj', ?_⟩
  rcases Nat.lt_or_gt_of_ne hij with h | h
  · exact hp i j hi' hj' h
  · obtain ⟨h1, h2⟩ := hp j i hj' hi' h
    refine ⟨fun e => h1 e.symm, fun e => h2 ?_⟩
    rw [e, quat_negate_negate]

end QuatSymDistinct

theorem quatSym_entries_distinct_rotations_witness :
    (1 / √2 : ℝ) ≠ 0 ∧ 4 < LaueOps.getNumSymOps LaueClass.Cubic ∧
      7 < LaueOps.getNumSymOps LaueClass.Cubic ∧
      ∃ p q, LaueOps.getQuatSymOp (1 / √2 : ℝ) LaueClass.Cubic 4 = some p ∧
        LaueOps.getQuatSymOp (1 / √2 : ℝ) LaueClass.Cubic 7 = some q ∧ p ≠ q ∧ p ≠ q.negate := by
  have hc : (1 / √2 : ℝ) ≠ 0 := by positivity
  exact ⟨hc, by decide, by decide,
    (quatSym_entries_distinct_rotations (1 / √2 : ℝ) hc LaueClass.Cubic).2.2 4 7 (by decide)
      (by decide) (by decide)⟩

/-! Theorems: the slip transmission metric -/

section SlipMetricsProofs

theorem cosThetaBetweenVectors_self (v : Fin 3 → ℝ) :
    CosThetaBetweenVectors Real.sqrt v v = 1 := by
  unfold CosThetaBetweenVectors
  dsimp only
  split_ifs with h
  · rfl
  · have hs : 0 ≤ v 0 * v 0 + v 1 * v 1 + v 2 * v 2 := by
      nlinarith [mul_self_nonneg (v 0), mul_self_nonneg (v 1), mul_self_nonneg (v 2)]
    rw [Real.mul_self_sqrt hs]
    have hne : v 0 * v 0 + v 1 * v 1 + v 2 * v 2 ≠ 0 := by
      intro h0
      apply h
      left
      rw [h0, Real.sqrt_zero]
    exact div_self hne

theorem getF1TotalDirectionMisalignment_eq (g2 : Matrix (Fin 3) (Fin 3) ℝ) :
    CubicOps.getF1TotalDirectionMisalignment Real.sqrt g2 = 12 := by
  unfold CubicOps.getF1TotalDirectionMisalignment
  simp only [cosThetaBetweenVectors_self, abs_one]
  simp only [List.range, List.range.loop, List.foldl]
  norm_num

/-- C36: `CubicOps::getF1` in exact real arithmetic does not depend on its second
orientation: the only use of `q2` is the sum over the twelve slip systems of
`|CosThetaBetweenVectors(uvw2, uvw2)|`, which is 12 for every `q2`. The result is
the same for all quaternions `q2`, `q2'` (unit or not), every `q1`, every load
direction and both values of `maxSF`. -/
theorem cubic_getF1_independent_of_second_orientation (q1 q2 q2' : Quat ℝ) (LD : Fin 3 → ℝ)
    (maxSF : Bool) :
    CubicOps.getF1 Real.sqrt q1 q2 LD maxSF = CubicOps.getF1 Real.sqrt q1 q2' LD maxSF ∧
      CubicOps.getF1TotalDirectionMisalignment Real.sqrt (qu2om q2).transpose = 12 := by
  refine ⟨?_, getF1TotalDirectionMisalignment_eq _⟩
  have hstep : ∀ g1 g2 g2' : Matrix (Fin 3) (Fin 3) ℝ, ∀ L : Fin 3 → ℝ,
      CubicOps.getF1Step Real.sqrt g1 g2 L maxSF = CubicOps.getF1Step Real.sqrt g1 g2' L maxSF := by
    intro g1 g2 g2' L
    funext st i
    simp only [CubicOps.getF1Step, getF1TotalDirectionMisalignment_eq]
  simp only [CubicOps.getF1]
  rw [hstep _ (qu2om q2).transpose (qu2om q2').transpose]

end SlipMetricsProofs

/-! Theorems: the largest cubic misorientation angle -/

section CubicAngleBound

/-- A triple `0 ≤ x ≤ y ≤ z` with `z ≤ (√2 - 1) w` and `x + y + z ≤ w`: the point
`(x, y, z) / w` lies in the cubic fundamental zone of Rodrigues space, whose
farthest corner is `(3 - 2√2, √2 - 1, √2 - 1)`. -/
theorem fz_key_sorted (s x y z w : ℝ) (hs : s * s = 2) (hs0 : 0 < s) (hx : 0 ≤ x) (hxy : x ≤ y)
    (hyz : y ≤ z) (h1 : z ≤ (s - 1) * w) (h2 : x + y + z ≤ w) :
    (3 + 2 * s) / 8 * (x * x + y * y + z * z + w * w) ≤ w * w := by
  have hs1 : 1 < s := by nlinarith
  have hs2 : s < 2 := by nlinarith
  have hw : 0 ≤ w := by linarith
  have hzw : z ≤ w := by nlinarith
  have key : w * w - (3 + 2 * s) / 8 * (x * x + y * y + z * z + w * w) =
      (1 + 2 * s) / 4 * (x * (w - x - y - z)) + (1 + 2 * s) / 4 * ((y - x) * (z - y)) +
      (6 + 5 * s) / 8 * ((y - x) * ((s - 1) * w - z)) +
      (2 * s - 1) / 8 * ((y - x) * (w - x - y - z)) + (2 * s - 1) / 4 * ((z - y) * (z - y)) +
      (s - 1) / 2 * ((z - y) * (w - z)) + (2 + 3 * s) / 4 * ((z - y) * ((s - 1) * w - z)) +
      3 * s / 8 * ((w - z) * ((s - 1) * w - z)) + (s - 1) / 8 * ((w - z) * (w - x - y - z)) := by
    linear_combination (5 / 8 * w * x + 1 / 8 * w * y - 3 / 8 * w * z - 3 / 8 * w ^ 2) * hs
  have t1 := mul_nonneg (by linarith : 0 ≤ (1 + 2 * s) / 4)
    (mul_nonneg hx (by linarith : 0 ≤ w - x - y - z))
  have t2 := mul_nonneg (by linarith : 0 ≤ (1 + 2 * s) / 4)
    (mul_nonneg (by linarith : 0 ≤ y - x) (by linarith : 0 ≤ z - y))
  have t3 := mul_nonneg (by linarith : 0 ≤ (6 + 5 * s) / 8)
    (mul_nonneg (by linarith : 0 ≤ y - x) (by linarith : 0 ≤ (s - 1) * w - z))
  have t4 := mul_nonneg (by linarith : 0 ≤ (2 * s - 1) / 8)
    (mul_nonneg (by linarith : 0 ≤ y - x) (by linarith : 0 ≤ w - x - y - z))
  have t5 := mul_nonneg (by linarith : 0 ≤ (2 * s - 1) / 4) (mul_self_nonneg (z - y))
  have t6 := mul_nonneg (by linarith : 0 ≤ (s - 1) / 2)
    (mul_nonneg (by linarith : 0 ≤ z - y) (by linarith : 0 ≤ w - z))
  have t7 := mul_nonneg (by linarith : 0 ≤ (2 + 3 * s) / 4)
    (mul_nonneg (by linarith : 0 ≤ z - y) (by linarith : 0 ≤ (s - 1) * w - z))
  have t8 := mul_nonneg (by linarith : 0 ≤ 3 * s / 8)
    (mul_nonneg (by linarith : 0 ≤ w - z) (by linarith : 0 ≤ (s - 1) * w - z))
  have t9 := mul_nonneg (by linarith : 0 ≤ (s - 1) / 8)
    (mul_nonneg (by linarith : 0 ≤ w - z) (by linarith : 0 ≤ w - x - y - z))
  linarith

/-- The same for a triple in any order. -/
theorem fz_key (s x y z w : ℝ) (hs : s * s = 2) (hs0 : 0 < s) (hx : 0 ≤ x) (hy : 0 ≤ y)
    (hz : 0 ≤ z) (bx : x ≤ (s - 1) * w) (b_y : y ≤ (s - 1) * w) (bz : z ≤ (s - 1) * w)
    (h2 : x + y + z ≤ w) :
    (3 + 2 * s) / 8 * (x * x + y * y + z * z + w * w) ≤ w * w := by
  rcases le_total x y with hxy | hxy <;> rcases le_total y z with hyz | hyz <;>
    rcases le_total x z with hxz | hxz
  · exact fz_key_sorted s x y z w hs hs0 hx hxy hyz bz h2
  · exact fz_key_sorted s x y z w hs hs0 hx hxy hyz bz h2
  · have := fz_key_sorted s x z y w hs hs0 hx hxz hyz b_y (by linarith)
    linarith
  · have := fz_key_sorted s z x y w hs hs0 hz hxz hxy b_y (by linarith)
    linarith
  · have := fz_key_sorted s y x z w hs hs0 hy hxy hxz bz (by linarith)
    linarith
  · have := fz_key_sorted s y z x w hs hs0 hy hyz hxz bx (by linarith)
    linarith
  · have := fz_key_sorted s z y x w hs hs0 hz hyz hxy bx (by linarith)
    linarith
  · have := fz_key_sorted s z y x w hs hs0 hz hyz hxy bx (by linarith)
    linarith

theorem sq_bound_finish (s W v : ℝ) (hs : s * s = 2) (hW : 0 ≤ W) (hWv : W ≤ v)
    (hsq : (3 + 2 * s) / 8 ≤ W * W) : (2 + s) / 4 ≤ v := by
  have hm : ((2 + s) / 4) * ((2 + s) / 4) = (3 + 2 * s) / 8 := by
    linear_combination (1 / 16) * hs
  have : (2 + s) / 4 ≤ W := by
    by_contra hlt
    push_neg at hlt
    have := mul_self_lt_mul_self hW hlt
    linarith
  linarith

/-- The largest component is the largest candidate. -/
theorem candidate_bound_one (s a b c d : ℝ) (hs : s * s = 2) (hs0 : 0 < s) (ha : 0 ≤ a)
    (hab : a ≤ b) (hbc : b ≤ c) (hn : a * a + b * b + c * c + d * d = 1)
    (c12 : (c + d) * s / 2 ≤ d) (c13 : (a + b + c + d) / 2 ≤ d) :
    (3 + 2 * s) / 8 ≤ d * d := by
  have e : s * ((c + d) * s / 2) = c + d := by linear_combination ((c + d) / 2) * hs
  have h1 := mul_le_mul_of_nonneg_left c12 hs0.le
  rw [e] at h1
  have hc : c ≤ (s - 1) * d := by linarith
  have hk := fz_key s a b c d hs hs0 ha (by linarith) (by linarith) (by linarith) (by linarith)
    hc (by linarith)
  rw [hn, mul_one] at hk
  exact hk

/-- The pair sum is the largest candidate. -/
theorem candidate_bound_two (s a b c d : ℝ) (hs : s * s = 2) (hs0 : 0 < s) (ha : 0 ≤ a)
    (hab : a ≤ b) (hbc : b ≤ c) (hcd : c ≤ d) (hn : a * a + b * b + c * c + d * d = 1)
    (c21 : d ≤ (c + d) * s / 2) (c23 : (a + b + c + d) / 2 ≤ (c + d) * s / 2) :
    (3 + 2 * s) / 8 ≤ (c + d) * s / 2 * ((c + d) * s / 2) := by
  have hh : 0 ≤ s / 2 := by linarith
  have x0 : 0 ≤ (b - a) * (s / 2) := mul_nonneg (by linarith) hh
  have y0 : 0 ≤ (a + b) * (s / 2) := mul_nonneg (by linarith) hh
  have z0 : 0 ≤ (d - c) * (s / 2) := mul_nonneg (by linarith) hh
  have by1 : (a + b) * (s / 2) ≤ ((s - 1) * (c + d)) * (s / 2) :=
    mul_le_mul_of_nonneg_right (by linarith) hh
  have bz1 : (d - c) * (s / 2) ≤ ((s - 1) * (c + d)) * (s / 2) :=
    mul_le_mul_of_nonneg_right (by linarith) hh
  have bx1 : (b - a) * (s / 2) ≤ (a + b) * (s / 2) :=
    mul_le_mul_of_nonneg_right (by linarith) hh
  have hsum : 0 ≤ (c - b) * s := mul_nonneg (by linarith) hs0.le
  have hk := fz_key s ((b - a) * (s / 2)) ((a + b) * (s / 2)) ((d - c) * (s / 2))
    ((c + d) * s / 2) hs hs0 x0 y0 z0 (by linarith) (by linarith) (by linarith) (by linarith)
  have hnorm : (b - a) * (s / 2) * ((b - a) * (s / 2)) + (a + b) * (s / 2) * ((a + b) * (s / 2)) +
      (d - c) * (s / 2) * ((d - c) * (s / 2)) + (c + d) * s / 2 * ((c + d) * s / 2) = 1 := by
    linear_combination ((a * a + b * b + c * c + d * d) / 2) * hs + hn
  rw [hnorm, mul_one] at hk
  exact hk

/-- The half sum is the largest candidate. -/
theorem candidate_bound_three (s a b c d : ℝ) (hs : s * s = 2) (hs0 : 0 < s) (ha : 0 ≤ a)
    (hab : a ≤ b) (hbc : b ≤ c) (hcd : c ≤ d) (hn : a * a + b * b + c * c + d * d = 1)
    (c31 : d ≤ (a + b + c + d) / 2) (c32 : (c + d) * s / 2 ≤ (a + b + c + d) / 2) :
    (3 + 2 * s) / 8 ≤ (a + b + c + d) / 2 * ((a + b + c + d) / 2) := by
  have e : s * ((c + d) * s / 2) = c + d := by linear_combination ((c + d) / 2) * hs
  have hP := mul_le_mul_of_nonneg_left c32 hs0.le
  rw [e] at hP
  have hn' : ∀ t : ℝ, t * t = (d - c - b + a) / 2 * ((d - c - b + a) / 2) →
      (d + c - b - a) / 2 * ((d + c - b - a) / 2) + (d - c + b - a) / 2 * ((d - c + b - a) / 2) +
        t * t + (a + b + c + d) / 2 * ((a + b + c + d) / 2) = 1 := by
    intro t ht
    rw [ht]
    linear_combination hn
  rcases le_total 0 (d - c - b + a) with hsgn | hsgn
  · have hk := fz_key s ((d + c - b - a) / 2) ((d - c + b - a) / 2) ((d - c - b + a) / 2)
      ((a + b + c + d) / 2) hs hs0 (by linarith) (by linarith) (by linarith)
      (by linarith) (by linarith) (by linarith) (by linarith)
    rw [hn' _ rfl, mul_one] at hk
    exact hk
  · have hk := fz_key s ((d + c - b - a) / 2) ((d - c + b - a) / 2) (-(d - c - b + a) / 2)
      ((a + b + c + d) / 2) hs hs0 (by linarith) (by linarith) (by linarith)
      (by linarith) (by linarith) (by linarith) (by linarith)
    rw [hn' _ (by ring), mul_one] at hk
    exact hk

/-- For `0 ≤ a ≤ b ≤ c ≤ d` with `a² + b² + c² + d² = 1`, every `v` that is at least
`d`, `(c + d) / √2` and `(a + b + c + d) / 2` is at least `(2 + √2) / 4`. -/
theorem candidate_lower_bound (a b c d v : ℝ) (ha : 0 ≤ a) (hab : a ≤ b) (hbc : b ≤ c)
    (hcd : c ≤ d) (hn : a * a + b * b + c * c + d * d = 1) (v1 : d ≤ v)
    (v2 : (c + d) / √2 ≤ v) (v3 : (a + b + c + d) / 2 ≤ v) :
    (2 + √2) / 4 ≤ v := by
  obtain ⟨s, hsdef⟩ : ∃ s, s = √2 := ⟨_, rfl⟩
  rw [← hsdef] at v2 ⊢
  have hs : s * s = 2 := by rw [hsdef]; exact Real.mul_self_sqrt (by norm_num)
  have hs0 : 0 < s := by rw [hsdef]; exact Real.sqrt_pos.mpr (by norm_num)
  have e2 : (c + d) / s = (c + d) * s / 2 := by
    field_simp
    linear_combination (-(c + d)) * hs
  rw [e2] at v2
  have hd : 0 ≤ d := by linarith
  rcases le_total ((c + d) * s / 2) d with c12 | c12
  · rcases le_total ((a + b + c + d) / 2) d with c13 | c13
    · exact sq_bound_finish s d v hs hd v1
        (candidate_bound_one s a b c d hs hs0 ha hab hbc hn c12 c13)
    · exact sq_bound_finish s _ v hs (by linarith) v3
        (candidate_bound_three s a b c d hs hs0 ha hab hbc hcd hn c13 (by linarith))
  · rcases le_total ((a + b + c + d) / 2) ((c + d) * s / 2) with c23 | c23
    · exact sq_bound_finish s _ v hs (by linarith) v2
        (candidate_bound_two s a b c d hs hs0 ha hab hbc hcd hn c12 c23)
    · exact sq_bound_finish s _ v hs (by linarith) v3
        (candidate_bound_three s a b c d hs hs0 ha hab hbc hcd hn (by linarith) c23)

theorem sort3_sorted (a b c : ℝ) :
    (CubicOps.sort3 a b c).1 ≤ (CubicOps.sort3 a b c).2.1 ∧
      (CubicOps.sort3 a b c).2.1 ≤ (CubicOps.sort3 a b c).2.2 ∧
      (CubicOps.sort3 a b c).1 * (CubicOps.sort3 a b c).1 +
          (CubicOps.sort3 a b c).2.1 * (CubicOps.sort3 a b c).2.1 +
          (CubicOps.sort3 a b c).2.2 * (CubicOps.sort3 a b c).2.2 = a * a + b * b + c * c ∧
      ((CubicOps.sort3 a b c).1 = a ∨ (CubicOps.sort3 a b c).1 = b ∨
        (CubicOps.sort3 a b c).1 = c) := by
  unfold CubicOps.sort3
  split_ifs with h1 h2 h3 h4 h5 <;> simp only [not_and_or, not_le] at * <;>
    refine ⟨?_, ?_, by first | ring1 | rfl | ring_nf, by simp⟩ <;>
    first
      | linarith
      | (casesm* _ ∧ _, _ ∨ _ <;> linarith)

/-- The quadruplet written by the sort is in ascending order, has the squared
length of its argument, and its first entry is one of the components. -/
theorem sortedQuadruplet_sorted (qc : Quat ℝ) :
    (CubicOps.sortedQuadruplet qc).x ≤ (CubicOps.sortedQuadruplet qc).y ∧
      (CubicOps.sortedQuadruplet qc).y ≤ (CubicOps.sortedQuadruplet qc).z ∧
      (CubicOps.sortedQuadruplet qc).z ≤ (CubicOps.sortedQuadruplet qc).w ∧
      (CubicOps.sortedQuadruplet qc).normSq = qc.normSq ∧
      ((CubicOps.sortedQuadruplet qc).x = qc.x ∨ (CubicOps.sortedQuadruplet qc).x = qc.y ∨
        (CubicOps.sortedQuadruplet qc).x = qc.z ∨ (CubicOps.sortedQuadruplet qc).x = qc.w) := by
  rw [CubicOps.sortedQuadruplet_eq]
  split_ifs with h1 h2 h3
  · obtain ⟨o1, o2, o3, o4⟩ := sort3_sorted qc.y qc.z qc.w
    obtain ⟨a1, a2, a3⟩ := h1
    dsimp only
    refine ⟨by rcases o4 with h | h | h <;> rw [h] <;> assumption, o1, o2,
      by simp only [Quat.normSq]; linarith,
      Or.inl rfl⟩
  · obtain ⟨o1, o2, o3, o4⟩ := sort3_sorted qc.x qc.z qc.w
    obtain ⟨a1, a2, a3⟩ := h2
    dsimp only
    refine ⟨by rcases o4 with h | h | h <;> rw [h] <;> assumption, o1, o2,
      by simp only [Quat.normSq]; linarith,
      Or.inr (Or.inl rfl)⟩
  · obtain ⟨o1, o2, o3, o4⟩ := sort3_sorted qc.x qc.y qc.w
    obtain ⟨a1, a2, a3⟩ := h3
    dsimp only
    refine ⟨by rcases o4 with h | h | h <;> rw [h] <;> assumption, o1, o2,
      by simp only [Quat.normSq]; linarith,
      Or.inr (Or.inr (Or.inl rfl))⟩
  · obtain ⟨o1, o2, o3, o4⟩ := sort3_sorted qc.x qc.y qc.z
    have a1 : qc.w ≤ qc.x := by
      simp only [not_and_or, not_le] at h1 h2 h3
      rcases h1 with h | h | h <;> rcases h2 with g | g | g <;>
        rcases h3 with f | f | f <;> linarith
    have a2 : qc.w ≤ qc.y := by
      simp only [not_and_or, not_le] at h1 h2 h3
      rcases h1 with h | h | h <;> rcases h2 with g | g | g <;>
        rcases h3 with f | f | f <;> linarith
    have a3 : qc.w ≤ qc.z := by
      simp only [not_and_or, not_le] at h1 h2 h3
      rcases h1 with h | h | h <;> rcases h2 with g | g | g <;>
        rcases h3 with f | f | f <;> linarith
    dsimp only
    refine ⟨by rcases o4 with h | h | h <;> rw [h] <;> assumption, o1, o2,
      by simp only [Quat.normSq]; linarith,
      Or.inr (Or.inr (Or.inr rfl))⟩

theorem bound_angle_between_62_and_64_degrees :
    62 * (Real.pi / 180) < 2 * Real.arccos ((2 + √2) / 4) ∧
      2 * Real.arccos ((2 + √2) / 4) < 64 * (Real.pi / 180) := by
  have hp1 := Real.pi_gt_d4
  have hp2 := Real.pi_lt_d4
  have hs1 : (1.4142 : ℝ) < √2 := by
    rw [Real.lt_sqrt (by norm_num)]
    norm_num
  have hs2 : √2 < (1.4143 : ℝ) := by
    rw [Real.sqrt_lt' (by norm_num)]
    norm_num
  have hm1 : (-1 : ℝ) ≤ (2 + √2) / 4 := by linarith
  have hm2 : (2 + √2) / 4 ≤ 1 := by linarith
  constructor
  · have hx0 : 0 ≤ 31 * (Real.pi / 180) := by positivity
    have hxpi : 31 * (Real.pi / 180) ≤ Real.pi := by linarith
    have hcos : (2 + √2) / 4 < Real.cos (31 * (Real.pi / 180)) := by
      have h := Real.one_sub_sq_div_two_le_cos (x := 31 * (Real.pi / 180))
      nlinarith
    have h := Real.strictAntiOn_arccos ⟨hm1, hm2⟩
      ⟨Real.neg_one_le_cos _, Real.cos_le_one _⟩ hcos
    rw [Real.arccos_cos hx0 hxpi] at h
    linarith
  · have hx0 : 0 ≤ 32 * (Real.pi / 180) := by positivity
    have hxpi : 32 * (Real.pi / 180) ≤ Real.pi := by linarith
    have hx1 : |32 * (Real.pi / 180)| ≤ 1 := by
      rw [abs_of_nonneg hx0]
      linarith
    have hcos : Real.cos (32 * (Real.pi / 180)) < (2 + √2) / 4 := by
      have h := Real.cos_bound hx1
      rw [abs_of_nonneg hx0] at h
      have h2 := (abs_le.mp h).2
      have e1 : (32 * (Real.pi / 180)) ^ 2 = 64 / 2025 * Real.pi ^ 2 := by ring
      have e2 : (32 * (Real.pi / 180)) ^ 4 = (64 / 2025 * Real.pi ^ 2) ^ 2 := by ring
      rw [e2, e1] at h2
      have hq1 : (9.869 : ℝ) < Real.pi ^ 2 := by nlinarith
      have hq2 : Real.pi ^ 2 < (9.870 : ℝ) := by nlinarith
      have hq3 : (64 / 2025 * Real.pi ^ 2) ^ 2 < (0.098 : ℝ) := by
        have : 64 / 2025 * Real.pi ^ 2 < (0.312 : ℝ) := by linarith
        have h0 : 0 ≤ 64 / 2025 * Real.pi ^ 2 := by positivity
        nlinarith
      linarith
    have h := Real.strictAntiOn_arccos ⟨Real.neg_one_le_cos _, Real.cos_le_one _⟩
      ⟨hm1, hm2⟩ hcos
    rw [Real.arccos_cos hx0 hxpi] at h
    linarith

open Real CubicOps in
/-- C32: in exact real arithmetic, for unit quaternions `q1` and `q2` the value
selected by `CubicOps::calculateMisorientation`, the largest of `d`,
`(c + d) / √2` and `(a + b + c + d) / 2` for the ascending absolute components
`a ≤ b ≤ c ≤ d` of `q1 * conj q2`, is at least `(2 + √2) / 4`, and the returned
angle is at most `2 acos ((2 + √2) / 4)`, a bound that lies between 62 and 64
degrees (it is about 62.8 degrees). -/
theorem cubic_misorientation_angle_at_most_62_8_degrees (q1 q2 : Quat ℝ)
    (h1 : q1.normSq = 1) (h2 : q2.normSq = 1) :
    (2 + √2) / 4 ≤
        (selectCandidate (√2) (sortedQuadruplet (q1 * q2.conjugate).elementWiseAbs)).1 ∧
      (calculateMisorientation (√2) (1 / √2) arccos sin sqrt q1 q2).w ≤
        2 * arccos ((2 + √2) / 4) ∧
      62 * (π / 180) < 2 * arccos ((2 + √2) / 4) ∧
      2 * arccos ((2 + √2) / 4) < 64 * (π / 180) := by
  have hp : (q1 * q2.conjugate).normSq = 1 := by
    have e : (q1 * q2.conjugate).normSq = q1.normSq * q2.normSq := by
      show (Quat.mul q1 q2.conjugate).normSq = _
      simp only [Quat.mul, Quat.conjugate, Quat.normSq]
      ring
    rw [e, h1, h2, mul_one]
  have habs : (q1 * q2.conjugate).elementWiseAbs.normSq = 1 := by
    rw [← hp]
    simp only [Quat.elementWiseAbs, Quat.normSq, abs_mul_abs_self]
  obtain ⟨s1, s2, s3, s4, s5⟩ := sortedQuadruplet_sorted (q1 * q2.conjugate).elementWiseAbs
  have h0 : 0 ≤ (sortedQuadruplet (q1 * q2.conjugate).elementWiseAbs).x := by
    rcases s5 with h | h | h | h <;> rw [h] <;> exact abs_nonneg _
  obtain ⟨-, b1, b2, b3⟩ :=
    selectCandidate_spec (√2) (sortedQuadruplet (q1 * q2.conjugate).elementWiseAbs)
  rw [habs] at s4
  have hsel := candidate_lower_bound _ _ _ _ _ h0 s1 s2 s3 s4 b1 b2 b3
  refine ⟨hsel, ?_, bound_angle_between_62_and_64_degrees⟩
  unfold calculateMisorientation
  rw [cubic_angle_eq]
  have := arccos_le_arccos_of_le hsel
  linarith

open Real CubicOps in
theorem cubic_misorientation_angle_at_most_62_8_degrees_witness :
    (⟨0, 0, 0, 1⟩ : Quat ℝ).normSq = 1 ∧
      ((2 + √2) / 4 ≤
          (selectCandidate (√2) (sortedQuadruplet
            ((⟨0, 0, 0, 1⟩ : Quat ℝ) * (⟨0, 0, 0, 1⟩ : Quat ℝ).conjugate).elementWiseAbs)).1 ∧
        (calculateMisorientation (√2) (1 / √2) arccos sin sqrt ⟨0, 0, 0, 1⟩ ⟨0, 0, 0, 1⟩).w ≤
          2 * arccos ((2 + √2) / 4) ∧
        62 * (π / 180) < 2 * arccos ((2 + √2) / 4) ∧
        2 * arccos ((2 + √2) / 4) < 64 * (π / 180)) :=
  ⟨by simp [Quat.normSq],
    cubic_misorientation_angle_at_most_62_8_degrees ⟨0, 0, 0, 1⟩ ⟨0, 0, 0, 1⟩
      (by simp [Quat.normSq]) (by simp [Quat.normSq])⟩

end CubicAngleBound

/-! Theorems: the bin that comes back from a sampled bin -/

section BinRoundTrip

theorem truncToInt_intCast {α : Type} [LinearOrderedField α] [FloorRing α] (n : Int) :
    truncToInt ((n : Int) : α) = n := by
  unfold truncToInt
  split_ifs
  · exact Int.floor_intCast n
  · exact Int.ceil_intCast n

theorem truncToInt_ge_of_le {α : Type} [LinearOrderedField α] [FloorRing α] (k : Nat) (v : α)
    (h : (k : α) ≤ v) : (k : Int) ≤ truncToInt v := by
  have h0 : (0 : α) ≤ v := le_trans (Nat.cast_nonneg k) h
  rw [truncToInt_of_nonneg v h0]
  exact Int.le_floor.mpr (by exact_mod_cast h)

/-- The linear binning on a grid of `nx × ny × nz` bins: a point whose third
coordinate lies at or above bin `k` (with `k ≤ nz - 1`) gets a flattened index of
at least `nx * ny * k`. -/
theorem calcODFBin_third_layer {α : Type} [LinearOrderedField α] [FloorRing α]
    (nx ny nz k : Nat) (dim step ho : α × α × α) (hk : k + 1 ≤ nz)
    (hv : (k : α) ≤ (ho.2.2 + dim.2.2) / step.2.2) :
    ((nx * ny * k : Nat) : Int) ≤
      LaueOps._calcODFBin dim ((nx : α), (ny : α), (nz : α)) step ho := by
  unfold LaueOps._calcODFBin
  dsimp only
  generalize truncToInt ((ho.1 + dim.1) / step.1) = x0
  generalize truncToInt ((ho.2.1 + dim.2.1) / step.2.1) = y0
  have hz0 := truncToInt_ge_of_le k _ hv
  generalize truncToInt ((ho.2.2 + dim.2.2) / step.2.2) = z0 at hz0
  have ex : truncToInt ((nx : α) - 1) = (nx : Int) - 1 := by
    have := @truncToInt_intCast α _ _ ((nx : Int) - 1)
    push_cast at this
    exact this
  have ey : truncToInt ((ny : α) - 1) = (ny : Int) - 1 := by
    have := @truncToInt_intCast α _ _ ((ny : Int) - 1)
    push_cast at this
    exact this
  have ez : truncToInt ((nz : α) - 1) = (nz : Int) - 1 := by
    have := @truncToInt_intCast α _ _ ((nz : Int) - 1)
    push_cast at this
    exact this
  rw [ex, ey, ez]
  set x1 : Int := if (x0 : α) ≥ (nx : α) then (nx : Int) - 1 else x0 with hx1
  set y1 : Int := if (y0 : α) ≥ (ny : α) then (ny : Int) - 1 else y0 with hy1
  set z1 : Int := if (z0 : α) ≥ (nz : α) then (nz : Int) - 1 else z0 with hz1
  have hz1k : (k : Int) ≤ z1 := by
    rw [hz1]
    split_ifs
    · omega
    · exact hz0
  set x2 : Int := if x1 < 0 then 0 else x1 with hx2
  set y2 : Int := if y1 < 0 then 0 else y1 with hy2
  set z2 : Int := if z1 < 0 then 0 else z1 with hz2
  have hx2' : 0 ≤ x2 := by
    rw [hx2]
    split_ifs <;> omega
  have hy2' : 0 ≤ y2 := by
    rw [hy2]
    split_ifs <;> omega
  have hz2' : (k : Int) ≤ z2 := by
    rw [hz2]
    split_ifs <;> omega
  have e : ((z2 : α) * (nx : α) * (ny : α) + (y2 : α) * (nx : α) + (x2 : α)) =
      (((z2 * nx * ny + y2 * nx + x2 : Int)) : α) := by
    push_cast
    ring
  rw [e, truncToInt_intCast]
  push_cast
  have h1 : (k : Int) * ((nx : Int) * (ny : Int)) ≤ z2 * ((nx : Int) * (ny : Int)) :=
    mul_le_mul_of_nonneg_right hz2' (by positivity)
  have h2 : 0 ≤ y2 * (nx : Int) := mul_nonneg hy2' (by positivity)
  nlinarith

theorem cubic_getMDFFZAxisAngle_third {α : Type} [LinearOrderedField α] (ax : AxisAngle α) :
    0 ≤ (CubicOps.getMDFFZAxisAngle ax).n3 ∧ (CubicOps.getMDFFZAxisAngle ax).w = ax.w := by
  unfold CubicOps.getMDFFZAxisAngle
  dsimp only
  refine ⟨?_, rfl⟩
  split_ifs <;> exact abs_nonneg _

theorem hexagonal_getMDFFZAxisAngle_third {α : Type} [LinearOrderedField α] [FloorRing α]
    (atan2 : α → α → α) (cos sin sqrt : α → α) (k1 k2 : α) (ax : AxisAngle α) :
    0 ≤ (HexagonalOps.getMDFFZAxisAngle atan2 cos sin sqrt k1 k2 ax).n3 ∧
      (HexagonalOps.getMDFFZAxisAngle atan2 cos sin sqrt k1 k2 ax).w = ax.w := by
  unfold HexagonalOps.getMDFFZAxisAngle
  dsimp only
  refine ⟨?_, rfl⟩
  split_ifs with h
  · dsimp only
    linarith
  · dsimp only
    exact not_lt.mp h

theorem trigonal_foldInPlane_angle (atan2 : ℝ → ℝ → ℝ) (cos sin sqrt : ℝ → ℝ) (k1 n1 n2 : ℝ) :
    0 ≤ (TrigonalOps.foldInPlane atan2 cos sin sqrt k1 (Real.pi / 180) n1 n2).2.2 ∧
      (TrigonalOps.foldInPlane atan2 cos sin sqrt k1 (Real.pi / 180) n1 n2).2.2 ≤ Real.pi := by
  have hpi := Real.pi_pos
  unfold TrigonalOps.foldInPlane
  dsimp only
  generalize (if 180 * atan2 n2 n1 * k1 < 0 then 180 * atan2 n2 n1 * k1 + 360
    else 180 * atan2 n2 n1 * k1) = angle
  by_cases hA : angle > 60
  · rw [if_pos hA]
    have h0 : 0 ≤ angle / 60 := by positivity
    rw [truncToInt_of_nonneg _ h0]
    have f1 : ((⌊angle / 60⌋ : Int) : ℝ) ≤ angle / 60 := Int.floor_le _
    have f2 : angle / 60 < ((⌊angle / 60⌋ : Int) : ℝ) + 1 := Int.lt_floor_add_one _
    have r0 : 0 ≤ angle - 60 * ((⌊angle / 60⌋ : Int) : ℝ) := by linarith
    have r1 : angle - 60 * ((⌊angle / 60⌋ : Int) : ℝ) ≤ 60 := by linarith
    split_ifs
    · dsimp only
      constructor
      · positivity
      · nlinarith
    · dsimp only
      constructor
      · apply mul_nonneg _ (by positivity)
        linarith
      · nlinarith
  · rw [if_neg hA]
    exact ⟨le_refl _, hpi.le⟩

theorem trigonal_getMDFFZAxisAngle_third (atan2 : ℝ → ℝ → ℝ) (cos sin sqrt : ℝ → ℝ) (k1 : ℝ)
    (ax : AxisAngle ℝ) :
    0 ≤ (TrigonalOps.getMDFFZAxisAngle atan2 cos sin sqrt k1 (Real.pi / 180) ax).n3 ∧
      0 ≤ (TrigonalOps.getMDFFZAxisAngle atan2 cos sin sqrt k1 (Real.pi / 180) ax).w ∧
      (TrigonalOps.getMDFFZAxisAngle atan2 cos sin sqrt k1 (Real.pi / 180) ax).w ≤ Real.pi := by
  unfold TrigonalOps.getMDFFZAxisAngle
  dsimp only
  refine ⟨?_, trigonal_foldInPlane_angle _ _ _ _ _ _ _⟩
  split_ifs with h
  · dsimp only
    linarith
  · dsimp only
    exact not_lt.mp h

/-- The step of the grid divides the half width into `n / 2` bins: a homochoric
coordinate that is not negative lies at or above bin `n / 2`. -/
theorem upper_half_of_nonneg (n : Nat) (hn : 0 < n / 2) (init ho : ℝ) (hinit : 0 < init)
    (hho : 0 ≤ ho) : ((n / 2 : Nat) : ℝ) ≤ (ho + init) / (init / ((n / 2 : Nat) : ℝ)) := by
  have hk : (0 : ℝ) < ((n / 2 : Nat) : ℝ) := by exact_mod_cast hn
  rw [le_div_iff₀ (by positivity)]
  have : ((n / 2 : Nat) : ℝ) * (init / ((n / 2 : Nat) : ℝ)) = init := by
    field_simp
  rw [this]
  linarith

end BinRoundTrip

section BinRoundTripClaim

/-- C8, amended.  The round trip `getOdfBin(determineRodriguesVector(random, b)) = b`
holds in no class for every bin.  In the Monoclinic class
`determineRodriguesVector` ends in the `method_not_implemented` exception for
every bin index, every random triple and whatever the external conversions do.
In the Cubic, Hexagonal and Trigonal classes `determineRodriguesVector` returns
`getMDFFZRod` of the sampled point, the representative in the zone of
misorientations, whose axis has a third component `≥ 0`.  For external
conversions that keep this sign (`ro2ax` returns an angle in `[0, π]`, `ax2ro`
keeps the sign of the third component for such angles, `ro2ho` keeps it) and
the linear binning of §4.4, in exact real arithmetic, whatever routines stand
for `atan2`, `cos`, `sin` and `sqrt`: the bin that `getOdfBin` returns is at
least `nx * ny * (nz / 2)` (2916 for Cubic, 7776 for Hexagonal, 15552 for
Trigonal), so for every `b` below that number and every random triple the
round trip fails. -/
theorem bin_round_trip_amended (ext : External ℝ) (init random : ℝ × ℝ × ℝ) (b : Nat)
    (atan2 : ℝ → ℝ → ℝ) (cos sin sqrt : ℝ → ℝ) (k_1OverPiD : ℝ)
    (hw : ∀ r : Rodrigues ℝ, 0 ≤ (ext.ro2ax r).w ∧ (ext.ro2ax r).w ≤ Real.pi)
    (hax : ∀ ax : AxisAngle ℝ, 0 ≤ ax.n3 → 0 ≤ ax.w → ax.w ≤ Real.pi → 0 ≤ (ext.ax2ro ax).r3)
    (hho : ∀ r : Rodrigues ℝ, 0 ≤ r.r3 → 0 ≤ (ext.ro2ho r).2.2)
    (hbin : ∀ dim bins step ho : ℝ × ℝ × ℝ,
      ext._calcODFBin dim bins step ho = LaueOps._calcODFBin dim bins step ho)
    (hinit : 0 < init.2.2) :
    (MonoclinicOps.determineRodriguesVector ext init random b).map
          (MonoclinicOps.getOdfBin ext init) =
        Except.error
          (EbsdError.method_not_implemented "MonoclinicOps::getMDFFZRod not implemented") ∧
      ((2916 : Int) ≤
          CubicOps.getOdfBin ext init (CubicOps.determineRodriguesVector ext init random b) ∧
        (b < 2916 →
          CubicOps.getOdfBin ext init (CubicOps.determineRodriguesVector ext init random b) ≠
            (b : Int))) ∧
      ((7776 : Int) ≤
          HexagonalOps.getOdfBin ext init
            (HexagonalOps.determineRodriguesVector ext atan2 cos sin sqrt k_1OverPiD
              (Real.pi / 180) init random b) ∧
        (b < 7776 →
          HexagonalOps.getOdfBin ext init
            (HexagonalOps.determineRodriguesVector ext atan2 cos sin sqrt k_1OverPiD
              (Real.pi / 180) init random b) ≠ (b : Int))) ∧
      ((15552 : Int) ≤
          TrigonalOps.getOdfBin ext init
            (TrigonalOps.determineRodriguesVector ext atan2 cos sin sqrt k_1OverPiD
              (Real.pi / 180) init random b) ∧
        (b < 15552 →
          TrigonalOps.getOdfBin ext init
            (TrigonalOps.determineRodriguesVector ext atan2 cos sin sqrt k_1OverPiD
              (Real.pi / 180) init random b) ≠ (b : Int))) ∧
      (2916 = (LaueOps.getOdfNumBins LaueClass.Cubic).1 *
          (LaueOps.getOdfNumBins LaueClass.Cubic).2.1 *
          ((LaueOps.getOdfNumBins LaueClass.Cubic).2.2 / 2) ∧
        7776 = (LaueOps.getOdfNumBins LaueClass.Hexagonal).1 *
          (LaueOps.getOdfNumBins LaueClass.Hexagonal).2.1 *
          ((LaueOps.getOdfNumBins LaueClass.Hexagonal).2.2 / 2) ∧
        15552 = (LaueOps.getOdfNumBins LaueClass.Trigonal).1 *
          (LaueOps.getOdfNumBins LaueClass.Trigonal).2.1 *
          ((LaueOps.getOdfNumBins LaueClass.Trigonal).2.2 / 2)) := by
  have hC : (2916 : Int) ≤
      CubicOps.getOdfBin ext init (CubicOps.determineRodriguesVector ext init random b) := by
    unfold CubicOps.getOdfBin CubicOps.determineRodriguesVector CubicOps.getMDFFZRod
    dsimp only
    rw [hbin]
    obtain ⟨h3, hwe⟩ := cubic_getMDFFZAxisAngle_third
      (ext.ro2ax (LaueOps._calcRodNearestOrigin CubicHigh.RodSym
        (ext.ho2ro (ext._calcDetermineHomochoricValues random init
          (LaueOps.OdfDimStepValue LaueClass.Cubic init)
          (LaueOps.binCoordinates LaueClass.Cubic b)))))
    have hr := hax _ h3 (by rw [hwe]; exact (hw _).1) (by rw [hwe]; exact (hw _).2)
    have hh := hho _ hr
    have := calcODFBin_third_layer 18 18 18 9 init
      (LaueOps.OdfDimStepValue LaueClass.Cubic init) _ (by norm_num)
      (upper_half_of_nonneg 18 (by norm_num) init.2.2 _ hinit hh)
    exact this
  have hH : (7776 : Int) ≤
      HexagonalOps.getOdfBin ext init
        (HexagonalOps.determineRodriguesVector ext atan2 cos sin sqrt k_1OverPiD
          (Real.pi / 180) init random b) := by
    unfold HexagonalOps.getOdfBin HexagonalOps.determineRodriguesVector HexagonalOps.getMDFFZRod
    dsimp only
    rw [hbin]
    obtain ⟨h3, hwe⟩ := hexagonal_getMDFFZAxisAngle_third atan2 cos sin sqrt k_1OverPiD
      (Real.pi / 180)
      (ext.ro2ax (LaueOps._calcRodNearestOrigin HexagonalHigh.RodSym
        (ext.ho2ro (ext._calcDetermineHomochoricValues random init
          (LaueOps.OdfDimStepValue LaueClass.Hexagonal init)
          (LaueOps.binCoordinates LaueClass.Hexagonal b)))))
    have hr := hax _ h3 (by rw [hwe]; exact (hw _).1) (by rw [hwe]; exact (hw _).2)
    have hh := hho _ hr
    have := calcODFBin_third_layer 36 36 12 6 init
      (LaueOps.OdfDimStepValue LaueClass.Hexagonal init) _ (by norm_num)
      (upper_half_of_nonneg 12 (by norm_num) init.2.2 _ hinit hh)
    exact this
  have hT : (15552 : Int) ≤
      TrigonalOps.getOdfBin ext init
        (TrigonalOps.determineRodriguesVector ext atan2 cos sin sqrt k_1OverPiD
          (Real.pi / 180) init random b) := by
    unfold TrigonalOps.getOdfBin TrigonalOps.determineRodriguesVector TrigonalOps.getMDFFZRod
    dsimp only
    rw [hbin]
    obtain ⟨h3, hw0, hw1⟩ := trigonal_getMDFFZAxisAngle_third atan2 cos sin sqrt k_1OverPiD
      (ext.ro2ax (LaueOps._calcRodNearestOrigin TrigonalHigh.RodSym
        (ext.ho2ro (ext._calcDetermineHomochoricValues random init
          (LaueOps.OdfDimStepValue LaueClass.Trigonal init)
          (LaueOps.binCoordinates LaueClass.Trigonal b)))))
    have hr := hax _ h3 hw0 hw1
    have hh := hho _ hr
    have := calcODFBin_third_layer 36 36 24 12 init
      (LaueOps.OdfDimStepValue LaueClass.Trigonal init) _ (by norm_num)
      (upper_half_of_nonneg 24 (by norm_num) init.2.2 _ hinit hh)
    exact this
  refine ⟨?_, ⟨hC, fun hb h => ?_⟩, ⟨hH, fun hb h => ?_⟩, ⟨hT, fun hb h => ?_⟩,
    by decide, by decide, by decide⟩
  · rw [monoclinic_determineRodriguesVector_error]
    rfl
  · rw [h] at hC
    omega
  · rw [h] at hH
    omega
  · rw [h] at hT
    omega

theorem bin_round_trip_amended_witness :
    ∃ ext : External ℝ,
      ext = (⟨fun r => ⟨r.r1, r.r2, r.r3, 0⟩, fun a => ⟨a.n1, a.n2, a.n3⟩,
        fun h => ⟨h.1, h.2.1, h.2.2⟩, fun r => (r.r1, r.r2, r.r3),
        fun random init step phi =>
          (step.1 * phi.1 + step.1 * random.1 - init.1,
            step.2.1 * phi.2.1 + step.2.1 * random.2.1 - init.2.1,
            step.2.2 * phi.2.2 + step.2.2 * random.2.2 - init.2.2),
        LaueOps._calcODFBin⟩ : External ℝ) ∧
      (∀ r : Rodrigues ℝ, 0 ≤ (ext.ro2ax r).w ∧ (ext.ro2ax r).w ≤ Real.pi) ∧
      (∀ ax : AxisAngle ℝ, 0 ≤ ax.n3 → 0 ≤ ax.w → ax.w ≤ Real.pi → 0 ≤ (ext.ax2ro ax).r3) ∧
      (∀ r : Rodrigues ℝ, 0 ≤ r.r3 → 0 ≤ (ext.ro2ho r).2.2) ∧
      (∀ dim bins step ho : ℝ × ℝ × ℝ,
        ext._calcODFBin dim bins step ho = LaueOps._calcODFBin dim bins step ho) ∧
      (0 : ℝ) < ((1, 1, 1) : ℝ × ℝ × ℝ).2.2 ∧
      (2916 : Int) ≤
        CubicOps.getOdfBin ext (1, 1, 1)
          (CubicOps.determineRodriguesVector ext (1, 1, 1) (0, 0, 0) 0) ∧
      CubicOps.getOdfBin ext (1, 1, 1)
          (CubicOps.determineRodriguesVector ext (1, 1, 1) (0, 0, 0) 0) ≠ ((0 : Nat) : Int) :=
  ⟨_, rfl, fun _ => ⟨le_refl _, Real.pi_pos.le⟩, fun _ h _ _ => h, fun _ h => h,
    fun _ _ _ _ => rfl, one_pos,
    (bin_round_trip_amended _ (1, 1, 1) (0, 0, 0) 0 (fun y x => Complex.arg ⟨x, y⟩) Real.cos
      Real.sin Real.sqrt (1 / Real.pi) (fun _ => ⟨le_refl _, Real.pi_pos.le⟩)
      (fun _ h _ _ => h) (fun _ h => h) (fun _ _ _ _ => rfl) one_pos).2.1.1,
    (bin_round_trip_amended _ (1, 1, 1) (0, 0, 0) 0 (fun y x => Complex.arg ⟨x, y⟩) Real.cos
      Real.sin Real.sqrt (1 / Real.pi) (fun _ => ⟨le_refl _, Real.pi_pos.le⟩)
      (fun _ h _ _ => h) (fun _ h => h) (fun _ _ _ _ => rfl) one_pos).2.1.2 (by norm_num)⟩

end BinRoundTripClaim

/-! Theorems: the bins of the square in `float` arithmetic -/

section LambertFloat

open Ieee754 Ieee754.ModifiedLambertProjection

theorem round32_zero : round32 0 = 0 := by decide!

/-- On a point `(x, 0, 0)` `getSquareCoord` calls `std::atan` on `0` only. -/
theorem getSquareCoord_atan_zero (atan : ℚ → ℚ) (hatan : atan 0 = 0)
    (P : ModifiedLambertProjection ℚ) (x : ℚ) :
    getSquareCoord atan P (x, 0, 0) = getSquareCoord (fun _ => 0) P (x, 0, 0) := by
  simp only [getSquareCoord, zero_div, div_zero, round32_zero, hatan]

/-- The bins do not depend on the values stored in the squares. -/
theorem interpolationBins_of_squares (P : ModifiedLambertProjection ℚ) (north south : List ℚ)
    (sqCoord : ℚ × ℚ) :
    interpolationBins { P with m_NorthSquare := north, m_SouthSquare := south } sqCoord =
      interpolationBins P sqCoord := rfl

/-- Source: `getInterpolatedValue` has no result when its first read is outside the
square. -/
theorem getInterpolatedValue_eq_none (P : ModifiedLambertProjection ℚ) (square : Square)
    (sqCoord : ℚ × ℚ) (values : List ℚ)
    (hv : values = match square with
      | Square.NorthSquare => P.m_NorthSquare
      | Square.SouthSquare => P.m_SouthSquare)
    (h : arrayGetValue values ((interpolationBins P sqCoord).1.1 +
      (interpolationBins P sqCoord).1.2 * P.m_Dimension) = none) :
    getInterpolatedValue P square sqCoord = none := by
  unfold getInterpolatedValue
  dsimp only
  rw [← hv, h]

/-- C37, the code at the failing input, in `float` arithmetic: the projection
initialised with `Dimension = 2` and the sphere radius `3` has
`MaxCoord = StepSize = 7885171 / 2097152` (3.7599425...); with every bin of both
squares set to the same value `c`, the coordinate `(15770341 / 4194304, 0)`,
one unit in the last place below `MaxCoord` and so inside
`[-MaxCoord, MaxCoord)`, gives `modX = 2` exactly (the `float` sum
`sqCoord[0] + m_HalfDimensionTimesStepSize` is a tie and rounds up), the first
bin is `(2, 1)` and the first read of `getInterpolatedValue` is at index
`2 + 1 * 2 = 4`, outside the `2 * 2` bins of the square: the value `c` is not
returned. -/
theorem getInterpolatedValue_reads_outside_square (c : ℚ) :
    (initializeSquares 2 3).m_MaxCoord = 7885171 / 2097152 ∧
      (initializeSquares 2 3).m_StepSize = 7885171 / 2097152 ∧
      (initializeSquares 2 3).m_HalfDimensionTimesStepSize = 7885171 / 2097152 ∧
      (initializeSquares 2 3).m_NorthSquare.length = 4 ∧
      -(initializeSquares 2 3).m_MaxCoord ≤ 15770341 / 4194304 ∧
      (15770341 / 4194304 : ℚ) < (initializeSquares 2 3).m_MaxCoord ∧
      -(initializeSquares 2 3).m_MaxCoord ≤ 0 ∧ (0 : ℚ) < (initializeSquares 2 3).m_MaxCoord ∧
      round32 (15770341 / 4194304 + 7885171 / 2097152) = 2 * (7885171 / 2097152) ∧
      interpolationBins
          { initializeSquares 2 3 with
            m_NorthSquare := List.replicate 4 c, m_SouthSquare := List.replicate 4 c }
          (15770341 / 4194304, 0) =
        ((2, 1), (1, 1), (2, 0), (1, 0), 1 / 2, 1 / 2) ∧
      arrayGetValue (List.replicate 4 c) (2 + 1 * 2) = none ∧
      getInterpolatedValue
          { initializeSquares 2 3 with
            m_NorthSquare := List.replicate 4 c, m_SouthSquare := List.replicate 4 c }
          Square.NorthSquare (15770341 / 4194304, 0) = none ∧
      getInterpolatedValue
          { initializeSquares 2 3 with
            m_NorthSquare := List.replicate 4 c, m_SouthSquare := List.replicate 4 c }
          Square.SouthSquare (15770341 / 4194304, 0) = none := by
  have hb : interpolationBins (initializeSquares 2 3) (15770341 / 4194304, 0) =
      ((2, 1), (1, 1), (2, 0), (1, 0), 1 / 2, 1 / 2) := by decide!
  have hb' : interpolationBins
      { initializeSquares 2 3 with
        m_NorthSquare := List.replicate 4 c, m_SouthSquare := List.replicate 4 c }
      (15770341 / 4194304, 0) = ((2, 1), (1, 1), (2, 0), (1, 0), 1 / 2, 1 / 2) := by
    rw [interpolationBins_of_squares, hb]
  have hd : (initializeSquares 2 3).m_Dimension = 2 := rfl
  have hr : arrayGetValue (List.replicate 4 c) (2 + 1 * 2) = none := by
    simp [arrayGetValue]
  refine ⟨by decide!, by decide!, by decide!, by decide!, by decide!, by decide!, by decide!,
    by decide!, by decide!, hb', hr, ?_, ?_⟩
  · apply getInterpolatedValue_eq_none _ _ _ (List.replicate 4 c) rfl
    rw [hb']
    exact hr
  · apply getInterpolatedValue_eq_none _ _ _ (List.replicate 4 c) rfl
    rw [hb']
    exact hr

/-- C38, the code at two failing inputs, in `float` arithmetic, whatever routine
stands for `std::atan` as long as it returns `0` at `0`.

(1) `Dimension = 2`, radius `3`, the point `(3, 0, 0)` of the sphere:
`MaxCoord` is `7885171 / 2097152` (3.7599425...), the first component that
`getSquareCoord` computes is `15770341 / 4194304` (3.7599423...), one unit in the
last place below `MaxCoord`, so the replacement by `MaxCoord - 0.0001f` does not
take place; from this coordinate `modX` is `2` exactly, the first bin is
`(2, 1)`, its index `2 + 1 * 2 = 4` is not below `2 * 2`, and neither
`getInterpolatedValue` nor `addInterpolatedValues` has a defined result.

(2) `Dimension = 1`, radius `0.00001f`, the point `(R, 0, 0)`: the first
component reaches `MaxCoord` and is replaced by `MaxCoord - 0.0001f`, which is
below `-MaxCoord`; the first bin is `(-2, 0)` with the negative index `-2`. -/
theorem getSquareCoord_gives_bins_outside_square (atan : ℚ → ℚ) (hatan : atan 0 = 0) :
    ((3 : ℚ) * 3 + 0 * 0 + 0 * 0 = 3 * 3 ∧
      (initializeSquares 2 3).m_MaxCoord = 7885171 / 2097152 ∧
      getSquareCoord atan (initializeSquares 2 3) (3, 0, 0) =
        (true, (15770341 / 4194304, 0)) ∧
      (15770341 / 4194304 : ℚ) < (initializeSquares 2 3).m_MaxCoord ∧
      interpolationBins (initializeSquares 2 3)
          (getSquareCoord atan (initializeSquares 2 3) (3, 0, 0)).2 =
        ((2, 1), (1, 1), (2, 0), (1, 0), 1 / 2, 1 / 2) ∧
      ¬ ((2 : Int) + 1 * (initializeSquares 2 3).m_Dimension <
        (initializeSquares 2 3).m_Dimension * (initializeSquares 2 3).m_Dimension) ∧
      getInterpolatedValue (initializeSquares 2 3) Square.NorthSquare
          (getSquareCoord atan (initializeSquares 2 3) (3, 0, 0)).2 = none ∧
      (addInterpolatedValues (initializeSquares 2 3) Square.NorthSquare
          (getSquareCoord atan (initializeSquares 2 3) (3, 0, 0)).2 1).isNone = true) ∧
    (round32 (1 / 100000) = 2748779 / 274877906944 ∧
      (2748779 / 274877906944 : ℚ) * (2748779 / 274877906944) + 0 * 0 + 0 * 0 =
        (2748779 / 274877906944) * (2748779 / 274877906944) ∧
      (initializeSquares 1 (2748779 / 274877906944)).m_MaxCoord = 6890167 / 549755813888 ∧
      getSquareCoord atan (initializeSquares 1 (2748779 / 274877906944))
          (2748779 / 274877906944, 0, 0) = (true, (-12021353 / 137438953472, 0)) ∧
      (-12021353 / 137438953472 : ℚ) <
        -(initializeSquares 1 (2748779 / 274877906944)).m_MaxCoord ∧
      (interpolationBins (initializeSquares 1 (2748779 / 274877906944))
          (getSquareCoord atan (initializeSquares 1 (2748779 / 274877906944))
            (2748779 / 274877906944, 0, 0)).2).1 = (-2, 0) ∧
      getInterpolatedValue (initializeSquares 1 (2748779 / 274877906944)) Square.NorthSquare
          (getSquareCoord atan (initializeSquares 1 (2748779 / 274877906944))
            (2748779 / 274877906944, 0, 0)).2 = none ∧
      (addInterpolatedValues (initializeSquares 1 (2748779 / 274877906944))
          Square.NorthSquare
          (getSquareCoord atan (initializeSquares 1 (2748779 / 274877906944))
            (2748779 / 274877906944, 0, 0)).2 1).isNone = true) := by
  have e1 : getSquareCoord atan (initializeSquares 2 3) (3, 0, 0) =
      (true, (15770341 / 4194304, 0)) := by
    rw [getSquareCoord_atan_zero atan hatan]
    decide!
  have e2 : getSquareCoord atan (initializeSquares 1 (2748779 / 274877906944))
      (2748779 / 274877906944, 0, 0) = (true, (-12021353 / 137438953472, 0)) := by
    rw [getSquareCoord_atan_zero atan hatan]
    decide!
  rw [e1, e2]
  exact ⟨⟨by norm_num, by decide!, rfl, by decide!, by decide!, by decide!, by decide!,
      by decide!⟩,
    ⟨by decide!, by norm_num, by decide!, rfl, by decide!, by decide!, by decide!,
      by decide!⟩⟩

theorem getSquareCoord_gives_bins_outside_square_witness :
    (fun x : ℚ => x) 0 = 0 ∧
      getSquareCoord (fun x : ℚ => x) (initializeSquares 2 3) (3, 0, 0) =
        (true, (15770341 / 4194304, 0)) ∧
      getInterpolatedValue (initializeSquares 2 3) Square.NorthSquare
          (getSquareCoord (fun x : ℚ => x) (initializeSquares 2 3) (3, 0, 0)).2 = none :=
  ⟨rfl, (getSquareCoord_gives_bins_outside_square (fun x : ℚ => x) rfl).1.2.2.1,
    (getSquareCoord_gives_bins_outside_square (fun x : ℚ => x) rfl).1.2.2.2.2.2.2.1⟩

end LambertFloat

/-! Theorems: the cubic misorientation on `double` values that overflow -/

section MisorientationOverflow

open Ieee754 Ieee754.Double

/-- C30, the code at the failing input `q1 = q2 = (1e200, 0, 0, 1e200)`, with
`double` arithmetic that overflows to infinity: the components are finite, the
product `q1 * conj q2` has the absolute components `(NaN, 0, 0, ∞)` (the
products overflow and `∞ - ∞` is a NaN), every comparison with the NaN is false,
so the sort leaves the NaN in `qco.w` and `wmin` is the NaN; it is neither below
`-1` nor above `1`, both clamps are passed over and `acos` is called on the NaN,
which is not in `[-1, 1]`: the returned angle is `2 * acos(NaN)`, whatever
routines stand for `acos`, `sin` and `sqrt`.  For the pair of identity
quaternions the value handed to `acos` is `1`. -/
theorem cubic_misorientation_overflow_sends_nan_to_acos :
    ofExact (10 ^ 200) = finite (round64 (10 ^ 200)) ∧
      Ieee754.Quat.elementWiseAbs (Ieee754.Quat.mul
          ⟨ofExact (10 ^ 200), finite 0, finite 0, ofExact (10 ^ 200)⟩
          (Quat.conjugate ⟨ofExact (10 ^ 200), finite 0, finite 0, ofExact (10 ^ 200)⟩)) =
        ⟨nan, finite 0, finite 0, posInf⟩ ∧
      Ieee754.CubicOps.sortedQuadruplet ⟨nan, finite 0, finite 0, posInf⟩ =
        ⟨posInf, finite 0, finite 0, nan⟩ ∧
      Ieee754.CubicOps.selectCandidate ⟨posInf, finite 0, finite 0, nan⟩ = (nan, 1) ∧
      ¬ (nan < finite (-1)) ∧ ¬ (nan > finite 1) ∧
      ¬ (finite (-1) ≤ nan) ∧ ¬ (nan ≤ finite 1) ∧
      (∀ (k_ACosNeg1D k_ACos1D : Double) (acos sin sqrt : Double → Double)
        (quatsym : List (Quat Double)),
        (Ieee754.CubicOps.calculateMisorientationInternal k_ACosNeg1D k_ACos1D acos sin sqrt
          quatsym ⟨ofExact (10 ^ 200), finite 0, finite 0, ofExact (10 ^ 200)⟩
          ⟨ofExact (10 ^ 200), finite 0, finite 0, ofExact (10 ^ 200)⟩).w =
            finite 2 * acos nan) ∧
      (∀ (k_ACosNeg1D k_ACos1D : Double) (acos sin sqrt : Double → Double)
        (quatsym : List (Quat Double)),
        (Ieee754.CubicOps.calculateMisorientationInternal k_ACosNeg1D k_ACos1D acos sin sqrt
          quatsym ⟨finite 0, finite 0, finite 0, finite 1⟩
          ⟨finite 0, finite 0, finite 0, finite 1⟩).w = finite 2 * acos (finite 1)) := by
  have h1 : Ieee754.Quat.elementWiseAbs (Ieee754.Quat.mul
      ⟨ofExact (10 ^ 200), finite 0, finite 0, ofExact (10 ^ 200)⟩
      (Quat.conjugate ⟨ofExact (10 ^ 200), finite 0, finite 0, ofExact (10 ^ 200)⟩)) =
      ⟨nan, finite 0, finite 0, posInf⟩ := by decide!
  have h2 : Ieee754.CubicOps.sortedQuadruplet ⟨nan, finite 0, finite 0, posInf⟩ =
      ⟨posInf, finite 0, finite 0, nan⟩ := by decide!
  have h3 : Ieee754.CubicOps.selectCandidate ⟨posInf, finite 0, finite 0, nan⟩ = (nan, 1) := by
    decide!
  have g1 : Ieee754.Quat.elementWiseAbs (Ieee754.Quat.mul
      ⟨finite 0, finite 0, finite 0, finite 1⟩
      (Quat.conjugate ⟨finite 0, finite 0, finite 0, finite 1⟩)) =
      ⟨finite 0, finite 0, finite 0, finite 1⟩ := by decide!
  have g2 : Ieee754.CubicOps.sortedQuadruplet ⟨finite 0, finite 0, finite 0, finite 1⟩ =
      ⟨finite 0, finite 0, finite 0, finite 1⟩ := by decide!
  have g3 : Ieee754.CubicOps.selectCandidate ⟨finite 0, finite 0, finite 0, finite 1⟩ =
      (finite 1, 1) := by decide!
  refine ⟨by decide!, h1, h2, h3, by decide, by decide, by decide, by decide, ?_, ?_⟩
  · intro k1 k2 acos sin sqrt quatsym
    simp only [Ieee754.CubicOps.calculateMisorientationInternal, h1, h2, h3]
    rw [if_neg (by decide), if_neg (by decide)]
  · intro k1 k2 acos sin sqrt quatsym
    simp only [Ieee754.CubicOps.calculateMisorientationInternal, g1, g2, g3]
    rw [if_neg (by decide), if_neg (by decide)]

end MisorientationOverflow

/-! Theorems: the inverse-pole-figure search on a boundary of the unit triangle -/

section IpfDouble

open Ieee754 Ieee754.Double

theorem ipfTest_eq_false_of_eta_neg (tan acos : Double → Double) (eta chi : Double)
    (h : eta < finite 0) : Ieee754.CubicOps.inUnitTriangleD tan acos eta chi = false := by
  unfold Ieee754.CubicOps.inUnitTriangleD
  simp [h]

theorem ipfTest_eq_false_of_eta_large (tan acos : Double → Double) (eta chi : Double)
    (h : eta > finite 45 * k_PiOver180D) :
    Ieee754.CubicOps.inUnitTriangleD tan acos eta chi = false := by
  unfold Ieee754.CubicOps.inUnitTriangleD
  simp [h]

theorem ipfTest_eq_false_of_chi_large (tan acos : Double → Double) (eta chi : Double)
    (h : chi > Ieee754.CubicOps.chiMax tan acos eta) :
    Ieee754.CubicOps.inUnitTriangleD tan acos eta chi = false := by
  unfold Ieee754.CubicOps.inUnitTriangleD
  simp [h]

/-- When the test fails on the direction of every operator, the loop is not left by
`break`, and `chi` and `eta` are left with the values of the last operator. -/
theorem ipfSearch_falls_through (acos tan : Double → Double) (atan2 : Double → Double → Double)
    (q1 : Quat Double) (ref : Double × Double × Double) (l : List (Quat Double))
    (h : ∀ s ∈ l, Ieee754.CubicOps.ipfTest acos tan atan2
      (Ieee754.CubicOps.ipfDirection q1 ref s) = false)
    (st : Double × Double) :
    Ieee754.CubicOps.ipfSearch acos tan atan2 q1 ref l st =
      (match l.getLast? with
        | none => st
        | some s =>
          (acos (Ieee754.CubicOps.invertIntoUpperHemisphere
              (Ieee754.CubicOps.ipfDirection q1 ref s)).2.2,
            atan2 (Ieee754.CubicOps.invertIntoUpperHemisphere
                (Ieee754.CubicOps.ipfDirection q1 ref s)).2.1
              (Ieee754.CubicOps.invertIntoUpperHemisphere
                (Ieee754.CubicOps.ipfDirection q1 ref s)).1), false) := by
  induction l generalizing st with
  | nil => rfl
  | cons s rest ih =>
    have hs := h s (List.mem_cons_self _ _)
    unfold Ieee754.CubicOps.ipfTest at hs
    unfold Ieee754.CubicOps.ipfSearch
    simp only [EbsdLib.CubicOps.getHasInversion, Bool.not_true, Bool.false_and,
      Bool.false_eq_true, if_false, hs, Bool.not_false, if_true]
    rw [ih (fun t ht => h t (List.mem_cons_of_mem _ ht))]
    cases rest with
    | nil => rfl
    | cons t rest2 =>
      rw [List.getLast?_cons_cons, List.getLast?_eq_getLast _ (List.cons_ne_nil _ _)]

/-- C35, the code at the failing input `generateIPFColor(0, 0, 0, 5, 4, 5, false)`,
on `double` values: the quaternion of the Euler angles `(0, 0, 0)` is the
identity and the reference direction is `(5, 4, 5)`, which normalises to
`(a, b, a)` with `a = 0.6154574548966636` and `b = 0.4923659639173309`.  The 24
operators of `CubicHigh::QuatSym` map it to the 24 listed directions, signed
permutations of `(a, b, a)`.  With the values of `atan2`, `tan` and `acos` of the
C library at the arguments that occur (the hypotheses), `inUnitTriangleD` is
false for each of the 24 directions after the inversion; for `(a, b, a)` itself
`chi = acos(a) = 0.9078300905002591` is above
`chiMax = acos(0.6154574548966637) = 0.907830090500259`, because
`tan(atan2(b, a)) = 0.7999999999999999` is below `4 / 5`.  So the loop runs to
its end without `break`, and `chi` and `eta` are left with the values of the last
operator, `eta = atan2(-a, a) < 0`. -/
theorem cubic_ipf_loop_falls_through (acos tan : Double → Double)
    (atan2 : Double → Double → Double)
    (hneg : ∀ x y : ℚ, y < 0 → atan2 (finite y) (finite x) < finite 0)
    (hleft : ∀ x y : ℚ, x < 0 → 0 < y →
      atan2 (finite y) (finite x) > finite 45 * k_PiOver180D)
    (hatan0 : atan2 (finite (4434838343256013 / 9007199254740992)) (finite (86617936391719 / 140737488355328)) =
      finite (3038763055969609 / 4503599627370496))
    (hatan1 : atan2 (finite (86617936391719 / 140737488355328)) (finite (86617936391719 / 140737488355328)) =
      finite (884279719003555 / 1125899906842624))
    (hatan2 : atan2 (finite (86617936391719 / 140737488355328)) (finite (4434838343256013 / 9007199254740992)) =
      finite (4035474696058831 / 4503599627370496))
    (htan0 : tan (finite (3038763055969609 / 4503599627370496)) = finite (7205759403792793 / 9007199254740992))
    (htan1 : tan (finite (884279719003555 / 1125899906842624)) = finite (9007199254740991 / 9007199254740992))
    (hacos0 : acos (finite (86617936391719 / 140737488355328)) = finite (8177006514585381 / 9007199254740992))
    (hacos1 : acos (finite (4434838343256013 / 9007199254740992)) = finite (1188939461095687 / 1125899906842624))
    (hacos2 : acos (finite (5543547929070017 / 9007199254740992)) = finite (2044251628646345 / 2251799813685248))
    (hacos3 : acos (finite (1300077228592327 / 2251799813685248)) = finite (8604727130812765 / 9007199254740992)) :
    Ieee754.normalize (finite 5, finite 4, finite 5) =
        (finite (86617936391719 / 140737488355328), finite (4434838343256013 / 9007199254740992),
          finite (86617936391719 / 140737488355328)) ∧
      Ieee754.CubicHigh.QuatSym.length = 24 ∧
      Ieee754.CubicHigh.QuatSym.map (Ieee754.CubicOps.ipfDirection
          ⟨finite 0, finite 0, finite 0, finite 1⟩ (finite 5, finite 4, finite 5)) =
        [ (finite (86617936391719 / 140737488355328), finite (4434838343256013 / 9007199254740992), finite (86617936391719 / 140737488355328)),
        (finite (86617936391719 / 140737488355328), finite (-(4434838343256013 / 9007199254740992)), finite (-(86617936391719 / 140737488355328))),
        (finite (-(86617936391719 / 140737488355328)), finite (4434838343256013 / 9007199254740992), finite (-(86617936391719 / 140737488355328))),
        (finite (-(86617936391719 / 140737488355328)), finite (-(4434838343256013 / 9007199254740992)), finite (86617936391719 / 140737488355328)),
        (finite (86617936391719 / 140737488355328), finite (86617936391719 / 140737488355328), finite (-(4434838343256013 / 9007199254740992))),
        (finite (-(86617936391719 / 140737488355328)), finite (4434838343256013 / 9007199254740992), finite (86617936391719 / 140737488355328)),
        (finite (4434838343256013 / 9007199254740992), finite (-(86617936391719 / 140737488355328)), finite (86617936391719 / 140737488355328)),
        (finite (86617936391719 / 140737488355328), finite (-(86617936391719 / 140737488355328)), finite (4434838343256013 / 9007199254740992)),
        (finite (86617936391719 / 140737488355328), finite (4434838343256013 / 9007199254740992), finite (-(86617936391719 / 140737488355328))),
        (finite (-(4434838343256013 / 9007199254740992)), finite (86617936391719 / 140737488355328), finite (86617936391719 / 140737488355328)),
        (finite (4434838343256013 / 9007199254740992), finite (86617936391719 / 140737488355328), finite (-(86617936391719 / 140737488355328))),
        (finite (-(4434838343256013 / 9007199254740992)), finite (-(86617936391719 / 140737488355328)), finite (-(86617936391719 / 140737488355328))),
        (finite (-(86617936391719 / 140737488355328)), finite (86617936391719 / 140737488355328), finite (4434838343256013 / 9007199254740992)),
        (finite (-(86617936391719 / 140737488355328)), finite (-(86617936391719 / 140737488355328)), finite (-(4434838343256013 / 9007199254740992))),
        (finite (86617936391719 / 140737488355328), finite (-(4434838343256013 / 9007199254740992)), finite (86617936391719 / 140737488355328)),
        (finite (-(86617936391719 / 140737488355328)), finite (-(4434838343256013 / 9007199254740992)), finite (-(86617936391719 / 140737488355328))),
        (finite (4434838343256013 / 9007199254740992), finite (86617936391719 / 140737488355328), finite (86617936391719 / 140737488355328)),
        (finite (86617936391719 / 140737488355328), finite (86617936391719 / 140737488355328), finite (4434838343256013 / 9007199254740992)),
        (finite (86617936391719 / 140737488355328), finite (-(86617936391719 / 140737488355328)), finite (-(4434838343256013 / 9007199254740992))),
        (finite (-(4434838343256013 / 9007199254740992)), finite (-(86617936391719 / 140737488355328)), finite (86617936391719 / 140737488355328)),
        (finite (-(86617936391719 / 140737488355328)), finite (-(86617936391719 / 140737488355328)), finite (4434838343256013 / 9007199254740992)),
        (finite (-(4434838343256013 / 9007199254740992)), finite (86617936391719 / 140737488355328), finite (-(86617936391719 / 140737488355328))),
        (finite (4434838343256013 / 9007199254740992), finite (-(86617936391719 / 140737488355328)), finite (-(86617936391719 / 140737488355328))),
        (finite (-(86617936391719 / 140737488355328)), finite (86617936391719 / 140737488355328), finite (-(4434838343256013 / 9007199254740992))) ] ∧
      (∀ s ∈ Ieee754.CubicHigh.QuatSym,
        Ieee754.CubicOps.ipfTest acos tan atan2 (Ieee754.CubicOps.ipfDirection
          ⟨finite 0, finite 0, finite 0, finite 1⟩ (finite 5, finite 4, finite 5) s) = false) ∧
      Ieee754.CubicOps.ipfSearch acos tan atan2 ⟨finite 0, finite 0, finite 0, finite 1⟩
          (finite 5, finite 4, finite 5) Ieee754.CubicHigh.QuatSym (finite 0, finite 0) =
        ((finite (1188939461095687 / 1125899906842624),
          atan2 (finite (-(86617936391719 / 140737488355328))) (finite (86617936391719 / 140737488355328))), false) ∧
      atan2 (finite (-(86617936391719 / 140737488355328))) (finite (86617936391719 / 140737488355328)) < finite 0 := by
  have hmap : Ieee754.CubicHigh.QuatSym.map (Ieee754.CubicOps.ipfDirection
      ⟨finite 0, finite 0, finite 0, finite 1⟩ (finite 5, finite 4, finite 5)) =
      [ (finite (86617936391719 / 140737488355328), finite (4434838343256013 / 9007199254740992), finite (86617936391719 / 140737488355328)),
        (finite (86617936391719 / 140737488355328), finite (-(4434838343256013 / 9007199254740992)), finite (-(86617936391719 / 140737488355328))),
        (finite (-(86617936391719 / 140737488355328)), finite (4434838343256013 / 9007199254740992), finite (-(86617936391719 / 140737488355328))),
        (finite (-(86617936391719 / 140737488355328)), finite (-(4434838343256013 / 9007199254740992)), finite (86617936391719 / 140737488355328)),
        (finite (86617936391719 / 140737488355328), finite (86617936391719 / 140737488355328), finite (-(4434838343256013 / 9007199254740992))),
        (finite (-(86617936391719 / 140737488355328)), finite (4434838343256013 / 9007199254740992), finite (86617936391719 / 140737488355328)),
        (finite (4434838343256013 / 9007199254740992), finite (-(86617936391719 / 140737488355328)), finite (86617936391719 / 140737488355328)),
        (finite (86617936391719 / 140737488355328), finite (-(86617936391719 / 140737488355328)), finite (4434838343256013 / 9007199254740992)),
        (finite (86617936391719 / 140737488355328), finite (4434838343256013 / 9007199254740992), finite (-(86617936391719 / 140737488355328))),
        (finite (-(4434838343256013 / 9007199254740992)), finite (86617936391719 / 140737488355328), finite (86617936391719 / 140737488355328)),
        (finite (4434838343256013 / 9007199254740992), finite (86617936391719 / 140737488355328), finite (-(86617936391719 / 140737488355328))),
        (finite (-(4434838343256013 / 9007199254740992)), finite (-(86617936391719 / 140737488355328)), finite (-(86617936391719 / 140737488355328))),
        (finite (-(86617936391719 / 140737488355328)), finite (86617936391719 / 140737488355328), finite (4434838343256013 / 9007199254740992)),
        (finite (-(86617936391719 / 140737488355328)), finite (-(86617936391719 / 140737488355328)), finite (-(4434838343256013 / 9007199254740992))),
        (finite (86617936391719 / 140737488355328), finite (-(4434838343256013 / 9007199254740992)), finite (86617936391719 / 140737488355328)),
        (finite (-(86617936391719 / 140737488355328)), finite (-(4434838343256013 / 9007199254740992)), finite (-(86617936391719 / 140737488355328))),
        (finite (4434838343256013 / 9007199254740992), finite (86617936391719 / 140737488355328), finite (86617936391719 / 140737488355328)),
        (finite (86617936391719 / 140737488355328), finite (86617936391719 / 140737488355328), finite (4434838343256013 / 9007199254740992)),
        (finite (86617936391719 / 140737488355328), finite (-(86617936391719 / 140737488355328)), finite (-(4434838343256013 / 9007199254740992))),
        (finite (-(4434838343256013 / 9007199254740992)), finite (-(86617936391719 / 140737488355328)), finite (86617936391719 / 140737488355328)),
        (finite (-(86617936391719 / 140737488355328)), finite (-(86617936391719 / 140737488355328)), finite (4434838343256013 / 9007199254740992)),
        (finite (-(4434838343256013 / 9007199254740992)), finite (86617936391719 / 140737488355328), finite (-(86617936391719 / 140737488355328))),
        (finite (4434838343256013 / 9007199254740992), finite (-(86617936391719 / 140737488355328)), finite (-(86617936391719 / 140737488355328))),
        (finite (-(86617936391719 / 140737488355328)), finite (86617936391719 / 140737488355328), finite (-(4434838343256013 / 9007199254740992))) ] := by decide!
  have hcm0 : Ieee754.CubicOps.chiMax tan acos (finite (3038763055969609 / 4503599627370496)) =
      finite (2044251628646345 / 2251799813685248) := by
    unfold Ieee754.CubicOps.chiMax
    dsimp only
    rw [if_neg (by decide!), htan0]
    have e : Ieee754.bound (Double.sqrt (finite 1 / (finite 2 +
        finite (7205759403792793 / 9007199254740992) * finite (7205759403792793 / 9007199254740992))))
        (finite (-1)) (finite 1) = finite (5543547929070017 / 9007199254740992) := by decide!
    rw [e, hacos2]
  have hcm1 : Ieee754.CubicOps.chiMax tan acos (finite (884279719003555 / 1125899906842624)) =
      finite (8604727130812765 / 9007199254740992) := by
    unfold Ieee754.CubicOps.chiMax
    dsimp only
    rw [if_neg (by decide!), htan1]
    have e : Ieee754.bound (Double.sqrt (finite 1 / (finite 2 +
        finite (9007199254740991 / 9007199254740992) * finite (9007199254740991 / 9007199254740992))))
        (finite (-1)) (finite 1) = finite (1300077228592327 / 2251799813685248) := by decide!
    rw [e, hacos3]
  have f0 : Ieee754.CubicOps.ipfTest acos tan atan2
      (finite (86617936391719 / 140737488355328), finite (4434838343256013 / 9007199254740992), finite (86617936391719 / 140737488355328)) = false := by
    have e : Ieee754.CubicOps.invertIntoUpperHemisphere
        (finite (86617936391719 / 140737488355328), finite (4434838343256013 / 9007199254740992), finite (86617936391719 / 140737488355328)) =
        (finite (86617936391719 / 140737488355328), finite (4434838343256013 / 9007199254740992), finite (86617936391719 / 140737488355328)) := by decide!
    unfold Ieee754.CubicOps.ipfTest
    rw [e]
    exact ipfTest_eq_false_of_chi_large _ _ _ _ (by rw [hatan0, hacos0, hcm0]; decide!)
  have f1 : Ieee754.CubicOps.ipfTest acos tan atan2
      (finite (86617936391719 / 140737488355328), finite (-(4434838343256013 / 9007199254740992)), finite (-(86617936391719 / 140737488355328))) = false := by
    have e : Ieee754.CubicOps.invertIntoUpperHemisphere
        (finite (86617936391719 / 140737488355328), finite (-(4434838343256013 / 9007199254740992)), finite (-(86617936391719 / 140737488355328))) =
        (finite (-(86617936391719 / 140737488355328)), finite (4434838343256013 / 9007199254740992), finite (86617936391719 / 140737488355328)) := by decide!
    unfold Ieee754.CubicOps.ipfTest
    rw [e]
    exact ipfTest_eq_false_of_eta_large _ _ _ _ (hleft _ _ (by norm_num) (by norm_num))
  have f2 : Ieee754.CubicOps.ipfTest acos tan atan2
      (finite (-(86617936391719 / 140737488355328)), finite (4434838343256013 / 9007199254740992), finite (-(86617936391719 / 140737488355328))) = false := by
    have e : Ieee754.CubicOps.invertIntoUpperHemisphere
        (finite (-(86617936391719 / 140737488355328)), finite (4434838343256013 / 9007199254740992), finite (-(86617936391719 / 140737488355328))) =
        (finite (86617936391719 / 140737488355328), finite (-(4434838343256013 / 9007199254740992)), finite (86617936391719 / 140737488355328)) := by decide!
    unfold Ieee754.CubicOps.ipfTest
    rw [e]
    exact ipfTest_eq_false_of_eta_neg _ _ _ _ (hneg _ _ (by norm_num))
  have f3 : Ieee754.CubicOps.ipfTest acos tan atan2
      (finite (-(86617936391719 / 140737488355328)), finite (-(4434838343256013 / 9007199254740992)), finite (86617936391719 / 140737488355328)) = false := by
    have e : Ieee754.CubicOps.invertIntoUpperHemisphere
        (finite (-(86617936391719 / 140737488355328)), finite (-(4434838343256013 / 9007199254740992)), finite (86617936391719 / 140737488355328)) =
        (finite (-(86617936391719 / 140737488355328)), finite (-(4434838343256013 / 9007199254740992)), finite (86617936391719 / 140737488355328)) := by decide!
    unfold Ieee754.CubicOps.ipfTest
    rw [e]
    exact ipfTest_eq_false_of_eta_neg _ _ _ _ (hneg _ _ (by norm_num))
  have f4 : Ieee754.CubicOps.ipfTest acos tan atan2
      (finite (86617936391719 / 140737488355328), finite (86617936391719 / 140737488355328), finite (-(4434838343256013 / 9007199254740992))) = false := by
    have e : Ieee754.CubicOps.invertIntoUpperHemisphere
        (finite (86617936391719 / 140737488355328), finite (86617936391719 / 140737488355328), finite (-(4434838343256013 / 9007199254740992))) =
        (finite (-(86617936391719 / 140737488355328)), finite (-(86617936391719 / 140737488355328)), finite (4434838343256013 / 9007199254740992)) := by decide!
    unfold Ieee754.CubicOps.ipfTest
    rw [e]
    exact ipfTest_eq_false_of_eta_neg _ _ _ _ (hneg _ _ (by norm_num))
  have f5 : Ieee754.CubicOps.ipfTest acos tan atan2
      (finite (-(86617936391719 / 140737488355328)), finite (4434838343256013 / 9007199254740992), finite (86617936391719 / 140737488355328)) = false := by
    have e : Ieee754.CubicOps.invertIntoUpperHemisphere
        (finite (-(86617936391719 / 140737488355328)), finite (4434838343256013 / 9007199254740992), finite (86617936391719 / 140737488355328)) =
        (finite (-(86617936391719 / 140737488355328)), finite (4434838343256013 / 9007199254740992), finite (86617936391719 / 140737488355328)) := by decide!
    unfold Ieee754.CubicOps.ipfTest
    rw [e]
    exact ipfTest_eq_false_of_eta_large _ _ _ _ (hleft _ _ (by norm_num) (by norm_num))
  have f6 : Ieee754.CubicOps.ipfTest acos tan atan2
      (finite (4434838343256013 / 9007199254740992), finite (-(86617936391719 / 140737488355328)), finite (86617936391719 / 140737488355328)) = false := by
    have e : Ieee754.CubicOps.invertIntoUpperHemisphere
        (finite (4434838343256013 / 9007199254740992), finite (-(86617936391719 / 140737488355328)), finite (86617936391719 / 140737488355328)) =
        (finite (4434838343256013 / 9007199254740992), finite (-(86617936391719 / 140737488355328)), finite (86617936391719 / 140737488355328)) := by decide!
    unfold Ieee754.CubicOps.ipfTest
    rw [e]
    exact ipfTest_eq_false_of_eta_neg _ _ _ _ (hneg _ _ (by norm_num))
  have f7 : Ieee754.CubicOps.ipfTest acos tan atan2
      (finite (86617936391719 / 140737488355328), finite (-(86617936391719 / 140737488355328)), finite (4434838343256013 / 9007199254740992)) = false := by
    have e : Ieee754.CubicOps.invertIntoUpperHemisphere
        (finite (86617936391719 / 140737488355328), finite (-(86617936391719 / 140737488355328)), finite (4434838343256013 / 9007199254740992)) =
        (finite (86617936391719 / 140737488355328), finite (-(86617936391719 / 140737488355328)), finite (4434838343256013 / 9007199254740992)) := by decide!
    unfold Ieee754.CubicOps.ipfTest
    rw [e]
    exact ipfTest_eq_false_of_eta_neg _ _ _ _ (hneg _ _ (by norm_num))
  have f8 : Ieee754.CubicOps.ipfTest acos tan atan2
      (finite (86617936391719 / 140737488355328), finite (4434838343256013 / 9007199254740992), finite (-(86617936391719 / 140737488355328))) = false := by
    have e : Ieee754.CubicOps.invertIntoUpperHemisphere
        (finite (86617936391719 / 140737488355328), finite (4434838343256013 / 9007199254740992), finite (-(86617936391719 / 140737488355328))) =
        (finite (-(86617936391719 / 140737488355328)), finite (-(4434838343256013 / 9007199254740992)), finite (86617936391719 / 140737488355328)) := by decide!
    unfold Ieee754.CubicOps.ipfTest
    rw [e]
    exact ipfTest_eq_false_of_eta_neg _ _ _ _ (hneg _ _ (by norm_num))
  have f9 : Ieee754.CubicOps.ipfTest acos tan atan2
      (finite (-(4434838343256013 / 9007199254740992)), finite (86617936391719 / 140737488355328), finite (86617936391719 / 140737488355328)) = false := by
    have e : Ieee754.CubicOps.invertIntoUpperHemisphere
        (finite (-(4434838343256013 / 9007199254740992)), finite (86617936391719 / 140737488355328), finite (86617936391719 / 140737488355328)) =
        (finite (-(4434838343256013 / 9007199254740992)), finite (86617936391719 / 140737488355328), finite (86617936391719 / 140737488355328)) := by decide!
    unfold Ieee754.CubicOps.ipfTest
    rw [e]
    exact ipfTest_eq_false_of_eta_large _ _ _ _ (hleft _ _ (by norm_num) (by norm_num))
  have f10 : Ieee754.CubicOps.ipfTest acos tan atan2
      (finite (4434838343256013 / 9007199254740992), finite (86617936391719 / 140737488355328), finite (-(86617936391719 / 140737488355328))) = false := by
    have e : Ieee754.CubicOps.invertIntoUpperHemisphere
        (finite (4434838343256013 / 9007199254740992), finite (86617936391719 / 140737488355328), finite (-(86617936391719 / 140737488355328))) =
        (finite (-(4434838343256013 / 9007199254740992)), finite (-(86617936391719 / 140737488355328)), finite (86617936391719 / 140737488355328)) := by decide!
    unfold Ieee754.CubicOps.ipfTest
    rw [e]
    exact ipfTest_eq_false_of_eta_neg _ _ _ _ (hneg _ _ (by norm_num))
  have f11 : Ieee754.CubicOps.ipfTest acos tan atan2
      (finite (-(4434838343256013 / 9007199254740992)), finite (-(86617936391719 / 140737488355328)), finite (-(86617936391719 / 140737488355328))) = false := by
    have e : Ieee754.CubicOps.invertIntoUpperHemisphere
        (finite (-(4434838343256013 / 9007199254740992)), finite (-(86617936391719 / 140737488355328)), finite (-(86617936391719 / 140737488355328))) =
        (finite (4434838343256013 / 9007199254740992), finite (86617936391719 / 140737488355328), finite (86617936391719 / 140737488355328)) := by decide!
    unfold Ieee754.CubicOps.ipfTest
    rw [e]
    exact ipfTest_eq_false_of_eta_large _ _ _ _ (by rw [hatan2]; decide!)
  have f12 : Ieee754.CubicOps.ipfTest acos tan atan2
      (finite (-(86617936391719 / 140737488355328)), finite (86617936391719 / 140737488355328), finite (4434838343256013 / 9007199254740992)) = false := by
    have e : Ieee754.CubicOps.invertIntoUpperHemisphere
        (finite (-(86617936391719 / 140737488355328)), finite (86617936391719 / 140737488355328), finite (4434838343256013 / 9007199254740992)) =
        (finite (-(86617936391719 / 140737488355328)), finite (86617936391719 / 140737488355328), finite (4434838343256013 / 9007199254740992)) := by decide!
    unfold Ieee754.CubicOps.ipfTest
    rw [e]
    exact ipfTest_eq_false_of_eta_large _ _ _ _ (hleft _ _ (by norm_num) (by norm_num))
  have f13 : Ieee754.CubicOps.ipfTest acos tan atan2
      (finite (-(86617936391719 / 140737488355328)), finite (-(86617936391719 / 140737488355328)), finite (-(4434838343256013 / 9007199254740992))) = false := by
    have e : Ieee754.CubicOps.invertIntoUpperHemisphere
        (finite (-(86617936391719 / 140737488355328)), finite (-(86617936391719 / 140737488355328)), finite (-(4434838343256013 / 9007199254740992))) =
        (finite (86617936391719 / 140737488355328), finite (86617936391719 / 140737488355328), finite (4434838343256013 / 9007199254740992)) := by decide!
    unfold Ieee754.CubicOps.ipfTest
    rw [e]
    exact ipfTest_eq_false_of_chi_large _ _ _ _ (by rw [hatan1, hacos1, hcm1]; decide!)
  have f14 : Ieee754.CubicOps.ipfTest acos tan atan2
      (finite (86617936391719 / 140737488355328), finite (-(4434838343256013 / 9007199254740992)), finite (86617936391719 / 140737488355328)) = false := by
    have e : Ieee754.CubicOps.invertIntoUpperHemisphere
        (finite (86617936391719 / 140737488355328), finite (-(4434838343256013 / 9007199254740992)), finite (86617936391719 / 140737488355328)) =
        (finite (86617936391719 / 140737488355328), finite (-(4434838343256013 / 9007199254740992)), finite (86617936391719 / 140737488355328)) := by decide!
    unfold Ieee754.CubicOps.ipfTest
    rw [e]
    exact ipfTest_eq_false_of_eta_neg _ _ _ _ (hneg _ _ (by norm_num))
  have f15 : Ieee754.CubicOps.ipfTest acos tan atan2
      (finite (-(86617936391719 / 140737488355328)), finite (-(4434838343256013 / 9007199254740992)), finite (-(86617936391719 / 140737488355328))) = false := by
    have e : Ieee754.CubicOps.invertIntoUpperHemisphere
        (finite (-(86617936391719 / 140737488355328)), finite (-(4434838343256013 / 9007199254740992)), finite (-(86617936391719 / 140737488355328))) =
        (finite (86617936391719 / 140737488355328), finite (4434838343256013 / 9007199254740992), finite (86617936391719 / 140737488355328)) := by decide!
    unfold Ieee754.CubicOps.ipfTest
    rw [e]
    exact ipfTest_eq_false_of_chi_large _ _ _ _ (by rw [hatan0, hacos0, hcm0]; decide!)
  have f16 : Ieee754.CubicOps.ipfTest acos tan atan2
      (finite (4434838343256013 / 9007199254740992), finite (86617936391719 / 140737488355328), finite (86617936391719 / 140737488355328)) = false := by
    have e : Ieee754.CubicOps.invertIntoUpperHemisphere
        (finite (4434838343256013 / 9007199254740992), finite (86617936391719 / 140737488355328), finite (86617936391719 / 140737488355328)) =
        (finite (4434838343256013 / 9007199254740992), finite (86617936391719 / 140737488355328), finite (86617936391719 / 140737488355328)) := by decide!
    unfold Ieee754.CubicOps.ipfTest
    rw [e]
    exact ipfTest_eq_false_of_eta_large _ _ _ _ (by rw [hatan2]; decide!)
  have f17 : Ieee754.CubicOps.ipfTest acos tan atan2
      (finite (86617936391719 / 140737488355328), finite (86617936391719 / 140737488355328), finite (4434838343256013 / 9007199254740992)) = false := by
    have e : Ieee754.CubicOps.invertIntoUpperHemisphere
        (finite (86617936391719 / 140737488355328), finite (86617936391719 / 140737488355328), finite (4434838343256013 / 9007199254740992)) =
        (finite (86617936391719 / 140737488355328), finite (86617936391719 / 140737488355328), finite (4434838343256013 / 9007199254740992)) := by decide!
    unfold Ieee754.CubicOps.ipfTest
    rw [e]
    exact ipfTest_eq_false_of_chi_large _ _ _ _ (by rw [hatan1, hacos1, hcm1]; decide!)
  have f18 : Ieee754.CubicOps.ipfTest acos tan atan2
      (finite (86617936391719 / 140737488355328), finite (-(86617936391719 / 140737488355328)), finite (-(4434838343256013 / 9007199254740992))) = false := by
    have e : Ieee754.CubicOps.invertIntoUpperHemisphere
        (finite (86617936391719 / 140737488355328), finite (-(86617936391719 / 140737488355328)), finite (-(4434838343256013 / 9007199254740992))) =
        (finite (-(86617936391719 / 140737488355328)), finite (86617936391719 / 140737488355328), finite (4434838343256013 / 9007199254740992)) := by decide!
    unfold Ieee754.CubicOps.ipfTest
    rw [e]
    exact ipfTest_eq_false_of_eta_large _ _ _ _ (hleft _ _ (by norm_num) (by norm_num))
  have f19 : Ieee754.CubicOps.ipfTest acos tan atan2
      (finite (-(4434838343256013 / 9007199254740992)), finite (-(86617936391719 / 140737488355328)), finite (86617936391719 / 140737488355328)) = false := by
    have e : Ieee754.CubicOps.invertIntoUpperHemisphere
        (finite (-(4434838343256013 / 9007199254740992)), finite (-(86617936391719 / 140737488355328)), finite (86617936391719 / 140737488355328)) =
        (finite (-(4434838343256013 / 9007199254740992)), finite (-(86617936391719 / 140737488355328)), finite (86617936391719 / 140737488355328)) := by decide!
    unfold Ieee754.CubicOps.ipfTest
    rw [e]
    exact ipfTest_eq_false_of_eta_neg _ _ _ _ (hneg _ _ (by norm_num))
  have f20 : Ieee754.CubicOps.ipfTest acos tan atan2
      (finite (-(86617936391719 / 140737488355328)), finite (-(86617936391719 / 140737488355328)), finite (4434838343256013 / 9007199254740992)) = false := by
    have e : Ieee754.CubicOps.invertIntoUpperHemisphere
        (finite (-(86617936391719 / 140737488355328)), finite (-(86617936391719 / 140737488355328)), finite (4434838343256013 / 9007199254740992)) =
        (finite (-(86617936391719 / 140737488355328)), finite (-(86617936391719 / 140737488355328)), finite (4434838343256013 / 9007199254740992)) := by decide!
    unfold Ieee754.CubicOps.ipfTest
    rw [e]
    exact ipfTest_eq_false_of_eta_neg _ _ _ _ (hneg _ _ (by norm_num))
  have f21 : Ieee754.CubicOps.ipfTest acos tan atan2
      (finite (-(4434838343256013 / 9007199254740992)), finite (86617936391719 / 140737488355328), finite (-(86617936391719 / 140737488355328))) = false := by
    have e : Ieee754.CubicOps.invertIntoUpperHemisphere
        (finite (-(4434838343256013 / 9007199254740992)), finite (86617936391719 / 140737488355328), finite (-(86617936391719 / 140737488355328))) =
        (finite (4434838343256013 / 9007199254740992), finite (-(86617936391719 / 140737488355328)), finite (86617936391719 / 140737488355328)) := by decide!
    unfold Ieee754.CubicOps.ipfTest
    rw [e]
    exact ipfTest_eq_false_of_eta_neg _ _ _ _ (hneg _ _ (by norm_num))
  have f22 : Ieee754.CubicOps.ipfTest acos tan atan2
      (finite (4434838343256013 / 9007199254740992), finite (-(86617936391719 / 140737488355328)), finite (-(86617936391719 / 140737488355328))) = false := by
    have e : Ieee754.CubicOps.invertIntoUpperHemisphere
        (finite (4434838343256013 / 9007199254740992), finite (-(86617936391719 / 140737488355328)), finite (-(86617936391719 / 140737488355328))) =
        (finite (-(4434838343256013 / 9007199254740992)), finite (86617936391719 / 140737488355328), finite (86617936391719 / 140737488355328)) := by decide!
    unfold Ieee754.CubicOps.ipfTest
    rw [e]
    exact ipfTest_eq_false_of_eta_large _ _ _ _ (hleft _ _ (by norm_num) (by norm_num))
  have f23 : Ieee754.CubicOps.ipfTest acos tan atan2
      (finite (-(86617936391719 / 140737488355328)), finite (86617936391719 / 140737488355328), finite (-(4434838343256013 / 9007199254740992))) = false := by
    have e : Ieee754.CubicOps.invertIntoUpperHemisphere
        (finite (-(86617936391719 / 140737488355328)), finite (86617936391719 / 140737488355328), finite (-(4434838343256013 / 9007199254740992))) =
        (finite (86617936391719 / 140737488355328), finite (-(86617936391719 / 140737488355328)), finite (4434838343256013 / 9007199254740992)) := by decide!
    unfold Ieee754.CubicOps.ipfTest
    rw [e]
    exact ipfTest_eq_false_of_eta_neg _ _ _ _ (hneg _ _ (by norm_num))
  have hall : ∀ s ∈ Ieee754.CubicHigh.QuatSym, Ieee754.CubicOps.ipfTest acos tan atan2
      (Ieee754.CubicOps.ipfDirection ⟨finite 0, finite 0, finite 0, finite 1⟩
        (finite 5, finite 4, finite 5) s) = false := by
    intro s hs
    have hm := List.mem_map_of_mem (Ieee754.CubicOps.ipfDirection
      ⟨finite 0, finite 0, finite 0, finite 1⟩ (finite 5, finite 4, finite 5)) hs
    rw [hmap] at hm
    simp only [List.mem_cons, List.mem_singleton, List.not_mem_nil, or_false] at hm
    rcases hm with h | h | h | h | h | h | h | h | h | h | h | h | h | h | h | h | h | h | h | h |
      h | h | h | h <;> rw [h] <;> assumption
  have hlast : Ieee754.CubicHigh.QuatSym.getLast? =
      some ⟨finite (1 / 2), finite (1 / 2), finite (-(1 / 2)), finite (1 / 2)⟩ := by decide!
  have hdir : Ieee754.CubicOps.invertIntoUpperHemisphere (Ieee754.CubicOps.ipfDirection
      ⟨finite 0, finite 0, finite 0, finite 1⟩ (finite 5, finite 4, finite 5)
      ⟨finite (1 / 2), finite (1 / 2), finite (-(1 / 2)), finite (1 / 2)⟩) =
      (finite (86617936391719 / 140737488355328), finite (-(86617936391719 / 140737488355328)), finite (4434838343256013 / 9007199254740992)) := by decide!
  refine ⟨by decide!, by decide!, hmap, hall, ?_, hneg _ _ (by norm_num)⟩
  rw [ipfSearch_falls_through _ _ _ _ _ _ hall, hlast]
  dsimp only
  rw [hdir, hacos1]

theorem cubic_ipf_loop_falls_through_witness :
    (Ieee754.CubicOps.ipfSearch acosTable tanTable atan2Table ⟨finite 0, finite 0, finite 0, finite 1⟩
      (finite 5, finite 4, finite 5) Ieee754.CubicHigh.QuatSym (finite 0, finite 0)).2 = false ∧
      atan2Table (finite (-(86617936391719 / 140737488355328))) (finite (86617936391719 / 140737488355328)) < finite 0 :=
  have h := cubic_ipf_loop_falls_through acosTable tanTable atan2Table
    (by
      intro x y hy
      have h1 : (finite y < finite 0) := by
        show Double.lt (finite y) (finite 0) = true
        simp only [Double.lt, decide_eq_true_eq]
        exact hy
      unfold atan2Table
      rw [if_pos h1]
      decide!)
    (by
      intro x y hx hy
      have h1 : ¬ (finite y < finite 0) := by
        show ¬ (Double.lt (finite y) (finite 0) = true)
        simp only [Double.lt, decide_eq_true_eq, not_lt]
        exact le_of_lt hy
      have h2 : (finite x < finite 0) := by
        show Double.lt (finite x) (finite 0) = true
        simp only [Double.lt, decide_eq_true_eq]
        exact hx
      unfold atan2Table
      rw [if_neg h1, if_pos h2]
      decide!)
    (by decide!) (by decide!) (by decide!) (by decide!) (by decide!) (by decide!) (by decide!)
    (by decide!) (by decide!)
  ⟨by rw [h.2.2.2.2.1], h.2.2.2.2.2⟩

end IpfDouble

end EbsdLib
